import Mathlib

/-!
# Sky: bytecode compiler and stack VM

A shallow embedding of the execution core of the Sky scripting language:
the value model (`value.h`, `value.c`), the chunk and instruction set
(`bytecode.h`), the single-pass compiler (`compiler.c`) and the dispatch
loop of the virtual machine (`vm.c`, with the value printer of `debug.c`).

Conventions of the embedding.
* A C `int64_t` is an `Int`; arithmetic that can leave the 64-bit range is
  wrapped with `wrap64` (two's complement).
* A C `double` is a Lean `Float` (the same IEEE-754 binary64 operations).
* A `char *` is an `Option String`, `none` being the NULL pointer.
* `stdout` and `stderr` are accumulated in the machine state.
* Reads that C leaves undefined (outside the operand stack, the code
  buffer or the constant pool) are a separate outcome, `undefined`.
-/

namespace Sky

/-! ## value.h / value.c -/

/-- The host functions that `sky_vm_init` registers as natives. -/
inductive SkyNative where
  | print
  | str
  | len
  deriving DecidableEq, Repr

/-- The tagged union `SkyValue`.  A string is `none` for NULL, else the
bytes of the C string up to its terminator, one character for each byte.
An array carries its `count` items; the object tags (`VAL_MAP`,
`VAL_FUNCTION`, `VAL_CLASS`, `VAL_INSTANCE`) carry no payload the machine
inspects. -/
inductive SkyValue where
  | nil
  | bool (boolean : Bool)
  | int (integer : Int)
  | float (floating : Float)
  | string (s : Option String)
  | array (items : List SkyValue)
  | map
  | function
  | native_fn (fn : Option SkyNative)
  | class_
  | instance_

instance : Inhabited SkyValue := ⟨SkyValue.nil⟩

/-- Two's-complement reduction of an integer to the `int64_t` range. -/
def wrap64 (x : Int) : Int := (x + 2 ^ 63) % 2 ^ 64 - 2 ^ 63

/-- The least `int64_t`. -/
def INT64_MIN : Int := -(2 ^ 63)

/-- The quotient `num / den` rounded to the nearest integer, a half to the
even one (the rounding of `printf` and `strtod` in the default rounding
mode). -/
def round_half_even (num den : Nat) : Nat :=
  let q := num / den
  let r := num % den
  if 2 * r < den then q
  else if den < 2 * r then q + 1
  else if q % 2 = 0 then q else q + 1

/-- The `x` with `base ^ x ≤ num / den < base ^ (x + 1)`, for positive `num`
and `den`; `guess` is such an `x` or its successor. -/
def exponent_from (base num den : Nat) (guess : Int) : Int :=
  if (if 0 ≤ guess then den * base ^ guess.toNat ≤ num else den ≤ num * base ^ (-guess).toNat)
  then guess else guess - 1

/-- The decimal exponent of the positive rational `num / den`. -/
def decimal_exponent (num den : Nat) : Int :=
  exponent_from 10 num den ((Nat.repr num).length - (Nat.repr den).length : Int)

/-- The binary exponent of the positive rational `num / den`. -/
def binary_exponent (num den : Nat) : Int :=
  exponent_from 2 num den (Nat.log2 num - Nat.log2 den : Int)

/-- The digits of a fraction without its trailing zeros. -/
def strip_zeros (digits : List Char) : List Char :=
  (digits.reverse.dropWhile (fun c => c == '0')).reverse

/-- The decimal digits of `n`, padded with zeros on the left to `width`. -/
def digits_padded (n width : Nat) : List Char :=
  List.replicate (width - (Nat.repr n).length) '0' ++ (Nat.repr n).data

/-- A fraction after the integer part `int_part`: the point is written
only before a digit. -/
def with_fraction (int_part frac : List Char) : List Char :=
  if frac = [] then int_part else int_part ++ '.' :: frac

/-- `%g` of the positive rational `num / den`: six significant digits;
with the decimal exponent `x` of the rounded value, fixed notation when
`-4 ≤ x < 6` and exponent notation otherwise, trailing zeros removed. -/
def fmt_g_positive (num den : Nat) : String :=
  let x0 := decimal_exponent num den
  let n0 :=
    if x0 ≤ 5 then round_half_even (num * 10 ^ (5 - x0).toNat) den
    else round_half_even num (den * 10 ^ (x0 - 5).toNat)
  let x := if n0 = 1000000 then x0 + 1 else x0
  let n := if n0 = 1000000 then 100000 else n0
  let digits := digits_padded n 6
  if -4 ≤ x ∧ x < 6 then
    if 0 ≤ x then
      ⟨with_fraction (digits.take (x.toNat + 1)) (strip_zeros (digits.drop (x.toNat + 1)))⟩
    else
      ⟨with_fraction ['0']
        (strip_zeros (List.replicate ((-x).toNat - 1) '0' ++ digits))⟩
  else
    ⟨with_fraction (digits.take 1) (strip_zeros (digits.drop 1)) ++
      'e' :: (if x < 0 then '-' else '+') :: digits_padded x.natAbs 2⟩

/-- C library `%g` conversion of a double (`printf("%g", f)`), computed on
the exact value of `f`.  A NaN is written `nan` or `-nan` by its sign bit,
which `Float` does not expose: `-nan` stands for both (it is what x86-64
writes for the result of an invalid operation). -/
def fmt_g (f : Float) : String :=
  if f.isNaN then "-nan"
  else if f.isInf then (if f < 0 then "-inf" else "inf")
  else
    match f.toRatParts with
    | none => "-nan"
    | some (m, e) =>
        if m = 0 then (if 1 / f < 0 then "-0" else "0")
        else
          (if m < 0 then "-" else "") ++
            (if 0 ≤ e then fmt_g_positive (m.natAbs * 2 ^ e.toNat) 1
             else fmt_g_positive m.natAbs (2 ^ (-e).toNat))

/-- C library `%lld` conversion. -/
def fmt_lld (i : Int) : String := toString i

/-- `sky_values_equal` (value.c). -/
def sky_values_equal : SkyValue → SkyValue → Bool
  | .nil, .nil => true
  | .bool a, .bool b => a == b
  | .int a, .int b => a == b
  | .float a, .float b => a == b
  | .string none, .string none => true
  | .string (some a), .string (some b) => a == b
  | _, _ => false

/-- `sky_print_value` (value.c): the text written to stdout. -/
def sky_print_value : SkyValue → String
  | .nil => "nil"
  | .bool b => if b then "true" else "false"
  | .int i => fmt_lld i
  | .float f => fmt_g f
  | .string s => s.getD ""
  | .array _ => "[array]"
  | .map => "\x7bmap\x7d"
  | .function => "<fn>"
  | .native_fn _ => "<native>"
  | .class_ => "<class>"
  | .instance_ => "<instance>"

/-! ## debug.c -/

/-- `sky_debug_print_value` (debug.c): the text written to stdout. -/
def sky_debug_print_value : SkyValue → String
  | .int i => fmt_lld i
  | .float f => fmt_g f
  | .bool b => if b then "true" else "false"
  | .nil => "nil"
  | .string s => "\"" ++ s.getD "" ++ "\""
  | .array _ => "[array]"
  | .map => "\x7bmap\x7d"
  | .function => "<fn>"
  | .native_fn _ => "<native>"
  | .class_ => "<class>"
  | .instance_ => "<instance>"

/-! ## table.h: the globals table

The table is used by the machine through `sky_table_set` and
`sky_table_get` only; it is represented by the association list of its
occupied entries, keys compared as `strcmp` does. -/

/-- The occupied entries of a `SkyTable`. -/
abbrev SkyTable := List (String × SkyValue)

/-- `sky_table_get`: the value stored under `key`, if any. -/
def sky_table_get : SkyTable → String → Option SkyValue
  | [], _ => none
  | (k, v) :: rest, key => if k = key then some v else sky_table_get rest key

/-- `sky_table_set`: overwrite the entry of `key` or add one. -/
def sky_table_set : SkyTable → String → SkyValue → SkyTable
  | [], key, value => [(key, value)]
  | (k, v) :: rest, key, value =>
      if k = key then (k, value) :: rest else (k, v) :: sky_table_set rest key value

/-! ## bytecode.h -/

/-- The instruction set, in the order of the C enum (`OP_NOP = 0`). -/
inductive SkyOpCode where
  | OP_NOP | OP_CONSTANT | OP_CONSTANT_LONG | OP_TRUE | OP_FALSE | OP_NIL
  | OP_POP | OP_DUP | OP_GET_LOCAL | OP_SET_LOCAL | OP_GET_GLOBAL | OP_SET_GLOBAL
  | OP_GET_FIELD | OP_SET_FIELD | OP_GET_INDEX | OP_SET_INDEX
  | OP_ADD | OP_SUB | OP_MUL | OP_DIV | OP_MOD | OP_NEGATE | OP_NOT
  | OP_EQUAL | OP_NOT_EQUAL | OP_GREATER | OP_GREATER_EQ | OP_LESS | OP_LESS_EQ
  | OP_AND | OP_OR | OP_JUMP | OP_JUMP_IF_FALSE | OP_JUMP_BACK
  | OP_CALL | OP_RETURN | OP_PRINT | OP_ARRAY | OP_MAP | OP_CLASS | OP_METHOD
  | OP_INVOKE | OP_IMPORT | OP_SERVER | OP_ROUTE | OP_RESPOND | OP_SECURITY
  | OP_ASYNC | OP_AWAIT | OP_HALT
  deriving DecidableEq, Repr

open SkyOpCode

/-- The byte of an opcode: its position in the C enum. -/
def SkyOpCode.toByte : SkyOpCode → Nat
  | OP_NOP => 0 | OP_CONSTANT => 1 | OP_CONSTANT_LONG => 2 | OP_TRUE => 3
  | OP_FALSE => 4 | OP_NIL => 5 | OP_POP => 6 | OP_DUP => 7
  | OP_GET_LOCAL => 8 | OP_SET_LOCAL => 9 | OP_GET_GLOBAL => 10 | OP_SET_GLOBAL => 11
  | OP_GET_FIELD => 12 | OP_SET_FIELD => 13 | OP_GET_INDEX => 14 | OP_SET_INDEX => 15
  | OP_ADD => 16 | OP_SUB => 17 | OP_MUL => 18 | OP_DIV => 19 | OP_MOD => 20
  | OP_NEGATE => 21 | OP_NOT => 22 | OP_EQUAL => 23 | OP_NOT_EQUAL => 24
  | OP_GREATER => 25 | OP_GREATER_EQ => 26 | OP_LESS => 27 | OP_LESS_EQ => 28
  | OP_AND => 29 | OP_OR => 30 | OP_JUMP => 31 | OP_JUMP_IF_FALSE => 32
  | OP_JUMP_BACK => 33 | OP_CALL => 34 | OP_RETURN => 35 | OP_PRINT => 36
  | OP_ARRAY => 37 | OP_MAP => 38 | OP_CLASS => 39 | OP_METHOD => 40
  | OP_INVOKE => 41 | OP_IMPORT => 42 | OP_SERVER => 43 | OP_ROUTE => 44
  | OP_RESPOND => 45 | OP_SECURITY => 46 | OP_ASYNC => 47 | OP_AWAIT => 48
  | OP_HALT => 49

/-- The opcode a byte denotes in the `switch` of the dispatch loop; `none`
is the `default:` case. -/
def SkyOpCode.ofByte : Nat → Option SkyOpCode
  | 0 => some OP_NOP | 1 => some OP_CONSTANT | 2 => some OP_CONSTANT_LONG
  | 3 => some OP_TRUE | 4 => some OP_FALSE | 5 => some OP_NIL | 6 => some OP_POP
  | 7 => some OP_DUP | 8 => some OP_GET_LOCAL | 9 => some OP_SET_LOCAL
  | 10 => some OP_GET_GLOBAL | 11 => some OP_SET_GLOBAL | 12 => some OP_GET_FIELD
  | 13 => some OP_SET_FIELD | 14 => some OP_GET_INDEX | 15 => some OP_SET_INDEX
  | 16 => some OP_ADD | 17 => some OP_SUB | 18 => some OP_MUL | 19 => some OP_DIV
  | 20 => some OP_MOD | 21 => some OP_NEGATE | 22 => some OP_NOT | 23 => some OP_EQUAL
  | 24 => some OP_NOT_EQUAL | 25 => some OP_GREATER | 26 => some OP_GREATER_EQ
  | 27 => some OP_LESS | 28 => some OP_LESS_EQ | 29 => some OP_AND | 30 => some OP_OR
  | 31 => some OP_JUMP | 32 => some OP_JUMP_IF_FALSE | 33 => some OP_JUMP_BACK
  | 34 => some OP_CALL | 35 => some OP_RETURN | 36 => some OP_PRINT | 37 => some OP_ARRAY
  | 38 => some OP_MAP | 39 => some OP_CLASS | 40 => some OP_METHOD | 41 => some OP_INVOKE
  | 42 => some OP_IMPORT | 43 => some OP_SERVER | 44 => some OP_ROUTE
  | 45 => some OP_RESPOND | 46 => some OP_SECURITY | 47 => some OP_ASYNC
  | 48 => some OP_AWAIT | 49 => some OP_HALT
  | _ => none

/-- `SkyChunk`: the code bytes (`code[0 .. code_count)`), the line of each
byte, and the constant pool. -/
structure SkyChunk where
  code : List Nat
  lines : List Int
  constants : List SkyValue

/-- `sky_chunk_init`. -/
def sky_chunk_init : SkyChunk := ⟨[], [], []⟩

/-- `sky_chunk_write`: append one byte (a `uint8_t`) and its line. -/
def sky_chunk_write (chunk : SkyChunk) (byte : Nat) (line : Int) : SkyChunk :=
  { chunk with code := chunk.code ++ [byte % 256], lines := chunk.lines ++ [line] }

/-- `sky_chunk_add_constant`: append to the pool, return the new index. -/
def sky_chunk_add_constant (chunk : SkyChunk) (value : SkyValue) : Nat × SkyChunk :=
  (chunk.constants.length, { chunk with constants := chunk.constants ++ [value] })

/-! ## vm.h / vm.c -/

/-- `SKY_STACK_MAX`. -/
def SKY_STACK_MAX : Nat := 1024

/-- `SKY_MAX_LOCALS`. -/
def SKY_MAX_LOCALS : Nat := 256

/-- `SkyVMResult`. -/
inductive SkyVMResult where
  | VM_OK
  | VM_COMPILE_ERROR
  | VM_RUNTIME_ERROR
  deriving DecidableEq, Repr

open SkyVMResult

/-- The state of a `SkyVM` while `sky_vm_execute` runs its single frame:
`stack i` is the cell `vm->stack[i]` (every cell, also those at and above
`stack_top`), `stack_top` is `vm->stack_top - vm->stack`, `ip` is
`frame->ip - chunk->code`; `frame->slots` is `vm->stack`.  `out` lists the
writes to stdout, `err` the messages of `runtime_error`. -/
structure SkyVM where
  stack : Nat → SkyValue
  stack_top : Nat
  ip : Nat
  globals : SkyTable
  out : List String
  err : List String

/-- `runtime_error`: report on stderr, nothing else. -/
def runtime_error (vm : SkyVM) (msg : String) : SkyVM :=
  { vm with err := vm.err ++ [msg] }

/-- `sky_vm_define_native`. -/
def sky_vm_define_native (vm : SkyVM) (name : String) (fn : SkyNative) : SkyVM :=
  { vm with globals := sky_table_set vm.globals name (.native_fn (some fn)) }

/-- `sky_vm_init`: zeroed memory (every stack cell has tag `VAL_NIL`), an
empty stack and the three natives. -/
def sky_vm_init : SkyVM :=
  let vm : SkyVM := ⟨fun _ => .nil, 0, 0, [], [], []⟩
  sky_vm_define_native
    (sky_vm_define_native (sky_vm_define_native vm "print" .print) "str" .str) "len" .len

/-- `sky_vm_push`: on a full stack it reports and returns without pushing. -/
def sky_vm_push (vm : SkyVM) (value : SkyValue) : SkyVM :=
  if vm.stack_top ≥ SKY_STACK_MAX then runtime_error vm "Stack overflow"
  else { vm with
    stack := fun i => if i = vm.stack_top then value else vm.stack i
    stack_top := vm.stack_top + 1 }

/-- `sky_vm_pop`: on an empty stack it reports and returns nil. -/
def sky_vm_pop (vm : SkyVM) : SkyValue × SkyVM :=
  if vm.stack_top = 0 then (.nil, runtime_error vm "Stack underflow")
  else (vm.stack (vm.stack_top - 1), { vm with stack_top := vm.stack_top - 1 })

/-- `sky_vm_peek`: `stack_top[-1 - distance]`; `none` when that address
lies before the stack array. -/
def sky_vm_peek (vm : SkyVM) (distance : Nat) : Option SkyValue :=
  if distance < vm.stack_top then some (vm.stack (vm.stack_top - 1 - distance)) else none

/-- `read_byte`; `none` past the written code. -/
def read_byte (chunk : SkyChunk) (vm : SkyVM) : Option (Nat × SkyVM) :=
  match chunk.code[vm.ip]? with
  | some b => some (b, { vm with ip := vm.ip + 1 })
  | none => none

/-- `read_short`: big-endian `uint16_t`. -/
def read_short (chunk : SkyChunk) (vm : SkyVM) : Option (Nat × SkyVM) :=
  match chunk.code[vm.ip]?, chunk.code[vm.ip + 1]? with
  | some hi, some lo => some (((hi <<< 8) ||| lo) % 65536, { vm with ip := vm.ip + 2 })
  | _, _ => none

/-- `read_constant`; `none` past the pool. -/
def read_constant (chunk : SkyChunk) (vm : SkyVM) : Option (SkyValue × SkyVM) :=
  match read_byte chunk vm with
  | some (idx, vm1) =>
      match chunk.constants[idx]? with
      | some v => some (v, vm1)
      | none => none
  | none => none

/-- `concat_strings`: a NULL operand counts as the empty string. -/
def concat_strings (a b : Option String) : Option String :=
  some (a.getD "" ++ b.getD "")

/-- The text `native_print` writes for one argument. -/
def native_print_arg : SkyValue → String
  | .nil => "nil"
  | .bool b => if b then "true" else "false"
  | .int i => fmt_lld i
  | .float f => fmt_g f
  | .string s => s.getD ""
  | _ => "<object>"

/-- The writes of `native_print` for `args[i ..]`, `first` telling whether
`i = 0`. -/
def native_print_args : List SkyValue → Bool → List String
  | [], _ => []
  | a :: rest, first =>
      (if first then [] else [" "]) ++ [native_print_arg a] ++ native_print_args rest false

/-- `native_str`. -/
def native_str : List SkyValue → SkyValue
  | [] => .string (some "")
  | .int i :: _ => .string (some (fmt_lld i))
  | .float f :: _ => .string (some (fmt_g f))
  | .bool b :: _ => .string (some (if b then "true" else "false"))
  | .nil :: _ => .string (some "nil")
  | .string s :: _ => .string s
  | _ :: _ => .string (some "<object>")

/-- `native_len`.  A string holds one character for each byte of the C
string, so `strlen` is the number of its characters. -/
def native_len : List SkyValue → SkyValue
  | [] => .int 0
  | .string (some s) :: _ => .int s.length
  | .array items :: _ => .int items.length
  | _ :: _ => .int 0

/-- A call of a native on `args`: the writes to stdout and the result. -/
def call_native : SkyNative → List SkyValue → List String × SkyValue
  | .print, args => (native_print_args args true ++ ["\n"], .nil)
  | .str, args => ([], native_str args)
  | .len, args => ([], native_len args)

/-- What one arithmetic or comparison instruction does with its popped
operands: push a value, fail with a message, or leave C's defined
behaviour (a 64-bit quotient that is not representable). -/
inductive OpResult where
  | value (v : SkyValue)
  | error (msg : String)
  | undefined

/-- Operands of `OP_ADD`. -/
def op_add : SkyValue → SkyValue → OpResult
  | .int a, .int b => .value (.int (wrap64 (a + b)))
  | .float a, .float b => .value (.float (a + b))
  | .int a, .float b => .value (.float (Float.ofInt a + b))
  | .float a, .int b => .value (.float (a + Float.ofInt b))
  | .string a, .string b => .value (.string (concat_strings a b))
  | _, _ => .error "Cannot add these types"

/-- Operands of `OP_SUB`. -/
def op_sub : SkyValue → SkyValue → OpResult
  | .int a, .int b => .value (.int (wrap64 (a - b)))
  | .float a, .float b => .value (.float (a - b))
  | .int a, .float b => .value (.float (Float.ofInt a - b))
  | .float a, .int b => .value (.float (a - Float.ofInt b))
  | _, _ => .error "Cannot subtract these types"

/-- Operands of `OP_MUL`. -/
def op_mul : SkyValue → SkyValue → OpResult
  | .int a, .int b => .value (.int (wrap64 (a * b)))
  | .float a, .float b => .value (.float (a * b))
  | .int a, .float b => .value (.float (Float.ofInt a * b))
  | .float a, .int b => .value (.float (a * Float.ofInt b))
  | _, _ => .error "Cannot multiply these types"

/-- The first two tests of `OP_DIV`: is the divisor an Int 0 or a Float
equal to 0.0. -/
def div_by_zero : SkyValue → Bool
  | .int b => b == 0
  | .float b => b == 0.0
  | _ => false

/-- Operands of `OP_DIV` (`a / b` truncates toward zero). -/
def op_div (a b : SkyValue) : OpResult :=
  if div_by_zero b then .error "Division by zero"
  else match a, b with
    | .int a, .int b =>
        if a = INT64_MIN ∧ b = -1 then .undefined else .value (.int (Int.tdiv a b))
    | .float a, .float b => .value (.float (a / b))
    | .int a, .float b => .value (.float (Float.ofInt a / b))
    | .float a, .int b => .value (.float (a / Float.ofInt b))
    | _, _ => .error "Cannot divide these types"

/-- Operands of `OP_MOD` (`a % b` has the sign of `a`). -/
def op_mod : SkyValue → SkyValue → OpResult
  | .int a, .int b =>
      if b = 0 then .error "Modulo by zero"
      else if a = INT64_MIN ∧ b = -1 then .undefined
      else .value (.int (Int.tmod a b))
  | _, _ => .error "Modulo requires integers"

/-- Operand of `OP_NEGATE`. -/
def op_negate : SkyValue → OpResult
  | .int a => .value (.int (wrap64 (-a)))
  | .float a => .value (.float (-a))
  | _ => .error "Cannot negate this type"

/-- Operand of `OP_NOT`. -/
def op_not : SkyValue → SkyValue
  | .bool a => .bool (!a)
  | .nil => .bool true
  | _ => .bool false

/-- Operands of `OP_GREATER`. -/
def op_greater : SkyValue → SkyValue → OpResult
  | .int a, .int b => .value (.bool (decide (a > b)))
  | .float a, .float b => .value (.bool (decide (a > b)))
  | .int a, .float b => .value (.bool (decide (Float.ofInt a > b)))
  | .float a, .int b => .value (.bool (decide (a > Float.ofInt b)))
  | _, _ => .error "Cannot compare these types"

/-- Operands of `OP_GREATER_EQ`. -/
def op_greater_eq : SkyValue → SkyValue → OpResult
  | .int a, .int b => .value (.bool (decide (a ≥ b)))
  | .float a, .float b => .value (.bool (decide (a ≥ b)))
  | _, _ => .error "Cannot compare these types"

/-- Operands of `OP_LESS`. -/
def op_less : SkyValue → SkyValue → OpResult
  | .int a, .int b => .value (.bool (decide (a < b)))
  | .float a, .float b => .value (.bool (decide (a < b)))
  | .int a, .float b => .value (.bool (decide (Float.ofInt a < b)))
  | .float a, .int b => .value (.bool (decide (a < Float.ofInt b)))
  | _, _ => .error "Cannot compare these types"

/-- Operands of `OP_LESS_EQ`. -/
def op_less_eq : SkyValue → SkyValue → OpResult
  | .int a, .int b => .value (.bool (decide (a ≤ b)))
  | .float a, .float b => .value (.bool (decide (a ≤ b)))
  | _, _ => .error "Cannot compare these types"

/-- The coercion of `OP_AND` and `OP_OR`:
`(v.type == VAL_BOOL) ? v.as.boolean : (v.type != VAL_NIL)`. -/
def and_or_bool : SkyValue → Bool
  | .bool b => b
  | .nil => false
  | _ => true

/-- `is_falsy` of `OP_JUMP_IF_FALSE`. -/
def is_falsy : SkyValue → Bool
  | .nil => true
  | .bool b => !b
  | .int i => i == 0
  | _ => false

/-- The outcome of one turn of the dispatch loop. -/
inductive Step where
  | continue_ (vm : SkyVM)
  | return_ (r : SkyVMResult) (vm : SkyVM)
  | undefined

/-- Pop `b` then `a`, apply `f a b`, push the value or return
`VM_RUNTIME_ERROR`. -/
def binary_op (f : SkyValue → SkyValue → OpResult) (vm : SkyVM) : Step :=
  let (b, vm1) := sky_vm_pop vm
  let (a, vm2) := sky_vm_pop vm1
  match f a b with
  | .value v => .continue_ (sky_vm_push vm2 v)
  | .error msg => .return_ VM_RUNTIME_ERROR (runtime_error vm2 msg)
  | .undefined => .undefined

/-- The loop of `OP_ARRAY`: `items[i] = sky_vm_pop(vm)` for `i` from
`count - 1` down to 0; the items are returned in index order. -/
def pop_items : Nat → SkyVM → List SkyValue × SkyVM
  | 0, vm => ([], vm)
  | n + 1, vm =>
      let (v, vm1) := sky_vm_pop vm
      let (rest, vm2) := pop_items n vm1
      (rest ++ [v], vm2)

/-- The cells `stack[lo .. lo + n)`. -/
def stack_slice (vm : SkyVM) (lo : Nat) : Nat → List SkyValue
  | 0 => []
  | n + 1 => vm.stack lo :: stack_slice vm (lo + 1) n

/-- The body of one `case` of the dispatch `switch`, the opcode byte
having been read.  `frame_count` is 1 throughout `sky_vm_execute` (no
instruction pushes a frame), so `OP_RETURN` returns `VM_OK`. -/
def exec (chunk : SkyChunk) (vm : SkyVM) : SkyOpCode → Step
  | OP_NOP => .continue_ vm
  | OP_CONSTANT =>
      match read_constant chunk vm with
      | some (val, vm1) => .continue_ (sky_vm_push vm1 val)
      | none => .undefined
  | OP_CONSTANT_LONG =>
      match read_byte chunk vm with
      | some (b1, vm1) =>
        match read_byte chunk vm1 with
        | some (b2, vm2) =>
          match read_byte chunk vm2 with
          | some (b3, vm3) =>
              let idx := (b1 <<< 16) ||| (b2 <<< 8) ||| b3
              if idx < chunk.constants.length then
                .continue_ (sky_vm_push vm3 (chunk.constants.getD idx .nil))
              else .continue_ (sky_vm_push vm3 .nil)
          | none => .undefined
        | none => .undefined
      | none => .undefined
  | OP_TRUE => .continue_ (sky_vm_push vm (.bool true))
  | OP_FALSE => .continue_ (sky_vm_push vm (.bool false))
  | OP_NIL => .continue_ (sky_vm_push vm .nil)
  | OP_POP => .continue_ (sky_vm_pop vm).2
  | OP_DUP =>
      match sky_vm_peek vm 0 with
      | some v => .continue_ (sky_vm_push vm v)
      | none => .undefined
  | OP_GET_LOCAL =>
      match read_byte chunk vm with
      | some (slot, vm1) => .continue_ (sky_vm_push vm1 (vm1.stack slot))
      | none => .undefined
  | OP_SET_LOCAL =>
      match read_byte chunk vm with
      | some (slot, vm1) =>
          match sky_vm_peek vm1 0 with
          | some v => .continue_ { vm1 with stack := fun i => if i = slot then v else vm1.stack i }
          | none => .undefined
      | none => .undefined
  | OP_GET_GLOBAL =>
      match read_constant chunk vm with
      | some (.string (some name), vm1) =>
          match sky_table_get vm1.globals name with
          | some value => .continue_ (sky_vm_push vm1 value)
          | none =>
              .return_ VM_RUNTIME_ERROR
                (runtime_error vm1 ("Undefined variable '" ++ name ++ "'"))
      | some (_, vm1) =>
          .return_ VM_RUNTIME_ERROR (runtime_error vm1 "Global name must be a string")
      | none => .undefined
  | OP_SET_GLOBAL =>
      match read_constant chunk vm with
      | some (.string (some name), vm1) =>
          match sky_vm_peek vm1 0 with
          | some v => .continue_ { vm1 with globals := sky_table_set vm1.globals name v }
          | none => .undefined
      | some (_, vm1) =>
          .return_ VM_RUNTIME_ERROR (runtime_error vm1 "Global name must be a string")
      | none => .undefined
  | OP_ADD => binary_op op_add vm
  | OP_SUB => binary_op op_sub vm
  | OP_MUL => binary_op op_mul vm
  | OP_DIV => binary_op op_div vm
  | OP_MOD => binary_op op_mod vm
  | OP_NEGATE =>
      let (a, vm1) := sky_vm_pop vm
      match op_negate a with
      | .value v => .continue_ (sky_vm_push vm1 v)
      | .error msg => .return_ VM_RUNTIME_ERROR (runtime_error vm1 msg)
      | .undefined => .undefined
  | OP_NOT =>
      let (a, vm1) := sky_vm_pop vm
      .continue_ (sky_vm_push vm1 (op_not a))
  | OP_EQUAL => binary_op (fun a b => .value (.bool (sky_values_equal a b))) vm
  | OP_NOT_EQUAL => binary_op (fun a b => .value (.bool (!sky_values_equal a b))) vm
  | OP_GREATER => binary_op op_greater vm
  | OP_GREATER_EQ => binary_op op_greater_eq vm
  | OP_LESS => binary_op op_less vm
  | OP_LESS_EQ => binary_op op_less_eq vm
  | OP_AND => binary_op (fun a b => .value (.bool (and_or_bool a && and_or_bool b))) vm
  | OP_OR => binary_op (fun a b => .value (.bool (and_or_bool a || and_or_bool b))) vm
  | OP_JUMP =>
      match read_short chunk vm with
      | some (offset, vm1) => .continue_ { vm1 with ip := vm1.ip + offset }
      | none => .undefined
  | OP_JUMP_IF_FALSE =>
      match read_short chunk vm with
      | some (offset, vm1) =>
          match sky_vm_peek vm1 0 with
          | some cond =>
              if is_falsy cond then .continue_ { vm1 with ip := vm1.ip + offset }
              else .continue_ vm1
          | none => .undefined
      | none => .undefined
  | OP_JUMP_BACK =>
      match read_short chunk vm with
      | some (offset, vm1) =>
          if offset ≤ vm1.ip then .continue_ { vm1 with ip := vm1.ip - offset }
          else .undefined
      | none => .undefined
  | OP_CALL =>
      match read_byte chunk vm with
      | some (arg_count, vm1) =>
          match sky_vm_peek vm1 arg_count with
          | some (.native_fn (some native)) =>
              let (written, result) :=
                call_native native (stack_slice vm1 (vm1.stack_top - arg_count) arg_count)
              .continue_ (sky_vm_push
                { vm1 with stack_top := vm1.stack_top - (arg_count + 1)
                           out := vm1.out ++ written } result)
          | some .nil =>
              .continue_ (sky_vm_push
                { vm1 with stack_top := vm1.stack_top - (arg_count + 1) } .nil)
          | some _ => .return_ VM_RUNTIME_ERROR (runtime_error vm1 "Can only call functions")
          | none => .undefined
      | none => .undefined
  | OP_RETURN => .return_ VM_OK vm
  | OP_PRINT =>
      let (val, vm1) := sky_vm_pop vm
      .continue_ { vm1 with out := vm1.out ++ [sky_debug_print_value val, "\n"] }
  | OP_ARRAY =>
      match read_byte chunk vm with
      | some (count, vm1) =>
          let (items, vm2) := pop_items count vm1
          .continue_ (sky_vm_push vm2 (.array items))
      | none => .undefined
  | OP_MAP | OP_CLASS | OP_METHOD | OP_INVOKE | OP_IMPORT | OP_SERVER | OP_ROUTE
  | OP_RESPOND | OP_SECURITY | OP_ASYNC | OP_AWAIT => .continue_ vm
  | OP_GET_FIELD | OP_SET_FIELD | OP_GET_INDEX | OP_SET_INDEX => .continue_ vm
  | OP_HALT => .return_ VM_OK vm

/-- One turn of the `while (1)` loop of `sky_vm_execute`: fetch the opcode
byte and dispatch (`sky_debug_trace_execution` is false). -/
def step (chunk : SkyChunk) (vm : SkyVM) : Step :=
  match read_byte chunk vm with
  | some (instruction, vm1) =>
      match SkyOpCode.ofByte instruction with
      | some op => exec chunk vm1 op
      | none =>
          .return_ VM_RUNTIME_ERROR
            (runtime_error vm1 ("Unknown opcode: " ++ toString instruction))
  | none => .undefined

/-- How a bounded run of the dispatch loop ends. -/
inductive RunResult where
  | returned (r : SkyVMResult) (vm : SkyVM)
  | undefined
  | running (vm : SkyVM)

/-- At most `fuel` turns of the dispatch loop from `vm`. -/
def run (chunk : SkyChunk) : Nat → SkyVM → RunResult
  | 0, vm => .running vm
  | fuel + 1, vm =>
      match step chunk vm with
      | .continue_ vm1 => run chunk fuel vm1
      | .return_ r vm1 => .returned r vm1
      | .undefined => .undefined

/-- `sky_vm_execute`, bounded by `fuel` instructions: the frame starts at
`chunk->code`. -/
def sky_vm_execute (fuel : Nat) (vm : SkyVM) (chunk : SkyChunk) : RunResult :=
  run chunk fuel { vm with ip := 0 }

/-! ## token.h / ast.h -/

/-- `SkyTokenType`, in the order of the C enum. -/
inductive SkyTokenType where
  | TOKEN_INT_LITERAL | TOKEN_FLOAT_LITERAL | TOKEN_STRING_LITERAL | TOKEN_IDENTIFIER
  | TOKEN_PLUS | TOKEN_MINUS | TOKEN_STAR | TOKEN_SLASH | TOKEN_PERCENT | TOKEN_ASSIGN
  | TOKEN_EQUAL_EQUAL | TOKEN_NOT_EQUAL | TOKEN_LESS | TOKEN_LESS_EQUAL | TOKEN_GREATER
  | TOKEN_GREATER_EQUAL | TOKEN_AND | TOKEN_OR | TOKEN_NOT | TOKEN_DOT | TOKEN_DOT_DOT
  | TOKEN_COMMA | TOKEN_COLON | TOKEN_SEMICOLON | TOKEN_ARROW | TOKEN_BANG
  | TOKEN_LPAREN | TOKEN_RPAREN | TOKEN_LBRACE | TOKEN_RBRACE | TOKEN_LBRACKET
  | TOKEN_RBRACKET
  | TOKEN_LET | TOKEN_FN | TOKEN_RETURN | TOKEN_IF | TOKEN_ELSE | TOKEN_FOR | TOKEN_WHILE
  | TOKEN_IN | TOKEN_CLASS | TOKEN_SELF | TOKEN_TRUE | TOKEN_FALSE | TOKEN_NIL
  | TOKEN_PRINT | TOKEN_IMPORT | TOKEN_SERVER | TOKEN_ROUTE | TOKEN_RESPOND | TOKEN_ON
  | TOKEN_SECURITY | TOKEN_ASYNC | TOKEN_AWAIT | TOKEN_BREAK | TOKEN_CONTINUE
  | TOKEN_ERROR | TOKEN_EOF
  deriving DecidableEq, Repr

open SkyTokenType

/-- `SkyASTNode`: one constructor per `SkyASTType`, each with the node's
line and the fields of its union member.  A child the compiler tests for
NULL is an `Option`; a child array with its count is a list. -/
inductive SkyASTNode where
  | program (line : Int) (statements : List SkyASTNode)
  | int_literal (line : Int) (value : Int)
  | float_literal (line : Int) (value : Float)
  | string_literal (line : Int) (value : String)
  | bool_literal (line : Int) (value : Bool)
  | nil_literal (line : Int)
  | identifier (line : Int) (name : String)
  | binary (line : Int) (op : SkyTokenType) (left right : SkyASTNode)
  | unary (line : Int) (op : SkyTokenType) (operand : SkyASTNode)
  | call (line : Int) (callee : SkyASTNode) (args : List SkyASTNode)
  | dot (line : Int) (object : SkyASTNode) (field : String)
  | index_access (line : Int) (object index : SkyASTNode)
  | array_literal (line : Int) (elements : List SkyASTNode)
  | map_literal (line : Int) (keys values : List SkyASTNode)
  | assign (line : Int) (target value : SkyASTNode)
  | let_ (line : Int) (name : String) (type_name : Option String)
      (initializer : Option SkyASTNode)
  | if_stmt (line : Int) (condition then_branch : SkyASTNode)
      (else_branch : Option SkyASTNode)
  | while_stmt (line : Int) (condition body : SkyASTNode)
  | for_range (line : Int) (var_name : String) (start : Option SkyASTNode)
      (end_ body : SkyASTNode)
  | for_each (line : Int) (var_name : String) (iterable body : SkyASTNode)
  | block (line : Int) (statements : List SkyASTNode)
  | function (line : Int) (name : String) (param_names : List String)
      (param_types : List (Option String)) (return_type : Option String)
      (body : SkyASTNode) (is_async : Bool)
  | return_stmt (line : Int) (value : Option SkyASTNode)
  | print_stmt (line : Int) (value : SkyASTNode)
  | class_def (line : Int) (name : String) (members : List SkyASTNode)
  | server (line : Int) (name : String) (port : Int) (routes : List SkyASTNode)
  | route (line : Int) (method path : String) (body : SkyASTNode)
      (middleware : List String)
  | respond (line : Int) (status body : SkyASTNode)
  | security (line : Int) (rules : List SkyASTNode)
  | security_rule (line : Int) (event : String) (actions : List SkyASTNode)
  | import_stmt (line : Int) (module_name : String)
  | break_ (line : Int)
  | continue_ (line : Int)
  | expr_stmt (line : Int) (expr : SkyASTNode)

/-! ## compiler.h / compiler.c -/

/-- `Local`: the name as `strncpy` left it in `char name[128]`. -/
structure Local where
  name : String
  depth : Int

/-- `SkyCompiler`; `local_count` is the length of `locals`. -/
structure SkyCompiler where
  chunk : SkyChunk
  locals : List Local
  scope_depth : Int
  had_error : Bool

/-- `c->local_count`. -/
def SkyCompiler.local_count (c : SkyCompiler) : Nat := c.locals.length

/-- `c->chunk->code_count`. -/
def SkyCompiler.code_count (c : SkyCompiler) : Nat := c.chunk.code.length

/-- The cast `(uint8_t)x` of an `int`. -/
def u8 (x : Int) : Nat := (x % 256).toNat

/-- `emit_byte`. -/
def emit_byte (c : SkyCompiler) (byte : Nat) (line : Int) : SkyCompiler :=
  { c with chunk := sky_chunk_write c.chunk byte line }

/-- `emit_bytes`. -/
def emit_bytes (c : SkyCompiler) (b1 b2 : Nat) (line : Int) : SkyCompiler :=
  emit_byte (emit_byte c b1 line) b2 line

/-- `emit_jump`: opcode and two `0xff` placeholders; returns the offset of
the first placeholder. -/
def emit_jump (c : SkyCompiler) (op : SkyOpCode) (line : Int) : Nat × SkyCompiler :=
  let c3 := emit_byte (emit_byte (emit_byte c op.toByte line) 0xff line) 0xff line
  (c3.code_count - 2, c3)

/-- `patch_jump`; `jump = code_count - offset - 2` (never negative: `offset`
comes from `emit_jump` and the code only grows). -/
def patch_jump (c : SkyCompiler) (offset : Nat) : SkyCompiler :=
  let jump := c.code_count - offset - 2
  if jump > 0xffff then { c with had_error := true }
  else { c with chunk := { c.chunk with
    code := (c.chunk.code.set offset ((jump >>> 8) &&& 0xff)).set (offset + 1) (jump &&& 0xff) } }

/-- `make_constant`: the value is appended in every case. -/
def make_constant (c : SkyCompiler) (val : SkyValue) : Nat × SkyCompiler :=
  let (idx, chunk) := sky_chunk_add_constant c.chunk val
  if idx > 255 then (0, { c with chunk := chunk, had_error := true })
  else (idx, { c with chunk := chunk })

/-- `emit_constant`. -/
def emit_constant (c : SkyCompiler) (val : SkyValue) (line : Int) : SkyCompiler :=
  let (idx, c1) := make_constant c val
  emit_bytes c1 OP_CONSTANT.toByte idx line

/-- The copy `strncpy(local->name, name, 127)` with the terminator at
index 127. -/
def strncpy127 (name : String) : String := ⟨name.data.take 127⟩

/-- `add_local`: the new slot, or -1 when the array is full. -/
def add_local (c : SkyCompiler) (name : String) : Int × SkyCompiler :=
  if c.local_count ≥ SKY_MAX_LOCALS then (-1, { c with had_error := true })
  else (c.local_count,
        { c with locals := c.locals ++ [⟨strncpy127 name, c.scope_depth⟩] })

/-- The loop of `resolve_local` with `i + 1` entries left to inspect. -/
def resolve_local_loop (locals : List Local) (name : String) : Nat → Int
  | 0 => -1
  | i + 1 =>
      match locals[i]? with
      | some l => if l.name = name then i else resolve_local_loop locals name i
      | none => resolve_local_loop locals name i

/-- `resolve_local`: the last local of that name, or -1. -/
def resolve_local (c : SkyCompiler) (name : String) : Int :=
  resolve_local_loop c.locals name c.local_count

/-- `begin_scope`. -/
def begin_scope (c : SkyCompiler) : SkyCompiler :=
  { c with scope_depth := c.scope_depth + 1 }

/-- The `while` loop of `end_scope`, over the locals last to first. -/
def end_scope_loop (c : SkyCompiler) (line : Int) : List Local → SkyCompiler
  | [] => { c with locals := [] }
  | l :: below =>
      if l.depth > c.scope_depth then end_scope_loop (emit_byte c OP_POP.toByte line) line below
      else { c with locals := (l :: below).reverse }

/-- `end_scope`. -/
def end_scope (c : SkyCompiler) (line : Int) : SkyCompiler :=
  let c1 := { c with scope_depth := c.scope_depth - 1 }
  end_scope_loop c1 line c1.locals.reverse

/-- The opcode `compile_node` emits for a binary operator token. -/
def binary_opcode : SkyTokenType → Option SkyOpCode
  | TOKEN_PLUS => some OP_ADD
  | TOKEN_MINUS => some OP_SUB
  | TOKEN_STAR => some OP_MUL
  | TOKEN_SLASH => some OP_DIV
  | TOKEN_PERCENT => some OP_MOD
  | TOKEN_EQUAL_EQUAL => some OP_EQUAL
  | TOKEN_NOT_EQUAL => some OP_NOT_EQUAL
  | TOKEN_LESS => some OP_LESS
  | TOKEN_LESS_EQUAL => some OP_LESS_EQ
  | TOKEN_GREATER => some OP_GREATER
  | TOKEN_GREATER_EQUAL => some OP_GREATER_EQ
  | TOKEN_AND => some OP_AND
  | TOKEN_OR => some OP_OR
  | _ => none

/-- The opcode `compile_node` emits for a unary operator token. -/
def unary_opcode : SkyTokenType → Option SkyOpCode
  | TOKEN_MINUS => some OP_NEGATE
  | TOKEN_NOT => some OP_NOT
  | _ => none

/-- The `JUMP_BACK` sequence of the two loops. -/
def emit_jump_back (c : SkyCompiler) (loop_start : Nat) (line : Int) : SkyCompiler :=
  let back := c.code_count - loop_start + 3
  emit_byte (emit_byte (emit_byte c OP_JUMP_BACK.toByte line)
    ((back >>> 8) &&& 0xff) line) (back &&& 0xff) line

mutual
/-- The body shared by `compile_node` (`as_block = false`) and
`compile_block` (`as_block = true`): `compile_block` differs from
`compile_node` on an `AST_BLOCK` only, whose statements it compiles
without opening a scope. -/
def compile_ast : Bool → SkyASTNode → SkyCompiler → SkyCompiler
  | _, .program _ statements, c => compile_nodes statements c
  | _, .int_literal line value, c => emit_constant c (.int value) line
  | _, .float_literal line value, c => emit_constant c (.float value) line
  | _, .string_literal line value, c => emit_constant c (.string (some value)) line
  | _, .bool_literal line value, c =>
      emit_byte c (if value then OP_TRUE.toByte else OP_FALSE.toByte) line
  | _, .nil_literal line, c => emit_byte c OP_NIL.toByte line
  | _, .identifier line name, c =>
      let slot := resolve_local c name
      if slot ≥ 0 then emit_bytes c OP_GET_LOCAL.toByte (u8 slot) line
      else
        let (idx, c1) := make_constant c (.string (some name))
        emit_bytes c1 OP_GET_GLOBAL.toByte idx line
  | _, .binary line op left right, c =>
      let c2 := compile_ast false right (compile_ast false left c)
      match binary_opcode op with
      | some o => emit_byte c2 o.toByte line
      | none => { c2 with had_error := true }
  | _, .unary line op operand, c =>
      let c1 := compile_ast false operand c
      match unary_opcode op with
      | some o => emit_byte c1 o.toByte line
      | none => { c1 with had_error := true }
  | _, .call line callee args, c =>
      let c2 := compile_nodes args (compile_ast false callee c)
      emit_bytes c2 OP_CALL.toByte (args.length % 256) line
  | _, .dot line object field, c =>
      let c1 := compile_ast false object c
      let (idx, c2) := make_constant c1 (.string (some field))
      emit_bytes c2 OP_GET_FIELD.toByte idx line
  | _, .index_access line object index, c =>
      emit_byte (compile_ast false index (compile_ast false object c)) OP_GET_INDEX.toByte line
  | _, .array_literal line elements, c =>
      emit_bytes (compile_nodes elements c) OP_ARRAY.toByte (elements.length % 256) line
  | _, .assign line target value, c =>
      let c1 := compile_ast false value c
      match target with
      | .identifier _ name =>
          let slot := resolve_local c1 name
          if slot ≥ 0 then emit_bytes c1 OP_SET_LOCAL.toByte (u8 slot) line
          else
            let (idx, c2) := make_constant c1 (.string (some name))
            emit_bytes c2 OP_SET_GLOBAL.toByte idx line
      | .dot _ object field =>
          let c2 := compile_ast false object c1
          let (idx, c3) := make_constant c2 (.string (some field))
          emit_bytes c3 OP_SET_FIELD.toByte idx line
      | .index_access _ object index =>
          emit_byte (compile_ast false index (compile_ast false object c1)) OP_SET_INDEX.toByte line
      | _ => c1
  | _, .let_ line name _ initializer, c =>
      let c1 := match initializer with
        | some e => compile_ast false e c
        | none => emit_byte c OP_NIL.toByte line
      if c1.scope_depth > 0 then (add_local c1 name).2
      else
        let (idx, c2) := make_constant c1 (.string (some name))
        emit_bytes c2 OP_SET_GLOBAL.toByte idx line
  | _, .if_stmt line condition then_branch else_branch, c =>
      let c1 := compile_ast false condition c
      let (jump_false, c2) := emit_jump c1 OP_JUMP_IF_FALSE line
      let c3 := emit_byte c2 OP_POP.toByte line
      let c4 := compile_ast false then_branch c3
      match else_branch with
      | some e =>
          let (jump_end, c5) := emit_jump c4 OP_JUMP line
          let c6 := patch_jump c5 jump_false
          let c7 := emit_byte c6 OP_POP.toByte line
          let c8 := compile_ast false e c7
          patch_jump c8 jump_end
      | none =>
          emit_byte (patch_jump c4 jump_false) OP_POP.toByte line
  | _, .while_stmt line condition body, c =>
      let loop_start := c.code_count
      let c1 := compile_ast false condition c
      let (jump_false, c2) := emit_jump c1 OP_JUMP_IF_FALSE line
      let c3 := emit_byte c2 OP_POP.toByte line
      let c4 := compile_ast true body c3
      let c5 := emit_jump_back c4 loop_start line
      emit_byte (patch_jump c5 jump_false) OP_POP.toByte line
  | _, .for_range line var_name start end_ body, c =>
      let c0 := begin_scope c
      let c1 := match start with
        | some e => compile_ast false e c0
        | none => emit_constant c0 (.int 0) line
      let (slot, c2) := add_local c1 var_name
      let loop_start := c2.code_count
      let c3 := emit_bytes c2 OP_GET_LOCAL.toByte (u8 slot) line
      let c4 := compile_ast false end_ c3
      let c5 := emit_byte c4 OP_LESS.toByte line
      let (jump_false, c6) := emit_jump c5 OP_JUMP_IF_FALSE line
      let c7 := emit_byte c6 OP_POP.toByte line
      let c8 := compile_ast true body c7
      let c9 := emit_bytes c8 OP_GET_LOCAL.toByte (u8 slot) line
      let c10 := emit_constant c9 (.int 1) line
      let c11 := emit_byte c10 OP_ADD.toByte line
      let c12 := emit_bytes c11 OP_SET_LOCAL.toByte (u8 slot) line
      let c13 := emit_byte c12 OP_POP.toByte line
      let c14 := emit_jump_back c13 loop_start line
      let c15 := emit_byte (patch_jump c14 jump_false) OP_POP.toByte line
      end_scope c15 line
  | as_block, .block line statements, c =>
      if as_block then compile_nodes statements c
      else end_scope (compile_nodes statements (begin_scope c)) line
  | _, .function line name _ _ _ _ _, c =>
      let c1 := emit_byte c OP_NIL.toByte line
      if c1.scope_depth = 0 then
        let (idx, c2) := make_constant c1 (.string (some name))
        emit_bytes c2 OP_SET_GLOBAL.toByte idx line
      else c1
  | _, .return_stmt line value, c =>
      let c1 := match value with
        | some e => compile_ast false e c
        | none => emit_byte c OP_NIL.toByte line
      emit_byte c1 OP_RETURN.toByte line
  | _, .print_stmt line value, c =>
      emit_byte (compile_ast false value c) OP_PRINT.toByte line
  | _, .expr_stmt line expr, c =>
      emit_byte (compile_ast false expr c) OP_POP.toByte line
  | _, .import_stmt _ _, c => c
  | _, .server _ _ _ _, c => c
  | _, .route _ _ _ _ _, c => c
  | _, .respond _ _ _, c => c
  | _, .security _ _, c => c
  | _, .security_rule _ _ _, c => c
  | _, .class_def _ _ _, c => c
  | _, .map_literal _ _ _, c => c
  | _, .for_each _ _ _ _, c => c
  | _, .break_ _, c => c
  | _, .continue_ _, c => c
/-- `compile_node` on each element of a child array, first to last. -/
def compile_nodes : List SkyASTNode → SkyCompiler → SkyCompiler
  | [], c => c
  | n :: rest, c => compile_nodes rest (compile_ast false n c)
end

/-- `compile_node`. -/
def compile_node (node : SkyASTNode) (c : SkyCompiler) : SkyCompiler :=
  compile_ast false node c

/-- `compile_block`. -/
def compile_block (node : SkyASTNode) (c : SkyCompiler) : SkyCompiler :=
  compile_ast true node c

/-- `sky_compiler_init`. -/
def sky_compiler_init (chunk : SkyChunk) : SkyCompiler := ⟨chunk, [], 0, false⟩

/-- `sky_compiler_compile`: the compiler afterwards; the C function returns
`!had_error`. -/
def sky_compiler_compile (compiler : SkyCompiler) (ast : SkyASTNode) : SkyCompiler :=
  compile_node ast compiler

/-! ## main.c -/

/-- The chunk `run_file` executes for a parsed program: compiled into a
fresh chunk and, when compilation reports no error, closed with `OP_HALT`
on line 0. -/
def run_file_chunk (ast : SkyASTNode) : Option SkyChunk :=
  let c := sky_compiler_compile (sky_compiler_init sky_chunk_init) ast
  if c.had_error then none else some (sky_chunk_write c.chunk OP_HALT.toByte 0)

/-- `run_file` from the parsed program on: compile, append `OP_HALT`, run a
fresh VM for at most `fuel` instructions.  `none` when compilation fails. -/
def run_file (fuel : Nat) (ast : SkyASTNode) : Option RunResult :=
  match run_file_chunk ast with
  | some chunk => some (sky_vm_execute fuel sky_vm_init chunk)
  | none => none

/-! ## Observations on a run -/

/-- The status `sky_vm_execute` returned, if it returned. -/
def RunResult.result : RunResult → Option SkyVMResult
  | .returned r _ => some r
  | _ => none

/-- The machine as the run left it. -/
def RunResult.vm : RunResult → Option SkyVM
  | .returned _ vm => some vm
  | .running vm => some vm
  | .undefined => none

/-- What a finished run wrote to stdout. -/
def RunResult.stdout : RunResult → Option (List String)
  | .returned _ vm => some vm.out
  | _ => none

/-- The operand-stack depth a finished run left. -/
def RunResult.depth : RunResult → Option Nat
  | .returned _ vm => some vm.stack_top
  | _ => none

/-- The global `name` after a finished run. -/
def RunResult.global (name : String) : RunResult → Option SkyValue
  | .returned _ vm => sky_table_get vm.globals name
  | _ => none

/-- `k` turns of the dispatch loop, none of which returns: the machine
reached, or `none` when a turn returns or is undefined. -/
def steps (chunk : SkyChunk) : Nat → SkyVM → Option SkyVM
  | 0, vm => some vm
  | k + 1, vm =>
      match step chunk vm with
      | .continue_ vm1 => steps chunk k vm1
      | _ => none

/-! ## Programs of the specification, as `parser.c` builds them -/

/-- Source (scenario 2 of the specification, one statement per line):
`let x = "Hello "` / `print(x + "Sky!")`. -/
def prog_hello : SkyASTNode :=
  .program 1
    [ .let_ 1 "x" none (some (.string_literal 1 "Hello ")),
      .print_stmt 2 (.binary 2 TOKEN_PLUS (.identifier 2 "x") (.string_literal 2 "Sky!")) ]

/-- Source: `print(1 <= 2.5)`. -/
def prog_less_eq_mixed : SkyASTNode :=
  .program 1
    [ .print_stmt 1 (.binary 1 TOKEN_LESS_EQUAL (.int_literal 1 1) (.float_literal 1 2.5)) ]

/-- Source: `print(0 and true)` / `print(0 or false)`. -/
def prog_and_or_zero : SkyASTNode :=
  .program 1
    [ .print_stmt 1 (.binary 1 TOKEN_AND (.int_literal 1 0) (.bool_literal 1 true)),
      .print_stmt 2 (.binary 2 TOKEN_OR (.int_literal 2 0) (.bool_literal 2 false)) ]

/-- The machine before a `DIV` whose divisor, on top of the stack, is
Int 0 and whose dividend is Int 7. -/
def vm_div_zero : SkyVM :=
  ⟨fun i => if i = 0 then .int 7 else .int 0, 2, 0, [], [], []⟩

/-! ## Arithmetic expression trees -/

/-- The binary operators `+`, `-`, `*`. -/
inductive ArithOp where
  | add
  | sub
  | mul
  deriving DecidableEq, Repr

/-- The operator token the parser stores in the binary node. -/
def ArithOp.token : ArithOp → SkyTokenType
  | .add => TOKEN_PLUS
  | .sub => TOKEN_MINUS
  | .mul => TOKEN_STAR

/-- The opcode of the operator. -/
def ArithOp.opcode : ArithOp → SkyOpCode
  | .add => OP_ADD
  | .sub => OP_SUB
  | .mul => OP_MUL

/-- The operator on 64-bit two's-complement integers. -/
def ArithOp.apply : ArithOp → Int → Int → Int
  | .add, a, b => wrap64 (a + b)
  | .sub, a, b => wrap64 (a - b)
  | .mul, a, b => wrap64 (a * b)

/-- An expression tree built from integer literals and `+`, `-`, `*`;
every node carries its source line. -/
inductive ArithExpr where
  | lit (line : Int) (value : Int)
  | bin (line : Int) (op : ArithOp) (left right : ArithExpr)

/-- The tree as `parser.c` builds it. -/
def ArithExpr.toAST : ArithExpr → SkyASTNode
  | .lit line value => .int_literal line value
  | .bin line op left right => .binary line op.token left.toAST right.toAST

/-- The value of the tree in 64-bit two's-complement arithmetic. -/
def ArithExpr.eval : ArithExpr → Int
  | .lit _ value => value
  | .bin _ op left right => op.apply left.eval right.eval

/-- The literals of the tree, left to right. -/
def ArithExpr.literals : ArithExpr → List Int
  | .lit _ value => [value]
  | .bin _ _ left right => left.literals ++ right.literals

/-- The operand-stack slots the evaluation of the tree occupies at most:
the right operand is evaluated above the value of the left one. -/
def ArithExpr.slots : ArithExpr → Nat
  | .lit _ _ => 1
  | .bin _ _ left right => max left.slots (1 + right.slots)

/-- `vm1` is `vm` with `v` pushed: one more value, `v` in the cell that was
the top, every cell below it, the globals, stdout and stderr as before. -/
structure Pushed (vm vm1 : SkyVM) (v : SkyValue) : Prop where
  top : vm1.stack_top = vm.stack_top + 1
  value : vm1.stack vm.stack_top = v
  below : ∀ i, i < vm.stack_top → vm1.stack i = vm.stack i
  globals : vm1.globals = vm.globals
  out : vm1.out = vm.out
  err : vm1.err = vm.err

/-- Source (scenario 1 of the specification): `print(2 + 3)`. -/
def prog_print_2_plus_3 : SkyASTNode :=
  .program 1 [ .print_stmt 1 (.binary 1 TOKEN_PLUS (.int_literal 1 2) (.int_literal 1 3)) ]

/-- The tree of `2 + 3`. -/
def arith_2_plus_3 : ArithExpr := .bin 1 .add (.lit 1 2) (.lit 1 3)

/-- The chunk the compiler produces for `2 + 3` alone. -/
def chunk_2_plus_3 : SkyChunk :=
  (compile_node arith_2_plus_3.toAST (sky_compiler_init sky_chunk_init)).chunk

/-- Source (scenario 4 of the specification with the bound `n`):
`let i = 0` / `while i < n { print(i)  i = i + 1 }`. -/
def prog_while_count (n : Int) : SkyASTNode :=
  .program 1
    [ .let_ 1 "i" none (some (.int_literal 1 0)),
      .while_stmt 2 (.binary 2 TOKEN_LESS (.identifier 2 "i") (.int_literal 2 n))
        (.block 2
          [ .print_stmt 2 (.identifier 2 "i"),
            .expr_stmt 2 (.assign 2 (.identifier 2 "i")
              (.binary 2 TOKEN_PLUS (.identifier 2 "i") (.int_literal 2 1))) ]) ]

/-- The chunk `run_file` executes for `prog_while_count n`. -/
def chunk_while_count (n : Int) : SkyChunk :=
  ⟨[1, 0, 11, 1, 10, 2, 1, 3, 27, 32, 0, 15, 6, 10, 4, 36, 10, 5, 1, 6, 16, 11, 7, 6,
    33, 0, 23, 6, 49],
   [1, 1, 1, 1, 2, 2, 2, 2, 2, 2, 2, 2, 2, 2, 2, 2, 2, 2, 2, 2, 2, 2, 2, 2, 2, 2, 2, 2, 0],
   [.int 0, .string (some "i"), .string (some "i"), .int n, .string (some "i"),
    .string (some "i"), .int 1, .string (some "i")]⟩

/-- The globals of a fresh machine: the three natives. -/
def natives : SkyTable :=
  [("print", .native_fn (some .print)), ("str", .native_fn (some .str)),
   ("len", .native_fn (some .len))]

/-- The writes of `print(0)`, ..., `print(k - 1)`: each number in decimal,
each followed by a newline. -/
def counted (k : Nat) : List String :=
  (List.range k).flatMap (fun j => [fmt_lld (j : Int), "\n"])

/-- Source (scenario 3 of the specification with the bounds `a`, `b`):
`let s = 0` / `for i in a..b { s = s + i }`. -/
def prog_for_sum (a b : Int) : SkyASTNode :=
  .program 1
    [ .let_ 1 "s" none (some (.int_literal 1 0)),
      .for_range 2 "i" (some (.int_literal 2 a)) (.int_literal 2 b)
        (.block 2
          [ .expr_stmt 2 (.assign 2 (.identifier 2 "s")
              (.binary 2 TOKEN_PLUS (.identifier 2 "s") (.identifier 2 "i"))) ]) ]

/-- Source: `let a = 1` / `if true { let x = 5  print(x) } else { }`. -/
def prog_local_after_global : SkyASTNode :=
  .program 1
    [ .let_ 1 "a" none (some (.int_literal 1 1)),
      .if_stmt 2 (.bool_literal 2 true)
        (.block 2
          [ .let_ 2 "x" none (some (.int_literal 2 5)),
            .print_stmt 2 (.identifier 2 "x") ])
        (some (.block 2 [])) ]

/-- Source: `if true { let x = 5  print(x) } else { }`. -/
def prog_local_alone : SkyASTNode :=
  .program 1
    [ .if_stmt 1 (.bool_literal 1 true)
        (.block 1
          [ .let_ 1 "x" none (some (.int_literal 1 5)),
            .print_stmt 1 (.identifier 1 "x") ])
        (some (.block 1 [])) ]

/-- `c1` comes after `c` in a compilation: the code of `c` is the beginning
of the code of `c1`, and an error flagged in `c` is still flagged. -/
def Grows (c c1 : SkyCompiler) : Prop :=
  c.chunk.code <+: c1.chunk.code ∧ (c.had_error = true → c1.had_error = true)

/-- The compiler in which `compile_node` compiles the then-branch of an
`if`: after the condition, `JUMP_IF_FALSE` with its placeholders and
`POP`. -/
def if_then_entry (line : Int) (condition : SkyASTNode) (c : SkyCompiler) : SkyCompiler :=
  emit_byte (emit_jump (compile_node condition c) OP_JUMP_IF_FALSE line).2 OP_POP.toByte line

/-- The compiler in which `compile_node` compiles the else-branch of an
`if`: after the then-branch, `JUMP` with its placeholders, the patch of the
false-jump and `POP`. -/
def if_else_entry (line : Int) (condition then_branch : SkyASTNode) (c : SkyCompiler) :
    SkyCompiler :=
  emit_byte
    (patch_jump
      (emit_jump (compile_node then_branch (if_then_entry line condition c)) OP_JUMP line).2
      (emit_jump (compile_node condition c) OP_JUMP_IF_FALSE line).1)
    OP_POP.toByte line

/-- Source (scenario 5 of the specification):
`if 5 > 3 { print("yes") } else { print("no") }`. -/
def prog_if_yes_no : SkyASTNode :=
  .program 1
    [ .if_stmt 1 (.binary 1 TOKEN_GREATER (.int_literal 1 5) (.int_literal 1 3))
        (.block 1 [ .print_stmt 1 (.string_literal 1 "yes") ])
        (some (.block 1 [ .print_stmt 1 (.string_literal 1 "no") ])) ]

/-- How a bounded run from inside the code region `[a, b)` ends: at `b`
(the first time the instruction pointer is `b`), still inside when the fuel
is used up, stopped by an instruction that returns or is undefined, or
outside `[a, b]`. -/
inductive Outcome where
  | exited (vm : SkyVM)
  | inside
  | stopped
  | escaped

/-- Run from `vm` until the instruction pointer is `b`, for at most `fuel`
turns of the dispatch loop, as long as it stays in `[a, b)`. -/
def exec_region (chunk : SkyChunk) (a b : Nat) : Nat → SkyVM → Outcome
  | 0, vm =>
      if vm.ip = b then .exited vm
      else if a ≤ vm.ip ∧ vm.ip < b then .inside else .escaped
  | fuel + 1, vm =>
      if vm.ip = b then .exited vm
      else if a ≤ vm.ip ∧ vm.ip < b then
        match step chunk vm with
        | .continue_ vm1 => exec_region chunk a b fuel vm1
        | _ => .stopped
      else .escaped

/-- The run did not leave the region except through its end, and if it
reached the end the stack depth is `t` there. -/
def Outcome.depth_ok (t : Nat) : Outcome → Prop
  | .exited vm => vm.stack_top = t
  | .escaped => False
  | _ => True

/-- The code in `[a, b)` of `chunk` takes depth `t0 + din` to depth
`t0 + dout`, for every base `t0` that leaves room for `M` slots. -/
def Triple (chunk : SkyChunk) (a b din dout M : Nat) : Prop :=
  ∀ (t0 k : Nat) (vm : SkyVM), vm.ip = a → vm.stack_top = t0 + din →
    t0 + M ≤ SKY_STACK_MAX → (exec_region chunk a b k vm).depth_ok (t0 + dout)

/-- The instructions the depth rules cover, each with its length in
bytes and the numbers of values it takes from and leaves on the stack. -/
def simple_effect : SkyOpCode → Option (Nat × Nat × Nat)
  | OP_CONSTANT => some (2, 0, 1)
  | OP_TRUE => some (1, 0, 1)
  | OP_FALSE => some (1, 0, 1)
  | OP_NIL => some (1, 0, 1)
  | OP_POP => some (1, 1, 0)
  | OP_GET_LOCAL => some (2, 0, 1)
  | OP_SET_LOCAL => some (2, 1, 1)
  | OP_GET_GLOBAL => some (2, 0, 1)
  | OP_SET_GLOBAL => some (2, 1, 1)
  | OP_ADD => some (1, 2, 1)
  | OP_SUB => some (1, 2, 1)
  | OP_MUL => some (1, 2, 1)
  | OP_DIV => some (1, 2, 1)
  | OP_MOD => some (1, 2, 1)
  | OP_EQUAL => some (1, 2, 1)
  | OP_NOT_EQUAL => some (1, 2, 1)
  | OP_GREATER => some (1, 2, 1)
  | OP_GREATER_EQ => some (1, 2, 1)
  | OP_LESS => some (1, 2, 1)
  | OP_LESS_EQ => some (1, 2, 1)
  | OP_AND => some (1, 2, 1)
  | OP_OR => some (1, 2, 1)
  | OP_NEGATE => some (1, 1, 1)
  | OP_NOT => some (1, 1, 1)
  | OP_PRINT => some (1, 1, 0)
  | _ => none

/-- The binary operators of the language. -/
inductive BinOp where
  | add | sub | mul | div | mod | eq | ne | lt | le | gt | ge | and_ | or_
  deriving DecidableEq, Repr

/-- The token the parser stores for a binary operator. -/
def BinOp.token : BinOp → SkyTokenType
  | .add => TOKEN_PLUS | .sub => TOKEN_MINUS | .mul => TOKEN_STAR | .div => TOKEN_SLASH
  | .mod => TOKEN_PERCENT | .eq => TOKEN_EQUAL_EQUAL | .ne => TOKEN_NOT_EQUAL
  | .lt => TOKEN_LESS | .le => TOKEN_LESS_EQUAL | .gt => TOKEN_GREATER
  | .ge => TOKEN_GREATER_EQUAL | .and_ => TOKEN_AND | .or_ => TOKEN_OR

/-- The opcode of a binary operator. -/
def BinOp.opcode : BinOp → SkyOpCode
  | .add => OP_ADD | .sub => OP_SUB | .mul => OP_MUL | .div => OP_DIV
  | .mod => OP_MOD | .eq => OP_EQUAL | .ne => OP_NOT_EQUAL
  | .lt => OP_LESS | .le => OP_LESS_EQ | .gt => OP_GREATER
  | .ge => OP_GREATER_EQ | .and_ => OP_AND | .or_ => OP_OR

/-- The unary operators of the language: `-` and `not`. -/
inductive UnOp where
  | neg | not_
  deriving DecidableEq, Repr

/-- The token the parser stores for a unary operator. -/
def UnOp.token : UnOp → SkyTokenType
  | .neg => TOKEN_MINUS | .not_ => TOKEN_NOT

/-- The opcode of a unary operator. -/
def UnOp.opcode : UnOp → SkyOpCode
  | .neg => OP_NEGATE | .not_ => OP_NOT

/-- Expressions made of literals, identifier reads, unary and binary
operators and assignments to an identifier; every node with its line. -/
inductive SExpr where
  | int_lit (line : Int) (value : Int)
  | float_lit (line : Int) (value : Float)
  | string_lit (line : Int) (value : String)
  | bool_lit (line : Int) (value : Bool)
  | nil_lit (line : Int)
  | ident (line : Int) (name : String)
  | unary (line : Int) (op : UnOp) (operand : SExpr)
  | binary (line : Int) (op : BinOp) (left right : SExpr)
  | assign (line target_line : Int) (name : String) (value : SExpr)

/-- The tree as `parser.c` builds it. -/
def SExpr.toAST : SExpr → SkyASTNode
  | .int_lit line value => .int_literal line value
  | .float_lit line value => .float_literal line value
  | .string_lit line value => .string_literal line value
  | .bool_lit line value => .bool_literal line value
  | .nil_lit line => .nil_literal line
  | .ident line name => .identifier line name
  | .unary line op operand => .unary line op.token operand.toAST
  | .binary line op left right => .binary line op.token left.toAST right.toAST
  | .assign line target_line name value =>
      .assign line (.identifier target_line name) value.toAST

/-- The stack slots the evaluation of the expression occupies at most. -/
def SExpr.slots : SExpr → Nat
  | .unary _ _ operand => operand.slots
  | .binary _ _ left right => max left.slots (1 + right.slots)
  | .assign _ _ _ value => value.slots
  | _ => 1

/-- The chunk holds, at the offsets `[a, b)`, the bytes `code` has there. -/
def AgreeOn (code : List Nat) (chunk : SkyChunk) (a b : Nat) : Prop :=
  ∀ i, a ≤ i → i < b → chunk.code[i]? = code[i]?

/-- The compiler's locals and scope depth are those of `c`. -/
def SameScope (c c1 : SkyCompiler) : Prop :=
  c1.locals = c.locals ∧ c1.scope_depth = c.scope_depth

/-- A sequence of statements of the fragment: expression statements,
`print`, `if`/`else` with two blocks and `while`, over `SExpr`; the
sequence ends with `done`. -/
inductive Stmts where
  | done
  | expr_stmt (line : Int) (e : SExpr) (rest : Stmts)
  | print (line : Int) (e : SExpr) (rest : Stmts)
  | if_else (line : Int) (cond : SExpr) (then_line : Int) (then_branch : Stmts)
      (else_line : Int) (else_branch : Stmts) (rest : Stmts)
  | while_ (line : Int) (cond : SExpr) (body_line : Int) (body : Stmts) (rest : Stmts)

/-- The statements the parser builds for the sequence. -/
def Stmts.toAST : Stmts → List SkyASTNode
  | .done => []
  | .expr_stmt line e rest => .expr_stmt line e.toAST :: rest.toAST
  | .print line e rest => .print_stmt line e.toAST :: rest.toAST
  | .if_else line cond tl t el e rest =>
      .if_stmt line cond.toAST (.block tl t.toAST) (some (.block el e.toAST)) :: rest.toAST
  | .while_ line cond bl body rest =>
      .while_stmt line cond.toAST (.block bl body.toAST) :: rest.toAST

/-- Stack slots the sequence needs above the depth at which it starts. -/
def Stmts.slots : Stmts → Nat
  | .done => 0
  | .expr_stmt _ e rest => max e.slots rest.slots
  | .print _ e rest => max e.slots rest.slots
  | .if_else _ cond _ t _ e rest => max (max cond.slots (max t.slots e.slots)) rest.slots
  | .while_ _ cond _ body rest => max (max cond.slots body.slots) rest.slots

/-- Every local of the compiler belongs to the current scope or an
enclosing one. -/
def LocalsOk (c : SkyCompiler) : Prop := ∀ l ∈ c.locals, l.depth ≤ c.scope_depth

/-- The code `compile_node` (`as_block = false`) or `compile_block`
(`as_block = true`) emits for `node`, wherever it is emitted and whatever
chunk holds it, keeps the stack depth, given room for `M` slots; and
compiling `node` leaves locals and scope depth as they were. -/
def NodeOk (as_block : Bool) (node : SkyASTNode) (M : Nat) : Prop :=
  ∀ c : SkyCompiler, LocalsOk c →
    SameScope c (compile_ast as_block node c) ∧
    ∀ chunk : SkyChunk, (compile_ast as_block node c).had_error = false →
      (compile_ast as_block node c).code_count ≤ c.code_count + 0x10000 →
      AgreeOn (compile_ast as_block node c).chunk.code chunk c.code_count
        (compile_ast as_block node c).code_count →
      Triple chunk c.code_count (compile_ast as_block node c).code_count 0 0 M

/-- The same for the code of a list of statements. -/
def NodesOk (ns : List SkyASTNode) (M : Nat) : Prop :=
  ∀ c : SkyCompiler, LocalsOk c →
    SameScope c (compile_nodes ns c) ∧
    ∀ chunk : SkyChunk, (compile_nodes ns c).had_error = false →
      (compile_nodes ns c).code_count ≤ c.code_count + 0x10000 →
      AgreeOn (compile_nodes ns c).chunk.code chunk c.code_count
        (compile_nodes ns c).code_count →
      Triple chunk c.code_count (compile_nodes ns c).code_count 0 0 M

/-- The depth at which the run left the region through its end. -/
def Outcome.exit_depth : Outcome → Option Nat
  | .exited vm => some vm.stack_top
  | _ => none

/-- Source: `while false { print(1) }`, `if 1 < 2 { print("a") } else
{ print("b") }`, `1 + 2`, on lines 1 to 3. -/
def stmts_sample : Stmts :=
  .while_ 1 (.bool_lit 1 false) 1 (.print 1 (.int_lit 1 1) .done)
    (.if_else 2 (.binary 2 .lt (.int_lit 2 1) (.int_lit 2 2))
      2 (.print 2 (.string_lit 2 "a") .done)
      2 (.print 2 (.string_lit 2 "b") .done)
      (.expr_stmt 3 (.binary 3 .add (.int_lit 3 1) (.int_lit 3 2)) .done))

/-- The compiler inside one block of a fresh compilation. -/
def compiler_in_block : SkyCompiler := begin_scope (sky_compiler_init sky_chunk_init)

/-- Source: `let x = 1 + 2`, as a statement of a block. -/
def let_sample : SkyASTNode :=
  .let_ 1 "x" none (some (SExpr.binary 1 .add (.int_lit 1 1) (.int_lit 1 2)).toAST)

/-- Source: `if true { let x = 5 } else { }`. -/
def prog_if_local_let : SkyASTNode :=
  .program 1
    [ .if_stmt 1 (.bool_literal 1 true)
        (.block 1 [ .let_ 1 "x" none (some (.int_literal 1 5)) ])
        (some (.block 1 [])) ]

/-- The compiler at the statement `let x = 5` of `prog_if_local_let`:
inside the then-block. -/
def compiler_at_local_let : SkyCompiler :=
  begin_scope (if_then_entry 1 (.bool_literal 1 true) (sky_compiler_init sky_chunk_init))

/-! ## Inputs for the error paths of the machine -/

/-- What a finished run wrote to stderr through `runtime_error`. -/
def RunResult.stderr : RunResult → Option (List String)
  | .returned _ vm => some vm.err
  | _ => none

/-- A chunk as `test_vm.c` builds them by hand: `POP`, `HALT`. -/
def chunk_pop_halt : SkyChunk := ⟨[OP_POP.toByte, OP_HALT.toByte], [1, 1], []⟩

/-- A chunk built by hand: `NIL`, `HALT`. -/
def chunk_nil_halt : SkyChunk := ⟨[OP_NIL.toByte, OP_HALT.toByte], [1, 1], []⟩

/-- A machine whose operand stack holds `SKY_STACK_MAX` values (all of
them nil). -/
def vm_full : SkyVM := { sky_vm_init with stack_top := SKY_STACK_MAX }

/-- Source: `if true { }`. -/
def prog_if_true_empty : SkyASTNode :=
  .program 1 [ .if_stmt 1 (.bool_literal 1 true) (.block 1 []) none ]

/-- The instruction at `vm.ip` is a `SET_GLOBAL` whose operand names
`name` in the constant pool. -/
def writes_global (chunk : SkyChunk) (name : String) (vm : SkyVM) : Bool :=
  match chunk.code[vm.ip]?, chunk.code[vm.ip + 1]? with
  | some op, some idx =>
      op == OP_SET_GLOBAL.toByte &&
        (match chunk.constants[idx]? with
         | some (.string (some n)) => n == name
         | _ => false)
  | _, _ => false

/-- A chunk built by hand: `GET_GLOBAL 0`, `HALT`, the constant 0 being
the name `x`. -/
def chunk_get_x : SkyChunk :=
  ⟨[OP_GET_GLOBAL.toByte, 0, OP_HALT.toByte], [1, 1, 1], [.string (some "x")]⟩

/-- Source: `print(x)`. -/
def prog_print_x : SkyASTNode := .program 1 [ .print_stmt 1 (.identifier 1 "x") ]

/-- Source: `let x = 5` / `x = 7` / `print(x)`. -/
def prog_set_twice : SkyASTNode :=
  .program 1
    [ .let_ 1 "x" none (some (.int_literal 1 5)),
      .expr_stmt 2 (.assign 2 (.identifier 2 "x") (.int_literal 2 7)),
      .print_stmt 3 (.identifier 3 "x") ]

/-- The expressions `nil, nil, ..., nil`, `n` of them, on line 1. -/
def nils (n : Nat) : List SkyASTNode := List.replicate n (.nil_literal 1)

/-- Source: `fn f() { }` / `print(f(true, ..., true))` with `n` arguments. -/
def prog_call_f (n : Nat) : SkyASTNode :=
  .program 1
    [ .function 1 "f" [] [] none (.block 1 []) false,
      .print_stmt 2 (.call 2 (.identifier 2 "f") (List.replicate n (.bool_literal 2 true))) ]

/-- Source: `print(len([nil, ..., nil]))` with `n` elements. -/
def prog_len_nils (n : Nat) : SkyASTNode :=
  .program 1 [ .print_stmt 1 (.call 1 (.identifier 1 "len") [ .array_literal 1 (nils n) ]) ]

/-- Source: the expression statement `[nil, ..., nil]` with `n` elements. -/
def prog_array_nils (n : Nat) : SkyASTNode :=
  .program 1 [ .expr_stmt 1 (.array_literal 1 (nils n)) ]

/-- The compiler after `make_constant` on each value in turn. -/
def make_constants : List SkyValue → SkyCompiler → SkyCompiler
  | [], c => c
  | v :: vs, c => make_constants vs (make_constant c v).2

/-- What a finished run returned, wrote to stdout and stderr, and the
depth it left. -/
def RunResult.summary : RunResult → Option (SkyVMResult × List String × List String × Nat)
  | .returned r vm => some (r, vm.out, vm.err, vm.stack_top)
  | _ => none

/-! ## Inputs for jump patching and assignment -/

/-- The statements `nil`, `nil`, ..., `n` expression statements on line 1. -/
def nil_statements (n : Nat) : List SkyASTNode :=
  List.replicate n (.expr_stmt 1 (.nil_literal 1))

/-- Source: `if true { nil nil ... nil }` with 32768 statements `nil` in
the block, which compile to 65536 bytes. -/
def prog_if_huge : SkyASTNode :=
  .if_stmt 1 (.bool_literal 1 true) (.block 1 (nil_statements 32768)) none

/-- The compiler after `emit_jump` of a `JUMP` and two `NIL` on a fresh
chunk: the placeholder is at offset 1. -/
def compiler_with_jump : SkyCompiler :=
  emit_byte (emit_byte (emit_jump (sky_compiler_init sky_chunk_init) OP_JUMP 1).2
    OP_NIL.toByte 1) OP_NIL.toByte 1

/-- Source: `let a = 1` / `a = 5`. -/
def prog_identifier_assign : SkyASTNode :=
  .program 1
    [ .let_ 1 "a" none (some (.int_literal 1 1)),
      .expr_stmt 2 (.assign 2 (.identifier 2 "a") (.int_literal 2 5)) ]

/-- Source: `let x = 5`. -/
def prog_top_level_let : SkyASTNode :=
  .program 1 [ .let_ 1 "x" none (some (.int_literal 1 5)) ]

/-- Source: `let x = 5` / `let y = 6`. -/
def prog_two_lets : SkyASTNode :=
  .program 1
    [ .let_ 1 "x" none (some (.int_literal 1 5)), .let_ 2 "y" none (some (.int_literal 2 6)) ]

/-! ## The lexer -/

/-- `SkyToken`.  `start` holds the `length` bytes the C field points at
(a lexeme inside the source, or the message of an error token); `value` is
the copy of at most 255 of them. -/
structure SkyToken where
  type : SkyTokenType
  start : List Nat
  length : Nat
  line : Int
  value : List Nat
  deriving DecidableEq, Repr

/-- `SkyLexer`.  `source` lists the bytes of the NUL-terminated source,
the terminator excluded; `start` and `current` are offsets into it. -/
structure SkyLexer where
  source : List Nat
  start : Nat
  current : Nat
  line : Int
  had_error : Bool
  error_msg : String
  deriving DecidableEq, Repr

/-- The bytes of a C string literal (its UTF-8 encoding). -/
def c_str (s : String) : List Nat :=
  s.data.flatMap (fun c => (String.utf8EncodeChar c).map (fun b => b.toNat))

/-- `isdigit` in the C locale. -/
def isdigit (c : Nat) : Bool := 48 ≤ c && c ≤ 57

/-- `isalpha` in the C locale. -/
def isalpha (c : Nat) : Bool := (65 ≤ c && c ≤ 90) || (97 ≤ c && c ≤ 122)

/-- `isalnum` in the C locale. -/
def isalnum (c : Nat) : Bool := isalpha c || isdigit c

/-- `peek`: `*lex->current`; the byte after the last one is the
terminator 0. -/
def peek (lex : SkyLexer) : Nat := lex.source.getD lex.current 0

/-- `is_at_end`. -/
def is_at_end (lex : SkyLexer) : Bool := peek lex == 0

/-- `advance_char`, the character returned being `peek` before the call. -/
def advance_char (lex : SkyLexer) : SkyLexer := { lex with current := lex.current + 1 }

/-- `peek_next`. -/
def peek_next (lex : SkyLexer) : Nat :=
  if is_at_end lex then 0 else lex.source.getD (lex.current + 1) 0

/-- `match_char`. -/
def match_char (lex : SkyLexer) (expected : Nat) : Bool × SkyLexer :=
  if is_at_end lex then (false, lex)
  else if peek lex ≠ expected then (false, lex)
  else (true, advance_char lex)

/-- The loop `while (p(peek(lex))) advance_char(lex)` of `number_token` and
`identifier_token`, `p` being false at the terminator; `fuel` bounds the
bytes left. -/
def advance_while (p : Nat → Bool) : Nat → SkyLexer → SkyLexer
  | 0, lex => lex
  | fuel + 1, lex => if p (peek lex) then advance_while p fuel (advance_char lex) else lex

/-- The bytes left from `current` to the terminator, the bound of the
loops of the lexer. -/
def SkyLexer.remaining (lex : SkyLexer) : Nat := lex.source.length - lex.current

/-- The loop of `skip_whitespace`; a `//` comment is consumed up to the
end of its line. -/
def skip_whitespace_loop : Nat → SkyLexer → SkyLexer
  | 0, lex => lex
  | fuel + 1, lex =>
      let c := peek lex
      if c = 32 ∨ c = 13 ∨ c = 9 then skip_whitespace_loop fuel (advance_char lex)
      else if c = 10 then
        skip_whitespace_loop fuel (advance_char { lex with line := lex.line + 1 })
      else if c = 47 then
        if peek_next lex = 47 then
          skip_whitespace_loop fuel
            (advance_while (fun ch => ch != 10 && ch != 0) lex.remaining lex)
        else lex
      else lex

/-- `skip_whitespace`. -/
def skip_whitespace (lex : SkyLexer) : SkyLexer :=
  skip_whitespace_loop (lex.remaining + 1) lex

/-- `make_token`. -/
def make_token (lex : SkyLexer) (type : SkyTokenType) : SkyToken :=
  let length := lex.current - lex.start
  let start := (lex.source.drop lex.start).take length
  { type := type, start := start, length := length, line := lex.line,
    value := start.take (if length ≥ 255 then 255 else length) }

/-- `error_token`. -/
def error_token (lex : SkyLexer) (message : String) : SkyToken × SkyLexer :=
  ({ type := TOKEN_ERROR, start := c_str message, length := (c_str message).length,
     line := lex.line, value := (c_str message).take 255 },
   { lex with had_error := true, error_msg := message })

/-- The loop of `string_token`.  After a backslash the next byte is
skipped whatever it is; when that byte is the terminator the scan has left
the source and the result is undefined (`none`). -/
def string_loop : Nat → SkyLexer → Option SkyLexer
  | 0, lex => some lex
  | fuel + 1, lex =>
      if peek lex ≠ 34 ∧ ¬ is_at_end lex then
        let lex1 := if peek lex = 10 then { lex with line := lex.line + 1 } else lex
        if peek lex1 = 92 then
          let lex2 := advance_char lex1
          if is_at_end lex2 then none else string_loop fuel (advance_char lex2)
        else string_loop fuel (advance_char lex1)
      else some lex

/-- `string_token`. -/
def string_token (lex : SkyLexer) : Option (SkyToken × SkyLexer) :=
  match string_loop (lex.remaining + 1) lex with
  | none => none
  | some lex1 =>
      if is_at_end lex1 then some (error_token lex1 "Unterminated string")
      else
        let lex2 := advance_char lex1
        let length := lex2.current - lex2.start - 2
        let start := (lex2.source.drop (lex2.start + 1)).take length
        some ({ type := TOKEN_STRING_LITERAL, start := start, length := length,
                line := lex2.line,
                value := start.take (if length ≥ 255 then 255 else length) }, lex2)

/-- `number_token`. -/
def number_token (lex : SkyLexer) : SkyToken × SkyLexer :=
  let lex1 := advance_while isdigit lex.remaining lex
  if peek lex1 = 46 ∧ isdigit (peek_next lex1) then
    let lex2 := advance_char lex1
    let lex3 := advance_while isdigit lex2.remaining lex2
    (make_token lex3 TOKEN_FLOAT_LITERAL, lex3)
  else (make_token lex1 TOKEN_INT_LITERAL, lex1)

/-- The table of `check_keyword`. -/
def keywords : List (String × SkyTokenType) :=
  [("let", TOKEN_LET), ("fn", TOKEN_FN), ("return", TOKEN_RETURN), ("if", TOKEN_IF),
   ("else", TOKEN_ELSE), ("for", TOKEN_FOR), ("while", TOKEN_WHILE), ("in", TOKEN_IN),
   ("class", TOKEN_CLASS), ("self", TOKEN_SELF), ("true", TOKEN_TRUE),
   ("false", TOKEN_FALSE), ("nil", TOKEN_NIL), ("print", TOKEN_PRINT),
   ("import", TOKEN_IMPORT), ("server", TOKEN_SERVER), ("route", TOKEN_ROUTE),
   ("respond", TOKEN_RESPOND), ("on", TOKEN_ON), ("security", TOKEN_SECURITY),
   ("async", TOKEN_ASYNC), ("await", TOKEN_AWAIT), ("break", TOKEN_BREAK),
   ("continue", TOKEN_CONTINUE), ("not", TOKEN_NOT), ("and", TOKEN_AND), ("or", TOKEN_OR)]

/-- The loop of `check_keyword` over the table. -/
def check_keyword_loop (lexeme : List Nat) : List (String × SkyTokenType) → SkyTokenType
  | [] => TOKEN_IDENTIFIER
  | (name, type) :: rest =>
      if c_str name = lexeme then type else check_keyword_loop lexeme rest

/-- `check_keyword`. -/
def check_keyword (lex : SkyLexer) : SkyTokenType :=
  check_keyword_loop ((lex.source.drop lex.start).take (lex.current - lex.start)) keywords

/-- `identifier_token`. -/
def identifier_token (lex : SkyLexer) : SkyToken × SkyLexer :=
  let lex1 := advance_while (fun c => isalnum c || c == 95) lex.remaining lex
  (make_token lex1 (check_keyword lex1), lex1)

/-- `sky_lexer_init`: a UTF-8 byte order mark is skipped. -/
def sky_lexer_init (source : List Nat) : SkyLexer :=
  let source1 :=
    if source.getD 0 0 = 0xEF ∧ source.getD 1 0 = 0xBB ∧ source.getD 2 0 = 0xBF then
      source.drop 3
    else source
  { source := source1, start := 0, current := 0, line := 1, had_error := false,
    error_msg := "" }

/-- A token of one or two characters: `two` when the next character is
`second`, else `one` (`none` standing for the error token with
`message`). -/
def one_or_two (lex : SkyLexer) (second : Nat) (two : SkyTokenType)
    (one : Option SkyTokenType) (message : String) : SkyToken × SkyLexer :=
  let (matched, lex1) := match_char lex second
  if matched then (make_token lex1 two, lex1)
  else match one with
    | some t => (make_token lex1 t, lex1)
    | none => error_token lex1 message

/-- `sky_lexer_next`: the token and the lexer after it; `none` when the
scan of a string leaves the source. -/
def sky_lexer_next (lex0 : SkyLexer) : Option (SkyToken × SkyLexer) :=
  let lex1 := skip_whitespace lex0
  let lex2 := { lex1 with start := lex1.current }
  if is_at_end lex2 then some (make_token lex2 TOKEN_EOF, lex2)
  else
    let c := peek lex2
    let lex := advance_char lex2
    if isdigit c then some (number_token lex)
    else if isalpha c ∨ c = 95 then some (identifier_token lex)
    else if c = 40 then some (make_token lex TOKEN_LPAREN, lex)
    else if c = 41 then some (make_token lex TOKEN_RPAREN, lex)
    else if c = 123 then some (make_token lex TOKEN_LBRACE, lex)
    else if c = 125 then some (make_token lex TOKEN_RBRACE, lex)
    else if c = 91 then some (make_token lex TOKEN_LBRACKET, lex)
    else if c = 93 then some (make_token lex TOKEN_RBRACKET, lex)
    else if c = 44 then some (make_token lex TOKEN_COMMA, lex)
    else if c = 58 then some (make_token lex TOKEN_COLON, lex)
    else if c = 59 then some (make_token lex TOKEN_SEMICOLON, lex)
    else if c = 37 then some (make_token lex TOKEN_PERCENT, lex)
    else if c = 43 then some (make_token lex TOKEN_PLUS, lex)
    else if c = 45 then some (one_or_two lex 62 TOKEN_ARROW (some TOKEN_MINUS) "")
    else if c = 42 then some (make_token lex TOKEN_STAR, lex)
    else if c = 47 then some (make_token lex TOKEN_SLASH, lex)
    else if c = 46 then some (one_or_two lex 46 TOKEN_DOT_DOT (some TOKEN_DOT) "")
    else if c = 61 then some (one_or_two lex 61 TOKEN_EQUAL_EQUAL (some TOKEN_ASSIGN) "")
    else if c = 33 then some (one_or_two lex 61 TOKEN_NOT_EQUAL (some TOKEN_BANG) "")
    else if c = 60 then some (one_or_two lex 61 TOKEN_LESS_EQUAL (some TOKEN_LESS) "")
    else if c = 62 then some (one_or_two lex 61 TOKEN_GREATER_EQUAL (some TOKEN_GREATER) "")
    else if c = 38 then some (one_or_two lex 38 TOKEN_AND none "Expected '&&'")
    else if c = 124 then some (one_or_two lex 124 TOKEN_OR none "Expected '||'")
    else if c = 34 then string_token lex
    else some (error_token lex "Unexpected character")

/-- The tokens successive calls of `sky_lexer_next` return, up to and
including the first `TOKEN_EOF`; `none` when a call is undefined or `fuel`
calls do not reach the end. -/
def sky_lexer_tokens : Nat → SkyLexer → Option (List SkyToken)
  | 0, _ => none
  | fuel + 1, lex =>
      match sky_lexer_next lex with
      | none => none
      | some (tok, lex1) =>
          if tok.type = TOKEN_EOF then some [tok]
          else (sky_lexer_tokens fuel lex1).map (fun rest => tok :: rest)

/-- The tokens of a source text: at most one per byte, and `TOKEN_EOF`. -/
def lex_source (source : List Nat) : Option (List SkyToken) :=
  sky_lexer_tokens (source.length + 1) (sky_lexer_init source)

/-- The lexer of `source` with the token start at `start` and the scan at
`current`, on line 1 and without error. -/
def lexer_at (source : List Nat) (start current : Nat) : SkyLexer :=
  { source := source, start := start, current := current, line := 1, had_error := false,
    error_msg := "" }

/-- The type and the lexeme of each token. -/
def token_lexemes (tokens : List SkyToken) : List (SkyTokenType × List Nat) :=
  tokens.map (fun t => (t.type, t.start))

/-! ## Instruction starts and forward jumps -/

/-- The bytes `sky_disassemble_instruction` takes for an instruction with
the opcode byte `op`: the offset it returns less the offset it is given. -/
def instruction_size (op : Nat) : Nat :=
  match SkyOpCode.ofByte op with
  | some OP_CONSTANT => 2
  | some OP_GET_LOCAL => 2
  | some OP_SET_LOCAL => 2
  | some OP_GET_GLOBAL => 2
  | some OP_SET_GLOBAL => 2
  | some OP_GET_FIELD => 2
  | some OP_SET_FIELD => 2
  | some OP_CALL => 2
  | some OP_ARRAY => 2
  | some OP_MAP => 2
  | some OP_INVOKE => 2
  | some OP_CONSTANT_LONG => 4
  | some OP_JUMP => 3
  | some OP_JUMP_IF_FALSE => 3
  | some OP_JUMP_BACK => 3
  | _ => 1

/-- `sky_disassemble_instruction`: the offset it returns, that of the next
instruction; the text it prints is left out. -/
def sky_disassemble_instruction (chunk : SkyChunk) (offset : Nat) : Nat :=
  offset + instruction_size (chunk.code.getD offset 0)

/-- The loop of `sky_disassemble_chunk` from `offset`: the offsets it
passes to `sky_disassemble_instruction`, in at most `fuel` iterations. -/
def disassemble_loop (chunk : SkyChunk) : Nat → Nat → List Nat
  | 0, _ => []
  | fuel + 1, offset =>
      if offset < chunk.code.length then
        offset :: disassemble_loop chunk fuel (sky_disassemble_instruction chunk offset)
      else []

/-- `sky_disassemble_chunk`: the offsets of the instructions it prints.
Every instruction takes a byte at least, so `code_count` iterations reach
the end of the code. -/
def sky_disassemble_chunk (chunk : SkyChunk) : List Nat :=
  disassemble_loop chunk chunk.code.length 0

/-- The target `sky_disassemble_instruction` prints for the `JUMP` or
`JUMP_IF_FALSE` at `offset`: `offset + 3 + target`, the `uint16_t target`
being the big-endian operand. -/
def jump_target (chunk : SkyChunk) (offset : Nat) : Nat :=
  offset + 3 +
    (((chunk.code.getD (offset + 1) 0) <<< 8) ||| (chunk.code.getD (offset + 2) 0)) % 65536

/-- One byte of a left-to-right scan of code: `k` is the number of operand
bytes still to pass; at 0 the byte is an opcode. -/
def scan_step (k b : Nat) : Nat := if k = 0 then instruction_size b - 1 else k - 1

/-- The operand bytes missing at the end of `code` when it is read as a
sequence of instructions from its first byte. -/
def residue (code : List Nat) : Nat := code.foldl scan_step 0

/-- The code is a sequence of whole instructions. -/
def Exact (code : List Nat) : Prop := residue code = 0

/-- Offset `t` of `code` is the start of an instruction, or the end of the
code after a whole instruction. -/
def Boundary (code : List Nat) (t : Nat) : Prop := t ≤ code.length ∧ residue (code.take t) = 0

/-- The target of the forward jump at offset `p` of `code`. -/
def target_at (code : List Nat) (p : Nat) : Nat :=
  p + 3 + (((code.getD (p + 1) 0) <<< 8) ||| (code.getD (p + 2) 0)) % 65536

/-- A sequence of whole instructions in which every `JUMP` and
`JUMP_IF_FALSE` leads to the start of an instruction of the sequence or to
its end. -/
def SegOk (code : List Nat) : Prop :=
  Exact code ∧
  ∀ p, Boundary code p → p < code.length → (code.getD p 0 = 31 ∨ code.getD p 0 = 32) →
    Boundary code (target_at code p)

/-- From `c` to `c1` the compiler has appended a sequence of whole
instructions with well-aimed forward jumps, unless `c1` has flagged an
error. -/
def Ext (c c1 : SkyCompiler) : Prop :=
  c1.had_error = false →
    c.had_error = false ∧ ∃ seg, c1.chunk.code = c.chunk.code ++ seg ∧ SegOk seg

/-! ## Lexemes, strings and lines -/

/-- The test of the loop of `identifier_token`: an alphanumeric character
or an underscore. -/
def is_ident_char (c : Nat) : Bool := isalnum c || c == 95

/-- A string body that the loop of `string_token` passes whole: no byte is
the terminator 0, every backslash is followed by a byte of the body (the
byte it escapes), and every other `"` is escaped. -/
def escaped_body : List Nat → Bool
  | [] => true
  | [b] => b != 92 && b != 34 && b != 0
  | b :: b2 :: rest =>
      if b = 92 then b2 != 0 && escaped_body rest
      else b != 34 && b != 0 && escaped_body (b2 :: rest)

/-- The number of newline characters among the first `n` bytes of the
source. -/
def newlines_before (source : List Nat) (n : Nat) : Nat := (source.take n).count 10

/-- Successive calls of `sky_lexer_next`, up to and including the first
that returns `TOKEN_EOF`: each token with the lexer after the call, whose
`start` is the offset of the first character of the token.  The result is
`none` when a call is undefined or `fuel` calls do not reach the end. -/
def sky_lexer_calls : Nat → SkyLexer → Option (List (SkyToken × SkyLexer))
  | 0, _ => none
  | fuel + 1, lex =>
      match sky_lexer_next lex with
      | none => none
      | some (tok, lex1) =>
          if tok.type = TOKEN_EOF then some [(tok, lex1)]
          else (sky_lexer_calls fuel lex1).map (fun rest => (tok, lex1) :: rest)

/-- The line counter agrees with the newlines passed. -/
def LineOk (lex : SkyLexer) : Prop :=
  lex.line = 1 + (newlines_before lex.source lex.current : Int)

/-- From `a` to `b` the lexer has passed no newline and kept its source,
its line counter and the start of the token. -/
def Keeps (a b : SkyLexer) : Prop :=
  b.source = a.source ∧ b.line = a.line ∧ b.start = a.start ∧ a.current ≤ b.current ∧
    newlines_before a.source b.current = newlines_before a.source a.current

/-- No backslash of the token that ends at `current` is directly followed
by a newline. -/
def NoEscapedNewline (lex : SkyLexer) : Prop :=
  ∀ i, lex.start ≤ i → i + 1 < lex.current →
    ¬ (lex.source.getD i 0 = 92 ∧ lex.source.getD (i + 1) 0 = 10)

/-- What a branch of `sky_lexer_next` returns from the lexer `lexA`, which
stands after the first character of the token: the token carries the line
counter of the lexer returned, and that counter is right when it was right
at `lexA` and no backslash passed since is followed by a newline. -/
def NextOk (lexA : SkyLexer) (r : Option (SkyToken × SkyLexer)) : Prop :=
  ∀ tok lex1, r = some (tok, lex1) →
    tok.line = lex1.line ∧ lex1.source = lexA.source ∧ lex1.start = lexA.start ∧
    lexA.current ≤ lex1.current ∧
    ((∀ i, lexA.current ≤ i → i + 1 < lex1.current →
        ¬ (lexA.source.getD i 0 = 92 ∧ lexA.source.getD (i + 1) 0 = 10)) →
      LineOk lexA → LineOk lex1)

/-! ## parser.h / parser.c -/

/-- `SkyParser`.  The lexer is held by value; the diagnostics `error_at`
prints are left out. -/
structure SkyParser where
  lexer : SkyLexer
  current : SkyToken
  previous : SkyToken
  had_error : Bool
  panic_mode : Bool

/-- `node->line`. -/
def SkyASTNode.line : SkyASTNode → Int
  | .program line _ => line
  | .int_literal line _ => line
  | .float_literal line _ => line
  | .string_literal line _ => line
  | .bool_literal line _ => line
  | .nil_literal line => line
  | .identifier line _ => line
  | .binary line _ _ _ => line
  | .unary line _ _ => line
  | .call line _ _ => line
  | .dot line _ _ => line
  | .index_access line _ _ => line
  | .array_literal line _ => line
  | .map_literal line _ _ => line
  | .assign line _ _ => line
  | .let_ line _ _ _ => line
  | .if_stmt line _ _ _ => line
  | .while_stmt line _ _ => line
  | .for_range line _ _ _ _ => line
  | .for_each line _ _ _ => line
  | .block line _ => line
  | .function line _ _ _ _ _ _ => line
  | .return_stmt line _ => line
  | .print_stmt line _ => line
  | .class_def line _ _ => line
  | .server line _ _ _ => line
  | .route line _ _ _ _ => line
  | .respond line _ _ => line
  | .security line _ => line
  | .security_rule line _ _ => line
  | .import_stmt line _ => line
  | .break_ line => line
  | .continue_ line => line
  | .expr_stmt line _ => line

/-- The C string with the given bytes, one character for each byte. -/
def c_string (bytes : List Nat) : String := ⟨bytes.map Char.ofNat⟩

/-- The decimal digits a byte string begins with. -/
def leading_digits : List Nat → List Nat
  | [] => []
  | b :: rest => if isdigit b then b :: leading_digits rest else []

/-- The number a string of decimal digits denotes. -/
def decimal_value (digits : List Nat) : Nat :=
  digits.foldl (fun acc d => acc * 10 + (d - 48)) 0

/-- `strtoll(s, NULL, 10)` for a string that begins with a digit: the value
of the leading digits, `LLONG_MAX` when it does not fit. -/
def strtoll (s : List Nat) : Int :=
  min (decimal_value (leading_digits s) : Int) (2 ^ 63 - 1)

/-- The cast `(int)strtol(s, NULL, 10)`, `long` having 64 bits. -/
def strtol_int (s : List Nat) : Int :=
  (strtoll s + 2 ^ 31) % 2 ^ 32 - 2 ^ 31

/-- The exponent part `strtod` reads after the digits: `e` or `E`, an
optional sign and at least one digit; 0 without such a part. -/
def strtod_exponent : List Nat → Int
  | [] => 0
  | c :: t =>
      if c = 101 ∨ c = 69 then
        match t with
        | 45 :: u => -(decimal_value (leading_digits u) : Int)
        | 43 :: u => (decimal_value (leading_digits u) : Int)
        | _ => (decimal_value (leading_digits t) : Int)
      else 0

/-- The double nearest to the rational `num / den` (a half goes to the even
significand): the value of a correctly rounding `strtod`.  Beyond the
largest double the result is infinity. -/
def nearest_double (num den : Nat) : Float :=
  if num = 0 then 0
  else
    let k : Int := max (binary_exponent num den - 52) (-1074)
    let m :=
      if 0 ≤ k then round_half_even num (den * 2 ^ k.toNat)
      else round_half_even (num * 2 ^ (-k).toNat) den
    Float.scaleB (Float.ofNat m) k

/-- `HUGE_VAL`, positive infinity. -/
def HUGE_VAL : Float := 1 / 0

/-- `strtod(s, NULL)` for a string that begins with a digit: decimal
digits, an optional fraction and an optional exponent, converted to the
nearest double; `HUGE_VAL` when the value is beyond the range (as every
value of `10 ^ 400` or more is), 0 for a value below `10 ^ (-400)`. -/
def strtod (s : List Nat) : Float :=
  let int_part := leading_digits s
  let rest := s.drop int_part.length
  let frac_part := match rest with
    | 46 :: t => leading_digits t
    | _ => []
  let rest2 := match rest with
    | 46 :: t => t.drop (leading_digits t).length
    | _ => rest
  let e : Int := strtod_exponent rest2 - frac_part.length
  let m := decimal_value (int_part ++ frac_part)
  let magnitude : Int := (Nat.repr m).length + e
  if m = 0 then 0
  else if 400 < magnitude then HUGE_VAL
  else if magnitude < -400 then 0
  else if 0 ≤ e then nearest_double (m * 10 ^ e.toNat) 1
  else nearest_double m (10 ^ (-e).toNat)

/-- What `p->current.start` points at when the current token is a lexeme
of the source: the bytes of the source from the first byte of the token
on. -/
def token_tail (p : SkyParser) : List Nat := p.lexer.source.drop p.lexer.start

/-- `advance`; `none` when the call of `sky_lexer_next` is undefined. -/
def advance (p : SkyParser) : Option SkyParser :=
  match sky_lexer_next p.lexer with
  | none => none
  | some (tok, lex) => some { p with previous := p.current, current := tok, lexer := lex }

/-- `check`. -/
def check (p : SkyParser) (type : SkyTokenType) : Bool := p.current.type == type

/-- The chain `match(p, t1) || match(p, t2) || ...` over the listed token
types: the first type the current token has is consumed. -/
def match_any (p : SkyParser) : List SkyTokenType → Option (Bool × SkyParser)
  | [] => some (false, p)
  | type :: rest =>
      if check p type then (advance p).map (fun p1 => (true, p1))
      else match_any p rest

/-- `error_at`, without the diagnostic. -/
def error_at (p : SkyParser) : SkyParser :=
  if p.panic_mode then p else { p with panic_mode := true, had_error := true }

/-- `consume`; the message goes to the diagnostic only. -/
def consume (p : SkyParser) (type : SkyTokenType) : Option SkyParser :=
  if check p type then advance p else some (error_at p)

/-- `copy_token_text`. -/
def copy_token_text (tok : SkyToken) : String := c_string (tok.start.take tok.length)

/-- The parameter loop of `parse_function`, entered when the current token
is not `)`: the names and the optional type names. -/
def parse_parameters :
    Nat → List String → List (Option String) → SkyParser →
      Option (List String × List (Option String) × SkyParser)
  | 0, _, _, _ => none
  | fuel + 1, names, types, p =>
      match consume p TOKEN_IDENTIFIER with
      | none => none
      | some p1 =>
          let pname := copy_token_text p1.previous
          let typed :=
            if check p1 TOKEN_IDENTIFIER then
              (advance p1).map (fun p2 => (some (copy_token_text p2.previous), p2))
            else some (none, p1)
          match typed with
          | none => none
          | some (ptype, p2) =>
              if check p2 TOKEN_COMMA then
                match advance p2 with
                | none => none
                | some p3 => parse_parameters fuel (names ++ [pname]) (types ++ [ptype]) p3
              else some (names ++ [pname], types ++ [ptype], p2)

/-- The loop of `sky_parser_parse` that leaves panic mode: tokens are
skipped up to the next statement starter or the end. -/
def synchronize : Nat → SkyParser → Option SkyParser
  | 0, _ => none
  | fuel + 1, p =>
      if ¬ check p TOKEN_EOF ∧ ¬ check p TOKEN_LET ∧ ¬ check p TOKEN_FN ∧
          ¬ check p TOKEN_CLASS ∧ ¬ check p TOKEN_IF ∧ ¬ check p TOKEN_FOR ∧
          ¬ check p TOKEN_WHILE ∧ ¬ check p TOKEN_RETURN ∧ ¬ check p TOKEN_IMPORT ∧
          ¬ check p TOKEN_SERVER then
        match advance p with
        | none => none
        | some p1 => synchronize fuel p1
      else some p

/-- `parse_import`. -/
def parse_import (p : SkyParser) : Option (SkyASTNode × SkyParser) :=
  let line := p.previous.line
  (consume p TOKEN_IDENTIFIER).map (fun p1 =>
    (.import_stmt line (copy_token_text p1.previous), p1))

mutual
/-- `parse_primary`.  Every parsing function takes the number of nested
calls it may still make and returns `none` when they do not suffice or a
token is undefined. -/
def parse_primary : Nat → SkyParser → Option (SkyASTNode × SkyParser)
  | 0, _ => none
  | fuel + 1, p =>
      if check p TOKEN_INT_LITERAL then
        (advance p).map (fun p1 => (.int_literal p1.previous.line (strtoll (token_tail p)), p1))
      else if check p TOKEN_FLOAT_LITERAL then
        (advance p).map (fun p1 => (.float_literal p1.previous.line (strtod (token_tail p)), p1))
      else if check p TOKEN_STRING_LITERAL then
        (advance p).map (fun p1 =>
          (.string_literal p1.previous.line (copy_token_text p1.previous), p1))
      else if check p TOKEN_TRUE then
        (advance p).map (fun p1 => (.bool_literal p1.previous.line true, p1))
      else if check p TOKEN_FALSE then
        (advance p).map (fun p1 => (.bool_literal p1.previous.line false, p1))
      else if check p TOKEN_NIL then
        (advance p).map (fun p1 => (.nil_literal p1.previous.line, p1))
      else if check p TOKEN_IDENTIFIER then
        (advance p).map (fun p1 =>
          (.identifier p1.previous.line (copy_token_text p1.previous), p1))
      else if check p TOKEN_LPAREN then
        match advance p with
        | none => none
        | some p1 =>
            match parse_expression fuel p1 with
            | none => none
            | some (expr, p2) => (consume p2 TOKEN_RPAREN).map (fun p3 => (expr, p3))
      else if check p TOKEN_LBRACKET then
        match advance p with
        | none => none
        | some p1 =>
            let line := p1.previous.line
            let parsed :=
              if ¬ check p1 TOKEN_RBRACKET then parse_expressions fuel [] p1
              else some ([], p1)
            match parsed with
            | none => none
            | some (elements, p2) =>
                (consume p2 TOKEN_RBRACKET).map (fun p3 => (.array_literal line elements, p3))
      else
        (advance (error_at p)).map (fun p2 => (.nil_literal p2.current.line, p2))
/-- The loop `do { ... = parse_expression(p); } while (match(p, TOKEN_COMMA))`
of an array literal and of the arguments of a call. -/
def parse_expressions :
    Nat → List SkyASTNode → SkyParser → Option (List SkyASTNode × SkyParser)
  | 0, _, _ => none
  | fuel + 1, acc, p =>
      match parse_expression fuel p with
      | none => none
      | some (expr, p1) =>
          if check p1 TOKEN_COMMA then
            match advance p1 with
            | none => none
            | some p2 => parse_expressions fuel (acc ++ [expr]) p2
          else some (acc ++ [expr], p1)
/-- `parse_call`. -/
def parse_call : Nat → SkyParser → Option (SkyASTNode × SkyParser)
  | 0, _ => none
  | fuel + 1, p =>
      match parse_primary fuel p with
      | none => none
      | some (expr, p1) => parse_call_loop fuel expr p1
/-- The loop of `parse_call` over the postfix chain. -/
def parse_call_loop : Nat → SkyASTNode → SkyParser → Option (SkyASTNode × SkyParser)
  | 0, _, _ => none
  | fuel + 1, expr, p =>
      if check p TOKEN_LPAREN then
        match advance p with
        | none => none
        | some p1 =>
            let line := p1.previous.line
            let parsed :=
              if ¬ check p1 TOKEN_RPAREN then parse_expressions fuel [] p1
              else some ([], p1)
            match parsed with
            | none => none
            | some (args, p2) =>
                match consume p2 TOKEN_RPAREN with
                | none => none
                | some p3 => parse_call_loop fuel (.call line expr args) p3
      else if check p TOKEN_DOT then
        match advance p with
        | none => none
        | some p1 =>
            match consume p1 TOKEN_IDENTIFIER with
            | none => none
            | some p2 =>
                parse_call_loop fuel
                  (.dot p2.previous.line expr (copy_token_text p2.previous)) p2
      else if check p TOKEN_LBRACKET then
        match advance p with
        | none => none
        | some p1 =>
            let line := p1.previous.line
            match parse_expression fuel p1 with
            | none => none
            | some (index, p2) =>
                match consume p2 TOKEN_RBRACKET with
                | none => none
                | some p3 => parse_call_loop fuel (.index_access line expr index) p3
      else some (expr, p)
/-- `parse_unary`. -/
def parse_unary : Nat → SkyParser → Option (SkyASTNode × SkyParser)
  | 0, _ => none
  | fuel + 1, p =>
      match match_any p [TOKEN_MINUS, TOKEN_NOT] with
      | none => none
      | some (true, p1) =>
          let op := p1.previous.type
          let line := p1.previous.line
          match parse_unary fuel p1 with
          | none => none
          | some (operand, p2) => some (.unary line op operand, p2)
      | some (false, _) => parse_call fuel p
/-- `parse_factor`. -/
def parse_factor : Nat → SkyParser → Option (SkyASTNode × SkyParser)
  | 0, _ => none
  | fuel + 1, p =>
      match parse_unary fuel p with
      | none => none
      | some (left, p1) => parse_factor_loop fuel left p1
/-- The loop of `parse_factor`. -/
def parse_factor_loop : Nat → SkyASTNode → SkyParser → Option (SkyASTNode × SkyParser)
  | 0, _, _ => none
  | fuel + 1, left, p =>
      match match_any p [TOKEN_STAR, TOKEN_SLASH, TOKEN_PERCENT] with
      | none => none
      | some (true, p1) =>
          let op := p1.previous.type
          let line := p1.previous.line
          match parse_unary fuel p1 with
          | none => none
          | some (right, p2) => parse_factor_loop fuel (.binary line op left right) p2
      | some (false, _) => some (left, p)
/-- `parse_term`. -/
def parse_term : Nat → SkyParser → Option (SkyASTNode × SkyParser)
  | 0, _ => none
  | fuel + 1, p =>
      match parse_factor fuel p with
      | none => none
      | some (left, p1) => parse_term_loop fuel left p1
/-- The loop of `parse_term`. -/
def parse_term_loop : Nat → SkyASTNode → SkyParser → Option (SkyASTNode × SkyParser)
  | 0, _, _ => none
  | fuel + 1, left, p =>
      match match_any p [TOKEN_PLUS, TOKEN_MINUS] with
      | none => none
      | some (true, p1) =>
          let op := p1.previous.type
          let line := p1.previous.line
          match parse_factor fuel p1 with
          | none => none
          | some (right, p2) => parse_term_loop fuel (.binary line op left right) p2
      | some (false, _) => some (left, p)
/-- `parse_comparison`. -/
def parse_comparison : Nat → SkyParser → Option (SkyASTNode × SkyParser)
  | 0, _ => none
  | fuel + 1, p =>
      match parse_term fuel p with
      | none => none
      | some (left, p1) => parse_comparison_loop fuel left p1
/-- The loop of `parse_comparison`. -/
def parse_comparison_loop : Nat → SkyASTNode → SkyParser → Option (SkyASTNode × SkyParser)
  | 0, _, _ => none
  | fuel + 1, left, p =>
      match match_any p
          [TOKEN_LESS, TOKEN_LESS_EQUAL, TOKEN_GREATER, TOKEN_GREATER_EQUAL] with
      | none => none
      | some (true, p1) =>
          let op := p1.previous.type
          let line := p1.previous.line
          match parse_term fuel p1 with
          | none => none
          | some (right, p2) => parse_comparison_loop fuel (.binary line op left right) p2
      | some (false, _) => some (left, p)
/-- `parse_equality`. -/
def parse_equality : Nat → SkyParser → Option (SkyASTNode × SkyParser)
  | 0, _ => none
  | fuel + 1, p =>
      match parse_comparison fuel p with
      | none => none
      | some (left, p1) => parse_equality_loop fuel left p1
/-- The loop of `parse_equality`. -/
def parse_equality_loop : Nat → SkyASTNode → SkyParser → Option (SkyASTNode × SkyParser)
  | 0, _, _ => none
  | fuel + 1, left, p =>
      match match_any p [TOKEN_EQUAL_EQUAL, TOKEN_NOT_EQUAL] with
      | none => none
      | some (true, p1) =>
          let op := p1.previous.type
          let line := p1.previous.line
          match parse_comparison fuel p1 with
          | none => none
          | some (right, p2) => parse_equality_loop fuel (.binary line op left right) p2
      | some (false, _) => some (left, p)
/-- `parse_logic_and`. -/
def parse_logic_and : Nat → SkyParser → Option (SkyASTNode × SkyParser)
  | 0, _ => none
  | fuel + 1, p =>
      match parse_equality fuel p with
      | none => none
      | some (left, p1) => parse_logic_and_loop fuel left p1
/-- The loop of `parse_logic_and`. -/
def parse_logic_and_loop : Nat → SkyASTNode → SkyParser → Option (SkyASTNode × SkyParser)
  | 0, _, _ => none
  | fuel + 1, left, p =>
      match match_any p [TOKEN_AND] with
      | none => none
      | some (true, p1) =>
          let line := p1.previous.line
          match parse_equality fuel p1 with
          | none => none
          | some (right, p2) =>
              parse_logic_and_loop fuel (.binary line TOKEN_AND left right) p2
      | some (false, _) => some (left, p)
/-- `parse_logic_or`. -/
def parse_logic_or : Nat → SkyParser → Option (SkyASTNode × SkyParser)
  | 0, _ => none
  | fuel + 1, p =>
      match parse_logic_and fuel p with
      | none => none
      | some (left, p1) => parse_logic_or_loop fuel left p1
/-- The loop of `parse_logic_or`. -/
def parse_logic_or_loop : Nat → SkyASTNode → SkyParser → Option (SkyASTNode × SkyParser)
  | 0, _, _ => none
  | fuel + 1, left, p =>
      match match_any p [TOKEN_OR] with
      | none => none
      | some (true, p1) =>
          let line := p1.previous.line
          match parse_logic_and fuel p1 with
          | none => none
          | some (right, p2) =>
              parse_logic_or_loop fuel (.binary line TOKEN_OR left right) p2
      | some (false, _) => some (left, p)
/-- `parse_assignment`. -/
def parse_assignment : Nat → SkyParser → Option (SkyASTNode × SkyParser)
  | 0, _ => none
  | fuel + 1, p =>
      match parse_logic_or fuel p with
      | none => none
      | some (left, p1) =>
          if check p1 TOKEN_ASSIGN then
            match advance p1 with
            | none => none
            | some p2 =>
                let line := p2.previous.line
                match parse_assignment fuel p2 with
                | none => none
                | some (value, p3) => some (.assign line left value, p3)
          else some (left, p1)
/-- `parse_expression`. -/
def parse_expression : Nat → SkyParser → Option (SkyASTNode × SkyParser)
  | 0, _ => none
  | fuel + 1, p => parse_assignment fuel p
/-- `parse_block`. -/
def parse_block : Nat → SkyParser → Option (SkyASTNode × SkyParser)
  | 0, _ => none
  | fuel + 1, p =>
      let line := p.current.line
      match consume p TOKEN_LBRACE with
      | none => none
      | some p1 =>
          match parse_block_loop fuel [] p1 with
          | none => none
          | some (statements, p2) =>
              (consume p2 TOKEN_RBRACE).map (fun p3 => (.block line statements, p3))
/-- The loop of `parse_block` over the statements. -/
def parse_block_loop :
    Nat → List SkyASTNode → SkyParser → Option (List SkyASTNode × SkyParser)
  | 0, _, _ => none
  | fuel + 1, acc, p =>
      if ¬ check p TOKEN_RBRACE ∧ ¬ check p TOKEN_EOF then
        match parse_statement fuel p with
        | none => none
        | some (stmt, p1) => parse_block_loop fuel (acc ++ [stmt]) p1
      else some (acc, p)
/-- `parse_let`. -/
def parse_let : Nat → SkyParser → Option (SkyASTNode × SkyParser)
  | 0, _ => none
  | fuel + 1, p =>
      let line := p.previous.line
      match consume p TOKEN_IDENTIFIER with
      | none => none
      | some p1 =>
          let name := copy_token_text p1.previous
          if check p1 TOKEN_ASSIGN then
            match advance p1 with
            | none => none
            | some p2 =>
                match parse_expression fuel p2 with
                | none => none
                | some (initializer, p3) => some (.let_ line name none (some initializer), p3)
          else some (.let_ line name none none, p1)
/-- `parse_if`. -/
def parse_if : Nat → SkyParser → Option (SkyASTNode × SkyParser)
  | 0, _ => none
  | fuel + 1, p =>
      let line := p.previous.line
      match parse_expression fuel p with
      | none => none
      | some (condition, p1) =>
          match parse_block fuel p1 with
          | none => none
          | some (then_branch, p2) =>
              if check p2 TOKEN_ELSE then
                match advance p2 with
                | none => none
                | some p3 =>
                    if check p3 TOKEN_IF then
                      match advance p3 with
                      | none => none
                      | some p4 =>
                          match parse_if fuel p4 with
                          | none => none
                          | some (else_branch, p5) =>
                              some (.if_stmt line condition then_branch (some else_branch), p5)
                    else
                      match parse_block fuel p3 with
                      | none => none
                      | some (else_branch, p5) =>
                          some (.if_stmt line condition then_branch (some else_branch), p5)
              else some (.if_stmt line condition then_branch none, p2)
/-- `parse_while`. -/
def parse_while : Nat → SkyParser → Option (SkyASTNode × SkyParser)
  | 0, _ => none
  | fuel + 1, p =>
      let line := p.previous.line
      match parse_expression fuel p with
      | none => none
      | some (condition, p1) =>
          match parse_block fuel p1 with
          | none => none
          | some (body, p2) => some (.while_stmt line condition body, p2)
/-- `parse_for`. -/
def parse_for : Nat → SkyParser → Option (SkyASTNode × SkyParser)
  | 0, _ => none
  | fuel + 1, p =>
      let line := p.previous.line
      match consume p TOKEN_IDENTIFIER with
      | none => none
      | some p1 =>
          let var_name := copy_token_text p1.previous
          match consume p1 TOKEN_IN with
          | none => none
          | some p2 =>
              match parse_expression fuel p2 with
              | none => none
              | some (iter, p3) =>
                  if check p3 TOKEN_DOT_DOT then
                    match advance p3 with
                    | none => none
                    | some p4 =>
                        match parse_expression fuel p4 with
                        | none => none
                        | some (end_, p5) =>
                            match parse_block fuel p5 with
                            | none => none
                            | some (body, p6) =>
                                some (.for_range line var_name (some iter) end_ body, p6)
                  else
                    match parse_block fuel p3 with
                    | none => none
                    | some (body, p6) => some (.for_each line var_name iter body, p6)
/-- `parse_function`. -/
def parse_function : Nat → SkyParser → Option (SkyASTNode × SkyParser)
  | 0, _ => none
  | fuel + 1, p =>
      let line := p.previous.line
      match consume p TOKEN_IDENTIFIER with
      | none => none
      | some p1 =>
          let name := copy_token_text p1.previous
          match consume p1 TOKEN_LPAREN with
          | none => none
          | some p2 =>
              let parsed :=
                if ¬ check p2 TOKEN_RPAREN then parse_parameters fuel [] [] p2
                else some ([], [], p2)
              match parsed with
              | none => none
              | some (param_names, param_types, p3) =>
                  match consume p3 TOKEN_RPAREN with
                  | none => none
                  | some p4 =>
                      let typed :=
                        if check p4 TOKEN_IDENTIFIER then
                          (advance p4).map (fun p5 => (some (copy_token_text p5.previous), p5))
                        else some (none, p4)
                      match typed with
                      | none => none
                      | some (return_type, p5) =>
                          match parse_block fuel p5 with
                          | none => none
                          | some (body, p6) =>
                              some (.function line name param_names param_types return_type
                                body false, p6)
/-- `parse_return`. -/
def parse_return : Nat → SkyParser → Option (SkyASTNode × SkyParser)
  | 0, _ => none
  | fuel + 1, p =>
      let line := p.previous.line
      if ¬ check p TOKEN_RBRACE ∧ ¬ check p TOKEN_EOF then
        match parse_expression fuel p with
        | none => none
        | some (value, p1) => some (.return_stmt line (some value), p1)
      else some (.return_stmt line none, p)
/-- `parse_class`. -/
def parse_class : Nat → SkyParser → Option (SkyASTNode × SkyParser)
  | 0, _ => none
  | fuel + 1, p =>
      let line := p.previous.line
      match consume p TOKEN_IDENTIFIER with
      | none => none
      | some p1 =>
          let name := copy_token_text p1.previous
          match consume p1 TOKEN_LBRACE with
          | none => none
          | some p2 =>
              match parse_class_loop fuel [] p2 with
              | none => none
              | some (members, p3) =>
                  (consume p3 TOKEN_RBRACE).map (fun p4 => (.class_def line name members, p4))
/-- The loop of `parse_class` over the members. -/
def parse_class_loop :
    Nat → List SkyASTNode → SkyParser → Option (List SkyASTNode × SkyParser)
  | 0, _, _ => none
  | fuel + 1, members, p =>
      if ¬ check p TOKEN_RBRACE ∧ ¬ check p TOKEN_EOF then
        if check p TOKEN_FN then
          match advance p with
          | none => none
          | some p1 =>
              match parse_function fuel p1 with
              | none => none
              | some (fn, p2) => parse_class_loop fuel (members ++ [fn]) p2
        else if check p TOKEN_IDENTIFIER then
          match advance p with
          | none => none
          | some p1 =>
              if check p1 TOKEN_IDENTIFIER then
                match advance p1 with
                | none => none
                | some p2 => parse_class_loop fuel members p2
              else parse_class_loop fuel members p1
        else
          match advance p with
          | none => none
          | some p1 => parse_class_loop fuel members p1
      else some (members, p)
/-- `parse_server`. -/
def parse_server : Nat → SkyParser → Option (SkyASTNode × SkyParser)
  | 0, _ => none
  | fuel + 1, p =>
      let line := p.previous.line
      match consume p TOKEN_IDENTIFIER with
      | none => none
      | some p1 =>
          let name := copy_token_text p1.previous
          let ported :=
            if check p1 TOKEN_ON then
              match advance p1 with
              | none => none
              | some p2 =>
                  if check p2 TOKEN_INT_LITERAL then
                    (advance p2).map (fun p3 => (strtol_int (token_tail p2), p3))
                  else some (8080, p2)
            else some (8080, p1)
          match ported with
          | none => none
          | some (port, p3) =>
              match consume p3 TOKEN_LBRACE with
              | none => none
              | some p4 =>
                  match parse_server_loop fuel [] p4 with
                  | none => none
                  | some (routes, p5) =>
                      (consume p5 TOKEN_RBRACE).map (fun p6 =>
                        (.server line name port routes, p6))
/-- The loop of `parse_server` over the routes. -/
def parse_server_loop :
    Nat → List SkyASTNode → SkyParser → Option (List SkyASTNode × SkyParser)
  | 0, _, _ => none
  | fuel + 1, routes, p =>
      if ¬ check p TOKEN_RBRACE ∧ ¬ check p TOKEN_EOF then
        if check p TOKEN_ROUTE then
          match advance p with
          | none => none
          | some p1 =>
              match consume p1 TOKEN_IDENTIFIER with
              | none => none
              | some p2 =>
                  let line := p2.previous.line
                  let method := copy_token_text p2.previous
                  match consume p2 TOKEN_STRING_LITERAL with
                  | none => none
                  | some p3 =>
                      let path := copy_token_text p3.previous
                      let bracketed :=
                        if check p3 TOKEN_LBRACKET then
                          match advance p3 with
                          | none => none
                          | some p4 =>
                              match consume p4 TOKEN_IDENTIFIER with
                              | none => none
                              | some p5 =>
                                  (consume p5 TOKEN_RBRACKET).map (fun p6 =>
                                    ([copy_token_text p5.previous], p6))
                        else some ([], p3)
                      match bracketed with
                      | none => none
                      | some (middleware, p6) =>
                          match parse_block fuel p6 with
                          | none => none
                          | some (body, p7) =>
                              parse_server_loop fuel
                                (routes ++ [.route line method path body middleware]) p7
        else
          match advance p with
          | none => none
          | some p1 => parse_server_loop fuel routes p1
      else some (routes, p)
/-- `parse_statement`. -/
def parse_statement : Nat → SkyParser → Option (SkyASTNode × SkyParser)
  | 0, _ => none
  | fuel + 1, p =>
      if check p TOKEN_LET then (advance p).bind (parse_let fuel)
      else if check p TOKEN_IF then (advance p).bind (parse_if fuel)
      else if check p TOKEN_WHILE then (advance p).bind (parse_while fuel)
      else if check p TOKEN_FOR then (advance p).bind (parse_for fuel)
      else if check p TOKEN_FN then (advance p).bind (parse_function fuel)
      else if check p TOKEN_RETURN then (advance p).bind (parse_return fuel)
      else if check p TOKEN_IMPORT then (advance p).bind parse_import
      else if check p TOKEN_CLASS then (advance p).bind (parse_class fuel)
      else if check p TOKEN_SERVER then (advance p).bind (parse_server fuel)
      else if check p TOKEN_PRINT then
        match advance p with
        | none => none
        | some p1 =>
            let line := p1.previous.line
            match consume p1 TOKEN_LPAREN with
            | none => none
            | some p2 =>
                match parse_expression fuel p2 with
                | none => none
                | some (value, p3) =>
                    (consume p3 TOKEN_RPAREN).map (fun p4 => (.print_stmt line value, p4))
      else if check p TOKEN_RESPOND then
        match advance p with
        | none => none
        | some p1 =>
            let line := p1.previous.line
            match parse_expression fuel p1 with
            | none => none
            | some (status, p2) =>
                match parse_expression fuel p2 with
                | none => none
                | some (body, p3) => some (.respond line status body, p3)
      else
        match parse_expression fuel p with
        | none => none
        | some (expr, p1) => some (.expr_stmt expr.line expr, p1)
end

/-- The content of the token fields `sky_parser_init` leaves unset;
no parsing function reads them before `advance` has set them. -/
def token_unset : SkyToken := ⟨TOKEN_EOF, [], 0, 0, []⟩

/-- `sky_parser_init`. -/
def sky_parser_init (lexer : SkyLexer) : Option SkyParser :=
  advance ⟨lexer, token_unset, token_unset, false, false⟩

/-- The loop of `sky_parser_parse` over the statements of the program. -/
def parse_program_loop :
    Nat → List SkyASTNode → SkyParser → Option (List SkyASTNode × SkyParser)
  | 0, _, _ => none
  | fuel + 1, acc, p =>
      if ¬ check p TOKEN_EOF then
        match parse_statement fuel p with
        | none => none
        | some (stmt, p1) =>
            if p1.panic_mode then
              match synchronize fuel { p1 with panic_mode := false } with
              | none => none
              | some p2 => parse_program_loop fuel (acc ++ [stmt]) p2
            else parse_program_loop fuel (acc ++ [stmt]) p1
      else some (acc, p)

/-- `sky_parser_parse`: the tree returned (`none` for NULL) and the parser
afterwards. -/
def sky_parser_parse (fuel : Nat) (p : SkyParser) : Option (Option SkyASTNode × SkyParser) :=
  match parse_program_loop fuel [] p with
  | none => none
  | some (statements, p1) =>
      some (if p1.had_error then none else some (.program 1 statements), p1)

/-- The front end of `run_file` and `check_file` on a source text:
`sky_lexer_init`, `sky_parser_init`, `sky_parser_parse`. -/
def parse_source (fuel : Nat) (source : List Nat) : Option (Option SkyASTNode × SkyParser) :=
  match sky_parser_init (sky_lexer_init source) with
  | none => none
  | some p => sky_parser_parse fuel p

mutual
/-- A decision procedure for the equality of two trees: `true` only when
the trees are equal.  Float literals are never reported equal (equality of
`double` values is not decided here). -/
def SkyASTNode.same : SkyASTNode → SkyASTNode → Bool
  | .program l1 s1, b =>
      match b with
      | .program l2 s2 => l1 == l2 && same_nodes s1 s2
      | _ => false
  | .int_literal l1 v1, b =>
      match b with
      | .int_literal l2 v2 => l1 == l2 && v1 == v2
      | _ => false
  | .float_literal _ _, _ => false
  | .string_literal l1 v1, b =>
      match b with
      | .string_literal l2 v2 => l1 == l2 && v1 == v2
      | _ => false
  | .bool_literal l1 v1, b =>
      match b with
      | .bool_literal l2 v2 => l1 == l2 && v1 == v2
      | _ => false
  | .nil_literal l1, b =>
      match b with
      | .nil_literal l2 => l1 == l2
      | _ => false
  | .identifier l1 n1, b =>
      match b with
      | .identifier l2 n2 => l1 == l2 && n1 == n2
      | _ => false
  | .binary l1 o1 x1 y1, b =>
      match b with
      | .binary l2 o2 x2 y2 => l1 == l2 && o1 == o2 && x1.same x2 && y1.same y2
      | _ => false
  | .unary l1 o1 x1, b =>
      match b with
      | .unary l2 o2 x2 => l1 == l2 && o1 == o2 && x1.same x2
      | _ => false
  | .call l1 c1 a1, b =>
      match b with
      | .call l2 c2 a2 => l1 == l2 && c1.same c2 && same_nodes a1 a2
      | _ => false
  | .dot l1 o1 f1, b =>
      match b with
      | .dot l2 o2 f2 => l1 == l2 && o1.same o2 && f1 == f2
      | _ => false
  | .index_access l1 o1 i1, b =>
      match b with
      | .index_access l2 o2 i2 => l1 == l2 && o1.same o2 && i1.same i2
      | _ => false
  | .array_literal l1 e1, b =>
      match b with
      | .array_literal l2 e2 => l1 == l2 && same_nodes e1 e2
      | _ => false
  | .map_literal l1 k1 v1, b =>
      match b with
      | .map_literal l2 k2 v2 => l1 == l2 && same_nodes k1 k2 && same_nodes v1 v2
      | _ => false
  | .assign l1 t1 v1, b =>
      match b with
      | .assign l2 t2 v2 => l1 == l2 && t1.same t2 && v1.same v2
      | _ => false
  | .let_ l1 n1 t1 i1, b =>
      match b with
      | .let_ l2 n2 t2 i2 =>
          l1 == l2 && n1 == n2 && t1 == t2 &&
            same_opt i1 i2
      | _ => false
  | .if_stmt l1 c1 t1 e1, b =>
      match b with
      | .if_stmt l2 c2 t2 e2 =>
          l1 == l2 && c1.same c2 && t1.same t2 &&
            same_opt e1 e2
      | _ => false
  | .while_stmt l1 c1 b1, b =>
      match b with
      | .while_stmt l2 c2 b2 => l1 == l2 && c1.same c2 && b1.same b2
      | _ => false
  | .for_range l1 v1 s1 e1 b1, b =>
      match b with
      | .for_range l2 v2 s2 e2 b2 =>
          l1 == l2 && v1 == v2 &&
            same_opt s1 s2 && e1.same e2 && b1.same b2
      | _ => false
  | .for_each l1 v1 i1 b1, b =>
      match b with
      | .for_each l2 v2 i2 b2 => l1 == l2 && v1 == v2 && i1.same i2 && b1.same b2
      | _ => false
  | .block l1 s1, b =>
      match b with
      | .block l2 s2 => l1 == l2 && same_nodes s1 s2
      | _ => false
  | .function l1 n1 p1 t1 r1 b1 a1, b =>
      match b with
      | .function l2 n2 p2 t2 r2 b2 a2 =>
          l1 == l2 && n1 == n2 && p1 == p2 && t1 == t2 && r1 == r2 && b1.same b2 && a1 == a2
      | _ => false
  | .return_stmt l1 v1, b =>
      match b with
      | .return_stmt l2 v2 =>
          l1 == l2 &&
            same_opt v1 v2
      | _ => false
  | .print_stmt l1 v1, b =>
      match b with
      | .print_stmt l2 v2 => l1 == l2 && v1.same v2
      | _ => false
  | .class_def l1 n1 m1, b =>
      match b with
      | .class_def l2 n2 m2 => l1 == l2 && n1 == n2 && same_nodes m1 m2
      | _ => false
  | .server l1 n1 p1 r1, b =>
      match b with
      | .server l2 n2 p2 r2 => l1 == l2 && n1 == n2 && p1 == p2 && same_nodes r1 r2
      | _ => false
  | .route l1 m1 p1 b1 w1, b =>
      match b with
      | .route l2 m2 p2 b2 w2 => l1 == l2 && m1 == m2 && p1 == p2 && b1.same b2 && w1 == w2
      | _ => false
  | .respond l1 s1 b1, b =>
      match b with
      | .respond l2 s2 b2 => l1 == l2 && s1.same s2 && b1.same b2
      | _ => false
  | .security l1 r1, b =>
      match b with
      | .security l2 r2 => l1 == l2 && same_nodes r1 r2
      | _ => false
  | .security_rule l1 e1 a1, b =>
      match b with
      | .security_rule l2 e2 a2 => l1 == l2 && e1 == e2 && same_nodes a1 a2
      | _ => false
  | .import_stmt l1 m1, b =>
      match b with
      | .import_stmt l2 m2 => l1 == l2 && m1 == m2
      | _ => false
  | .break_ l1, b =>
      match b with
      | .break_ l2 => l1 == l2
      | _ => false
  | .continue_ l1, b =>
      match b with
      | .continue_ l2 => l1 == l2
      | _ => false
  | .expr_stmt l1 e1, b =>
      match b with
      | .expr_stmt l2 e2 => l1 == l2 && e1.same e2
      | _ => false
/-- `SkyASTNode.same` over two optional trees. -/
def same_opt : Option SkyASTNode → Option SkyASTNode → Bool
  | some a, some b => a.same b
  | none, none => true
  | _, _ => false
/-- `SkyASTNode.same` over two lists of trees. -/
def same_nodes : List SkyASTNode → List SkyASTNode → Bool
  | [], [] => true
  | a :: as, b :: bs => a.same b && same_nodes as bs
  | _, _ => false
end

/-- The tree `sky_parser_parse` returns for a source text (`none` for
NULL), the error flag of the parser and the error flag of the lexer. -/
def parse_outcome (fuel : Nat) (source : List Nat) : Option (Option SkyASTNode × Bool × Bool) :=
  (parse_source fuel source).map (fun r => (r.1, r.2.had_error, r.2.lexer.had_error))

/-- A decision procedure for the equality of two outcomes of
`parse_outcome`, over `SkyASTNode.same`. -/
def same_outcome : Option (Option SkyASTNode × Bool × Bool) →
    Option (Option SkyASTNode × Bool × Bool) → Bool
  | some (t1, e1), some (t2, e2) => same_opt t1 t2 && e1 == e2
  | none, none => true
  | _, _ => false

/-- The code and the error flag of `sky_compiler_compile` on the tree of a
source text, when the parser returns one. -/
def compile_source (fuel : Nat) (source : List Nat) : Option (List Nat × Bool) :=
  match parse_source fuel source with
  | some (some ast, _) =>
      some ((sky_compiler_compile (sky_compiler_init sky_chunk_init) ast).chunk.code,
        (sky_compiler_compile (sky_compiler_init sky_chunk_init) ast).had_error)
  | _ => none

/-! ## Levels of the expression grammar -/

/-- The parsing function `f` returns `r` from the state `p` whenever it may
make at least some number of nested calls. -/
def Parses (f : Nat → SkyParser → Option (SkyASTNode × SkyParser)) (p : SkyParser)
    (r : SkyASTNode × SkyParser) : Prop :=
  ∃ n, ∀ fuel, n ≤ fuel → f fuel p = some r

/-- The level of a binary operator in the expression grammar of the
specification, tightest first: multiplicative 1, additive 2, relational 3,
equality 4, `and` 5, `or` 6; `0` for every other token. -/
def binary_level : SkyTokenType → Nat
  | TOKEN_STAR => 1
  | TOKEN_SLASH => 1
  | TOKEN_PERCENT => 1
  | TOKEN_PLUS => 2
  | TOKEN_MINUS => 2
  | TOKEN_LESS => 3
  | TOKEN_LESS_EQUAL => 3
  | TOKEN_GREATER => 3
  | TOKEN_GREATER_EQUAL => 3
  | TOKEN_EQUAL_EQUAL => 4
  | TOKEN_NOT_EQUAL => 4
  | TOKEN_AND => 5
  | TOKEN_OR => 6
  | _ => 0

/-- The parsing functions of `parser.c` from `parse_unary` (0) up to
`parse_logic_or` (6), each calling the one before it. -/
def parse_level : Nat → Nat → SkyParser → Option (SkyASTNode × SkyParser)
  | 0 => parse_unary
  | 1 => parse_factor
  | 2 => parse_term
  | 3 => parse_comparison
  | 4 => parse_equality
  | 5 => parse_logic_and
  | _ => parse_logic_or

/-- The token types the loop of `parse_level k` matches. -/
def level_ops : Nat → List SkyTokenType
  | 1 => [TOKEN_STAR, TOKEN_SLASH, TOKEN_PERCENT]
  | 2 => [TOKEN_PLUS, TOKEN_MINUS]
  | 3 => [TOKEN_LESS, TOKEN_LESS_EQUAL, TOKEN_GREATER, TOKEN_GREATER_EQUAL]
  | 4 => [TOKEN_EQUAL_EQUAL, TOKEN_NOT_EQUAL]
  | 5 => [TOKEN_AND]
  | 6 => [TOKEN_OR]
  | _ => []

/-- The parser state after `i` further tokens of the source have been read
(unchanged where `advance` is undefined). -/
def parser_at (source : List Nat) : Nat → SkyParser
  | 0 => (sky_parser_init (sky_lexer_init source)).getD
      ⟨sky_lexer_init source, token_unset, token_unset, false, false⟩
  | i + 1 => (advance (parser_at source i)).getD (parser_at source i)

/-- One level of the cascade of binary operators: the function `par`
parses an operand with `sub` and then loops over the operators `ops`. -/
structure Level (ops : List SkyTokenType)
    (sub par : Nat → SkyParser → Option (SkyASTNode × SkyParser))
    (loop : Nat → SkyASTNode → SkyParser → Option (SkyASTNode × SkyParser)) : Prop where
  par_eq : ∀ fuel p, par (fuel + 1) p =
    match sub fuel p with
    | none => none
    | some (left, p1) => loop fuel left p1
  loop_hit : ∀ fuel left p p1, match_any p ops = some (true, p1) →
    p1.previous.type ∈ ops → loop (fuel + 1) left p =
    match sub fuel p1 with
    | none => none
    | some (right, p2) =>
        loop fuel (.binary p1.previous.line p1.previous.type left right) p2
  loop_miss : ∀ fuel left p, match_any p ops = some (false, p) →
    loop (fuel + 1) left p = some (left, p)

/-- The loop of `parse_level k`. -/
def level_loop : Nat → Nat → SkyASTNode → SkyParser → Option (SkyASTNode × SkyParser)
  | 1 => parse_factor_loop
  | 2 => parse_term_loop
  | 3 => parse_comparison_loop
  | 4 => parse_equality_loop
  | 5 => parse_logic_and_loop
  | _ => parse_logic_or_loop

/-! ## table.h / table.c, entry by entry -/

namespace HashTable

/-- `SkyTableEntry`; `key` is `none` for NULL. -/
structure SkyTableEntry where
  key : Option String
  value : SkyValue
  occupied : Bool

/-- `SkyTable` of `table.h`, with its array of entries: `entries` holds the
`capacity` entries of the array (`[]` for NULL). -/
structure SkyTable where
  entries : List SkyTableEntry
  count : Nat
  capacity : Nat

/-- `hash_string`: FNV-1a over the bytes of the key, in `uint32_t`. -/
def hash_string (key : String) : Nat :=
  key.toList.foldl (fun h c => ((h ^^^ (c.toNat % 256)) * 16777619) % 2 ^ 32) 2166136261

/-- `sky_table_init`. -/
def sky_table_init : SkyTable := ⟨[], 0, 0⟩

/-- The loop of `find_entry`, for at most `fuel` probes; `tombstone` is the
index of the remembered entry.  The result is the index of the entry
returned. -/
def find_entry_loop (entries : List SkyTableEntry) (capacity : Nat) (key : String) :
    Nat → Nat → Option Nat → Option Nat
  | 0, _, _ => none
  | fuel + 1, index, tombstone =>
      match entries[index]? with
      | none => none
      | some entry =>
          if entry.occupied = false then
            if entry.key = none then some (tombstone.getD index)
            else
              find_entry_loop entries capacity key fuel ((index + 1) % capacity)
                (if tombstone = none then some index else tombstone)
          else if entry.key = some key then some index
          else find_entry_loop entries capacity key fuel ((index + 1) % capacity) tombstone

/-- `find_entry`.  The loop is given `capacity` probes: after that many it
has seen every entry of the array, and when none of them made it return,
none ever will.  `none` stands for the call that does not return (and for
the undefined `% 0`). -/
def find_entry (entries : List SkyTableEntry) (capacity : Nat) (key : String) : Option Nat :=
  if capacity = 0 then none
  else find_entry_loop entries capacity key capacity (hash_string key % capacity) none

/-- The loop of `adjust_capacity` over the old entries still to be moved;
`entries` and `count` are the new array and `table->count`.  An occupied
entry always has a key; the call `find_entry` with a NULL key is left
undefined. -/
def adjust_loop (capacity : Nat) :
    List SkyTableEntry → List SkyTableEntry → Nat → Option (List SkyTableEntry × Nat)
  | [], entries, count => some (entries, count)
  | entry :: rest, entries, count =>
      if entry.occupied = false then adjust_loop capacity rest entries count
      else
        match entry.key with
        | none => none
        | some key =>
            match find_entry entries capacity key with
            | none => none
            | some dest =>
                adjust_loop capacity rest
                  (entries.set dest ⟨entry.key, entry.value, true⟩) (count + 1)

/-- `adjust_capacity`; `calloc` gives entries with NULL key, the all-zero
value (`VAL_NIL`) and `occupied = false`. -/
def adjust_capacity (table : SkyTable) (capacity : Nat) : Option SkyTable :=
  (adjust_loop capacity table.entries (List.replicate capacity ⟨none, .nil, false⟩) 0).map
    (fun r => ⟨r.1, r.2, capacity⟩)

/-- `sky_table_set`: the returned flag and the table afterwards.  The
threshold `(int)(capacity * 0.75)` is `capacity * 3 / 4`; doubling a
capacity beyond `INT_MAX` is undefined. -/
def sky_table_set (table : SkyTable) (key : String) (value : SkyValue) :
    Option (Bool × SkyTable) :=
  let grown : Option SkyTable :=
    if table.count + 1 > table.capacity * 3 / 4 then
      let capacity := if table.capacity < 8 then 8 else table.capacity * 2
      if capacity < 2 ^ 31 then adjust_capacity table capacity else none
    else some table
  match grown with
  | none => none
  | some t =>
      match find_entry t.entries t.capacity key with
      | none => none
      | some i =>
          match t.entries[i]? with
          | none => none
          | some entry =>
              let is_new := !entry.occupied
              let entry1 : SkyTableEntry := if is_new then { entry with key := some key } else entry
              some (is_new,
                { t with
                  count := if is_new then t.count + 1 else t.count
                  entries := t.entries.set i { entry1 with value := value, occupied := true } })

/-- `sky_table_get`: `some none` for `false`, `some (some v)` for `true`
with `*out = v`. -/
def sky_table_get (table : SkyTable) (key : String) : Option (Option SkyValue) :=
  if table.count = 0 then some none
  else
    match find_entry table.entries table.capacity key with
    | none => none
    | some i =>
        match table.entries[i]? with
        | none => none
        | some entry => if entry.occupied = false then some none else some (some entry.value)

/-- `sky_table_delete`: the returned flag and the table afterwards. -/
def sky_table_delete (table : SkyTable) (key : String) : Option (Bool × SkyTable) :=
  if table.count = 0 then some (false, table)
  else
    match find_entry table.entries table.capacity key with
    | none => none
    | some i =>
        match table.entries[i]? with
        | none => none
        | some entry =>
            if entry.occupied = false then some (false, table)
            else
              some (true,
                { table with
                  entries := table.entries.set i { entry with key := none, occupied := false } })

/-- A sequence of `sky_table_set` calls: the returned flags and the table
afterwards. -/
def set_all : SkyTable → List (String × SkyValue) → Option (List Bool × SkyTable)
  | table, [] => some ([], table)
  | table, (key, value) :: rest =>
      match sky_table_set table key value with
      | none => none
      | some (is_new, t) => (set_all t rest).map (fun r => (is_new :: r.1, r.2))

/-- The finite map a sequence of assignments stands for: the value of the
most recent assignment to `key`, if there is one. -/
def most_recent (sets : List (String × SkyValue)) (key : String) : Option SkyValue :=
  (sets.reverse.find? (fun s => s.1 = key)).map (fun s => s.2)

/-- For each assignment of a sequence, whether its key is not among the
keys seen before (`seen` and the keys of the assignments before it). -/
def first_time : List String → List (String × SkyValue) → List Bool
  | _, [] => []
  | seen, (key, _) :: rest => decide (key ∉ seen) :: first_time (seen ++ [key]) rest

/-- The entry at index `i` ends the search for `key`: it is empty, or it
holds the key. -/
def Stops (entries : List SkyTableEntry) (key : String) (i : Nat) : Prop :=
  ∃ e, entries[i]? = some e ∧
    ((e.occupied = false ∧ e.key = none) ∨ (e.occupied = true ∧ e.key = some key))

/-- The entry at index `i` is occupied by another key: the search for
`key` goes on to the next index. -/
def Skips (entries : List SkyTableEntry) (key : String) (i : Nat) : Prop :=
  ∃ e, entries[i]? = some e ∧ e.occupied = true ∧ e.key ≠ some key

/-- The probe sequence of `key` reaches the index `i` over entries occupied
by other keys, and ends there. -/
def Probe (entries : List SkyTableEntry) (capacity : Nat) (key : String) (i : Nat) : Prop :=
  ∃ d, d < capacity ∧
    (∀ j, j < d → Skips entries key ((hash_string key + j) % capacity)) ∧
    Stops entries key i ∧ (hash_string key + d) % capacity = i

/-- No entry is a tombstone: an entry that is not occupied has no key. -/
def NoTomb (entries : List SkyTableEntry) : Prop :=
  ∀ (i : Nat) (e : SkyTableEntry), entries[i]? = some e → e.occupied = false → e.key = none

/-- The array `entries` of `capacity` entries holds the finite map `m`:
no entry is a tombstone, every occupied entry holds a key of `m` with its
value and ends the probe sequence of its key, and every key of `m` is in an
occupied entry. -/
structure Holds (entries : List SkyTableEntry) (capacity : Nat)
    (m : String → Option SkyValue) : Prop where
  len : entries.length = capacity
  no_tomb : NoTomb entries
  stored : ∀ (i : Nat) (e : SkyTableEntry), entries[i]? = some e → e.occupied = true →
    ∃ k, e.key = some k ∧ m k = some e.value ∧ Probe entries capacity k i
  present : ∀ (k : String) (v : SkyValue), m k = some v →
    ∃ (i : Nat) (e : SkyTableEntry), entries[i]? = some e ∧ e.occupied = true ∧ e.key = some k

/-- The number of occupied entries. -/
def occupied_count (entries : List SkyTableEntry) : Nat :=
  (entries.filter (fun e => e.occupied)).length

/-- The keys of the occupied entries. -/
def keys_of (entries : List SkyTableEntry) : List String :=
  entries.filterMap (fun e => if e.occupied = true then e.key else none)

/-- The finite map `m` cut down to the keys `ks`. -/
def restrict (m : String → Option SkyValue) (ks : List String) : String → Option SkyValue :=
  fun k => if k ∈ ks then m k else none

/-- The table `t` holds the finite map `m` after `n` calls of
`sky_table_set`: `count` is the number of occupied entries and stays within
three quarters of the capacity, and the capacity is `0`, `8`, or at most
twice what the number of entries made necessary. -/
structure Inv (t : SkyTable) (m : String → Option SkyValue) (n : Nat) : Prop where
  holds : Holds t.entries t.capacity m
  count_eq : t.count = occupied_count t.entries
  load : t.count ≤ t.capacity * 3 / 4
  cap_form : t.capacity = 0 ∨ 8 ≤ t.capacity
  grown : t.capacity ≤ 8 ∨ t.capacity / 2 * 3 / 4 ≤ t.count
  calls : t.count ≤ n

/-- Eight assignments to seven keys; the seventh call finds six entries in
a table of capacity 8 and makes it grow. -/
def eight_sets : List (String × SkyValue) :=
  [("a", .int 1), ("b", .int 2), ("c", .int 3), ("d", .int 4), ("e", .int 5), ("f", .int 6),
    ("a", .int 7), ("g", .int 8)]

/-- The entry at index `i` makes the loop of `find_entry` go on: it is a
tombstone, or it is occupied by another key. -/
def Continues (entries : List SkyTableEntry) (key : String) (i : Nat) : Prop :=
  ∃ e, entries[i]? = some e ∧
    ((e.occupied = false ∧ e.key ≠ none) ∨ (e.occupied = true ∧ e.key ≠ some key))

end HashTable

/-! ## Running source texts -/

/-- `run_file` on a source text: parse with `parse_fuel` nested calls,
compile, append `OP_HALT` and run at most `fuel` instructions.  `none` when
the parser returns no tree or compilation fails. -/
def run_source (parse_fuel fuel : Nat) (source : List Nat) : Option RunResult :=
  match parse_source parse_fuel source with
  | some (some ast, _) => run_file fuel ast
  | _ => none

/-- The chunk `run_file` executes for a source text. -/
def source_chunk (parse_fuel : Nat) (source : List Nat) : Option SkyChunk :=
  match parse_source parse_fuel source with
  | some (some ast, _) => run_file_chunk ast
  | _ => none

/-- Whether a bounded run ended in behaviour C leaves undefined. -/
def RunResult.is_undefined : RunResult → Bool
  | .undefined => true
  | _ => false

/-- A name of 128 bytes, one more than `char name[128]` holds. -/
def long_name : String := ⟨List.replicate 128 'a'⟩

/-- The source `if true { let NAME = 5` / `print(READ) } else { }`. -/
def source_local_read (name read : List Nat) : List Nat :=
  c_str "if true \x7b let " ++ name ++ c_str " = 5\nprint(" ++ read ++
    c_str ") \x7d else \x7b \x7d"

/-- Source: `while true { nil nil ... nil }` with `n` statements `nil` in
the block. -/
def while_nils (n : Nat) : SkyASTNode :=
  .while_stmt 1 (.bool_literal 1 true) (.block 1 (nil_statements n))

/-! ## Scopes and locals -/

/-- From `c` to `c1` the scope depth is kept and locals are only added, at
the current depth; the bound on their number is kept.  Stated for a
compiler none of whose locals lies deeper than the current scope. -/
def Scoped (c c1 : SkyCompiler) : Prop :=
  LocalsOk c → c1.scope_depth = c.scope_depth ∧
    (∃ extra, c1.locals = c.locals ++ extra ∧ ∀ l ∈ extra, l.depth = c.scope_depth) ∧
    (c.local_count ≤ SKY_MAX_LOCALS → c1.local_count ≤ SKY_MAX_LOCALS)

/-- The locals form a stack: at most `SKY_MAX_LOCALS` of them, their depths
non-decreasing, none deeper than the current scope. -/
def ScopeOk (c : SkyCompiler) : Prop :=
  c.local_count ≤ SKY_MAX_LOCALS ∧
    List.Pairwise (fun a b : Local => a.depth ≤ b.depth) c.locals ∧ LocalsOk c

/-- The block `{ let a = 1` / `let b = 2` / `{ let c = 3 }` / `nil }`. -/
def block_with_locals : SkyASTNode :=
  .block 1
    [ .let_ 1 "a" none (some (.int_literal 1 1)),
      .let_ 2 "b" none (some (.int_literal 2 2)),
      .block 3 [ .let_ 3 "c" none (some (.int_literal 3 3)) ],
      .expr_stmt 4 (.nil_literal 4) ]

/-! ## Sequences of table calls -/

namespace HashTable

/-- A call on the table. -/
inductive TableOp where
  | set (key : String) (value : SkyValue)
  | get (key : String)
  | delete (key : String)

/-- The table after one call; `none` when the call is undefined or does not
return. -/
def apply_op (t : SkyTable) : TableOp → Option SkyTable
  | .set key value => (sky_table_set t key value).map (fun r => r.2)
  | .get key => (sky_table_get t key).map (fun _ => t)
  | .delete key => (sky_table_delete t key).map (fun r => r.2)

/-- The table after a sequence of calls. -/
def apply_ops : SkyTable → List TableOp → Option SkyTable
  | t, [] => some t
  | t, op :: rest =>
      match apply_op t op with
      | none => none
      | some t1 => apply_ops t1 rest

/-- Every occupied entry has a key. -/
def Keyed (entries : List SkyTableEntry) : Prop :=
  ∀ (i : Nat) (e : SkyTableEntry), entries[i]? = some e → e.occupied = true → e.key ≠ none

/-- What every table reached by `n` calls satisfies, deletions included: no
entry is a tombstone, occupied entries have keys, `count` is at least the
number of occupied entries and at most three quarters of the capacity, and
the capacity is 0 or a power of two from 8 on that the number of calls made
necessary. -/
structure Sound (t : SkyTable) (n : Nat) : Prop where
  len : t.entries.length = t.capacity
  no_tomb : NoTomb t.entries
  keyed : Keyed t.entries
  occ_le : occupied_count t.entries ≤ t.count
  load : t.count ≤ t.capacity * 3 / 4
  pow : t.capacity = 0 ∨ ∃ j, 3 ≤ j ∧ t.capacity = 2 ^ j
  grown : t.capacity ≤ 8 ∨ t.capacity / 2 * 3 / 4 ≤ n
  calls : t.count ≤ n

/-- Six assignments, a deletion and a lookup; the keys `a` and `i` have the
same first index, so that after the deletion of `a` the second assignment to
`i` stores the key a second time. -/
def eight_calls : List TableOp :=
  [.set "a" (.int 1), .set "i" (.int 2), .delete "a", .get "i", .set "i" (.int 3),
    .set "b" (.int 4), .set "c" (.int 5), .set "d" (.int 6)]

end HashTable

/-! ## Tokens left to the parser -/

/-- No backslash of the text is directly followed by its end. -/
def NoOpenEscape (source : List Nat) : Prop :=
  ∀ i, i < source.length → source.getD i 0 = 92 → source.getD (i + 1) 0 ≠ 0

/-- From `a` to `b` the lexer has kept its source and moved forward, not
beyond the terminator. -/
def Within (a b : SkyLexer) : Prop :=
  b.source = a.source ∧ a.current ≤ b.current ∧
    (a.current ≤ a.source.length → b.current ≤ a.source.length)

/-- What a branch of `sky_lexer_next` does from the lexer `lexA`: it
returns a token, the lexer having moved forward inside its source. -/
def StepOk (lexA : SkyLexer) (r : Option (SkyToken × SkyLexer)) : Prop :=
  ∃ tok lex1, r = some (tok, lex1) ∧ Within lexA lex1

/-- The calls of `sky_lexer_next` from `lex` on, up to the one that returns
`TOKEN_EOF`, all return. -/
def LexDefined (lex : SkyLexer) : Prop :=
  ∃ fuel tokens, sky_lexer_tokens fuel lex = some tokens

/-- The bound of the parser: the bytes the lexer has not passed yet, and
one more while the current token is not `TOKEN_EOF`.  Every `advance` at a
token that is not `TOKEN_EOF` lowers it. -/
def tokens_left (p : SkyParser) : Nat :=
  (p.lexer.source.length - p.lexer.current) + (if p.current.type = TOKEN_EOF then 0 else 1)

/-- The parser reads `source`, its lexer stands inside it, and the calls of
`sky_lexer_next` from that lexer on return. -/
def InSource (source : List Nat) (p : SkyParser) : Prop :=
  p.lexer.source = source ∧ p.lexer.current ≤ source.length ∧ LexDefined p.lexer

/-- The call returns, in a parser over the same source, with no more tokens
left than `p` had, and fewer when `strict` holds. -/
def Returns {α : Type} (source : List Nat) (p : SkyParser) (strict : Prop)
    (r : Option (α × SkyParser)) : Prop :=
  ∃ a p1, r = some (a, p1) ∧ InSource source p1 ∧ tokens_left p1 ≤ tokens_left p ∧
    (strict → tokens_left p1 < tokens_left p)

/-- C7 (the code at the failing input).  After `let x = "Hello "`, the
statement `print(x + "Sky!")` runs to `VM_OK` and writes the concatenation
between double quotes, then a newline: the `PRINT` instruction renders
through `sky_debug_print_value`, which quotes strings. -/
theorem print_string_is_quoted :
    (run_file 100 prog_hello).bind RunResult.result = some VM_OK ∧
    (run_file 100 prog_hello).bind RunResult.stdout = some ["\"Hello Sky!\"", "\n"] := by
  constructor <;> rfl

/-- Fetching an opcode byte dispatches to its `case`. -/
theorem step_of_fetch (chunk : SkyChunk) (vm : SkyVM) (op : SkyOpCode)
    (hfetch : chunk.code[vm.ip]? = some op.toByte) :
    step chunk vm = exec chunk { vm with ip := vm.ip + 1 } op := by
  have hof : SkyOpCode.ofByte op.toByte = some op := by cases op <;> rfl
  simp only [step, read_byte, hfetch, hof]

/-- What `sky_vm_pop` leaves: the cells as they were, the top one lower
unless the stack was empty, everything else untouched. -/
theorem sky_vm_pop_state (vm : SkyVM) :
    (sky_vm_pop vm).2.stack = vm.stack ∧ (sky_vm_pop vm).2.stack_top = vm.stack_top - 1 ∧
    (sky_vm_pop vm).2.globals = vm.globals ∧ (sky_vm_pop vm).2.out = vm.out ∧
    (sky_vm_pop vm).2.ip = vm.ip := by
  unfold sky_vm_pop
  by_cases h : vm.stack_top = 0
  · simp [h, runtime_error]
  · simp [h]

/-- The value `sky_vm_pop` returns from a non-empty stack. -/
theorem sky_vm_pop_value (vm : SkyVM) (h : 0 < vm.stack_top) :
    (sky_vm_pop vm).1 = vm.stack (vm.stack_top - 1) := by
  unfold sky_vm_pop
  have h0 : vm.stack_top ≠ 0 := Nat.pos_iff_ne_zero.mp h
  simp [h0]

/-- An operand function that answers with an error makes the instruction
return `VM_RUNTIME_ERROR` after its two pops. -/
theorem binary_op_of_error (f : SkyValue → SkyValue → OpResult) (vm : SkyVM) (msg : String)
    (h : f (sky_vm_pop (sky_vm_pop vm).2).1 (sky_vm_pop vm).1 = .error msg) :
    binary_op f vm =
      .return_ VM_RUNTIME_ERROR (runtime_error (sky_vm_pop (sky_vm_pop vm).2).2 msg) := by
  simp only [binary_op, h]

/-- C8.  When the instruction at `ip` is `DIV` and the top of the stack
(the divisor) is Int 0, whatever lies below it, or when it is `MOD`, the
divisor is Int 0 and the dividend is an Int, `sky_vm_execute` returns
`VM_RUNTIME_ERROR` at that instruction; both operands have been popped,
no stack cell has been written (nothing is pushed), globals and stdout
are as before, and the operand function answers with the error before it
reaches the quotient. -/
theorem div_mod_by_zero_is_runtime_error (chunk : SkyChunk) (vm : SkyVM) (fuel : Nat)
    (op : SkyOpCode)
    (hfetch : chunk.code[vm.ip]? = some op.toByte)
    (htop : 0 < vm.stack_top)
    (hb : vm.stack (vm.stack_top - 1) = .int 0)
    (hop : op = OP_DIV ∨
      (op = OP_MOD ∧ 1 < vm.stack_top ∧ ∃ a, vm.stack (vm.stack_top - 2) = .int a)) :
    (∃ vm', run chunk (fuel + 1) vm = .returned VM_RUNTIME_ERROR vm' ∧
      vm'.stack = vm.stack ∧ vm'.stack_top = vm.stack_top - 2 ∧
      vm'.globals = vm.globals ∧ vm'.out = vm.out) ∧
    (∀ a, op_div a (.int 0) = .error "Division by zero") ∧
    (∀ a, op_mod (.int a) (.int 0) = .error "Modulo by zero") := by
  have hdiv : ∀ a, op_div a (.int 0) = .error "Division by zero" := by
    intro a; simp [op_div, div_by_zero]
  have hmod : ∀ a, op_mod (.int a) (.int 0) = .error "Modulo by zero" := by
    intro a; simp [op_mod]
  refine ⟨?_, hdiv, hmod⟩
  let vm1 : SkyVM := { vm with ip := vm.ip + 1 }
  have hb1 : (sky_vm_pop vm1).1 = .int 0 := by
    rw [sky_vm_pop_value vm1 htop]; exact hb
  obtain ⟨p1s, p1t, p1g, p1o, _⟩ := sky_vm_pop_state vm1
  obtain ⟨p2s, p2t, p2g, p2o, _⟩ := sky_vm_pop_state (sky_vm_pop vm1).2
  have hfields : ∀ msg, (runtime_error (sky_vm_pop (sky_vm_pop vm1).2).2 msg).stack = vm.stack ∧
      (runtime_error (sky_vm_pop (sky_vm_pop vm1).2).2 msg).stack_top = vm.stack_top - 2 ∧
      (runtime_error (sky_vm_pop (sky_vm_pop vm1).2).2 msg).globals = vm.globals ∧
      (runtime_error (sky_vm_pop (sky_vm_pop vm1).2).2 msg).out = vm.out := by
    intro msg
    refine ⟨?_, ?_, ?_, ?_⟩
    · show (sky_vm_pop (sky_vm_pop vm1).2).2.stack = vm.stack
      rw [p2s, p1s]
    · show (sky_vm_pop (sky_vm_pop vm1).2).2.stack_top = vm.stack_top - 2
      rw [p2t, p1t]; show vm.stack_top - 1 - 1 = vm.stack_top - 2; omega
    · show (sky_vm_pop (sky_vm_pop vm1).2).2.globals = vm.globals
      rw [p2g, p1g]
    · show (sky_vm_pop (sky_vm_pop vm1).2).2.out = vm.out
      rw [p2o, p1o]
  rcases hop with rfl | ⟨rfl, h2, a, ha⟩
  · have hstep : step chunk vm = .return_ VM_RUNTIME_ERROR
        (runtime_error (sky_vm_pop (sky_vm_pop vm1).2).2 "Division by zero") := by
      rw [step_of_fetch chunk vm OP_DIV hfetch]
      show binary_op op_div vm1 = _
      apply binary_op_of_error
      rw [hb1]; exact hdiv _
    exact ⟨_, by simp only [run, hstep], hfields "Division by zero"⟩
  · have ha1 : (sky_vm_pop (sky_vm_pop vm1).2).1 = .int a := by
      rw [sky_vm_pop_value _ (by rw [p1t]; show 0 < vm.stack_top - 1; omega), p1s, p1t]
      show vm.stack (vm.stack_top - 1 - 1) = _
      rw [show vm.stack_top - 1 - 1 = vm.stack_top - 2 by omega]; exact ha
    have hstep : step chunk vm = .return_ VM_RUNTIME_ERROR
        (runtime_error (sky_vm_pop (sky_vm_pop vm1).2).2 "Modulo by zero") := by
      rw [step_of_fetch chunk vm OP_MOD hfetch]
      show binary_op op_mod vm1 = _
      apply binary_op_of_error
      rw [hb1, ha1]; exact hmod _
    exact ⟨_, by simp only [run, hstep], hfields "Modulo by zero"⟩

/-- C8 at a concrete machine: `7 / 0`. -/
theorem div_mod_by_zero_is_runtime_error_witness :
    (∃ vm', run ⟨[19], [1], []⟩ 1 vm_div_zero = .returned VM_RUNTIME_ERROR vm' ∧
      vm'.stack = vm_div_zero.stack ∧ vm'.stack_top = vm_div_zero.stack_top - 2 ∧
      vm'.globals = vm_div_zero.globals ∧ vm'.out = vm_div_zero.out) ∧
    (∀ a, op_div a (.int 0) = .error "Division by zero") ∧
    (∀ a, op_mod (.int a) (.int 0) = .error "Modulo by zero") :=
  div_mod_by_zero_is_runtime_error ⟨[19], [1], []⟩ vm_div_zero 0 OP_DIV
    (by rfl) (by decide) (by rfl) (Or.inl rfl)

/-- C9 (the code at the failing input).  `print(1 <= 2.5)` compiles, and
`sky_vm_execute` returns `VM_RUNTIME_ERROR` at `LESS_EQ`, reporting
"Cannot compare these types" and printing nothing: `LESS_EQ` (like
`GREATER_EQ`) has no case for an Int with a Float. -/
theorem less_eq_rejects_int_with_float :
    (run_file 100 prog_less_eq_mixed).bind RunResult.result = some VM_RUNTIME_ERROR ∧
    (run_file 100 prog_less_eq_mixed).bind RunResult.stdout = some [] ∧
    ((run_file 100 prog_less_eq_mixed).bind RunResult.vm).map (fun vm => vm.err) =
      some ["Cannot compare these types"] := by
  refine ⟨?_, ?_, ?_⟩ <;> rfl

/-- C10 (the code at the failing input).  `print(0 and true)` prints
`true` and `print(0 or false)` prints `true`: `AND` and `OR` take every
non-Bool value other than nil, Int 0 included, as true. -/
theorem and_or_take_int_zero_as_true :
    (run_file 100 prog_and_or_zero).bind RunResult.result = some VM_OK ∧
    (run_file 100 prog_and_or_zero).bind RunResult.stdout =
      some ["true", "\n", "true", "\n"] := by
  constructor <;> rfl

/-! ## Running compiled code -/

/-- Turns of the loop compose. -/
theorem steps_add (chunk : SkyChunk) (j k : Nat) (vm : SkyVM) :
    steps chunk (j + k) vm = (steps chunk j vm).bind (steps chunk k) := by
  induction j generalizing vm with
  | zero => simp [steps]
  | succ j ih =>
      rw [Nat.succ_add]
      simp only [steps]
      cases step chunk vm with
      | continue_ vm1 => exact ih vm1
      | return_ r vm1 => rfl
      | undefined => rfl

/-- One continuing turn is `steps 1`. -/
theorem steps_one (chunk : SkyChunk) (vm vm1 : SkyVM) (h : step chunk vm = .continue_ vm1) :
    steps chunk 1 vm = some vm1 := by
  simp only [steps, h]

/-- A byte of a prefix of the code is a byte of the code. -/
theorem getElem?_of_initial {α : Type} {l₁ l₂ : List α} (h : l₁ <+: l₂) (i : Nat)
    (hi : i < l₁.length) : l₂[i]? = l₁[i]? := by
  obtain ⟨t, rfl⟩ := h
  exact List.getElem?_append_left hi

/-- Indexing past the first of two appended lists. -/
theorem getElem?_append_add {α : Type} (l r : List α) (j : Nat) :
    (l ++ r)[l.length + j]? = r[j]? := by
  rw [List.getElem?_append_right (by omega)]
  simp

/-- Indexing at the seam of two appended lists. -/
theorem getElem?_append_length {α : Type} (l r : List α) :
    (l ++ r)[l.length]? = r[0]? := by
  simpa using getElem?_append_add l r 0

/-- Evaluating a tree needs at least one slot. -/
theorem ArithExpr.slots_pos (e : ArithExpr) : 1 ≤ e.slots := by
  cases e with
  | lit line value => simp [ArithExpr.slots]
  | bin line op left right => simp only [ArithExpr.slots]; omega

/-- `OP_CONSTANT idx` with room on the stack pushes `constants[idx]`. -/
theorem step_constant (chunk : SkyChunk) (vm : SkyVM) (idx : Nat) (v : SkyValue)
    (h0 : chunk.code[vm.ip]? = some OP_CONSTANT.toByte)
    (h1 : chunk.code[vm.ip + 1]? = some idx)
    (hv : chunk.constants[idx]? = some v)
    (hroom : vm.stack_top < SKY_STACK_MAX) :
    step chunk vm = .continue_
      { vm with ip := vm.ip + 2
                stack := fun i => if i = vm.stack_top then v else vm.stack i
                stack_top := vm.stack_top + 1 } := by
  rw [step_of_fetch chunk vm OP_CONSTANT h0]
  have hlt : ¬ (vm.stack_top ≥ SKY_STACK_MAX) := Nat.not_le.mpr hroom
  simp only [exec, read_constant, read_byte, h1, hv, sky_vm_push, hlt, if_false]

/-- A binary instruction whose operand function answers with a value
replaces the two top values by it. -/
theorem binary_op_of_value (f : SkyValue → SkyValue → OpResult) (vm : SkyVM) (v : SkyValue)
    (h2 : 2 ≤ vm.stack_top) (hmax : vm.stack_top ≤ SKY_STACK_MAX)
    (hf : f (vm.stack (vm.stack_top - 2)) (vm.stack (vm.stack_top - 1)) = .value v) :
    binary_op f vm = .continue_
      { vm with stack := fun i => if i = vm.stack_top - 2 then v else vm.stack i
                stack_top := vm.stack_top - 1 } := by
  have h0 : vm.stack_top ≠ 0 := by omega
  have h1 : vm.stack_top - 1 ≠ 0 := by omega
  have h3 : vm.stack_top - 1 - 1 = vm.stack_top - 2 := by omega
  have hlt : ¬ (vm.stack_top - 2 ≥ SKY_STACK_MAX) := by omega
  have h4 : vm.stack_top - 2 + 1 = vm.stack_top - 1 := by omega
  simp only [binary_op, sky_vm_pop, h0, h1, if_false, h3, hf, sky_vm_push, hlt, h4]

/-- The instruction of an arithmetic operator is `binary_op` of its
operand function, which on two Ints answers with the wrapped result. -/
theorem exec_arith_op (op : ArithOp) (chunk : SkyChunk) (vm : SkyVM) :
    ∃ f, exec chunk vm op.opcode = binary_op f vm ∧
      ∀ a b, f (.int a) (.int b) = .value (.int (op.apply a b)) := by
  cases op
  · exact ⟨op_add, rfl, fun _ _ => rfl⟩
  · exact ⟨op_sub, rfl, fun _ _ => rfl⟩
  · exact ⟨op_mul, rfl, fun _ _ => rfl⟩

/-- `emit_constant` while the pool has room: two code bytes, one constant. -/
theorem emit_constant_eq (c : SkyCompiler) (v : SkyValue) (line : Int)
    (h : c.chunk.constants.length ≤ 255) :
    emit_constant c v line =
      { c with chunk :=
          ⟨c.chunk.code ++ [OP_CONSTANT.toByte, c.chunk.constants.length],
           c.chunk.lines ++ [line, line], c.chunk.constants ++ [v]⟩ } := by
  have h1 : ¬ (c.chunk.constants.length > 255) := by omega
  have h2 : c.chunk.constants.length % 256 = c.chunk.constants.length :=
    Nat.mod_eq_of_lt (by omega)
  simp only [emit_constant, make_constant, sky_chunk_add_constant, h1, if_false, emit_bytes,
    emit_byte, sky_chunk_write, SkyOpCode.toByte, h2, List.append_assoc, List.singleton_append,
    Nat.one_mod]

/-- Unfolding `compile_node` at an integer literal. -/
theorem compile_node_int_literal (line value : Int) (c : SkyCompiler) :
    compile_node (.int_literal line value) c = emit_constant c (.int value) line := rfl

/-- Unfolding `compile_node` at an arithmetic binary node. -/
theorem compile_node_arith_bin (line : Int) (op : ArithOp) (left right : SkyASTNode)
    (c : SkyCompiler) :
    compile_node (.binary line op.token left right) c =
      emit_byte (compile_node right (compile_node left c)) op.opcode.toByte line := by
  cases op <;> rfl

/-- What compiling an arithmetic tree does to the compiler: the code grows
at its end, the literals join the pool in order, nothing else changes. -/
theorem compile_arith (e : ArithExpr) :
    ∀ c : SkyCompiler, c.chunk.constants.length + e.literals.length ≤ 256 →
      c.chunk.code <+: (compile_node e.toAST c).chunk.code ∧
      (compile_node e.toAST c).chunk.constants =
        c.chunk.constants ++ e.literals.map SkyValue.int ∧
      (compile_node e.toAST c).had_error = c.had_error ∧
      (compile_node e.toAST c).locals = c.locals ∧
      (compile_node e.toAST c).scope_depth = c.scope_depth := by
  induction e with
  | lit line value =>
      intro c hc
      simp only [ArithExpr.literals, List.length_singleton] at hc
      rw [ArithExpr.toAST, compile_node_int_literal,
        emit_constant_eq c (.int value) line (by omega)]
      exact ⟨List.prefix_append _ _, rfl, rfl, rfl, rfl⟩
  | bin line op left right ihl ihr =>
      intro c hc
      simp only [ArithExpr.literals, List.length_append] at hc
      obtain ⟨l1, l2, l3, l4, l5⟩ := ihl c (by omega)
      obtain ⟨r1, r2, r3, r4, r5⟩ := ihr (compile_node left.toAST c)
        (by rw [l2]; simp only [List.length_append, List.length_map]; omega)
      simp only [ArithExpr.toAST, compile_node_arith_bin, emit_byte, sky_chunk_write,
        ArithExpr.literals, List.map_append]
      refine ⟨?_, ?_, ?_, ?_, ?_⟩
      · exact (l1.trans r1).trans (List.prefix_append _ _)
      · rw [r2, l2, List.append_assoc]
      · rw [r3, l3]
      · rw [r4, l4]
      · rw [r5, l5]

/-- Running the code of an arithmetic tree, wherever it sits in a chunk:
it ends at the end of that code with the value pushed. -/
theorem run_arith (e : ArithExpr) :
    ∀ (c : SkyCompiler) (chunk : SkyChunk) (vm : SkyVM),
      c.chunk.constants.length + e.literals.length ≤ 256 →
      (compile_node e.toAST c).chunk.code <+: chunk.code →
      (compile_node e.toAST c).chunk.constants <+: chunk.constants →
      vm.ip = c.code_count →
      vm.stack_top + e.slots ≤ SKY_STACK_MAX →
      ∃ k vm1, steps chunk k vm = some vm1 ∧
        vm1.ip = (compile_node e.toAST c).code_count ∧ Pushed vm vm1 (.int e.eval) := by
  induction e with
  | lit line value =>
      intro c chunk vm hc hcode hpool hip hroom
      simp only [ArithExpr.literals, List.length_singleton] at hc
      simp only [ArithExpr.slots] at hroom
      rw [ArithExpr.toAST, compile_node_int_literal,
        emit_constant_eq c (.int value) line (by omega)] at hcode hpool
      rw [ArithExpr.toAST, compile_node_int_literal,
        emit_constant_eq c (.int value) line (by omega)]
      simp only [SkyCompiler.code_count] at hip ⊢
      have h0 : chunk.code[vm.ip]? = some OP_CONSTANT.toByte := by
        rw [getElem?_of_initial hcode vm.ip (by simp [hip]), hip]
        exact getElem?_append_length _ _
      have h1 : chunk.code[vm.ip + 1]? = some c.chunk.constants.length := by
        rw [getElem?_of_initial hcode (vm.ip + 1) (by simp [hip]), hip]
        exact getElem?_append_add _ _ 1
      have hv : chunk.constants[c.chunk.constants.length]? = some (.int value) := by
        rw [getElem?_of_initial hpool _ (by simp)]
        exact getElem?_append_length _ _
      refine ⟨1, _, steps_one chunk vm _ (step_constant chunk vm _ _ h0 h1 hv (by omega)), ?_, ?_⟩
      · simp [hip]
      · refine ⟨rfl, ?_, ?_, rfl, rfl, rfl⟩
        · simp [ArithExpr.eval]
        · intro i hi
          have : i ≠ vm.stack_top := by omega
          simp [this]
  | bin line op left right ihl ihr =>
      intro c chunk vm hc hcode hpool hip hroom
      simp only [ArithExpr.literals, List.length_append] at hc
      simp only [ArithExpr.slots] at hroom
      have hsl := left.slots_pos
      have hsr := right.slots_pos
      obtain ⟨l1, l2, _, _, _⟩ := compile_arith left c (by omega)
      have hc1 : (compile_node left.toAST c).chunk.constants.length + right.literals.length
          ≤ 256 := by
        rw [l2]; simp only [List.length_append, List.length_map]; omega
      obtain ⟨r1, r2, _, _, _⟩ := compile_arith right (compile_node left.toAST c) hc1
      rw [ArithExpr.toAST, compile_node_arith_bin] at hcode hpool
      rw [ArithExpr.toAST, compile_node_arith_bin]
      have hbyte : op.opcode.toByte % 256 = op.opcode.toByte := by cases op <;> rfl
      simp only [emit_byte, sky_chunk_write, hbyte, SkyCompiler.code_count,
        List.length_append, List.length_singleton] at hcode hpool ⊢
      have hcode2 : (compile_node right.toAST (compile_node left.toAST c)).chunk.code
          <+: chunk.code := (List.prefix_append _ _).trans hcode
      have hpool1 : (compile_node left.toAST c).chunk.constants <+: chunk.constants := by
        refine List.IsPrefix.trans ?_ hpool
        rw [r2]; exact List.prefix_append _ _
      obtain ⟨k1, vm1, hk1, hip1, p1⟩ :=
        ihl c chunk vm (by omega) (r1.trans hcode2) hpool1 hip (by omega)
      obtain ⟨k2, vm2, hk2, hip2, p2⟩ :=
        ihr (compile_node left.toAST c) chunk vm1 hc1 hcode2 hpool hip1
          (by rw [p1.top]; omega)
      have hfetch : chunk.code[vm2.ip]? = some op.opcode.toByte := by
        rw [getElem?_of_initial hcode vm2.ip (by simp [hip2, SkyCompiler.code_count]), hip2]
        exact getElem?_append_length _ _
      obtain ⟨f, hexec, hf⟩ := exec_arith_op op chunk { vm2 with ip := vm2.ip + 1 }
      have htop2 : vm2.stack_top = vm.stack_top + 2 := by rw [p2.top, p1.top]
      have ha : vm2.stack (vm2.stack_top - 2) = .int left.eval := by
        rw [htop2, Nat.add_sub_cancel, p2.below _ (by rw [p1.top]; omega), p1.value]
      have hb : vm2.stack (vm2.stack_top - 1) = .int right.eval := by
        rw [htop2, show vm.stack_top + 2 - 1 = vm1.stack_top by rw [p1.top]; omega, p2.value]
      have hstep : step chunk vm2 = .continue_
          { vm2 with ip := vm2.ip + 1
                     stack := fun i =>
                       if i = vm2.stack_top - 2 then .int (op.apply left.eval right.eval)
                       else vm2.stack i
                     stack_top := vm2.stack_top - 1 } := by
        rw [step_of_fetch chunk vm2 op.opcode hfetch, hexec]
        exact binary_op_of_value f { vm2 with ip := vm2.ip + 1 } _ (by show 2 ≤ vm2.stack_top; omega)
          (by show vm2.stack_top ≤ SKY_STACK_MAX; omega) (by
            show f (vm2.stack (vm2.stack_top - 2)) (vm2.stack (vm2.stack_top - 1)) = _
            rw [ha, hb]; exact hf _ _)
      refine ⟨k1 + (k2 + 1),
        { vm2 with ip := vm2.ip + 1
                   stack := fun i =>
                     if i = vm2.stack_top - 2 then .int (op.apply left.eval right.eval)
                     else vm2.stack i
                   stack_top := vm2.stack_top - 1 }, ?_, ?_, ?_⟩
      · rw [steps_add, hk1, Option.some_bind, steps_add, hk2, Option.some_bind]
        exact steps_one chunk vm2 _ hstep
      · show vm2.ip + 1 = _
        rw [hip2]; rfl
      · refine ⟨?_, ?_, ?_, ?_, ?_, ?_⟩
        · show vm2.stack_top - 1 = vm.stack_top + 1
          omega
        · show (if vm.stack_top = vm2.stack_top - 2 then _ else _) = _
          rw [if_pos (by omega)]; rfl
        · intro i hi
          show (if i = vm2.stack_top - 2 then _ else vm2.stack i) = _
          rw [if_neg (by omega), p2.below i (by rw [p1.top]; omega), p1.below i hi]
        · show vm2.globals = _
          rw [p2.globals, p1.globals]
        · show vm2.out = _
          rw [p2.out, p1.out]
        · show vm2.err = _
          rw [p2.err, p1.err]

/-- C3.  Let `e` be an expression tree over integer literals and `+`, `-`,
`*`, compiled by a compiler whose constant pool has room for the literals
of `e` (256 constants in all), and let the machine stand at the first byte
of the code of `e`, in any chunk that holds that code and those constants,
with `e.slots` free stack slots.  Then the machine runs, without returning
and without reporting any error, to the end of that code; there exactly
one value has been pushed, the Int `e.eval` (the value of `e` in 64-bit
two's-complement arithmetic), and the cells below, the globals and stdout are
unchanged.  Compiling `e` raises no compile error.  And `print(2 + 3)`
runs to `VM_OK` and prints `5`. -/
theorem arith_expression_pushes_its_value (e : ArithExpr) (c : SkyCompiler)
    (chunk : SkyChunk) (vm : SkyVM)
    (hlits : c.chunk.constants.length + e.literals.length ≤ 256)
    (hcode : (compile_node e.toAST c).chunk.code <+: chunk.code)
    (hpool : (compile_node e.toAST c).chunk.constants <+: chunk.constants)
    (hip : vm.ip = c.code_count)
    (hroom : vm.stack_top + e.slots ≤ SKY_STACK_MAX) :
    (∃ k vm1, steps chunk k vm = some vm1 ∧
      vm1.ip = (compile_node e.toAST c).code_count ∧ Pushed vm vm1 (.int e.eval)) ∧
    (compile_node e.toAST c).had_error = c.had_error ∧
    (run_file 100 prog_print_2_plus_3).bind RunResult.result = some VM_OK ∧
    (run_file 100 prog_print_2_plus_3).bind RunResult.stdout = some ["5", "\n"] :=
  ⟨run_arith e c chunk vm hlits hcode hpool hip hroom, (compile_arith e c hlits).2.2.1,
    rfl, rfl⟩

/-- C3 at `2 + 3`, compiled into a fresh chunk and run on a fresh machine:
the value pushed is Int 5. -/
theorem arith_expression_pushes_its_value_witness :
    (∃ k vm1, steps chunk_2_plus_3 k sky_vm_init = some vm1 ∧
      vm1.ip = (compile_node arith_2_plus_3.toAST
        (sky_compiler_init sky_chunk_init)).code_count ∧
      Pushed sky_vm_init vm1 (.int arith_2_plus_3.eval)) ∧
    (compile_node arith_2_plus_3.toAST (sky_compiler_init sky_chunk_init)).had_error =
      (sky_compiler_init sky_chunk_init).had_error ∧
    (run_file 100 prog_print_2_plus_3).bind RunResult.result = some VM_OK ∧
    (run_file 100 prog_print_2_plus_3).bind RunResult.stdout = some ["5", "\n"] :=
  arith_expression_pushes_its_value arith_2_plus_3 (sky_compiler_init sky_chunk_init)
    chunk_2_plus_3 sky_vm_init (by decide) (List.prefix_refl _) (List.prefix_refl _)
    (by rfl) (by decide)

/-! ## Unfolding `compile_node` -/

/-- Unfolding `compile_nodes` at the empty list. -/
theorem compile_nodes_nil (c : SkyCompiler) : compile_nodes [] c = c := rfl

/-- Unfolding `compile_nodes` at a non-empty list. -/
theorem compile_nodes_cons (n : SkyASTNode) (rest : List SkyASTNode) (c : SkyCompiler) :
    compile_nodes (n :: rest) c = compile_nodes rest (compile_node n c) := rfl

/-- Unfolding `compile_node` at a program. -/
theorem compile_node_program (line : Int) (ss : List SkyASTNode) (c : SkyCompiler) :
    compile_node (.program line ss) c = compile_nodes ss c := rfl

/-- Unfolding `compile_node` at a `let` with an initializer. -/
theorem compile_node_let_some (line : Int) (name : String) (t : Option String)
    (e : SkyASTNode) (c : SkyCompiler) :
    compile_node (.let_ line name t (some e)) c =
      if (compile_node e c).scope_depth > 0 then (add_local (compile_node e c) name).2
      else emit_bytes (make_constant (compile_node e c) (.string (some name))).2
        OP_SET_GLOBAL.toByte (make_constant (compile_node e c) (.string (some name))).1 line :=
  rfl

/-- Unfolding `compile_node` at an identifier. -/
theorem compile_node_identifier (line : Int) (name : String) (c : SkyCompiler) :
    compile_node (.identifier line name) c =
      if resolve_local c name ≥ 0 then
        emit_bytes c OP_GET_LOCAL.toByte (u8 (resolve_local c name)) line
      else emit_bytes (make_constant c (.string (some name))).2 OP_GET_GLOBAL.toByte
        (make_constant c (.string (some name))).1 line := rfl

/-- Unfolding `compile_node` at a binary node. -/
theorem compile_node_binary (line : Int) (op : SkyTokenType) (l r : SkyASTNode)
    (c : SkyCompiler) :
    compile_node (.binary line op l r) c =
      match binary_opcode op with
      | some o => emit_byte (compile_node r (compile_node l c)) o.toByte line
      | none => { compile_node r (compile_node l c) with had_error := true } := rfl

/-- Unfolding `compile_node` at a `while`. -/
theorem compile_node_while (line : Int) (cond body : SkyASTNode) (c : SkyCompiler) :
    compile_node (.while_stmt line cond body) c =
      emit_byte (patch_jump
        (emit_jump_back
          (compile_block body
            (emit_byte (emit_jump (compile_node cond c) OP_JUMP_IF_FALSE line).2
              OP_POP.toByte line))
          c.code_count line)
        (emit_jump (compile_node cond c) OP_JUMP_IF_FALSE line).1) OP_POP.toByte line := rfl

/-- Unfolding `compile_block` at a block. -/
theorem compile_block_block (line : Int) (ss : List SkyASTNode) (c : SkyCompiler) :
    compile_block (.block line ss) c = compile_nodes ss c := rfl

/-- Unfolding `compile_node` at a `print`. -/
theorem compile_node_print_stmt (line : Int) (e : SkyASTNode) (c : SkyCompiler) :
    compile_node (.print_stmt line e) c = emit_byte (compile_node e c) OP_PRINT.toByte line :=
  rfl

/-- Unfolding `compile_node` at an expression statement. -/
theorem compile_node_expr_stmt (line : Int) (e : SkyASTNode) (c : SkyCompiler) :
    compile_node (.expr_stmt line e) c = emit_byte (compile_node e c) OP_POP.toByte line :=
  rfl

/-- Unfolding `compile_node` at an assignment to an identifier. -/
theorem compile_node_assign_identifier (line il : Int) (name : String) (e : SkyASTNode)
    (c : SkyCompiler) :
    compile_node (.assign line (.identifier il name) e) c =
      if resolve_local (compile_node e c) name ≥ 0 then
        emit_bytes (compile_node e c) OP_SET_LOCAL.toByte
          (u8 (resolve_local (compile_node e c) name)) line
      else emit_bytes (make_constant (compile_node e c) (.string (some name))).2
        OP_SET_GLOBAL.toByte (make_constant (compile_node e c) (.string (some name))).1 line :=
  rfl

/-! ## The counting `while` loop -/

/-- `wrap64` leaves an `int64_t` as it is. -/
theorem wrap64_of_range (x : Int) (h1 : -(2 ^ 63) ≤ x) (h2 : x < 2 ^ 63) : wrap64 x = x := by
  unfold wrap64
  rw [Int.emod_eq_of_lt (by omega) (by omega)]
  omega

/-- One more `print` appends its two writes. -/
theorem counted_succ (k : Nat) : counted (k + 1) = counted k ++ [fmt_lld (k : Int), "\n"] := by
  simp [counted, List.range_succ, List.flatMap_append]

/-- Fuel splits along continuing turns. -/
theorem run_of_steps (chunk : SkyChunk) (j k : Nat) (vm vm1 : SkyVM)
    (h : steps chunk j vm = some vm1) : run chunk (j + k) vm = run chunk k vm1 := by
  induction j generalizing vm with
  | zero =>
      simp only [steps, Option.some.injEq] at h
      rw [Nat.zero_add, h]
  | succ j ih =>
      rw [Nat.succ_add]
      simp only [steps] at h
      simp only [run]
      cases hs : step chunk vm with
      | continue_ vm2 =>
          rw [hs] at h
          exact ih vm2 h
      | return_ r vm2 => rw [hs] at h; cases h
      | undefined => rw [hs] at h; cases h

/-- The compiler's output for the counting loop. -/
theorem run_file_chunk_while_count (n : Int) :
    run_file_chunk (prog_while_count n) = some (chunk_while_count n) := by
  simp [run_file_chunk, prog_while_count, sky_compiler_compile, sky_compiler_init, sky_chunk_init,
    compile_node_program, compile_nodes_cons, compile_nodes_nil, compile_node_let_some,
    compile_node_int_literal, compile_node_identifier, compile_node_binary,
    compile_node_while, compile_block_block, compile_node_print_stmt, compile_node_expr_stmt,
    compile_node_assign_identifier, emit_constant, make_constant, sky_chunk_add_constant,
    emit_bytes, emit_byte, sky_chunk_write, emit_jump, emit_jump_back, patch_jump,
    resolve_local, resolve_local_loop, SkyCompiler.local_count, SkyCompiler.code_count,
    binary_opcode, SkyOpCode.toByte, chunk_while_count]
  decide

/-- The two instructions of `let i = 0` on a fresh machine: the loop is
reached with `i = 0` and one value left on the stack. -/
theorem while_count_enter (n : Int) :
    ∃ st, steps (chunk_while_count n) 2 { sky_vm_init with ip := 0 } =
      some ⟨st, 1, 4, natives ++ [("i", .int (0 : Nat))], counted 0, []⟩ := by
  simp [steps, step, read_byte, chunk_while_count, SkyOpCode.ofByte, exec, read_constant,
    natives, sky_table_get, sky_vm_push, SKY_STACK_MAX, sky_vm_peek, sky_table_set,
    sky_vm_init, sky_vm_define_native, counted]

/-- One turn of the loop while `i < n`: the thirteen instructions from the
condition to `JUMP_BACK` print `i` and store `i + 1`. -/
theorem while_count_iterate (n : Int) (k : Nat) (hk : (k : Int) < n) (hn : n < 2 ^ 63)
    (st : Nat → SkyValue) :
    ∃ st', steps (chunk_while_count n) 13
        ⟨st, 1, 4, natives ++ [("i", .int k)], counted k, []⟩ =
      some ⟨st', 1, 4, natives ++ [("i", .int (k + 1 : Nat))], counted (k + 1), []⟩ := by
  have hw : wrap64 ((k : Int) + 1) = (k : Int) + 1 :=
    wrap64_of_range _ (by omega) (by omega)
  simp [steps, step, read_byte, chunk_while_count, SkyOpCode.ofByte, exec, read_constant,
    natives, sky_table_get, sky_vm_push, SKY_STACK_MAX, binary_op, sky_vm_pop, op_less, hk,
    read_short, is_falsy, sky_vm_peek, sky_debug_print_value, op_add, sky_table_set,
    runtime_error, hw, counted_succ]

/-- The loop from `i = k` on, `m` turns before `i` reaches `n`. -/
theorem while_count_loop (n : Int) (hn : n < 2 ^ 63) (m : Nat) :
    ∀ (k : Nat) (st : Nat → SkyValue), ((k + m : Nat) : Int) = n →
      ∃ st', steps (chunk_while_count n) (13 * m)
          ⟨st, 1, 4, natives ++ [("i", .int k)], counted k, []⟩ =
        some ⟨st', 1, 4, natives ++ [("i", .int n)], counted (k + m), []⟩ := by
  induction m with
  | zero =>
      intro k st h
      refine ⟨st, ?_⟩
      simp only [Nat.add_zero] at h
      simp only [Nat.mul_zero, steps, Nat.add_zero, h]
  | succ m ih =>
      intro k st h
      obtain ⟨st1, h1⟩ := while_count_iterate n k (by omega) hn st
      obtain ⟨st2, h2⟩ := ih (k + 1) st1 (by omega)
      refine ⟨st2, ?_⟩
      rw [show 13 * (m + 1) = 13 + 13 * m by omega, steps_add, h1, Option.some_bind, h2,
        show k + 1 + m = k + (m + 1) by omega]

/-- Leaving the loop when `i = n`: the condition is false, the jump is
taken, the condition is popped and `HALT` returns `VM_OK`. -/
theorem while_count_exit (n : Int) (k : Nat) (st : Nat → SkyValue) :
    ∃ st', run (chunk_while_count n) 6 ⟨st, 1, 4, natives ++ [("i", .int n)], counted k, []⟩ =
      .returned VM_OK ⟨st', 1, 28 + 1, natives ++ [("i", .int n)], counted k, []⟩ := by
  simp [run, step, read_byte, chunk_while_count, SkyOpCode.ofByte, exec, read_constant,
    natives, sky_table_get, sky_vm_push, SKY_STACK_MAX, binary_op, sky_vm_pop, op_less,
    read_short, is_falsy, sky_vm_peek, runtime_error]

/-- C5.  For every `n` with `0 ≤ n < 2^63` (an `int64_t` literal), the
program `let i = 0` / `while i < n { print(i)  i = i + 1 }` compiles, and
run on a fresh machine with enough fuel `sky_vm_execute` returns `VM_OK`;
stdout then holds exactly the decimal renderings of 0, 1, ..., n-1 in that
order, each followed by a newline (the body ran `n` times), and the global
`i` is Int `n`. -/
theorem while_loop_counts_to_n (n : Int) (h0 : 0 ≤ n) (hn : n < 2 ^ 63) :
    ∃ fuel vm, run_file fuel (prog_while_count n) = some (.returned VM_OK vm) ∧
      vm.out = counted n.toNat ∧ sky_table_get vm.globals "i" = some (.int n) := by
  obtain ⟨st0, e0⟩ := while_count_enter n
  obtain ⟨st1, e1⟩ := while_count_loop n hn n.toNat 0 st0 (by omega)
  obtain ⟨st2, e2⟩ := while_count_exit n n.toNat st1
  refine ⟨2 + (13 * n.toNat + 6),
    ⟨st2, 1, 28 + 1, natives ++ [("i", .int n)], counted n.toNat, []⟩, ?_, ?_, ?_⟩
  · simp only [run_file, run_file_chunk_while_count, sky_vm_execute]
    rw [run_of_steps _ 2 _ _ _ e0, run_of_steps _ (13 * n.toNat) _ _ _ e1]
    rw [Nat.zero_add, e2]
  · rfl
  · simp [natives, sky_table_get]

/-- C5 at `n = 3` (scenario 4 of the specification). -/
theorem while_loop_counts_to_n_witness :
    (0 : Int) ≤ 3 ∧ (3 : Int) < 2 ^ 63 ∧
    ∃ fuel vm, run_file fuel (prog_while_count 3) = some (.returned VM_OK vm) ∧
      vm.out = counted (3 : Int).toNat ∧ sky_table_get vm.globals "i" = some (.int 3) :=
  ⟨by decide, by decide, while_loop_counts_to_n 3 (by decide) (by decide)⟩

/-! ## Local slots after a top-level `let` -/

/-- C2 (the code at the failing input).  In
`let a = 1` / `if true { let x = 5  print(x) } else { }` the read of `x`
compiles to `GET_LOCAL 0` (bytes 8, 0), but the value 5 bound to `x` sits
in stack cell 1, cell 0 holding the 1 that `let a = 1` left there: the
program prints `1`.  Without the preceding `let` it prints `5`. -/
theorem local_read_after_global_let_reads_wrong_cell :
    (run_file_chunk prog_local_after_global).map (fun ch => ch.code) =
      some [1, 0, 11, 1, 3, 32, 0, 10, 6, 1, 2, 8, 0, 36, 6, 31, 0, 1, 6, 49] ∧
    (run_file 100 prog_local_after_global).bind RunResult.result = some VM_OK ∧
    (run_file 100 prog_local_after_global).bind RunResult.stdout = some ["1", "\n"] ∧
    (run_file 100 prog_local_alone).bind RunResult.stdout = some ["5", "\n"] := by
  refine ⟨?_, ?_, ?_, ?_⟩ <;> rfl

/-- C4 (the code at the failing input).  `let s = 0` followed by
`for i in 2..5 { s = s + i }` returns `VM_OK` with `s = 10`, not
2 + 3 + 4 = 9, and with the bounds `5..3` it leaves `s = 3`, not 0: the
loop counts in stack cell 0, which holds the 0 left by `let s = 0`, not
the start value.  With the bounds `0..5` the result is 10. -/
theorem for_range_after_global_let_ignores_start :
    (run_file 200 (prog_for_sum 2 5)).bind RunResult.result = some VM_OK ∧
    (run_file 200 (prog_for_sum 2 5)).bind (RunResult.global "s") = some (.int 10) ∧
    (run_file 200 (prog_for_sum 5 3)).bind RunResult.result = some VM_OK ∧
    (run_file 200 (prog_for_sum 5 3)).bind (RunResult.global "s") = some (.int 3) ∧
    (run_file 200 (prog_for_sum 0 5)).bind (RunResult.global "s") = some (.int 10) := by
  refine ⟨?_, ?_, ?_, ?_, ?_⟩ <;> rfl

/-! ## The compiler only appends

Every step of `compile_node` appends to the code or rewrites jump
placeholders that the same node emitted; nothing before the node's first
byte changes, and `had_error` is never cleared. -/

theorem Grows.refl (c : SkyCompiler) : Grows c c := ⟨List.prefix_refl _, id⟩

theorem Grows.trans {a b c : SkyCompiler} (h1 : Grows a b) (h2 : Grows b c) : Grows a c :=
  ⟨h1.1.trans h2.1, fun h => h2.2 (h1.2 h)⟩

theorem Grows.le {a b : SkyCompiler} (h : Grows a b) : a.code_count ≤ b.code_count :=
  h.1.length_le

theorem grows_emit_byte (c : SkyCompiler) (b : Nat) (line : Int) :
    Grows c (emit_byte c b line) :=
  ⟨List.prefix_append _ _, id⟩

theorem grows_emit_bytes (c : SkyCompiler) (b1 b2 : Nat) (line : Int) :
    Grows c (emit_bytes c b1 b2 line) :=
  (grows_emit_byte c b1 line).trans (grows_emit_byte _ b2 line)

theorem grows_make_constant (c : SkyCompiler) (v : SkyValue) : Grows c (make_constant c v).2 := by
  unfold make_constant sky_chunk_add_constant
  dsimp only
  split
  · exact ⟨List.prefix_refl _, fun _ => rfl⟩
  · exact ⟨List.prefix_refl _, id⟩

theorem grows_emit_constant (c : SkyCompiler) (v : SkyValue) (line : Int) :
    Grows c (emit_constant c v line) :=
  (grows_make_constant c v).trans (grows_emit_bytes _ _ _ line)

theorem grows_emit_jump (c : SkyCompiler) (op : SkyOpCode) (line : Int) :
    Grows c (emit_jump c op line).2 :=
  ((grows_emit_byte c _ line).trans (grows_emit_byte _ _ line)).trans (grows_emit_byte _ _ line)

/-- `emit_jump` returns the offset of the byte after the opcode. -/
theorem emit_jump_fst (c : SkyCompiler) (op : SkyOpCode) (line : Int) :
    (emit_jump c op line).1 = c.code_count + 1 := by
  simp [emit_jump, emit_byte, sky_chunk_write, SkyCompiler.code_count]

/-- The offset `emit_jump` returns lies past everything emitted before. -/
theorem le_emit_jump_fst (c0 c : SkyCompiler) (op : SkyOpCode) (line : Int)
    (h : c0.code_count ≤ c.code_count) : c0.code_count ≤ (emit_jump c op line).1 := by
  rw [emit_jump_fst]; exact Nat.le_succ_of_le h

theorem grows_add_local (c : SkyCompiler) (name : String) : Grows c (add_local c name).2 := by
  unfold add_local
  split
  · exact ⟨List.prefix_refl _, fun _ => rfl⟩
  · exact ⟨List.prefix_refl _, id⟩

theorem grows_begin_scope (c : SkyCompiler) : Grows c (begin_scope c) :=
  ⟨List.prefix_refl _, id⟩

theorem grows_end_scope_loop (line : Int) (ls : List Local) :
    ∀ c : SkyCompiler, Grows c (end_scope_loop c line ls) := by
  induction ls with
  | nil => intro c; exact ⟨List.prefix_refl _, id⟩
  | cons l below ih =>
      intro c
      unfold end_scope_loop
      split
      · exact (grows_emit_byte c _ line).trans (ih _)
      · exact ⟨List.prefix_refl _, id⟩

theorem grows_end_scope (c : SkyCompiler) (line : Int) : Grows c (end_scope c line) :=
  Grows.trans (b := { c with scope_depth := c.scope_depth - 1 }) ⟨List.prefix_refl _, id⟩
    (grows_end_scope_loop line _ _)

theorem grows_emit_jump_back (c : SkyCompiler) (loop_start : Nat) (line : Int) :
    Grows c (emit_jump_back c loop_start line) :=
  ((grows_emit_byte c _ line).trans (grows_emit_byte _ _ line)).trans (grows_emit_byte _ _ line)

theorem grows_set_error (c : SkyCompiler) : Grows c { c with had_error := true } :=
  ⟨List.prefix_refl _, fun _ => rfl⟩

/-- Writing a cell at or past the end of a prefix keeps the prefix. -/
theorem prefix_set_of_le {l m : List Nat} (h : l <+: m) (i x : Nat) (hi : l.length ≤ i) :
    l <+: m.set i x := by
  obtain ⟨t, rfl⟩ := h
  rw [List.set_append, if_neg (Nat.not_lt.mpr hi)]
  exact List.prefix_append _ _

theorem grows_patch_jump (c0 c : SkyCompiler) (offset : Nat) (h : Grows c0 c)
    (hoff : c0.code_count ≤ offset) : Grows c0 (patch_jump c offset) := by
  unfold patch_jump
  dsimp only
  split
  · exact ⟨h.1, fun _ => rfl⟩
  · exact ⟨prefix_set_of_le (prefix_set_of_le h.1 _ _ hoff) _ _ (Nat.le_succ_of_le hoff), h.2⟩

/-- The part of the `AST_FOR` case after the start value, from the
compiler `c1` that has compiled it. -/
theorem for_range_rest_grows (c c1 : SkyCompiler) (line : Int) (var_name : String)
    (end_ body : SkyASTNode) (h1 : Grows c c1)
    (hend : ∀ c2, Grows c2 (compile_ast false end_ c2))
    (hbody : ∀ c2, Grows c2 (compile_ast true body c2)) :
    Grows c
      (let p := add_local c1 var_name
       let c3 := emit_bytes p.2 OP_GET_LOCAL.toByte (u8 p.1) line
       let c5 := emit_byte (compile_ast false end_ c3) OP_LESS.toByte line
       let j := emit_jump c5 OP_JUMP_IF_FALSE line
       let c7 := emit_byte j.2 OP_POP.toByte line
       let c9 := emit_bytes (compile_ast true body c7) OP_GET_LOCAL.toByte (u8 p.1) line
       let c11 := emit_byte (emit_constant c9 (.int 1) line) OP_ADD.toByte line
       let c13 := emit_byte (emit_bytes c11 OP_SET_LOCAL.toByte (u8 p.1) line) OP_POP.toByte line
       let c14 := emit_jump_back c13 p.2.code_count line
       end_scope (emit_byte (patch_jump c14 j.1) OP_POP.toByte line) line) := by
  let p := add_local c1 var_name
  let c3 := emit_bytes p.2 OP_GET_LOCAL.toByte (u8 p.1) line
  let c5 := emit_byte (compile_ast false end_ c3) OP_LESS.toByte line
  let j := emit_jump c5 OP_JUMP_IF_FALSE line
  let c7 := emit_byte j.2 OP_POP.toByte line
  let c9 := emit_bytes (compile_ast true body c7) OP_GET_LOCAL.toByte (u8 p.1) line
  let c11 := emit_byte (emit_constant c9 (.int 1) line) OP_ADD.toByte line
  let c13 := emit_byte (emit_bytes c11 OP_SET_LOCAL.toByte (u8 p.1) line) OP_POP.toByte line
  let c14 := emit_jump_back c13 p.2.code_count line
  show Grows c (end_scope (emit_byte (patch_jump c14 j.1) OP_POP.toByte line) line)
  have h3 : Grows c c3 := (h1.trans (grows_add_local c1 var_name)).trans (grows_emit_bytes _ _ _ _)
  have h5 : Grows c c5 := (h3.trans (hend c3)).trans (grows_emit_byte _ _ _)
  have h7 : Grows c c7 :=
    (h5.trans (grows_emit_jump c5 OP_JUMP_IF_FALSE line)).trans (grows_emit_byte _ _ _)
  have h9 : Grows c c9 := (h7.trans (hbody c7)).trans (grows_emit_bytes _ _ _ _)
  have h11 : Grows c c11 := (h9.trans (grows_emit_constant _ _ _)).trans (grows_emit_byte _ _ _)
  have h13 : Grows c c13 := (h11.trans (grows_emit_bytes _ _ _ _)).trans (grows_emit_byte _ _ _)
  have h14 : Grows c c14 := h13.trans (grows_emit_jump_back _ _ _)
  have h15 := grows_patch_jump c c14 j.1 h14 (le_emit_jump_fst _ _ _ _ h5.le)
  exact (h15.trans (grows_emit_byte _ _ _)).trans (grows_end_scope _ _)

mutual
/-- `compile_node` and `compile_block` only append. -/
theorem compile_ast_grows :
    ∀ (b : Bool) (n : SkyASTNode) (c : SkyCompiler), Grows c (compile_ast b n c)
  | _, .program _ statements, c => compile_nodes_grows statements c
  | _, .int_literal line value, c => grows_emit_constant c (.int value) line
  | _, .float_literal line value, c => grows_emit_constant c (.float value) line
  | _, .string_literal line value, c => grows_emit_constant c (.string (some value)) line
  | _, .bool_literal line value, c => grows_emit_byte c _ line
  | _, .nil_literal line, c => grows_emit_byte c _ line
  | _, .identifier line name, c => by
      show Grows c (if resolve_local c name ≥ 0 then
          emit_bytes c OP_GET_LOCAL.toByte (u8 (resolve_local c name)) line
        else emit_bytes (make_constant c (.string (some name))).2 OP_GET_GLOBAL.toByte
          (make_constant c (.string (some name))).1 line)
      split
      · exact grows_emit_bytes _ _ _ _
      · exact (grows_make_constant _ _).trans (grows_emit_bytes _ _ _ _)
  | _, .binary line op left right, c => by
      have h := (compile_ast_grows false left c).trans
        (compile_ast_grows false right (compile_ast false left c))
      show Grows c (match binary_opcode op with
        | some o => emit_byte (compile_ast false right (compile_ast false left c)) o.toByte line
        | none => { compile_ast false right (compile_ast false left c) with had_error := true })
      cases binary_opcode op with
      | some o => exact h.trans (grows_emit_byte _ _ _)
      | none => exact h.trans (grows_set_error _)
  | _, .unary line op operand, c => by
      have h := compile_ast_grows false operand c
      show Grows c (match unary_opcode op with
        | some o => emit_byte (compile_ast false operand c) o.toByte line
        | none => { compile_ast false operand c with had_error := true })
      cases unary_opcode op with
      | some o => exact h.trans (grows_emit_byte _ _ _)
      | none => exact h.trans (grows_set_error _)
  | _, .call line callee args, c =>
      ((compile_ast_grows false callee c).trans (compile_nodes_grows args _)).trans
        (grows_emit_bytes _ _ _ line)
  | _, .dot line object field, c =>
      ((compile_ast_grows false object c).trans (grows_make_constant _ _)).trans
        (grows_emit_bytes _ _ _ line)
  | _, .index_access line object index, c =>
      ((compile_ast_grows false object c).trans (compile_ast_grows false index _)).trans
        (grows_emit_byte _ _ line)
  | _, .array_literal line elements, c =>
      (compile_nodes_grows elements c).trans (grows_emit_bytes _ _ _ line)
  | _, .map_literal _ _ _, c => Grows.refl c
  | _, .assign line target value, c => by
      have h := compile_ast_grows false value c
      cases target
      case identifier il name =>
        show Grows c (if resolve_local (compile_ast false value c) name ≥ 0 then
            emit_bytes (compile_ast false value c) OP_SET_LOCAL.toByte
              (u8 (resolve_local (compile_ast false value c) name)) line
          else emit_bytes (make_constant (compile_ast false value c) (.string (some name))).2
            OP_SET_GLOBAL.toByte
            (make_constant (compile_ast false value c) (.string (some name))).1 line)
        split
        · exact h.trans (grows_emit_bytes _ _ _ _)
        · exact (h.trans (grows_make_constant _ _)).trans (grows_emit_bytes _ _ _ _)
      case dot dl object field =>
        exact ((h.trans (compile_ast_grows false object _)).trans
          (grows_make_constant _ _)).trans (grows_emit_bytes _ _ _ line)
      case index_access il object index =>
        exact ((h.trans (compile_ast_grows false object _)).trans
          (compile_ast_grows false index _)).trans (grows_emit_byte _ _ line)
      all_goals exact h
  | _, .let_ line name _ (some e), c => by
      have h := compile_ast_grows false e c
      show Grows c (if (compile_ast false e c).scope_depth > 0 then
          (add_local (compile_ast false e c) name).2
        else emit_bytes (make_constant (compile_ast false e c) (.string (some name))).2
          OP_SET_GLOBAL.toByte (make_constant (compile_ast false e c) (.string (some name))).1
          line)
      split
      · exact h.trans (grows_add_local _ _)
      · exact (h.trans (grows_make_constant _ _)).trans (grows_emit_bytes _ _ _ _)
  | _, .let_ line name _ none, c => by
      have h := grows_emit_byte c OP_NIL.toByte line
      show Grows c (if (emit_byte c OP_NIL.toByte line).scope_depth > 0 then
          (add_local (emit_byte c OP_NIL.toByte line) name).2
        else emit_bytes (make_constant (emit_byte c OP_NIL.toByte line) (.string (some name))).2
          OP_SET_GLOBAL.toByte
          (make_constant (emit_byte c OP_NIL.toByte line) (.string (some name))).1 line)
      split
      · exact h.trans (grows_add_local _ _)
      · exact (h.trans (grows_make_constant _ _)).trans (grows_emit_bytes _ _ _ _)
  | _, .if_stmt line condition then_branch (some e), c => by
      have h1 := compile_ast_grows false condition c
      have h2 := h1.trans (grows_emit_jump (compile_ast false condition c) OP_JUMP_IF_FALSE line)
      have h3 := h2.trans (grows_emit_byte _ OP_POP.toByte line)
      have h4 := h3.trans (compile_ast_grows false then_branch _)
      have h5 := h4.trans (grows_emit_jump _ OP_JUMP line)
      have h6 := grows_patch_jump c _
        (emit_jump (compile_ast false condition c) OP_JUMP_IF_FALSE line).1 h5
        (le_emit_jump_fst _ _ _ _ h1.le)
      have h7 := h6.trans (grows_emit_byte _ OP_POP.toByte line)
      have h8 := h7.trans (compile_ast_grows false e _)
      exact grows_patch_jump c _ _ h8 (le_emit_jump_fst _ _ _ _ h4.le)
  | _, .if_stmt line condition then_branch none, c => by
      have h1 := compile_ast_grows false condition c
      have h2 := h1.trans (grows_emit_jump (compile_ast false condition c) OP_JUMP_IF_FALSE line)
      have h3 := h2.trans (grows_emit_byte _ OP_POP.toByte line)
      have h4 := h3.trans (compile_ast_grows false then_branch _)
      have h6 := grows_patch_jump c _
        (emit_jump (compile_ast false condition c) OP_JUMP_IF_FALSE line).1 h4
        (le_emit_jump_fst _ _ _ _ h1.le)
      exact h6.trans (grows_emit_byte _ OP_POP.toByte line)
  | _, .while_stmt line condition body, c => by
      have h1 := compile_ast_grows false condition c
      have h2 := h1.trans (grows_emit_jump (compile_ast false condition c) OP_JUMP_IF_FALSE line)
      have h3 := h2.trans (grows_emit_byte _ OP_POP.toByte line)
      have h4 := h3.trans (compile_ast_grows true body _)
      have h5 := h4.trans (grows_emit_jump_back _ c.code_count line)
      have h6 := grows_patch_jump c _
        (emit_jump (compile_ast false condition c) OP_JUMP_IF_FALSE line).1 h5
        (le_emit_jump_fst _ _ _ _ h1.le)
      exact h6.trans (grows_emit_byte _ OP_POP.toByte line)
  | _, .for_range line var_name (some e) end_ body, c =>
      for_range_rest_grows c _ line var_name end_ body
        ((grows_begin_scope c).trans (compile_ast_grows false e _))
        (fun c1 => compile_ast_grows false end_ c1) (fun c1 => compile_ast_grows true body c1)
  | _, .for_range line var_name none end_ body, c =>
      for_range_rest_grows c _ line var_name end_ body
        ((grows_begin_scope c).trans (grows_emit_constant _ (.int 0) line))
        (fun c1 => compile_ast_grows false end_ c1) (fun c1 => compile_ast_grows true body c1)
  | _, .for_each _ _ _ _, c => Grows.refl c
  | as_block, .block line statements, c => by
      show Grows c (if as_block then compile_nodes statements c
        else end_scope (compile_nodes statements (begin_scope c)) line)
      cases as_block with
      | true => exact compile_nodes_grows statements c
      | false =>
          exact ((grows_begin_scope c).trans (compile_nodes_grows statements _)).trans
            (grows_end_scope _ line)
  | _, .function line name _ _ _ _ _, c => by
      have h := grows_emit_byte c OP_NIL.toByte line
      show Grows c (if (emit_byte c OP_NIL.toByte line).scope_depth = 0 then
          emit_bytes (make_constant (emit_byte c OP_NIL.toByte line) (.string (some name))).2
            OP_SET_GLOBAL.toByte
            (make_constant (emit_byte c OP_NIL.toByte line) (.string (some name))).1 line
        else emit_byte c OP_NIL.toByte line)
      split
      · exact (h.trans (grows_make_constant _ _)).trans (grows_emit_bytes _ _ _ _)
      · exact h
  | _, .return_stmt line (some e), c =>
      (compile_ast_grows false e c).trans (grows_emit_byte _ _ line)
  | _, .return_stmt line none, c =>
      (grows_emit_byte c _ line).trans (grows_emit_byte _ _ line)
  | _, .print_stmt line value, c =>
      (compile_ast_grows false value c).trans (grows_emit_byte _ _ line)
  | _, .expr_stmt line expr, c =>
      (compile_ast_grows false expr c).trans (grows_emit_byte _ _ line)
  | _, .import_stmt _ _, c => Grows.refl c
  | _, .server _ _ _ _, c => Grows.refl c
  | _, .route _ _ _ _ _, c => Grows.refl c
  | _, .respond _ _ _, c => Grows.refl c
  | _, .security _ _, c => Grows.refl c
  | _, .security_rule _ _ _, c => Grows.refl c
  | _, .class_def _ _ _, c => Grows.refl c
  | _, .break_ _, c => Grows.refl c
  | _, .continue_ _, c => Grows.refl c
/-- `compile_node` over a child array only appends. -/
theorem compile_nodes_grows :
    ∀ (ns : List SkyASTNode) (c : SkyCompiler), Grows c (compile_nodes ns c)
  | [], c => Grows.refl c
  | n :: rest, c => (compile_ast_grows false n c).trans (compile_nodes_grows rest _)
end

/-! ## The layout of `if`/`else` -/

/-- Writing into the second of two appended lists. -/
theorem set_append_add {α : Type} (A B : List α) (k : Nat) (x : α) :
    (A ++ B).set (A.length + k) x = A ++ B.set k x := by
  rw [List.set_append, if_neg (by omega)]
  simp

/-- The code of an `if`/`else` once both jumps are patched. -/
theorem if_else_list (A sT sE : List Nat) (hi1 lo1 hi2 lo2 : Nat) :
    ((((((A ++ [32, 255, 255, 6] ++ sT ++ [31, 255, 255]).set (A.length + 1) hi1).set
      (A.length + 2) lo1) ++ [6] ++ sE).set (A.length + 4 + sT.length + 1) hi2).set
      (A.length + 4 + sT.length + 2) lo2) =
    A ++ [32, hi1, lo1, 6] ++ sT ++ [31, hi2, lo2, 6] ++ sE := by
  simp only [List.append_assoc, set_append_add, List.cons_append, List.nil_append,
    List.set_cons_succ, List.set_cons_zero]
  rw [show A.length + 4 + sT.length + 1 = A.length + (4 + (sT.length + 1)) by omega,
    show A.length + 4 + sT.length + 2 = A.length + (4 + (sT.length + 2)) by omega]
  simp only [set_append_add,
    show 4 + (sT.length + 1) = (sT.length + 1) + 1 + 1 + 1 + 1 by omega,
    show 4 + (sT.length + 2) = (sT.length + 2) + 1 + 1 + 1 + 1 by omega,
    List.set_cons_succ, List.set_cons_zero]

/-- The two bytes `patch_jump` writes decode, in `read_short`, to the
distance they encode. -/
theorem decode_patched (j : Nat) (h : j ≤ 0xffff) :
    ((((j >>> 8) &&& 0xff) <<< 8) ||| (j &&& 0xff)) % 65536 = j := by
  have h1 : j &&& 0xff = j % 256 := Nat.and_pow_two_sub_one_eq_mod j 8
  have h2 : (j >>> 8) &&& 0xff = (j / 256) % 256 := by
    rw [Nat.shiftRight_eq_div_pow]; exact Nat.and_pow_two_sub_one_eq_mod _ 8
  rw [h1, h2, Nat.shiftLeft_eq]
  have h3 : 2 ^ 8 * (j / 256 % 256) + j % 256 = 2 ^ 8 * (j / 256 % 256) ||| j % 256 :=
    Nat.mul_add_lt_is_or (by omega) _
  rw [Nat.mul_comm, ← h3]
  omega

theorem emit_byte_code (c : SkyCompiler) (b : Nat) (line : Int) :
    (emit_byte c b line).chunk.code = c.chunk.code ++ [b % 256] := rfl

theorem emit_byte_had_error (c : SkyCompiler) (b : Nat) (line : Int) :
    (emit_byte c b line).had_error = c.had_error := rfl

theorem emit_jump_code (c : SkyCompiler) (op : SkyOpCode) (line : Int) :
    (emit_jump c op line).2.chunk.code = c.chunk.code ++ [op.toByte % 256, 255, 255] := by
  simp [emit_jump, emit_byte, sky_chunk_write]

theorem emit_jump_had_error (c : SkyCompiler) (op : SkyOpCode) (line : Int) :
    (emit_jump c op line).2.had_error = c.had_error := rfl

/-- `patch_jump` with a distance that fits: the two bytes are written and
the error flag is left alone. -/
theorem patch_jump_of_le (c : SkyCompiler) (offset : Nat)
    (h : c.code_count - offset - 2 ≤ 0xffff) :
    (patch_jump c offset).chunk.code =
      (c.chunk.code.set offset (((c.code_count - offset - 2) >>> 8) &&& 0xff)).set (offset + 1)
        ((c.code_count - offset - 2) &&& 0xff) ∧
    (patch_jump c offset).had_error = c.had_error := by
  unfold patch_jump
  dsimp only
  rw [if_neg (by omega)]
  exact ⟨rfl, rfl⟩

/-- `patch_jump` with a distance that does not fit flags an error. -/
theorem patch_jump_of_gt (c : SkyCompiler) (offset : Nat)
    (h : ¬ c.code_count - offset - 2 ≤ 0xffff) : (patch_jump c offset).had_error = true := by
  unfold patch_jump
  dsimp only
  rw [if_pos (by omega)]

/-- `patch_jump` never clears the error flag. -/
theorem patch_jump_keeps_error (c : SkyCompiler) (offset : Nat) (h : c.had_error = true) :
    (patch_jump c offset).had_error = true := by
  unfold patch_jump
  dsimp only
  split
  · rfl
  · exact h

/-- Unfolding `compile_node` at an `if` with an else-branch. -/
theorem compile_node_if_else (line : Int) (C T E : SkyASTNode) (c : SkyCompiler) :
    compile_node (.if_stmt line C T (some E)) c =
      patch_jump (compile_node E (if_else_entry line C T c))
        (emit_jump (compile_node T (if_then_entry line C c)) OP_JUMP line).1 := rfl

/-- The code of a compiled `if`/`else` that raised no compile error: the
code of the condition, `JUMP_IF_FALSE` over the then-branch and its
`JUMP`, `POP`, the then-branch, `JUMP` over the else-branch, `POP`, the
else-branch. -/
theorem if_else_layout (line : Int) (C T E : SkyASTNode) (c : SkyCompiler)
    (hok : (compile_node (.if_stmt line C T (some E)) c).had_error = false) :
    ∃ sT sE : List Nat,
      (compile_node T (if_then_entry line C c)).chunk.code =
        (compile_node C c).chunk.code ++ [32, 255, 255, 6] ++ sT ∧
      (compile_node E (if_else_entry line C T c)).chunk.code.length =
        (compile_node C c).chunk.code.length + 4 + sT.length + 4 + sE.length ∧
      sT.length + 4 ≤ 0xffff ∧ sE.length + 1 ≤ 0xffff ∧
      (compile_node (.if_stmt line C T (some E)) c).chunk.code =
        (compile_node C c).chunk.code ++
          [32, ((sT.length + 4) >>> 8) &&& 0xff, (sT.length + 4) &&& 0xff, 6] ++ sT ++
          [31, ((sE.length + 1) >>> 8) &&& 0xff, (sE.length + 1) &&& 0xff, 6] ++ sE := by
  have e3 : (if_then_entry line C c).chunk.code =
      (compile_node C c).chunk.code ++ [32, 255, 255, 6] := by
    simp [if_then_entry, emit_byte_code, emit_jump_code, SkyOpCode.toByte]
  obtain ⟨sT, hsT⟩ := (compile_ast_grows false T (if_then_entry line C c)).1
  have e4 : (compile_node T (if_then_entry line C c)).chunk.code =
      (compile_node C c).chunk.code ++ [32, 255, 255, 6] ++ sT := by
    rw [← e3]; exact hsT.symm
  have e5 : (emit_jump (compile_node T (if_then_entry line C c)) OP_JUMP line).2.chunk.code =
      (compile_node C c).chunk.code ++ [32, 255, 255, 6] ++ sT ++ [31, 255, 255] := by
    rw [emit_jump_code, e4]; rfl
  have o1 : (emit_jump (compile_node C c) OP_JUMP_IF_FALSE line).1 =
      (compile_node C c).chunk.code.length + 1 := emit_jump_fst _ _ _
  have o2 : (emit_jump (compile_node T (if_then_entry line C c)) OP_JUMP line).1 =
      (compile_node C c).chunk.code.length + 4 + sT.length + 1 := by
    rw [emit_jump_fst, SkyCompiler.code_count, e4]; simp; omega
  have j1 : (emit_jump (compile_node T (if_then_entry line C c)) OP_JUMP line).2.code_count -
      (emit_jump (compile_node C c) OP_JUMP_IF_FALSE line).1 - 2 = sT.length + 4 := by
    rw [SkyCompiler.code_count, e5, o1]; simp; omega
  obtain ⟨sE, hsE⟩ := (compile_ast_grows false E (if_else_entry line C T c)).1
  have hgrowE := (compile_ast_grows false E (if_else_entry line C T c)).2
  rw [compile_node_if_else] at hok ⊢
  by_cases hj1 : sT.length + 4 ≤ 0xffff
  · obtain ⟨e6, g6⟩ := patch_jump_of_le
      (emit_jump (compile_node T (if_then_entry line C c)) OP_JUMP line).2
      (emit_jump (compile_node C c) OP_JUMP_IF_FALSE line).1 (by rw [j1]; exact hj1)
    have e7 : (if_else_entry line C T c).chunk.code =
        (((compile_node C c).chunk.code ++ [32, 255, 255, 6] ++ sT ++ [31, 255, 255]).set
          ((compile_node C c).chunk.code.length + 1) (((sT.length + 4) >>> 8) &&& 0xff)).set
          ((compile_node C c).chunk.code.length + 2) ((sT.length + 4) &&& 0xff) ++ [6] := by
      rw [if_else_entry, emit_byte_code, e6, j1, e5, o1]
      rfl
    have e8 : (compile_node E (if_else_entry line C T c)).chunk.code =
        (((compile_node C c).chunk.code ++ [32, 255, 255, 6] ++ sT ++ [31, 255, 255]).set
          ((compile_node C c).chunk.code.length + 1) (((sT.length + 4) >>> 8) &&& 0xff)).set
          ((compile_node C c).chunk.code.length + 2) ((sT.length + 4) &&& 0xff) ++ [6] ++ sE := by
      rw [← e7]; exact hsE.symm
    have l8 : (compile_node E (if_else_entry line C T c)).chunk.code.length =
        (compile_node C c).chunk.code.length + 4 + sT.length + 4 + sE.length := by
      rw [e8]; simp; omega
    have j2 : (compile_node E (if_else_entry line C T c)).code_count -
        (emit_jump (compile_node T (if_then_entry line C c)) OP_JUMP line).1 - 2 =
        sE.length + 1 := by
      rw [SkyCompiler.code_count, l8, o2]; omega
    by_cases hj2 : sE.length + 1 ≤ 0xffff
    · obtain ⟨e9, _⟩ := patch_jump_of_le (compile_node E (if_else_entry line C T c))
        (emit_jump (compile_node T (if_then_entry line C c)) OP_JUMP line).1
        (by rw [j2]; exact hj2)
      refine ⟨sT, sE, e4, l8, hj1, hj2, ?_⟩
      rw [e9, j2, e8, o2]
      exact if_else_list _ sT sE _ _ _ _
    · have := patch_jump_of_gt (compile_node E (if_else_entry line C T c))
        (emit_jump (compile_node T (if_then_entry line C c)) OP_JUMP line).1
        (by rw [j2]; exact hj2)
      rw [this] at hok; cases hok
  · have h6 := patch_jump_of_gt
      (emit_jump (compile_node T (if_then_entry line C c)) OP_JUMP line).2
      (emit_jump (compile_node C c) OP_JUMP_IF_FALSE line).1 (by rw [j1]; exact hj1)
    have h7 : (if_else_entry line C T c).had_error = true := h6
    have h8 := hgrowE h7
    have h9 := patch_jump_keeps_error (compile_node E (if_else_entry line C T c))
      (emit_jump (compile_node T (if_then_entry line C c)) OP_JUMP line).1 h8
    rw [h9] at hok; cases hok

/-- `patch_jump` keeps the length of the code. -/
theorem patch_jump_code_count (c : SkyCompiler) (offset : Nat) :
    (patch_jump c offset).code_count = c.code_count := by
  unfold patch_jump SkyCompiler.code_count
  dsimp only
  split
  · rfl
  · simp

/-- `JUMP_IF_FALSE hi lo` on a non-empty stack: the top is left in place;
the offset is added to the instruction pointer when the top is falsy. -/
theorem step_jump_if_false (chunk : SkyChunk) (vm : SkyVM) (hi lo : Nat)
    (h0 : chunk.code[vm.ip]? = some OP_JUMP_IF_FALSE.toByte)
    (h1 : chunk.code[vm.ip + 1]? = some hi) (h2 : chunk.code[vm.ip + 2]? = some lo)
    (htop : 0 < vm.stack_top) :
    step chunk vm = .continue_
      { vm with ip := if is_falsy (vm.stack (vm.stack_top - 1)) then
                        vm.ip + 3 + ((hi <<< 8) ||| lo) % 65536
                      else vm.ip + 3 } := by
  rw [step_of_fetch chunk vm OP_JUMP_IF_FALSE h0]
  have h2' : chunk.code[vm.ip + 1 + 1]? = some lo := h2
  have hlt : (0 < vm.stack_top) = True := eq_true htop
  simp only [exec, read_short, h1, h2', sky_vm_peek, hlt, if_true, Nat.sub_zero]
  by_cases hf : is_falsy (vm.stack (vm.stack_top - 1)) = true <;> simp [hf, Nat.add_assoc]

/-- `POP` on a non-empty stack. -/
theorem step_pop (chunk : SkyChunk) (vm : SkyVM)
    (h0 : chunk.code[vm.ip]? = some OP_POP.toByte) (htop : 0 < vm.stack_top) :
    step chunk vm = .continue_ { vm with ip := vm.ip + 1, stack_top := vm.stack_top - 1 } := by
  rw [step_of_fetch chunk vm OP_POP h0]
  have h : vm.stack_top ≠ 0 := Nat.pos_iff_ne_zero.mp htop
  simp only [exec, sky_vm_pop, h, if_false]

/-- `JUMP hi lo`. -/
theorem step_jump (chunk : SkyChunk) (vm : SkyVM) (hi lo : Nat)
    (h0 : chunk.code[vm.ip]? = some OP_JUMP.toByte)
    (h1 : chunk.code[vm.ip + 1]? = some hi) (h2 : chunk.code[vm.ip + 2]? = some lo) :
    step chunk vm = .continue_ { vm with ip := vm.ip + 3 + ((hi <<< 8) ||| lo) % 65536 } := by
  rw [step_of_fetch chunk vm OP_JUMP h0]
  have h2' : chunk.code[vm.ip + 1 + 1]? = some lo := h2
  simp only [exec, read_short, h1, h2']

theorem exec_region_at_end (chunk : SkyChunk) (a b k : Nat) (vm : SkyVM) (h : vm.ip = b) :
    exec_region chunk a b k vm = .exited vm := by
  cases k <;> simp [exec_region, h]

theorem exec_region_zero_inside (chunk : SkyChunk) (a b : Nat) (vm : SkyVM)
    (h1 : a ≤ vm.ip) (h2 : vm.ip < b) : exec_region chunk a b 0 vm = .inside := by
  have : vm.ip ≠ b := by omega
  simp [exec_region, this, h1, h2]

theorem exec_region_succ (chunk : SkyChunk) (a b k : Nat) (vm : SkyVM)
    (h1 : a ≤ vm.ip) (h2 : vm.ip < b) :
    exec_region chunk a b (k + 1) vm =
      match step chunk vm with
      | .continue_ vm1 => exec_region chunk a b k vm1
      | _ => .stopped := by
  have : vm.ip ≠ b := by omega
  simp [exec_region, this, h1, h2]

/-- Rule for one instruction inside the region. -/
theorem depth_ok_step (chunk : SkyChunk) (a b t k : Nat) (vm : SkyVM)
    (h1 : a ≤ vm.ip) (h2 : vm.ip < b)
    (h : ∀ vm1, step chunk vm = .continue_ vm1 →
      ∀ k1, k1 < k → (exec_region chunk a b k1 vm1).depth_ok t) :
    (exec_region chunk a b k vm).depth_ok t := by
  cases k with
  | zero => rw [exec_region_zero_inside chunk a b vm h1 h2]; trivial
  | succ k =>
      rw [exec_region_succ chunk a b k vm h1 h2]
      cases hs : step chunk vm with
      | continue_ vm1 => exact h vm1 hs k (Nat.lt_succ_self k)
      | return_ r vm1 => trivial
      | undefined => trivial

/-- A run inside a sub-region is a run inside the region; once it leaves
the sub-region at its end, the region's run goes on from there with the
fuel that is left. -/
theorem exec_region_sub (chunk : SkyChunk) (a a1 b1 b : Nat) (ha : a ≤ a1) (hb : b1 ≤ b) :
    ∀ (k : Nat) (vm : SkyVM),
      match exec_region chunk a1 b1 k vm with
      | .exited vm1 => vm1.ip = b1 ∧
          ∃ n, n ≤ k ∧ exec_region chunk a b k vm = exec_region chunk a b (k - n) vm1
      | .inside => exec_region chunk a b k vm = .inside
      | .stopped => exec_region chunk a b k vm = .stopped
      | .escaped => True := by
  intro k
  induction k with
  | zero =>
      intro vm
      by_cases h : vm.ip = b1
      · rw [exec_region_at_end chunk a1 b1 0 vm h]
        exact ⟨h, 0, Nat.le_refl _, rfl⟩
      · by_cases h2 : a1 ≤ vm.ip ∧ vm.ip < b1
        · rw [exec_region_zero_inside chunk a1 b1 vm h2.1 h2.2]
          exact exec_region_zero_inside chunk a b vm (by omega) (by omega)
        · simp [exec_region, h, h2]
  | succ k ih =>
      intro vm
      by_cases h : vm.ip = b1
      · rw [exec_region_at_end chunk a1 b1 (k + 1) vm h]
        exact ⟨h, 0, Nat.zero_le _, rfl⟩
      · by_cases h2 : a1 ≤ vm.ip ∧ vm.ip < b1
        · rw [exec_region_succ chunk a1 b1 k vm h2.1 h2.2,
            exec_region_succ chunk a b k vm (by omega) (by omega)]
          cases hs : step chunk vm with
          | continue_ vm1 =>
              have := ih vm1
              dsimp only
              cases ho : exec_region chunk a1 b1 k vm1 with
              | exited vm2 =>
                  rw [ho] at this
                  obtain ⟨e1, n, hn, e2⟩ := this
                  refine ⟨e1, n + 1, by omega, ?_⟩
                  rw [e2, Nat.add_sub_add_right]
              | inside => rw [ho] at this; exact this
              | stopped => rw [ho] at this; exact this
              | escaped => trivial
          | return_ r vm1 => rfl
          | undefined => rfl
        · simp [exec_region, h, h2]

/-- Rule for a sub-region: what holds of the region's run from every exit
state of the sub-region holds of the region's run from its entry. -/
theorem depth_ok_sub (chunk : SkyChunk) (a a1 b1 b t1 t k : Nat) (vm : SkyVM)
    (ha : a ≤ a1) (hb : b1 ≤ b)
    (hsub : (exec_region chunk a1 b1 k vm).depth_ok t1)
    (h : ∀ vm1 k1, vm1.ip = b1 → vm1.stack_top = t1 → k1 ≤ k →
      (exec_region chunk a b k1 vm1).depth_ok t) :
    (exec_region chunk a b k vm).depth_ok t := by
  have hs := exec_region_sub chunk a a1 b1 b ha hb k vm
  cases ho : exec_region chunk a1 b1 k vm with
  | exited vm1 =>
      rw [ho] at hs hsub
      obtain ⟨e1, n, hn, e2⟩ := hs
      rw [e2]
      exact h vm1 (k - n) e1 hsub (Nat.sub_le _ _)
  | inside => rw [ho] at hs; rw [hs]; trivial
  | stopped => rw [ho] at hs; rw [hs]; trivial
  | escaped => rw [ho] at hsub; exact hsub.elim

theorem Triple.empty (chunk : SkyChunk) (a d M : Nat) : Triple chunk a a d d M := by
  intro t0 k vm hip htop _
  rw [exec_region_at_end chunk a a k vm hip]
  exact htop

theorem Triple.seq {chunk : SkyChunk} {a b c d0 d1 d2 M : Nat} (hab : a ≤ b) (hbc : b ≤ c)
    (h1 : Triple chunk a b d0 d1 M) (h2 : Triple chunk b c d1 d2 M) :
    Triple chunk a c d0 d2 M := by
  intro t0 k vm hip htop hM
  apply depth_ok_sub chunk a a b c (t0 + d1) (t0 + d2) k vm (Nat.le_refl _) hbc
    (h1 t0 k vm hip htop hM)
  intro vm1 k1 hip1 htop1 _
  apply depth_ok_sub chunk a b c c (t0 + d2) (t0 + d2) k1 vm1 hab (Nat.le_refl _)
    (h2 t0 k1 vm1 hip1 htop1 hM)
  intro vm2 k2 hip2 htop2 _
  rw [exec_region_at_end chunk a c k2 vm2 hip2]
  exact htop2

theorem Triple.frame {chunk : SkyChunk} {a b din dout M : Nat} (f : Nat)
    (h : Triple chunk a b din dout M) : Triple chunk a b (din + f) (dout + f) (M + f) := by
  intro t0 k vm hip htop hM
  have := h (t0 + f) k vm hip (by omega) (by omega)
  rw [show t0 + f + dout = t0 + (dout + f) by omega] at this
  exact this

theorem Triple.weaken {chunk : SkyChunk} {a b din dout M M1 : Nat} (hM : M ≤ M1)
    (h : Triple chunk a b din dout M) : Triple chunk a b din dout M1 := by
  intro t0 k vm hip htop hM1
  exact h t0 k vm hip htop (by omega)

/-- A single instruction of `len` bytes as a region. -/
theorem Triple.of_step {chunk : SkyChunk} {p len din dout M : Nat} (hlen : 0 < len)
    (h : ∀ (t0 : Nat) (vm vm1 : SkyVM), vm.ip = p → vm.stack_top = t0 + din →
      t0 + M ≤ SKY_STACK_MAX → step chunk vm = .continue_ vm1 →
      vm1.ip = p + len ∧ vm1.stack_top = t0 + dout) :
    Triple chunk p (p + len) din dout M := by
  intro t0 k vm hip htop hM
  apply depth_ok_step chunk p (p + len) (t0 + dout) k vm (by omega) (by omega)
  intro vm1 hs k1 _
  obtain ⟨e1, e2⟩ := h t0 vm vm1 hip htop hM hs
  rw [exec_region_at_end chunk p (p + len) k1 vm1 e1]
  exact e2

theorem sky_vm_push_state (vm : SkyVM) (v : SkyValue) (h : vm.stack_top < SKY_STACK_MAX) :
    (sky_vm_push vm v).stack_top = vm.stack_top + 1 ∧ (sky_vm_push vm v).ip = vm.ip := by
  unfold sky_vm_push
  rw [if_neg (Nat.not_le.mpr h)]
  exact ⟨rfl, rfl⟩

theorem read_byte_state (chunk : SkyChunk) (vm vm1 : SkyVM) (b : Nat)
    (h : read_byte chunk vm = some (b, vm1)) :
    vm1.ip = vm.ip + 1 ∧ vm1.stack_top = vm.stack_top := by
  unfold read_byte at h
  split at h
  · simp only [Option.some.injEq, Prod.mk.injEq] at h
    obtain ⟨_, rfl⟩ := h
    exact ⟨rfl, rfl⟩
  · cases h

theorem read_constant_state (chunk : SkyChunk) (vm vm1 : SkyVM) (v : SkyValue)
    (h : read_constant chunk vm = some (v, vm1)) :
    vm1.ip = vm.ip + 1 ∧ vm1.stack_top = vm.stack_top := by
  unfold read_constant at h
  split at h
  · rename_i idx vm2 hb
    split at h
    · simp only [Option.some.injEq, Prod.mk.injEq] at h
      obtain ⟨_, rfl⟩ := h
      exact read_byte_state chunk vm vm2 idx hb
    · cases h
  · cases h

/-- A binary instruction that continues has replaced two values by one. -/
theorem binary_op_state (f : SkyValue → SkyValue → OpResult) (vm vm1 : SkyVM)
    (h2 : 2 ≤ vm.stack_top) (hmax : vm.stack_top ≤ SKY_STACK_MAX + 1)
    (h : binary_op f vm = .continue_ vm1) :
    vm1.ip = vm.ip ∧ vm1.stack_top = vm.stack_top - 1 := by
  unfold binary_op at h
  obtain ⟨_, p1t, _, _, p1i⟩ := sky_vm_pop_state vm
  obtain ⟨_, p2t, _, _, p2i⟩ := sky_vm_pop_state (sky_vm_pop vm).2
  dsimp only at h
  split at h
  · rename_i v hv
    simp only [Step.continue_.injEq] at h
    subst h
    obtain ⟨q1, q2⟩ := sky_vm_push_state (sky_vm_pop (sky_vm_pop vm).2).2 v
      (by rw [p2t, p1t]; omega)
    rw [q1, q2, p2t, p1t, p2i, p1i]
    exact ⟨rfl, by omega⟩
  · cases h
  · cases h

/-- What an instruction of `simple_effect` does to the instruction pointer
and the depth when the loop goes on after it. -/
theorem step_effect (chunk : SkyChunk) (vm vm1 : SkyVM) (op : SkyOpCode)
    (len din dout t0 : Nat) (he : simple_effect op = some (len, din, dout))
    (h0 : chunk.code[vm.ip]? = some op.toByte) (htop : vm.stack_top = t0 + din)
    (hM : t0 + max din dout ≤ SKY_STACK_MAX) (hs : step chunk vm = .continue_ vm1) :
    vm1.ip = vm.ip + len ∧ vm1.stack_top = t0 + dout := by
  rw [step_of_fetch chunk vm op h0] at hs
  have hbin : ∀ f, din = 2 → dout = 1 → len = 1 →
      binary_op f { vm with ip := vm.ip + 1 } = .continue_ vm1 →
      vm1.ip = vm.ip + len ∧ vm1.stack_top = t0 + dout := by
    intro f e1 e2 e3 h
    subst e1 e2 e3
    obtain ⟨q1, q2⟩ := binary_op_state f { vm with ip := vm.ip + 1 } vm1
      (by show 2 ≤ vm.stack_top; omega) (by show vm.stack_top ≤ SKY_STACK_MAX + 1; omega) h
    exact ⟨q1, by rw [q2]; show vm.stack_top - 1 = _; omega⟩
  have hpush : ∀ v, din = 0 → dout = 1 → len = 1 →
      Step.continue_ (sky_vm_push { vm with ip := vm.ip + 1 } v) = .continue_ vm1 →
      vm1.ip = vm.ip + len ∧ vm1.stack_top = t0 + dout := by
    intro v e1 e2 e3 h
    subst e1 e2 e3
    simp only [Step.continue_.injEq] at h
    subst h
    obtain ⟨q1, q2⟩ := sky_vm_push_state { vm with ip := vm.ip + 1 } v
      (by show vm.stack_top < SKY_STACK_MAX; omega)
    exact ⟨q2, by rw [q1]; show vm.stack_top + 1 = _; omega⟩
  cases op <;> simp only [simple_effect, Option.some.injEq, Prod.mk.injEq, reduceCtorEq] at he
  all_goals obtain ⟨rfl, rfl, rfl⟩ := he
  all_goals first
    | exact hbin _ rfl rfl rfl hs
    | exact hpush _ rfl rfl rfl hs
    | skip
  case OP_EQUAL =>
    exact hbin (fun a b => .value (.bool (sky_values_equal a b))) rfl rfl rfl hs
  case OP_NOT_EQUAL =>
    exact hbin (fun a b => .value (.bool (!sky_values_equal a b))) rfl rfl rfl hs
  case OP_AND =>
    exact hbin (fun a b => .value (.bool (and_or_bool a && and_or_bool b))) rfl rfl rfl hs
  case OP_OR =>
    exact hbin (fun a b => .value (.bool (and_or_bool a || and_or_bool b))) rfl rfl rfl hs
  case OP_CONSTANT =>
    simp only [exec] at hs
    split at hs
    · rename_i val vm2 hc
      obtain ⟨r1, r2⟩ := read_constant_state chunk _ vm2 val hc
      simp only [Step.continue_.injEq] at hs
      subst hs
      obtain ⟨q1, q2⟩ := sky_vm_push_state vm2 val (by rw [r2]; show vm.stack_top < _; omega)
      rw [q1, q2, r1, r2]
      exact ⟨rfl, by show vm.stack_top + 1 = _; omega⟩
    · cases hs
  case OP_POP =>
    simp only [exec, Step.continue_.injEq] at hs
    subst hs
    obtain ⟨_, p1t, _, _, p1i⟩ := sky_vm_pop_state { vm with ip := vm.ip + 1 }
    rw [p1t, p1i]
    exact ⟨rfl, by show vm.stack_top - 1 = _; omega⟩
  case OP_GET_LOCAL =>
    simp only [exec] at hs
    split at hs
    · rename_i slot vm2 hb
      obtain ⟨r1, r2⟩ := read_byte_state chunk _ vm2 slot hb
      simp only [Step.continue_.injEq] at hs
      subst hs
      obtain ⟨q1, q2⟩ := sky_vm_push_state vm2 (vm2.stack slot)
        (by rw [r2]; show vm.stack_top < _; omega)
      rw [q1, q2, r1, r2]
      exact ⟨rfl, by show vm.stack_top + 1 = _; omega⟩
    · cases hs
  case OP_SET_LOCAL =>
    simp only [exec] at hs
    split at hs
    · rename_i slot vm2 hb
      obtain ⟨r1, r2⟩ := read_byte_state chunk _ vm2 slot hb
      split at hs
      · simp only [Step.continue_.injEq] at hs
        subst hs
        exact ⟨r1, by show vm2.stack_top = _; rw [r2]; show vm.stack_top = _; omega⟩
      · cases hs
    · cases hs
  case OP_GET_GLOBAL =>
    simp only [exec] at hs
    split at hs
    · rename_i name vm2 hc
      obtain ⟨r1, r2⟩ := read_constant_state chunk _ vm2 _ hc
      split at hs
      · rename_i value _
        simp only [Step.continue_.injEq] at hs
        subst hs
        obtain ⟨q1, q2⟩ := sky_vm_push_state vm2 value
          (by rw [r2]; show vm.stack_top < _; omega)
        rw [q1, q2, r1, r2]
        exact ⟨rfl, by show vm.stack_top + 1 = _; omega⟩
      · cases hs
    · cases hs
    · cases hs
  case OP_SET_GLOBAL =>
    simp only [exec] at hs
    split at hs
    · rename_i name vm2 hc
      obtain ⟨r1, r2⟩ := read_constant_state chunk _ vm2 _ hc
      split at hs
      · simp only [Step.continue_.injEq] at hs
        subst hs
        exact ⟨r1, by show vm2.stack_top = _; rw [r2]; show vm.stack_top = _; omega⟩
      · cases hs
    · cases hs
    · cases hs
  case OP_NEGATE =>
    simp only [exec] at hs
    obtain ⟨_, p1t, _, _, p1i⟩ := sky_vm_pop_state { vm with ip := vm.ip + 1 }
    split at hs
    · rename_i v _
      simp only [Step.continue_.injEq] at hs
      subst hs
      obtain ⟨q1, q2⟩ := sky_vm_push_state (sky_vm_pop { vm with ip := vm.ip + 1 }).2 v
        (by rw [p1t]; show vm.stack_top - 1 < _; omega)
      rw [q1, q2, p1t, p1i]
      exact ⟨rfl, by show vm.stack_top - 1 + 1 = _; omega⟩
    · cases hs
    · cases hs
  case OP_NOT =>
    simp only [exec, Step.continue_.injEq] at hs
    obtain ⟨_, p1t, _, _, p1i⟩ := sky_vm_pop_state { vm with ip := vm.ip + 1 }
    subst hs
    obtain ⟨q1, q2⟩ := sky_vm_push_state (sky_vm_pop { vm with ip := vm.ip + 1 }).2
      (op_not (sky_vm_pop { vm with ip := vm.ip + 1 }).1)
      (by rw [p1t]; show vm.stack_top - 1 < _; omega)
    rw [q1, q2, p1t, p1i]
    exact ⟨rfl, by show vm.stack_top - 1 + 1 = _; omega⟩
  case OP_PRINT =>
    simp only [exec, Step.continue_.injEq] at hs
    obtain ⟨_, p1t, _, _, p1i⟩ := sky_vm_pop_state { vm with ip := vm.ip + 1 }
    subst hs
    exact ⟨p1i, by show (sky_vm_pop { vm with ip := vm.ip + 1 }).2.stack_top = _; rw [p1t]
                   show vm.stack_top - 1 = _; omega⟩

/-- An instruction of `simple_effect` at offset `p`, as a region. -/
theorem Triple.instr {chunk : SkyChunk} {p : Nat} (op : SkyOpCode) {len din dout : Nat}
    (he : simple_effect op = some (len, din, dout))
    (h0 : chunk.code[p]? = some op.toByte) :
    Triple chunk p (p + len) din dout (max din dout) := by
  have hlen : 0 < len := by
    cases op <;> simp only [simple_effect, Option.some.injEq, Prod.mk.injEq, reduceCtorEq] at he
    all_goals omega
  apply Triple.of_step hlen
  intro t0 vm vm1 hip htop hM hs
  subst hip
  exact step_effect chunk vm vm1 op len din dout t0 he h0 htop hM hs

theorem AgreeOn.mono {code : List Nat} {chunk : SkyChunk} {a b a1 b1 : Nat}
    (h : AgreeOn code chunk a b) (ha : a ≤ a1) (hb : b1 ≤ b) : AgreeOn code chunk a1 b1 :=
  fun i h1 h2 => h i (by omega) (by omega)

theorem AgreeOn.of_shorter {code1 code2 : List Nat} {chunk : SkyChunk} {a b : Nat}
    (hp : code1 <+: code2) (h : AgreeOn code2 chunk a b) (hb : b ≤ code1.length) :
    AgreeOn code1 chunk a b := by
  intro i h1 h2
  rw [h i h1 h2, getElem?_of_initial hp i (by omega)]

theorem SameScope.same (c : SkyCompiler) : SameScope c c := ⟨rfl, rfl⟩

theorem SameScope.andThen {a b c : SkyCompiler} (h1 : SameScope a b) (h2 : SameScope b c) :
    SameScope a c := ⟨h2.1.trans h1.1, h2.2.trans h1.2⟩

theorem same_scope_emit_byte (c : SkyCompiler) (b : Nat) (line : Int) :
    SameScope c (emit_byte c b line) := ⟨rfl, rfl⟩

theorem same_scope_emit_bytes (c : SkyCompiler) (b1 b2 : Nat) (line : Int) :
    SameScope c (emit_bytes c b1 b2 line) := ⟨rfl, rfl⟩

theorem same_scope_make_constant (c : SkyCompiler) (v : SkyValue) :
    SameScope c (make_constant c v).2 := by
  unfold make_constant sky_chunk_add_constant
  dsimp only
  split <;> exact ⟨rfl, rfl⟩

theorem make_constant_code (c : SkyCompiler) (v : SkyValue) :
    (make_constant c v).2.chunk.code = c.chunk.code := by
  unfold make_constant sky_chunk_add_constant
  dsimp only
  split <;> rfl

theorem emit_bytes_code (c : SkyCompiler) (b1 b2 : Nat) (line : Int) :
    (emit_bytes c b1 b2 line).chunk.code = c.chunk.code ++ [b1 % 256, b2 % 256] := by
  simp [emit_bytes, emit_byte, sky_chunk_write]

/-- One instruction of `simple_effect`, emitted by `emit_byte` after the
code of `c`, in a chunk that holds the emitted code. -/
theorem triple_emit_byte (c : SkyCompiler) (chunk : SkyChunk) (op : SkyOpCode) (line : Int)
    {din dout : Nat} (he : simple_effect op = some (1, din, dout))
    (h : AgreeOn (emit_byte c op.toByte line).chunk.code chunk c.code_count
      (emit_byte c op.toByte line).code_count) :
    Triple chunk c.code_count (emit_byte c op.toByte line).code_count din dout (max din dout) := by
  have hb : op.toByte % 256 = op.toByte := by cases op <;> rfl
  have e : (emit_byte c op.toByte line).code_count = c.code_count + 1 := by
    simp [SkyCompiler.code_count, emit_byte_code]
  rw [e] at h ⊢
  apply Triple.instr op he
  rw [h c.code_count (Nat.le_refl _) (by omega), emit_byte_code, hb, SkyCompiler.code_count]
  exact getElem?_append_length _ _

/-- One two-byte instruction of `simple_effect`, emitted by `emit_bytes`. -/
theorem triple_emit_bytes (c : SkyCompiler) (chunk : SkyChunk) (op : SkyOpCode) (operand : Nat)
    (line : Int) {din dout : Nat} (he : simple_effect op = some (2, din, dout))
    (h : AgreeOn (emit_bytes c op.toByte operand line).chunk.code chunk c.code_count
      (emit_bytes c op.toByte operand line).code_count) :
    Triple chunk c.code_count (emit_bytes c op.toByte operand line).code_count din dout
      (max din dout) := by
  have hb : op.toByte % 256 = op.toByte := by cases op <;> rfl
  have e : (emit_bytes c op.toByte operand line).code_count = c.code_count + 2 := by
    simp [SkyCompiler.code_count, emit_bytes_code]
  rw [e] at h ⊢
  apply Triple.instr op he
  rw [h c.code_count (Nat.le_refl _) (by omega), emit_bytes_code, hb, SkyCompiler.code_count]
  exact getElem?_append_length _ _

theorem compile_node_float_literal (line : Int) (value : Float) (c : SkyCompiler) :
    compile_node (.float_literal line value) c = emit_constant c (.float value) line := rfl

theorem compile_node_string_literal (line : Int) (value : String) (c : SkyCompiler) :
    compile_node (.string_literal line value) c =
      emit_constant c (.string (some value)) line := rfl

theorem compile_node_bool_literal (line : Int) (value : Bool) (c : SkyCompiler) :
    compile_node (.bool_literal line value) c =
      emit_byte c (if value then OP_TRUE.toByte else OP_FALSE.toByte) line := rfl

theorem compile_node_nil_literal (line : Int) (c : SkyCompiler) :
    compile_node (.nil_literal line) c = emit_byte c OP_NIL.toByte line := rfl

theorem compile_node_unop (line : Int) (op : UnOp) (e : SkyASTNode) (c : SkyCompiler) :
    compile_node (.unary line op.token e) c =
      emit_byte (compile_node e c) op.opcode.toByte line := by
  cases op <;> rfl

theorem compile_node_binop (line : Int) (op : BinOp) (l r : SkyASTNode) (c : SkyCompiler) :
    compile_node (.binary line op.token l r) c =
      emit_byte (compile_node r (compile_node l c)) op.opcode.toByte line := by
  cases op <;> rfl

theorem BinOp.effect_bin (op : BinOp) : simple_effect op.opcode = some (1, 2, 1) := by
  cases op <;> rfl

theorem UnOp.effect_un (op : UnOp) : simple_effect op.opcode = some (1, 1, 1) := by
  cases op <;> rfl

theorem SExpr.slots_ge_one (e : SExpr) : 1 ≤ e.slots := by
  induction e with
  | unary line op operand ih => exact ih
  | binary line op left right ihl ihr => simp only [SExpr.slots]; omega
  | assign line tl name value ih => exact ih
  | _ => exact Nat.le_refl _

theorem emit_constant_unfold (c : SkyCompiler) (v : SkyValue) (line : Int) :
    emit_constant c v line =
      emit_bytes (make_constant c v).2 OP_CONSTANT.toByte (make_constant c v).1 line := rfl

/-- `make_constant` followed by a two-byte instruction of `simple_effect`
that pushes. -/
theorem triple_constant_operand (c : SkyCompiler) (chunk : SkyChunk) (op : SkyOpCode)
    (v : SkyValue) (line : Int) {din dout : Nat} (he : simple_effect op = some (2, din, dout))
    (h : AgreeOn (emit_bytes (make_constant c v).2 op.toByte (make_constant c v).1 line).chunk.code
      chunk c.code_count
      (emit_bytes (make_constant c v).2 op.toByte (make_constant c v).1 line).code_count) :
    Triple chunk c.code_count
      (emit_bytes (make_constant c v).2 op.toByte (make_constant c v).1 line).code_count
      din dout (max din dout) := by
  have e : c.code_count = (make_constant c v).2.code_count := by
    rw [SkyCompiler.code_count, SkyCompiler.code_count, make_constant_code]
  rw [e] at h ⊢
  exact triple_emit_bytes _ chunk op _ line he h

/-- The code of an expression pushes one value: it takes depth `t0` to
depth `t0 + 1`, wherever it sits; compiling it leaves the compiler's
locals and scope depth alone. -/
theorem sexpr_triple (e : SExpr) :
    ∀ c : SkyCompiler, SameScope c (compile_node e.toAST c) ∧
      ∀ chunk : SkyChunk,
        AgreeOn (compile_node e.toAST c).chunk.code chunk c.code_count
          (compile_node e.toAST c).code_count →
        Triple chunk c.code_count (compile_node e.toAST c).code_count 0 1 e.slots := by
  induction e with
  | int_lit line value =>
      intro c
      rw [SExpr.toAST, compile_node_int_literal, emit_constant_unfold]
      exact ⟨(same_scope_make_constant _ _).andThen (same_scope_emit_bytes _ _ _ _),
        fun chunk h => triple_constant_operand c chunk OP_CONSTANT _ line rfl h⟩
  | float_lit line value =>
      intro c
      rw [SExpr.toAST, compile_node_float_literal, emit_constant_unfold]
      exact ⟨(same_scope_make_constant _ _).andThen (same_scope_emit_bytes _ _ _ _),
        fun chunk h => triple_constant_operand c chunk OP_CONSTANT _ line rfl h⟩
  | string_lit line value =>
      intro c
      rw [SExpr.toAST, compile_node_string_literal, emit_constant_unfold]
      exact ⟨(same_scope_make_constant _ _).andThen (same_scope_emit_bytes _ _ _ _),
        fun chunk h => triple_constant_operand c chunk OP_CONSTANT _ line rfl h⟩
  | bool_lit line value =>
      intro c
      rw [SExpr.toAST, compile_node_bool_literal]
      cases value
      · exact ⟨same_scope_emit_byte _ _ _,
          fun chunk h => triple_emit_byte c chunk OP_FALSE line rfl h⟩
      · exact ⟨same_scope_emit_byte _ _ _,
          fun chunk h => triple_emit_byte c chunk OP_TRUE line rfl h⟩
  | nil_lit line =>
      intro c
      rw [SExpr.toAST, compile_node_nil_literal]
      exact ⟨same_scope_emit_byte _ _ _,
        fun chunk h => triple_emit_byte c chunk OP_NIL line rfl h⟩
  | ident line name =>
      intro c
      rw [SExpr.toAST, compile_node_identifier]
      split
      · exact ⟨same_scope_emit_bytes _ _ _ _,
          fun chunk h => triple_emit_bytes c chunk OP_GET_LOCAL _ line rfl h⟩
      · exact ⟨(same_scope_make_constant _ _).andThen (same_scope_emit_bytes _ _ _ _),
          fun chunk h => triple_constant_operand c chunk OP_GET_GLOBAL _ line rfl h⟩
  | unary line op operand ih =>
      intro c
      obtain ⟨s1, t1⟩ := ih c
      rw [SExpr.toAST, compile_node_unop]
      refine ⟨s1.andThen (same_scope_emit_byte _ _ _), fun chunk h => ?_⟩
      have hg := grows_emit_byte (compile_node operand.toAST c) op.opcode.toByte line
      have hle := (compile_ast_grows false operand.toAST c).le
      have h1 := t1 chunk (AgreeOn.of_shorter hg.1 (h.mono (Nat.le_refl _) hg.le) (Nat.le_refl _))
      have h2 : Triple chunk (compile_node operand.toAST c).code_count
          (emit_byte (compile_node operand.toAST c) op.opcode.toByte line).code_count 1 1
          (max 1 1) := by
        exact triple_emit_byte _ chunk op.opcode line (UnOp.effect_un op) (h.mono hle (Nat.le_refl _))
      have hs := operand.slots_ge_one
      exact Triple.seq hle hg.le h1 (h2.weaken (by simp only [SExpr.slots]; omega))
  | binary line op left right ihl ihr =>
      intro c
      obtain ⟨s1, t1⟩ := ihl c
      obtain ⟨s2, t2⟩ := ihr (compile_node left.toAST c)
      rw [SExpr.toAST, compile_node_binop]
      refine ⟨(s1.andThen s2).andThen (same_scope_emit_byte _ _ _), fun chunk h => ?_⟩
      have hg1 := compile_ast_grows false left.toAST c
      have hg2 := compile_ast_grows false right.toAST (compile_node left.toAST c)
      have hg3 := grows_emit_byte (compile_node right.toAST (compile_node left.toAST c))
        op.opcode.toByte line
      have h1 := t1 chunk (AgreeOn.of_shorter (hg2.trans hg3).1
        (h.mono (Nat.le_refl _) (hg2.trans hg3).le) (Nat.le_refl _))
      have h2 := t2 chunk (AgreeOn.of_shorter hg3.1 (h.mono hg1.le hg3.le) (Nat.le_refl _))
      have h3 : Triple chunk (compile_node right.toAST (compile_node left.toAST c)).code_count
          (emit_byte (compile_node right.toAST (compile_node left.toAST c)) op.opcode.toByte
            line).code_count 2 1 (max 2 1) := by
        have hm := h.mono (hg1.trans hg2).le (Nat.le_refl _)
        exact triple_emit_byte _ chunk op.opcode line (BinOp.effect_bin op) hm
      have hsl := left.slots_ge_one
      have hsr := right.slots_ge_one
      have hM1 : left.slots ≤ max left.slots (1 + right.slots) := Nat.le_max_left _ _
      have hM2 : right.slots + 1 ≤ max left.slots (1 + right.slots) := by omega
      have hM3 : max 2 1 ≤ max left.slots (1 + right.slots) := by omega
      exact Triple.seq (hg1.trans hg2).le hg3.le
        (Triple.seq hg1.le hg2.le (h1.weaken hM1) ((h2.frame 1).weaken hM2))
        (h3.weaken hM3)
  | assign line tl name value ih =>
      intro c
      obtain ⟨s1, t1⟩ := ih c
      rw [SExpr.toAST, compile_node_assign_identifier]
      have hle := (compile_ast_grows false value.toAST c).le
      have hs := value.slots_ge_one
      split
      · refine ⟨s1.andThen (same_scope_emit_bytes _ _ _ _), fun chunk h => ?_⟩
        have hg := grows_emit_bytes (compile_node value.toAST c) OP_SET_LOCAL.toByte
          (u8 (resolve_local (compile_node value.toAST c) name)) line
        have h1 := t1 chunk
          (AgreeOn.of_shorter hg.1 (h.mono (Nat.le_refl _) hg.le) (Nat.le_refl _))
        have h2 := triple_emit_bytes _ chunk OP_SET_LOCAL _ line rfl
          (h.mono hle (Nat.le_refl _))
        exact Triple.seq hle hg.le h1 (h2.weaken (by simp only [SExpr.slots]; omega))
      · refine ⟨(s1.andThen (same_scope_make_constant _ _)).andThen (same_scope_emit_bytes _ _ _ _),
          fun chunk h => ?_⟩
        have hg := (grows_make_constant (compile_node value.toAST c)
          (.string (some name))).trans (grows_emit_bytes _ OP_SET_GLOBAL.toByte
            (make_constant (compile_node value.toAST c) (.string (some name))).1 line)
        have h1 := t1 chunk
          (AgreeOn.of_shorter hg.1 (h.mono (Nat.le_refl _) hg.le) (Nat.le_refl _))
        have h2 := triple_constant_operand _ chunk OP_SET_GLOBAL _ line rfl
          (h.mono hle (Nat.le_refl _))
        exact Triple.seq hle hg.le h1 (h2.weaken (by simp only [SExpr.slots]; omega))

theorem depth_ok_exit (chunk : SkyChunk) (a b t k : Nat) (vm : SkyVM) (h : vm.ip = b)
    (ht : vm.stack_top = t) : (exec_region chunk a b k vm).depth_ok t := by
  rw [exec_region_at_end chunk a b k vm h]; exact ht

/-- Rule for `if`/`else` on the machine: the code of the condition in
`[a, p1)`, `JUMP_IF_FALSE` to `p2 + 3` and `POP` at `p1`, the then-branch in
`[p1 + 4, p2)`, `JUMP` to `b` and `POP` at `p2`, the else-branch in
`[p2 + 4, b)`. -/
theorem triple_if_else (chunk : SkyChunk) (a p1 p2 b h1 l1 h2 l2 MC MT ME M : Nat)
    (ha : a ≤ p1) (hp : p1 + 4 ≤ p2) (hb : p2 + 4 ≤ b)
    (c0 : chunk.code[p1]? = some OP_JUMP_IF_FALSE.toByte)
    (c1 : chunk.code[p1 + 1]? = some h1) (c2 : chunk.code[p1 + 2]? = some l1)
    (c3 : chunk.code[p1 + 3]? = some OP_POP.toByte)
    (d1 : p1 + 3 + ((h1 <<< 8) ||| l1) % 65536 = p2 + 3)
    (e0 : chunk.code[p2]? = some OP_JUMP.toByte)
    (e1 : chunk.code[p2 + 1]? = some h2) (e2 : chunk.code[p2 + 2]? = some l2)
    (e3 : chunk.code[p2 + 3]? = some OP_POP.toByte)
    (d2 : p2 + 3 + ((h2 <<< 8) ||| l2) % 65536 = b)
    (hC : Triple chunk a p1 0 1 MC) (hT : Triple chunk (p1 + 4) p2 0 0 MT)
    (hE : Triple chunk (p2 + 4) b 0 0 ME)
    (hMC : MC ≤ M) (hMT : MT ≤ M) (hME : ME ≤ M) :
    Triple chunk a b 0 0 M := by
  intro t0 k vm hip htop hM
  refine depth_ok_sub chunk a a p1 b (t0 + 1) (t0 + 0) k vm (Nat.le_refl _) (by omega)
    (hC t0 k vm hip htop (by omega)) ?_
  intro vm1 k1 hip1 htop1 _
  refine depth_ok_step chunk a b _ k1 vm1 (by omega) (by omega) ?_
  intro vm2 hs k2 _
  have hJ := step_jump_if_false chunk vm1 h1 l1 (by rw [hip1]; exact c0)
    (by rw [hip1]; exact c1) (by rw [hip1]; exact c2) (by omega)
  have e := Step.continue_.inj (hJ.symm.trans hs)
  subst e
  by_cases hf : is_falsy (vm1.stack (vm1.stack_top - 1)) = true
  · simp only [if_pos hf]
    refine depth_ok_step chunk a b _ k2 _ (by show a ≤ vm1.ip + 3 + _; omega)
      (by show vm1.ip + 3 + _ < b; omega) ?_
    intro vm3 hs3 k3 _
    have hP := step_pop chunk { vm1 with ip := vm1.ip + 3 + ((h1 <<< 8) ||| l1) % 65536 }
      (by show chunk.code[vm1.ip + 3 + _]? = _; rw [hip1, d1]; exact e3)
      (by show 0 < vm1.stack_top; omega)
    have e := Step.continue_.inj (hP.symm.trans hs3)
    subst e
    refine depth_ok_sub chunk a (p2 + 4) b b (t0 + 0) (t0 + 0) k3 _ (by omega) (Nat.le_refl _)
      (hE t0 k3 _ (by show vm1.ip + 3 + _ + 1 = _; omega)
        (by show vm1.stack_top - 1 = _; omega) (by omega)) ?_
    intro vm4 k4 hip4 htop4 _
    exact depth_ok_exit chunk a b _ k4 vm4 hip4 htop4
  · simp only [if_neg hf]
    refine depth_ok_step chunk a b _ k2 _ (by show a ≤ vm1.ip + 3; omega)
      (by show vm1.ip + 3 < b; omega) ?_
    intro vm3 hs3 k3 _
    have hP := step_pop chunk { vm1 with ip := vm1.ip + 3 }
      (by show chunk.code[vm1.ip + 3]? = _; rw [hip1]; exact c3)
      (by show 0 < vm1.stack_top; omega)
    have e := Step.continue_.inj (hP.symm.trans hs3)
    subst e
    refine depth_ok_sub chunk a (p1 + 4) p2 b (t0 + 0) (t0 + 0) k3 _ (by omega) (by omega)
      (hT t0 k3 _ (by show vm1.ip + 3 + 1 = _; omega)
        (by show vm1.stack_top - 1 = _; omega) (by omega)) ?_
    intro vm4 k4 hip4 htop4 _
    refine depth_ok_step chunk a b _ k4 vm4 (by omega) (by omega) ?_
    intro vm5 hs5 k5 _
    have hJ5 := step_jump chunk vm4 h2 l2 (by rw [hip4]; exact e0)
      (by rw [hip4]; exact e1) (by rw [hip4]; exact e2)
    have e := Step.continue_.inj (hJ5.symm.trans hs5)
    subst e
    exact depth_ok_exit chunk a b _ k5 _ (by show vm4.ip + 3 + _ = b; rw [hip4]; exact d2)
      htop4

/-- `JUMP_BACK hi lo` with an offset that stays inside the code. -/
theorem step_jump_back (chunk : SkyChunk) (vm : SkyVM) (hi lo : Nat)
    (h0 : chunk.code[vm.ip]? = some OP_JUMP_BACK.toByte)
    (h1 : chunk.code[vm.ip + 1]? = some hi) (h2 : chunk.code[vm.ip + 2]? = some lo)
    (hle : ((hi <<< 8) ||| lo) % 65536 ≤ vm.ip + 3) :
    step chunk vm = .continue_ { vm with ip := vm.ip + 3 - ((hi <<< 8) ||| lo) % 65536 } := by
  rw [step_of_fetch chunk vm OP_JUMP_BACK h0]
  have h2' : chunk.code[vm.ip + 1 + 1]? = some lo := h2
  have hle' : ((hi <<< 8) ||| lo) % 65536 ≤ vm.ip + 1 + 1 + 1 := hle
  simp only [exec, read_short, h1, h2', hle', if_true]

/-- Rule for `while` on the machine: the code of the condition in
`[a, p1)`, `JUMP_IF_FALSE` to `p2 + 3` and `POP` at `p1`, the body in
`[p1 + 4, p2)`, `JUMP_BACK` to `a` at `p2`, `POP` at `p2 + 3`. -/
theorem triple_while (chunk : SkyChunk) (a p1 p2 h1 l1 h2 l2 MC MB M : Nat)
    (ha : a ≤ p1) (hp : p1 + 4 ≤ p2)
    (c0 : chunk.code[p1]? = some OP_JUMP_IF_FALSE.toByte)
    (c1 : chunk.code[p1 + 1]? = some h1) (c2 : chunk.code[p1 + 2]? = some l1)
    (c3 : chunk.code[p1 + 3]? = some OP_POP.toByte)
    (d1 : p1 + 3 + ((h1 <<< 8) ||| l1) % 65536 = p2 + 3)
    (e0 : chunk.code[p2]? = some OP_JUMP_BACK.toByte)
    (e1 : chunk.code[p2 + 1]? = some h2) (e2 : chunk.code[p2 + 2]? = some l2)
    (e3 : chunk.code[p2 + 3]? = some OP_POP.toByte)
    (d2 : ((h2 <<< 8) ||| l2) % 65536 = p2 + 3 - a)
    (hC : Triple chunk a p1 0 1 MC) (hB : Triple chunk (p1 + 4) p2 0 0 MB)
    (hMC : MC ≤ M) (hMB : MB ≤ M) :
    Triple chunk a (p2 + 4) 0 0 M := by
  intro t0 k
  induction k using Nat.strong_induction_on with
  | _ k ih =>
  intro vm hip htop hM
  refine depth_ok_sub chunk a a p1 (p2 + 4) (t0 + 1) (t0 + 0) k vm (Nat.le_refl _) (by omega)
    (hC t0 k vm hip htop (by omega)) ?_
  intro vm1 k1 hip1 htop1 hk1
  refine depth_ok_step chunk a (p2 + 4) _ k1 vm1 (by omega) (by omega) ?_
  intro vm2 hs k2 hk2
  have hJ := step_jump_if_false chunk vm1 h1 l1 (by rw [hip1]; exact c0)
    (by rw [hip1]; exact c1) (by rw [hip1]; exact c2) (by omega)
  have e := Step.continue_.inj (hJ.symm.trans hs)
  subst e
  by_cases hf : is_falsy (vm1.stack (vm1.stack_top - 1)) = true
  · simp only [if_pos hf]
    refine depth_ok_step chunk a (p2 + 4) _ k2 _ (by show a ≤ vm1.ip + 3 + _; omega)
      (by show vm1.ip + 3 + _ < p2 + 4; omega) ?_
    intro vm3 hs3 k3 _
    have hP := step_pop chunk { vm1 with ip := vm1.ip + 3 + ((h1 <<< 8) ||| l1) % 65536 }
      (by show chunk.code[vm1.ip + 3 + _]? = _; rw [hip1, d1]; exact e3)
      (by show 0 < vm1.stack_top; omega)
    have e := Step.continue_.inj (hP.symm.trans hs3)
    subst e
    exact depth_ok_exit chunk a (p2 + 4) _ k3 _ (by show vm1.ip + 3 + _ + 1 = _; omega)
      (by show vm1.stack_top - 1 = _; omega)
  · simp only [if_neg hf]
    refine depth_ok_step chunk a (p2 + 4) _ k2 _ (by show a ≤ vm1.ip + 3; omega)
      (by show vm1.ip + 3 < p2 + 4; omega) ?_
    intro vm3 hs3 k3 hk3
    have hP := step_pop chunk { vm1 with ip := vm1.ip + 3 }
      (by show chunk.code[vm1.ip + 3]? = _; rw [hip1]; exact c3)
      (by show 0 < vm1.stack_top; omega)
    have e := Step.continue_.inj (hP.symm.trans hs3)
    subst e
    refine depth_ok_sub chunk a (p1 + 4) p2 (p2 + 4) (t0 + 0) (t0 + 0) k3 _ (by omega)
      (by omega)
      (hB t0 k3 _ (by show vm1.ip + 3 + 1 = _; omega)
        (by show vm1.stack_top - 1 = _; omega) (by omega)) ?_
    intro vm4 k4 hip4 htop4 hk4
    refine depth_ok_step chunk a (p2 + 4) _ k4 vm4 (by omega) (by omega) ?_
    intro vm5 hs5 k5 hk5
    have hJ5 := step_jump_back chunk vm4 h2 l2 (by rw [hip4]; exact e0)
      (by rw [hip4]; exact e1) (by rw [hip4]; exact e2) (by rw [d2, hip4]; omega)
    have e := Step.continue_.inj (hJ5.symm.trans hs5)
    subst e
    exact ih k5 (by omega) _ (by show vm4.ip + 3 - _ = a; rw [d2, hip4]; omega) htop4 hM

/-- `patch_jump` touches the two bytes at `offset` and `offset + 1` only. -/
theorem patch_jump_getElem (c : SkyCompiler) (offset i : Nat) (h1 : i ≠ offset)
    (h2 : i ≠ offset + 1) : (patch_jump c offset).chunk.code[i]? = c.chunk.code[i]? := by
  unfold patch_jump
  dsimp only
  split
  · rfl
  · simp only [List.getElem?_set]
    rw [if_neg (by omega), if_neg (by omega)]

/-- Reading the chunk where it agrees with a code of the form `A ++ L`. -/
theorem AgreeOn.at {code : List Nat} {chunk : SkyChunk} {a b : Nat}
    (h : AgreeOn code chunk a b) (A L : List Nat) (hcode : code = A ++ L)
    (ha : a ≤ A.length) (k : Nat) (hk : A.length + k < b) :
    chunk.code[A.length + k]? = L[k]? := by
  rw [h _ (by omega) hk, hcode, getElem?_append_add]

/-- Two codes that differ in a middle segment `B`, `B1` of one length agree
on the segment that follows it. -/
theorem getElem?_after_segment (A B B1 S D : List Nat) (hB : B.length = B1.length) (i : Nat)
    (h1 : A.length + B.length ≤ i) :
    (A ++ B ++ S ++ D)[i]? = (A ++ B1 ++ S ++ D)[i]? := by
  obtain ⟨j, rfl⟩ := Nat.exists_eq_add_of_le h1
  rw [List.append_assoc (A ++ B), List.append_assoc (A ++ B1),
    show A.length + B.length + j = (A ++ B).length + j by simp,
    getElem?_append_add,
    show (A ++ B).length + j = (A ++ B1).length + j by simp [hB],
    getElem?_append_add]

theorem if_else_compiled (line : Int) (C T E : SkyASTNode) (c : SkyCompiler)
    (chunk : SkyChunk) (MC MT ME M : Nat)
    (hok : (compile_node (.if_stmt line C T (some E)) c).had_error = false)
    (hagree : AgreeOn (compile_node (.if_stmt line C T (some E)) c).chunk.code chunk
      c.code_count (compile_node (.if_stmt line C T (some E)) c).code_count)
    (tC : AgreeOn (compile_node C c).chunk.code chunk c.code_count
        (compile_node C c).code_count →
      Triple chunk c.code_count (compile_node C c).code_count 0 1 MC)
    (tT : AgreeOn (compile_node T (if_then_entry line C c)).chunk.code chunk
        (if_then_entry line C c).code_count
        (compile_node T (if_then_entry line C c)).code_count →
      Triple chunk (if_then_entry line C c).code_count
        (compile_node T (if_then_entry line C c)).code_count 0 0 MT)
    (tE : AgreeOn (compile_node E (if_else_entry line C T c)).chunk.code chunk
        (if_else_entry line C T c).code_count
        (compile_node E (if_else_entry line C T c)).code_count →
      Triple chunk (if_else_entry line C T c).code_count
        (compile_node E (if_else_entry line C T c)).code_count 0 0 ME)
    (hMC : MC ≤ M) (hMT : MT ≤ M) (hME : ME ≤ M) :
    Triple chunk c.code_count (compile_node (.if_stmt line C T (some E)) c).code_count 0 0
      M := by
  obtain ⟨sT, sE, e4, l8, hj1, hj2, eF⟩ := if_else_layout line C T E c hok
  have hcC : c.code_count ≤ (compile_node C c).code_count := (compile_ast_grows false C c).le
  have hlenC : (compile_node C c).chunk.code.length = (compile_node C c).code_count := rfl
  have p1 : (if_then_entry line C c).code_count = (compile_node C c).code_count + 4 := by
    simp [if_then_entry, SkyCompiler.code_count, emit_byte_code, emit_jump_code]
  have p2 : (compile_node T (if_then_entry line C c)).code_count =
      (compile_node C c).code_count + 4 + sT.length := by
    simp only [SkyCompiler.code_count, e4]; simp; omega
  have p3 : (if_else_entry line C T c).code_count =
      (compile_node T (if_then_entry line C c)).code_count + 4 := by
    have := patch_jump_code_count
      (emit_jump (compile_node T (if_then_entry line C c)) OP_JUMP line).2
      (emit_jump (compile_node C c) OP_JUMP_IF_FALSE line).1
    simp only [SkyCompiler.code_count, emit_jump_code, List.length_append] at this
    simp only [if_else_entry, SkyCompiler.code_count, emit_byte_code, List.length_append, this]
    simp
  have p4 : (compile_node E (if_else_entry line C T c)).code_count =
      (compile_node C c).code_count + 4 + sT.length + 4 + sE.length := l8
  have p5 : (compile_node (.if_stmt line C T (some E)) c).code_count =
      (compile_node E (if_else_entry line C T c)).code_count := by
    rw [compile_node_if_else, patch_jump_code_count]
  have o2 : (emit_jump (compile_node T (if_then_entry line C c)) OP_JUMP line).1 =
      (compile_node T (if_then_entry line C c)).code_count + 1 := emit_jump_fst _ _ _
  have eF1 : (compile_node (.if_stmt line C T (some E)) c).chunk.code =
      (compile_node C c).chunk.code ++
        (32 :: (((sT.length + 4) >>> 8) &&& 0xff) :: ((sT.length + 4) &&& 0xff) :: 6 ::
          (sT ++ (31 :: (((sE.length + 1) >>> 8) &&& 0xff) :: ((sE.length + 1) &&& 0xff) :: 6
            :: sE))) := by
    rw [eF]; simp
  have byteA := fun k hk => hagree.at _ _ eF1 hcC k hk
  have byteT : ∀ k, (compile_node T (if_then_entry line C c)).code_count + k <
        (compile_node (.if_stmt line C T (some E)) c).code_count →
      chunk.code[(compile_node T (if_then_entry line C c)).code_count + k]? =
        ((31 :: (((sE.length + 1) >>> 8) &&& 0xff) :: ((sE.length + 1) &&& 0xff) :: 6 :: sE
          : List Nat))[k]? := by
    intro k hk
    rw [p2, show (compile_node C c).code_count + 4 + sT.length + k =
      (compile_node C c).chunk.code.length + (sT.length + k + 1 + 1 + 1 + 1) by
        rw [SkyCompiler.code_count]; omega]
    rw [byteA _ (by rw [p2] at hk; rw [← SkyCompiler.code_count]; omega)]
    simp only [List.getElem?_cons_succ]
    rw [getElem?_append_add]
  have aC : AgreeOn (compile_node C c).chunk.code chunk c.code_count
      (compile_node C c).code_count := by
    intro i h1 h2
    rw [hagree i h1 (by omega), eF1]
    exact List.getElem?_append_left h2
  have aT : AgreeOn (compile_node T (if_then_entry line C c)).chunk.code chunk
      (if_then_entry line C c).code_count
      (compile_node T (if_then_entry line C c)).code_count := by
    intro i h1 h2
    have hA1 : (compile_node C c).chunk.code.length +
        [32, ((sT.length + 4) >>> 8) &&& 0xff, (sT.length + 4) &&& 0xff, 6].length ≤ i := by
      rw [p1] at h1; exact h1
    have hA2 : i < ((compile_node C c).chunk.code ++ [32, 255, 255, 6] ++ sT).length := by
      rw [p2] at h2; simp only [List.length_append]; exact h2
    rw [hagree i (by omega) (by omega), eF, e4, List.append_assoc _ _ sE,
      getElem?_after_segment _
        [32, ((sT.length + 4) >>> 8) &&& 0xff, (sT.length + 4) &&& 0xff, 6]
        [32, 255, 255, 6] _ _ rfl i hA1]
    exact List.getElem?_append_left hA2
  have aE : AgreeOn (compile_node E (if_else_entry line C T c)).chunk.code chunk
      (if_else_entry line C T c).code_count
      (compile_node E (if_else_entry line C T c)).code_count := by
    intro i h1 h2
    rw [hagree i (by omega) (by omega), compile_node_if_else]
    exact patch_jump_getElem _ _ i (by omega) (by omega)
  have b0 : chunk.code[(compile_node C c).code_count]? = some OP_JUMP_IF_FALSE.toByte := by
    rw [← hlenC]; exact byteA 0 (by omega)
  have b1 : chunk.code[(compile_node C c).code_count + 1]? =
      some (((sT.length + 4) >>> 8) &&& 0xff) := by
    rw [← hlenC]; exact byteA 1 (by omega)
  have b2 : chunk.code[(compile_node C c).code_count + 2]? =
      some ((sT.length + 4) &&& 0xff) := by
    rw [← hlenC]; exact byteA 2 (by omega)
  have b3 : chunk.code[(compile_node C c).code_count + 3]? = some OP_POP.toByte := by
    rw [← hlenC]; exact (byteA 3 (by omega)).trans (by simp [SkyOpCode.toByte])
  have t0 : chunk.code[(compile_node T (if_then_entry line C c)).code_count]? =
      some OP_JUMP.toByte := byteT 0 (by omega)
  have t1 : chunk.code[(compile_node T (if_then_entry line C c)).code_count + 1]? =
      some (((sE.length + 1) >>> 8) &&& 0xff) := byteT 1 (by omega)
  have t2 : chunk.code[(compile_node T (if_then_entry line C c)).code_count + 2]? =
      some ((sE.length + 1) &&& 0xff) := byteT 2 (by omega)
  have t3 : chunk.code[(compile_node T (if_then_entry line C c)).code_count + 3]? =
      some OP_POP.toByte := (byteT 3 (by omega)).trans (by simp [SkyOpCode.toByte])
  have q1 := p1 ▸ tT aT
  have q2 := p3 ▸ tE aE
  rw [← p5] at q2
  exact triple_if_else chunk c.code_count (compile_node C c).code_count
    (compile_node T (if_then_entry line C c)).code_count
    (compile_node (.if_stmt line C T (some E)) c).code_count
    (((sT.length + 4) >>> 8) &&& 0xff) ((sT.length + 4) &&& 0xff)
    (((sE.length + 1) >>> 8) &&& 0xff) ((sE.length + 1) &&& 0xff) MC MT ME M hcC
    (by omega) (by omega) b0 b1 b2 b3 (by rw [decode_patched _ hj1]; omega)
    t0 t1 t2 t3 (by rw [decode_patched _ hj2]; omega) (tC aC) q1 q2 hMC hMT hME

theorem and_255_mod (x : Nat) : (x &&& 0xff) % 256 = x &&& 0xff := by
  have h : x &&& 0xff = x % 256 := Nat.and_pow_two_sub_one_eq_mod x 8
  rw [h, Nat.mod_mod]

theorem emit_jump_back_code (c : SkyCompiler) (loop_start : Nat) (line : Int) :
    (emit_jump_back c loop_start line).chunk.code =
      c.chunk.code ++ [33, ((c.code_count - loop_start + 3) >>> 8) &&& 0xff,
        (c.code_count - loop_start + 3) &&& 0xff] := by
  simp only [emit_jump_back, emit_byte_code, and_255_mod, List.append_assoc,
    List.singleton_append]
  rfl

theorem emit_jump_back_had_error (c : SkyCompiler) (loop_start : Nat) (line : Int) :
    (emit_jump_back c loop_start line).had_error = c.had_error := rfl

/-- The code of a `while` once the exit jump is patched. -/
theorem while_list (A sB : List Nat) (hi lo x y : Nat) :
    (((A ++ [32, 255, 255, 6] ++ sB ++ [33, x, y]).set (A.length + 1) hi).set
      (A.length + 2) lo) ++ [6] = A ++ [32, hi, lo, 6] ++ sB ++ [33, x, y, 6] := by
  simp only [List.append_assoc, set_append_add, List.cons_append, List.nil_append,
    List.set_cons_succ, List.set_cons_zero]

/-- The code of a compiled `while` that raised no compile error: the code
of the condition, `JUMP_IF_FALSE` over the body and its `JUMP_BACK`, `POP`,
the body, `JUMP_BACK` with the distance to the start of the condition,
`POP`. -/
theorem while_layout (line : Int) (C B : SkyASTNode) (c : SkyCompiler)
    (hok : (compile_node (.while_stmt line C B) c).had_error = false) :
    ∃ sB : List Nat,
      (compile_block B (if_then_entry line C c)).chunk.code =
        (compile_node C c).chunk.code ++ [32, 255, 255, 6] ++ sB ∧
      sB.length + 4 ≤ 0xffff ∧
      (compile_node (.while_stmt line C B) c).chunk.code =
        (compile_node C c).chunk.code ++
          [32, ((sB.length + 4) >>> 8) &&& 0xff, (sB.length + 4) &&& 0xff, 6] ++ sB ++
          [33, (((compile_node C c).code_count + 4 + sB.length - c.code_count + 3) >>> 8)
              &&& 0xff,
            ((compile_node C c).code_count + 4 + sB.length - c.code_count + 3) &&& 0xff, 6] := by
  have e3 : (if_then_entry line C c).chunk.code =
      (compile_node C c).chunk.code ++ [32, 255, 255, 6] := by
    simp [if_then_entry, emit_byte_code, emit_jump_code, SkyOpCode.toByte]
  obtain ⟨sB, hsB⟩ := (compile_ast_grows true B (if_then_entry line C c)).1
  have e4 : (compile_block B (if_then_entry line C c)).chunk.code =
      (compile_node C c).chunk.code ++ [32, 255, 255, 6] ++ sB := by
    rw [← e3]; exact hsB.symm
  have cB : (compile_block B (if_then_entry line C c)).code_count =
      (compile_node C c).code_count + 4 + sB.length := by
    simp only [SkyCompiler.code_count, e4]; simp; omega
  have e5 : (emit_jump_back (compile_block B (if_then_entry line C c)) c.code_count
      line).chunk.code =
      (compile_node C c).chunk.code ++ [32, 255, 255, 6] ++ sB ++
        [33, (((compile_node C c).code_count + 4 + sB.length - c.code_count + 3) >>> 8)
            &&& 0xff,
          ((compile_node C c).code_count + 4 + sB.length - c.code_count + 3) &&& 0xff] := by
    rw [emit_jump_back_code, e4, cB]
  have o1 : (emit_jump (compile_node C c) OP_JUMP_IF_FALSE line).1 =
      (compile_node C c).chunk.code.length + 1 := emit_jump_fst _ _ _
  have j1 : (emit_jump_back (compile_block B (if_then_entry line C c)) c.code_count
      line).code_count - (emit_jump (compile_node C c) OP_JUMP_IF_FALSE line).1 - 2 =
      sB.length + 4 := by
    rw [SkyCompiler.code_count, e5, o1]; simp; omega
  have hF : compile_node (.while_stmt line C B) c =
      emit_byte (patch_jump
        (emit_jump_back (compile_block B (if_then_entry line C c)) c.code_count line)
        (emit_jump (compile_node C c) OP_JUMP_IF_FALSE line).1) OP_POP.toByte line := rfl
  rw [hF] at hok ⊢
  by_cases hj1 : sB.length + 4 ≤ 0xffff
  · obtain ⟨e6, _⟩ := patch_jump_of_le
      (emit_jump_back (compile_block B (if_then_entry line C c)) c.code_count line)
      (emit_jump (compile_node C c) OP_JUMP_IF_FALSE line).1 (by rw [j1]; exact hj1)
    refine ⟨sB, e4, hj1, ?_⟩
    rw [emit_byte_code, e6, j1, e5, o1]
    exact while_list _ sB _ _ _ _
  · have h6 := patch_jump_of_gt
      (emit_jump_back (compile_block B (if_then_entry line C c)) c.code_count line)
      (emit_jump (compile_node C c) OP_JUMP_IF_FALSE line).1 (by rw [j1]; exact hj1)
    rw [emit_byte_had_error, h6] at hok; cases hok

theorem while_compiled (line : Int) (C B : SkyASTNode) (c : SkyCompiler)
    (chunk : SkyChunk) (MC MB M : Nat)
    (hok : (compile_node (.while_stmt line C B) c).had_error = false)
    (hsize : (compile_node (.while_stmt line C B) c).code_count ≤ c.code_count + 0x10000)
    (hagree : AgreeOn (compile_node (.while_stmt line C B) c).chunk.code chunk
      c.code_count (compile_node (.while_stmt line C B) c).code_count)
    (tC : AgreeOn (compile_node C c).chunk.code chunk c.code_count
        (compile_node C c).code_count →
      Triple chunk c.code_count (compile_node C c).code_count 0 1 MC)
    (tB : AgreeOn (compile_block B (if_then_entry line C c)).chunk.code chunk
        (if_then_entry line C c).code_count
        (compile_block B (if_then_entry line C c)).code_count →
      Triple chunk (if_then_entry line C c).code_count
        (compile_block B (if_then_entry line C c)).code_count 0 0 MB)
    (hMC : MC ≤ M) (hMB : MB ≤ M) :
    Triple chunk c.code_count (compile_node (.while_stmt line C B) c).code_count 0 0 M := by
  obtain ⟨sB, e4, hj1, eF⟩ := while_layout line C B c hok
  have hcC : c.code_count ≤ (compile_node C c).code_count := (compile_ast_grows false C c).le
  have hlenC : (compile_node C c).chunk.code.length = (compile_node C c).code_count := rfl
  have p1 : (if_then_entry line C c).code_count = (compile_node C c).code_count + 4 := by
    simp [if_then_entry, SkyCompiler.code_count, emit_byte_code, emit_jump_code]
  have p2 : (compile_block B (if_then_entry line C c)).code_count =
      (compile_node C c).code_count + 4 + sB.length := by
    simp only [SkyCompiler.code_count, e4]; simp; omega
  have p5 : (compile_node (.while_stmt line C B) c).code_count =
      (compile_block B (if_then_entry line C c)).code_count + 4 := by
    rw [p2]; simp only [SkyCompiler.code_count, eF]; simp; omega
  have eF1 : (compile_node (.while_stmt line C B) c).chunk.code =
      (compile_node C c).chunk.code ++
        (32 :: (((sB.length + 4) >>> 8) &&& 0xff) :: ((sB.length + 4) &&& 0xff) :: 6 ::
          (sB ++ [33,
            (((compile_node C c).code_count + 4 + sB.length - c.code_count + 3) >>> 8)
              &&& 0xff,
            ((compile_node C c).code_count + 4 + sB.length - c.code_count + 3) &&& 0xff,
            6])) := by
    rw [eF]; simp
  have byteA := fun k hk => hagree.at _ _ eF1 hcC k hk
  have byteB : ∀ k, (compile_block B (if_then_entry line C c)).code_count + k <
        (compile_node (.while_stmt line C B) c).code_count →
      chunk.code[(compile_block B (if_then_entry line C c)).code_count + k]? =
        ([33, (((compile_node C c).code_count + 4 + sB.length - c.code_count + 3) >>> 8)
              &&& 0xff,
            ((compile_node C c).code_count + 4 + sB.length - c.code_count + 3) &&& 0xff,
            6] : List Nat)[k]? := by
    intro k hk
    rw [p2, show (compile_node C c).code_count + 4 + sB.length + k =
      (compile_node C c).chunk.code.length + (sB.length + k + 1 + 1 + 1 + 1) by
        rw [SkyCompiler.code_count]; omega]
    rw [byteA _ (by rw [p2] at hk; omega)]
    simp only [List.getElem?_cons_succ]
    rw [getElem?_append_add]
  have aC : AgreeOn (compile_node C c).chunk.code chunk c.code_count
      (compile_node C c).code_count := by
    intro i h1 h2
    rw [hagree i h1 (by omega), eF1]
    exact List.getElem?_append_left h2
  have aB : AgreeOn (compile_block B (if_then_entry line C c)).chunk.code chunk
      (if_then_entry line C c).code_count
      (compile_block B (if_then_entry line C c)).code_count := by
    intro i h1 h2
    have hA1 : (compile_node C c).chunk.code.length +
        [32, ((sB.length + 4) >>> 8) &&& 0xff, (sB.length + 4) &&& 0xff, 6].length ≤ i := by
      rw [p1] at h1; exact h1
    have hA2 : i < ((compile_node C c).chunk.code ++ [32, 255, 255, 6] ++ sB).length := by
      rw [p2] at h2; simp only [List.length_append]; exact h2
    rw [hagree i (by omega) (by omega), eF, e4,
      getElem?_after_segment _
        [32, ((sB.length + 4) >>> 8) &&& 0xff, (sB.length + 4) &&& 0xff, 6]
        [32, 255, 255, 6] _ _ rfl i hA1]
    exact List.getElem?_append_left hA2
  have b0 : chunk.code[(compile_node C c).code_count]? = some OP_JUMP_IF_FALSE.toByte := by
    rw [← hlenC]; exact byteA 0 (by omega)
  have b1 : chunk.code[(compile_node C c).code_count + 1]? =
      some (((sB.length + 4) >>> 8) &&& 0xff) := by
    rw [← hlenC]; exact byteA 1 (by omega)
  have b2 : chunk.code[(compile_node C c).code_count + 2]? =
      some ((sB.length + 4) &&& 0xff) := by
    rw [← hlenC]; exact byteA 2 (by omega)
  have b3 : chunk.code[(compile_node C c).code_count + 3]? = some OP_POP.toByte := by
    rw [← hlenC]; exact (byteA 3 (by omega)).trans (by simp [SkyOpCode.toByte])
  have t0 : chunk.code[(compile_block B (if_then_entry line C c)).code_count]? =
      some OP_JUMP_BACK.toByte := byteB 0 (by omega)
  have t1 : chunk.code[(compile_block B (if_then_entry line C c)).code_count + 1]? =
      some ((((compile_node C c).code_count + 4 + sB.length - c.code_count + 3) >>> 8)
        &&& 0xff) := byteB 1 (by omega)
  have t2 : chunk.code[(compile_block B (if_then_entry line C c)).code_count + 2]? =
      some (((compile_node C c).code_count + 4 + sB.length - c.code_count + 3) &&& 0xff) :=
    byteB 2 (by omega)
  have t3 : chunk.code[(compile_block B (if_then_entry line C c)).code_count + 3]? =
      some OP_POP.toByte := (byteB 3 (by omega)).trans (by simp [SkyOpCode.toByte])
  have q1 := p1 ▸ tB aB
  rw [p5]
  exact triple_while chunk c.code_count (compile_node C c).code_count
    (compile_block B (if_then_entry line C c)).code_count
    (((sB.length + 4) >>> 8) &&& 0xff) ((sB.length + 4) &&& 0xff) _ _ MC MB M hcC
    (by omega) b0 b1 b2 b3 (by rw [decode_patched _ hj1]; omega)
    t0 t1 t2 t3 (by rw [decode_patched _ (by omega)]; omega) (tC aC) q1 hMC hMB

theorem LocalsOk.of_same_scope {c c1 : SkyCompiler} (h : LocalsOk c) (hs : SameScope c c1) :
    LocalsOk c1 := by
  intro l hl
  rw [hs.1] at hl
  rw [hs.2]
  exact h l hl

theorem end_scope_loop_none (c : SkyCompiler) (line : Int) (ls : List Local)
    (h : ∀ l ∈ ls, l.depth ≤ c.scope_depth) :
    end_scope_loop c line ls = { c with locals := ls.reverse } := by
  cases ls with
  | nil => rfl
  | cons l below =>
      have hl := h l (List.mem_cons_self _ _)
      unfold end_scope_loop
      rw [if_neg (by omega)]

/-- Unfolding `compile_node` at a block. -/
theorem compile_node_block (line : Int) (ss : List SkyASTNode) (c : SkyCompiler) :
    compile_node (.block line ss) c = end_scope (compile_nodes ss (begin_scope c)) line := rfl

/-- A block whose statements declare no local closes its scope without
emitting anything. -/
theorem block_no_locals (line : Int) (ss : List SkyASTNode) (c : SkyCompiler)
    (hloc : LocalsOk c) (hs : SameScope (begin_scope c) (compile_nodes ss (begin_scope c))) :
    (compile_node (.block line ss) c).chunk = (compile_nodes ss (begin_scope c)).chunk ∧
    (compile_node (.block line ss) c).had_error =
      (compile_nodes ss (begin_scope c)).had_error ∧
    SameScope c (compile_node (.block line ss) c) := by
  have hl : (compile_nodes ss (begin_scope c)).locals = c.locals := hs.1
  have hd : (compile_nodes ss (begin_scope c)).scope_depth = c.scope_depth + 1 := hs.2
  have e : compile_node (.block line ss) c =
      { compile_nodes ss (begin_scope c) with scope_depth := c.scope_depth } := by
    rw [compile_node_block, end_scope]
    dsimp only
    rw [end_scope_loop_none]
    · simp only [List.reverse_reverse, hd, Int.add_sub_cancel]
    · intro l hm
      rw [List.mem_reverse, hl] at hm
      show l.depth ≤ (compile_nodes ss (begin_scope c)).scope_depth - 1
      rw [hd, Int.add_sub_cancel]
      exact hloc l hm
  rw [e]
  exact ⟨rfl, rfl, hl, rfl⟩

theorem same_scope_emit_jump (c : SkyCompiler) (op : SkyOpCode) (line : Int) :
    SameScope c (emit_jump c op line).2 := ⟨rfl, rfl⟩

theorem same_scope_emit_jump_back (c : SkyCompiler) (loop_start : Nat) (line : Int) :
    SameScope c (emit_jump_back c loop_start line) := ⟨rfl, rfl⟩

theorem same_scope_patch_jump (c : SkyCompiler) (offset : Nat) :
    SameScope c (patch_jump c offset) := by
  unfold patch_jump
  dsimp only
  split <;> exact ⟨rfl, rfl⟩

theorem same_scope_if_then_entry (line : Int) (C : SkyASTNode) (c : SkyCompiler)
    (h : SameScope c (compile_node C c)) : SameScope c (if_then_entry line C c) :=
  (h.andThen (same_scope_emit_jump _ _ _)).andThen (same_scope_emit_byte _ _ _)

theorem same_scope_if_else_entry (line : Int) (C T : SkyASTNode) (c : SkyCompiler)
    (h : SameScope c (compile_node T (if_then_entry line C c))) :
    SameScope c (if_else_entry line C T c) :=
  ((h.andThen (same_scope_emit_jump _ _ _)).andThen (same_scope_patch_jump _ _)).andThen
    (same_scope_emit_byte _ _ _)

theorem eq_false_of_grows {c c1 : SkyCompiler} (h : Grows c c1) (h1 : c1.had_error = false) :
    c.had_error = false := by
  cases hc : c.had_error with
  | false => rfl
  | true => rw [h.2 hc] at h1; cases h1

theorem grows_if_then_entry (line : Int) (C : SkyASTNode) (c : SkyCompiler) :
    Grows (compile_node C c) (if_then_entry line C c) :=
  (grows_emit_jump _ _ _).trans (grows_emit_byte _ _ _)

/-- An `if`/`else` compiled without error: its parts were compiled without
error. -/
theorem if_else_parts_ok (line : Int) (C T E : SkyASTNode) (c : SkyCompiler)
    (hok : (compile_node (.if_stmt line C T (some E)) c).had_error = false) :
    (compile_node T (if_then_entry line C c)).had_error = false ∧
    (compile_node E (if_else_entry line C T c)).had_error = false := by
  rw [compile_node_if_else] at hok
  have hE : (compile_node E (if_else_entry line C T c)).had_error = false := by
    cases h : (compile_node E (if_else_entry line C T c)).had_error with
    | false => rfl
    | true => rw [patch_jump_keeps_error _ _ h] at hok; cases hok
  have hX : (if_else_entry line C T c).had_error = false :=
    eq_false_of_grows (compile_ast_grows false E _) hE
  refine ⟨?_, hE⟩
  cases h : (compile_node T (if_then_entry line C c)).had_error with
  | false => rfl
  | true =>
      have : (if_else_entry line C T c).had_error = true :=
        patch_jump_keeps_error _ _ h
      rw [this] at hX; cases hX

/-- A `while` compiled without error: its body was compiled without
error. -/
theorem while_parts_ok (line : Int) (C B : SkyASTNode) (c : SkyCompiler)
    (hok : (compile_node (.while_stmt line C B) c).had_error = false) :
    (compile_block B (if_then_entry line C c)).had_error = false := by
  have hF : compile_node (.while_stmt line C B) c =
      emit_byte (patch_jump
        (emit_jump_back (compile_block B (if_then_entry line C c)) c.code_count line)
        (emit_jump (compile_node C c) OP_JUMP_IF_FALSE line).1) OP_POP.toByte line := rfl
  rw [hF, emit_byte_had_error] at hok
  cases h : (compile_block B (if_then_entry line C c)).had_error with
  | false => rfl
  | true =>
      have : (emit_jump_back (compile_block B (if_then_entry line C c)) c.code_count
          line).had_error = true := h
      rw [patch_jump_keeps_error _ _ this] at hok; cases hok

theorem nodes_ok_nil : NodesOk [] 0 := by
  intro c _
  exact ⟨SameScope.same c, fun chunk _ _ _ => Triple.empty chunk _ 0 0⟩

theorem nodes_ok_cons {n : SkyASTNode} {rest : List SkyASTNode} {M1 M2 : Nat}
    (h1 : NodeOk false n M1) (h2 : NodesOk rest M2) : NodesOk (n :: rest) (max M1 M2) := by
  intro c hloc
  obtain ⟨s1, t1⟩ := h1 c hloc
  obtain ⟨s2, t2⟩ := h2 (compile_node n c) (hloc.of_same_scope s1)
  rw [compile_nodes_cons]
  refine ⟨s1.andThen s2, fun chunk hok hsize hagree => ?_⟩
  have g1 : Grows c (compile_node n c) := compile_ast_grows false n c
  have g2 := compile_nodes_grows rest (compile_node n c)
  have l1 := g1.le
  have l2 := g2.le
  have q1 := t1 chunk (eq_false_of_grows g2 hok) (by
      show (compile_node n c).code_count ≤ _
      omega)
    (AgreeOn.of_shorter g2.1 (hagree.mono (Nat.le_refl _) l2) (Nat.le_refl _))
  have q2 := t2 chunk hok (by omega) (hagree.mono l1 (Nat.le_refl _))
  exact Triple.seq l1 l2 (q1.weaken (Nat.le_max_left _ _)) (q2.weaken (Nat.le_max_right _ _))

theorem node_ok_expr_stmt (line : Int) (e : SExpr) :
    NodeOk false (.expr_stmt line e.toAST) e.slots := by
  intro c _
  obtain ⟨s1, t1⟩ := sexpr_triple e c
  show SameScope c (compile_node (.expr_stmt line e.toAST) c) ∧ _
  rw [show compile_ast false (.expr_stmt line e.toAST) c =
    emit_byte (compile_node e.toAST c) OP_POP.toByte line from rfl]
  refine ⟨s1.andThen (same_scope_emit_byte _ _ _), fun chunk _ _ hagree => ?_⟩
  have g1 : Grows c (compile_node e.toAST c) := compile_ast_grows false e.toAST c
  have g2 := grows_emit_byte (compile_node e.toAST c) OP_POP.toByte line
  have q1 := t1 chunk
    (AgreeOn.of_shorter g2.1 (hagree.mono (Nat.le_refl _) g2.le) (Nat.le_refl _))
  have q2 := triple_emit_byte _ chunk OP_POP line rfl (hagree.mono g1.le (Nat.le_refl _))
  have hs := e.slots_ge_one
  exact Triple.seq g1.le g2.le q1 (q2.weaken (by omega))

theorem node_ok_print_stmt (line : Int) (e : SExpr) :
    NodeOk false (.print_stmt line e.toAST) e.slots := by
  intro c _
  obtain ⟨s1, t1⟩ := sexpr_triple e c
  rw [show compile_ast false (.print_stmt line e.toAST) c =
    emit_byte (compile_node e.toAST c) OP_PRINT.toByte line from rfl]
  refine ⟨s1.andThen (same_scope_emit_byte _ _ _), fun chunk _ _ hagree => ?_⟩
  have g1 : Grows c (compile_node e.toAST c) := compile_ast_grows false e.toAST c
  have g2 := grows_emit_byte (compile_node e.toAST c) OP_PRINT.toByte line
  have q1 := t1 chunk
    (AgreeOn.of_shorter g2.1 (hagree.mono (Nat.le_refl _) g2.le) (Nat.le_refl _))
  have q2 := triple_emit_byte _ chunk OP_PRINT line rfl (hagree.mono g1.le (Nat.le_refl _))
  have hs := e.slots_ge_one
  exact Triple.seq g1.le g2.le q1 (q2.weaken (by omega))

theorem LocalsOk.begin_scope {c : SkyCompiler} (h : LocalsOk c) : LocalsOk (begin_scope c) := by
  intro l hl
  have := h l hl
  show l.depth ≤ c.scope_depth + 1
  omega

theorem node_ok_block {ss : List SkyASTNode} {M : Nat} (line : Int) (h : NodesOk ss M) :
    NodeOk false (.block line ss) M := by
  intro c hloc
  obtain ⟨s1, t1⟩ := h (begin_scope c) hloc.begin_scope
  obtain ⟨e1, e2, e3⟩ := block_no_locals line ss c hloc s1
  show SameScope c (compile_node (.block line ss) c) ∧
    ∀ chunk : SkyChunk, (compile_node (.block line ss) c).had_error = false →
      (compile_node (.block line ss) c).chunk.code.length ≤ c.code_count + 0x10000 →
      AgreeOn (compile_node (.block line ss) c).chunk.code chunk c.code_count
        (compile_node (.block line ss) c).chunk.code.length →
      Triple chunk c.code_count (compile_node (.block line ss) c).chunk.code.length 0 0 M
  rw [e1, e2]
  exact ⟨e3, t1⟩

theorem node_ok_block_body {ss : List SkyASTNode} {M : Nat} (line : Int) (h : NodesOk ss M) :
    NodeOk true (.block line ss) M := h

theorem if_else_counts (line : Int) (C T E : SkyASTNode) (c : SkyCompiler) :
    c.code_count ≤ (if_then_entry line C c).code_count ∧
    (compile_node T (if_then_entry line C c)).code_count ≤
      (if_else_entry line C T c).code_count ∧
    (if_else_entry line C T c).code_count ≤
      (compile_node E (if_else_entry line C T c)).code_count ∧
    (compile_node (.if_stmt line C T (some E)) c).code_count =
      (compile_node E (if_else_entry line C T c)).code_count := by
  refine ⟨((compile_ast_grows false C c).trans (grows_if_then_entry line C c)).le, ?_,
    (compile_ast_grows false E _).le, ?_⟩
  · have h1 := (grows_emit_jump (compile_node T (if_then_entry line C c)) OP_JUMP line).le
    have h2 := patch_jump_code_count
      (emit_jump (compile_node T (if_then_entry line C c)) OP_JUMP line).2
      (emit_jump (compile_node C c) OP_JUMP_IF_FALSE line).1
    have h3 := (grows_emit_byte (patch_jump
      (emit_jump (compile_node T (if_then_entry line C c)) OP_JUMP line).2
      (emit_jump (compile_node C c) OP_JUMP_IF_FALSE line).1) OP_POP.toByte line).le
    show _ ≤ (emit_byte (patch_jump
      (emit_jump (compile_node T (if_then_entry line C c)) OP_JUMP line).2
      (emit_jump (compile_node C c) OP_JUMP_IF_FALSE line).1) OP_POP.toByte line).code_count
    omega
  · rw [compile_node_if_else, patch_jump_code_count]

theorem node_ok_if_else (line : Int) (C : SExpr) {T E : SkyASTNode} {MT ME : Nat}
    (hT : NodeOk false T MT) (hE : NodeOk false E ME) :
    NodeOk false (.if_stmt line C.toAST T (some E)) (max C.slots (max MT ME)) := by
  intro c hloc
  obtain ⟨sC, tC⟩ := sexpr_triple C c
  have sThen := same_scope_if_then_entry line C.toAST c sC
  obtain ⟨sT, tT⟩ := hT (if_then_entry line C.toAST c) (hloc.of_same_scope sThen)
  have sElse := same_scope_if_else_entry line C.toAST T c (sThen.andThen sT)
  obtain ⟨sE, tE⟩ := hE (if_else_entry line C.toAST T c) (hloc.of_same_scope sElse)
  show SameScope c (compile_node (.if_stmt line C.toAST T (some E)) c) ∧
    ∀ chunk : SkyChunk, (compile_node (.if_stmt line C.toAST T (some E)) c).had_error = false →
      (compile_node (.if_stmt line C.toAST T (some E)) c).code_count ≤ c.code_count + 0x10000 →
      AgreeOn (compile_node (.if_stmt line C.toAST T (some E)) c).chunk.code chunk
        c.code_count (compile_node (.if_stmt line C.toAST T (some E)) c).code_count →
      Triple chunk c.code_count
        (compile_node (.if_stmt line C.toAST T (some E)) c).code_count 0 0
        (max C.slots (max MT ME))
  refine ⟨?_, fun chunk hok hsize hagree => ?_⟩
  · rw [compile_node_if_else]
    exact (sElse.andThen sE).andThen (same_scope_patch_jump _ _)
  · obtain ⟨okT, okE⟩ := if_else_parts_ok line C.toAST T E c hok
    obtain ⟨n1, n2, n3, n4⟩ := if_else_counts line C.toAST T E c
    have n5 : (if_then_entry line C.toAST c).code_count ≤
        (compile_node T (if_then_entry line C.toAST c)).code_count :=
      (compile_ast_grows false T _).le
    exact if_else_compiled line C.toAST T E c chunk C.slots MT ME _ hok hagree (tC chunk)
      (fun ha => tT chunk okT (by
        show (compile_node T (if_then_entry line C.toAST c)).code_count ≤ _
        omega) ha)
      (fun ha => tE chunk okE (by
        show (compile_node E (if_else_entry line C.toAST T c)).code_count ≤ _
        omega) ha)
      (Nat.le_max_left _ _)
      (Nat.le_trans (Nat.le_max_left _ _) (Nat.le_max_right _ _))
      (Nat.le_trans (Nat.le_max_right _ _) (Nat.le_max_right _ _))

theorem while_counts (line : Int) (C B : SkyASTNode) (c : SkyCompiler) :
    c.code_count ≤ (if_then_entry line C c).code_count ∧
    (compile_block B (if_then_entry line C c)).code_count ≤
      (compile_node (.while_stmt line C B) c).code_count := by
  refine ⟨((compile_ast_grows false C c).trans (grows_if_then_entry line C c)).le, ?_⟩
  have h1 := (grows_emit_jump_back (compile_block B (if_then_entry line C c)) c.code_count
    line).le
  have h2 := patch_jump_code_count
    (emit_jump_back (compile_block B (if_then_entry line C c)) c.code_count line)
    (emit_jump (compile_node C c) OP_JUMP_IF_FALSE line).1
  have h3 := (grows_emit_byte (patch_jump
    (emit_jump_back (compile_block B (if_then_entry line C c)) c.code_count line)
    (emit_jump (compile_node C c) OP_JUMP_IF_FALSE line).1) OP_POP.toByte line).le
  show _ ≤ (emit_byte (patch_jump
    (emit_jump_back (compile_block B (if_then_entry line C c)) c.code_count line)
    (emit_jump (compile_node C c) OP_JUMP_IF_FALSE line).1) OP_POP.toByte line).code_count
  omega

theorem node_ok_while (line : Int) (C : SExpr) {B : SkyASTNode} {MB : Nat}
    (hB : NodeOk true B MB) :
    NodeOk false (.while_stmt line C.toAST B) (max C.slots MB) := by
  intro c hloc
  obtain ⟨sC, tC⟩ := sexpr_triple C c
  have sThen := same_scope_if_then_entry line C.toAST c sC
  obtain ⟨sB, tB⟩ := hB (if_then_entry line C.toAST c) (hloc.of_same_scope sThen)
  show SameScope c (compile_node (.while_stmt line C.toAST B) c) ∧
    ∀ chunk : SkyChunk, (compile_node (.while_stmt line C.toAST B) c).had_error = false →
      (compile_node (.while_stmt line C.toAST B) c).code_count ≤ c.code_count + 0x10000 →
      AgreeOn (compile_node (.while_stmt line C.toAST B) c).chunk.code chunk
        c.code_count (compile_node (.while_stmt line C.toAST B) c).code_count →
      Triple chunk c.code_count
        (compile_node (.while_stmt line C.toAST B) c).code_count 0 0 (max C.slots MB)
  refine ⟨?_, fun chunk hok hsize hagree => ?_⟩
  · show SameScope c (emit_byte (patch_jump
      (emit_jump_back (compile_block B (if_then_entry line C.toAST c)) c.code_count line)
      (emit_jump (compile_node C.toAST c) OP_JUMP_IF_FALSE line).1) OP_POP.toByte line)
    exact (((sThen.andThen sB).andThen (same_scope_emit_jump_back _ _ _)).andThen
      (same_scope_patch_jump _ _)).andThen (same_scope_emit_byte _ _ _)
  · have okB := while_parts_ok line C.toAST B c hok
    obtain ⟨n1, n2⟩ := while_counts line C.toAST B c
    exact while_compiled line C.toAST B c chunk C.slots MB _ hok hsize hagree (tC chunk)
      (fun ha => tB chunk okB (by
        show (compile_block B (if_then_entry line C.toAST c)).code_count ≤ _
        omega) ha)
      (Nat.le_max_left _ _) (Nat.le_max_right _ _)

/-- The statements of the fragment keep the depth. -/
theorem stmts_ok (ss : Stmts) : NodesOk ss.toAST ss.slots := by
  induction ss with
  | done => exact nodes_ok_nil
  | expr_stmt line e rest ih => exact nodes_ok_cons (node_ok_expr_stmt line e) ih
  | print line e rest ih => exact nodes_ok_cons (node_ok_print_stmt line e) ih
  | if_else line cond tl t el e rest iht ihe ih =>
      exact nodes_ok_cons
        (node_ok_if_else line cond (node_ok_block tl iht) (node_ok_block el ihe)) ih
  | while_ line cond bl body rest ihb ih =>
      exact nodes_ok_cons (node_ok_while line cond (node_ok_block_body bl ihb)) ih

theorem add_local_chunk (c : SkyCompiler) (name : String) :
    (add_local c name).2.chunk = c.chunk := by
  unfold add_local
  split <;> rfl

/-- A `let` with an initializer inside a scope: its code is the code of the
initializer, whose value stays on the stack. -/
theorem local_let_triple (line : Int) (name : String) (ty : Option String) (e : SExpr)
    (c : SkyCompiler) (hd : 0 < c.scope_depth) (chunk : SkyChunk)
    (hagree : AgreeOn (compile_node (.let_ line name ty (some e.toAST)) c).chunk.code chunk
      c.code_count (compile_node (.let_ line name ty (some e.toAST)) c).code_count) :
    Triple chunk c.code_count (compile_node (.let_ line name ty (some e.toAST)) c).code_count
      0 1 e.slots := by
  obtain ⟨s1, t1⟩ := sexpr_triple e c
  have hd1 : (compile_node e.toAST c).scope_depth > 0 := by rw [s1.2]; exact hd
  have e1 : (compile_node (.let_ line name ty (some e.toAST)) c).chunk =
      (compile_node e.toAST c).chunk := by
    rw [compile_node_let_some, if_pos hd1, add_local_chunk]
  have e2 : (compile_node (.let_ line name ty (some e.toAST)) c).code_count =
      (compile_node e.toAST c).code_count := by
    rw [SkyCompiler.code_count, e1]; rfl
  rw [e2] at hagree ⊢
  rw [e1] at hagree
  exact t1 chunk hagree

/-- Stack depth across statements.  Let the compiler `c` stand where a statement is about
to be compiled, every local of `c` belonging to the current scope or an
enclosing one, and let the machine stand at the first byte of the
statement's code in a chunk that holds that code at its offsets.
(1) For a sequence `ss` of statements made of expression statements,
`print`, `if`/`else` and `while` (over literals, identifiers, unary and
binary operators and assignments to identifiers), compiled without error
into at most 65536 bytes, with room for `ss.slots` more values on the
stack: however long the machine runs, it does not leave the code of `ss`
other than at its end, and when it reaches the end the stack depth is the
depth at which it started.  A single statement is the sequence of length
one.
(2) For `let x = E` inside a scope (scope depth above 0) the depth at the
end of its code is one more than at the start: the value of `E` stays on
the stack as the slot of `x`. -/
theorem statements_keep_depth_local_let_adds_one (c : SkyCompiler) (chunk : SkyChunk)
    (vm : SkyVM) (fuel : Nat)
    (hloc : ∀ l ∈ c.locals, l.depth ≤ c.scope_depth) (hip : vm.ip = c.code_count) :
    (∀ ss : Stmts,
      (compile_nodes ss.toAST c).had_error = false →
      (compile_nodes ss.toAST c).code_count ≤ c.code_count + 0x10000 →
      AgreeOn (compile_nodes ss.toAST c).chunk.code chunk c.code_count
        (compile_nodes ss.toAST c).code_count →
      vm.stack_top + ss.slots ≤ SKY_STACK_MAX →
      (exec_region chunk c.code_count (compile_nodes ss.toAST c).code_count fuel
        vm).depth_ok vm.stack_top) ∧
    (∀ (line : Int) (name : String) (ty : Option String) (e : SExpr),
      0 < c.scope_depth →
      AgreeOn (compile_node (.let_ line name ty (some e.toAST)) c).chunk.code chunk
        c.code_count (compile_node (.let_ line name ty (some e.toAST)) c).code_count →
      vm.stack_top + e.slots ≤ SKY_STACK_MAX →
      (exec_region chunk c.code_count
        (compile_node (.let_ line name ty (some e.toAST)) c).code_count fuel
        vm).depth_ok (vm.stack_top + 1)) := by
  constructor
  · intro ss hok hsize hagree hroom
    exact (stmts_ok ss c hloc).2 chunk hok hsize hagree vm.stack_top fuel vm hip rfl hroom
  · intro line name ty e hd hagree hroom
    exact local_let_triple line name ty e c hd chunk hagree vm.stack_top fuel vm hip rfl hroom

/-- Stack depth across statements, at an input: the three statements of `stmts_sample`,
compiled from a fresh compiler and run on a fresh machine, end at depth 0,
where they started; `let x = 1 + 2` compiled inside a block ends at
depth 1. -/
theorem statements_keep_depth_local_let_adds_one_witness :
    ((exec_region (compile_nodes stmts_sample.toAST (sky_compiler_init sky_chunk_init)).chunk
        (sky_compiler_init sky_chunk_init).code_count
        (compile_nodes stmts_sample.toAST (sky_compiler_init sky_chunk_init)).code_count 20
        sky_vm_init).depth_ok sky_vm_init.stack_top ∧
      (exec_region (compile_nodes stmts_sample.toAST (sky_compiler_init sky_chunk_init)).chunk
        (sky_compiler_init sky_chunk_init).code_count
        (compile_nodes stmts_sample.toAST (sky_compiler_init sky_chunk_init)).code_count 20
        sky_vm_init).exit_depth = some 0) ∧
    ((exec_region (compile_node let_sample compiler_in_block).chunk
        compiler_in_block.code_count (compile_node let_sample compiler_in_block).code_count 5
        sky_vm_init).depth_ok (sky_vm_init.stack_top + 1) ∧
      (exec_region (compile_node let_sample compiler_in_block).chunk
        compiler_in_block.code_count (compile_node let_sample compiler_in_block).code_count 5
        sky_vm_init).exit_depth = some 1) :=
  ⟨⟨(statements_keep_depth_local_let_adds_one (sky_compiler_init sky_chunk_init)
        (compile_nodes stmts_sample.toAST (sky_compiler_init sky_chunk_init)).chunk
        sky_vm_init 20 (fun l hl => absurd hl (List.not_mem_nil l)) rfl).1
      stmts_sample rfl (by decide) (fun _ _ _ => rfl) (by decide), rfl⟩,
   ⟨(statements_keep_depth_local_let_adds_one compiler_in_block
        (compile_node let_sample compiler_in_block).chunk
        sky_vm_init 5 (fun l hl => absurd hl (List.not_mem_nil l)) rfl).2
      1 "x" none (.binary 1 .add (.int_lit 1 1) (.int_lit 1 2)) (by decide)
      (fun _ _ _ => rfl) (by decide), rfl⟩⟩

/-- A local `let` raises the depth.  `if true { let x = 5 } else { }` compiles without
error and runs to `VM_OK`.  Its then-block is compiled by compiling
`let x = 5` in `compiler_at_local_let` and closing the scope; the code of
that statement is the bytes 5 and 6 of the chunk; the machine reaches
byte 5 after three instructions, with depth 0, and leaves the code of the
statement, at byte 7, with depth 1. -/
theorem local_let_raises_depth :
    (run_file 100 prog_if_local_let).bind RunResult.result = some VM_OK ∧
    compile_node (.block 1 [ .let_ 1 "x" none (some (.int_literal 1 5)) ])
        (if_then_entry 1 (.bool_literal 1 true) (sky_compiler_init sky_chunk_init)) =
      end_scope
        (compile_node (.let_ 1 "x" none (some (.int_literal 1 5))) compiler_at_local_let) 1 ∧
    compiler_at_local_let.code_count = 5 ∧
    (compile_node (.let_ 1 "x" none (some (.int_literal 1 5))) compiler_at_local_let).code_count
      = 7 ∧
    (run_file_chunk prog_if_local_let).bind (fun chunk =>
      (steps chunk 3 sky_vm_init).map (fun vm =>
        (vm.ip, vm.stack_top, (exec_region chunk 5 7 1 vm).exit_depth))) =
      some (5, 0, some 1) :=
  ⟨rfl, rfl, rfl, rfl, rfl⟩

/-- C1.  A top-level `let` leaves its value on the stack.  The statement
`let x = 5` compiles to `CONSTANT 0`, `SET_GLOBAL 1` and nothing else:
`SET_GLOBAL` stores the top of the stack without popping it and no `POP`
follows.  Run on a fresh machine, the statement starts at byte 0 with depth
0 and ends at byte 4 with depth 1, the 5 in the globals table and still in
stack cell 0; the program returns `VM_OK` with that depth, and two such
statements leave depth 2.  The expression statement `a = 5` after
`let a = 1` has the same two instructions followed by `POP`: it runs from
byte 4 to byte 9 and keeps the depth. -/
theorem top_level_let_leaves_its_value :
    (compile_node (.let_ 1 "x" none (some (.int_literal 1 5)))
      (sky_compiler_init sky_chunk_init)).chunk.code =
      [OP_CONSTANT.toByte, 0, OP_SET_GLOBAL.toByte, 1] ∧
    (run_file_chunk prog_top_level_let).map (fun chunk => chunk.code) =
      some [OP_CONSTANT.toByte, 0, OP_SET_GLOBAL.toByte, 1, OP_HALT.toByte] ∧
    (run_file_chunk prog_top_level_let).bind (fun chunk =>
      (steps chunk 2 sky_vm_init).map (fun vm =>
        (vm.ip, vm.stack_top, sky_print_value (vm.stack 0),
          (sky_table_get vm.globals "x").map sky_print_value))) =
      some (4, 1, "5", some "5") ∧
    sky_vm_init.stack_top = 0 ∧
    (run_file 100 prog_top_level_let).bind RunResult.result = some VM_OK ∧
    (run_file 100 prog_top_level_let).bind RunResult.depth = some 1 ∧
    (run_file 100 prog_two_lets).bind RunResult.depth = some 2 ∧
    (run_file_chunk prog_identifier_assign).map (fun chunk => chunk.code) =
      some [OP_CONSTANT.toByte, 0, OP_SET_GLOBAL.toByte, 1, OP_CONSTANT.toByte, 2,
        OP_SET_GLOBAL.toByte, 3, OP_POP.toByte, OP_HALT.toByte] ∧
    (run_file_chunk prog_identifier_assign).bind (fun chunk =>
      (steps chunk 2 sky_vm_init).map (fun vm => (vm.ip, vm.stack_top))) = some (4, 1) ∧
    (run_file_chunk prog_identifier_assign).bind (fun chunk =>
      (steps chunk 5 sky_vm_init).map (fun vm => (vm.ip, vm.stack_top))) = some (9, 1) := by
  refine ⟨?_, ?_, ?_, ?_, ?_, ?_, ?_, ?_, ?_, ?_⟩ <;> decide

/-! ## Equality, stack limits, globals, calls and arrays -/

/-- C12.  Underflow: the chunk `POP`, `HALT` and the program `if true { }`
pop from an empty stack; `sky_vm_pop` reports "Stack underflow" and the
run goes on to `HALT`, returning `VM_OK`.  Overflow: `sky_vm_push` on a
full stack reports "Stack overflow" and returns; on a machine holding 1024
values the chunk `NIL`, `HALT` runs on to `HALT` and returns `VM_OK`, the
depth still 1024. -/
theorem stack_overflow_and_underflow_do_not_abort :
    (sky_vm_execute 10 sky_vm_init chunk_pop_halt).result = some VM_OK ∧
    (sky_vm_execute 10 sky_vm_init chunk_pop_halt).stderr = some ["Stack underflow"] ∧
    (run_file 100 prog_if_true_empty).bind RunResult.result = some VM_OK ∧
    (run_file 100 prog_if_true_empty).bind RunResult.stderr = some ["Stack underflow"] ∧
    (∀ (vm : SkyVM) (v : SkyValue), SKY_STACK_MAX ≤ vm.stack_top →
      sky_vm_push vm v = runtime_error vm "Stack overflow") ∧
    (sky_vm_execute 10 vm_full chunk_nil_halt).result = some VM_OK ∧
    (sky_vm_execute 10 vm_full chunk_nil_halt).depth = some 1024 ∧
    (sky_vm_execute 10 vm_full chunk_nil_halt).stderr = some ["Stack overflow"] :=
  ⟨rfl, rfl, rfl, rfl, fun vm v h => by simp [sky_vm_push, h], rfl, rfl, rfl⟩

/-- C11, counterexample: an array is not equal to itself, nor is a native
function. -/
theorem array_is_not_equal_to_itself :
    sky_values_equal (.array []) (.array []) = false ∧
    sky_values_equal (.array [.int 1]) (.array [.int 1]) = false ∧
    sky_values_equal (.native_fn (some .len)) (.native_fn (some .len)) = false :=
  ⟨rfl, rfl, rfl⟩

/-- C11 (as amended).  `sky_values_equal(v, v)` is true for every nil,
bool, int and string value (the NULL string included); for a float it is
the comparison of the double with itself; for every value of another tag
(array, map, function, native function, class, instance) it is false. -/
theorem sky_values_equal_self (v : SkyValue) :
    sky_values_equal v v =
      match v with
      | .nil | .bool _ | .int _ | .string _ => true
      | .float f => f == f
      | _ => false := by
  cases v with
  | string s => cases s <;> simp [sky_values_equal]
  | _ => simp [sky_values_equal]

theorem sky_table_get_set_same (t : SkyTable) (k : String) (v : SkyValue) :
    sky_table_get (sky_table_set t k v) k = some v := by
  induction t with
  | nil => simp [sky_table_set, sky_table_get]
  | cons e rest ih =>
      obtain ⟨k1, v1⟩ := e
      by_cases h : k1 = k
      · simp [sky_table_set, sky_table_get, h]
      · simp [sky_table_set, sky_table_get, h, ih]

theorem sky_table_get_set_other (t : SkyTable) (k k1 : String) (v : SkyValue) (h : k1 ≠ k) :
    sky_table_get (sky_table_set t k v) k1 = sky_table_get t k1 := by
  induction t with
  | nil =>
      have : ¬ k = k1 := fun e => h e.symm
      simp [sky_table_set, sky_table_get, this]
  | cons e rest ih =>
      obtain ⟨k2, v2⟩ := e
      by_cases h2 : k2 = k
      · subst h2
        have : ¬ k2 = k1 := fun e => h e.symm
        simp [sky_table_set, sky_table_get, this]
      · by_cases h3 : k2 = k1
        · subst h3
          simp [sky_table_set, sky_table_get, h2]
        · simp [sky_table_set, sky_table_get, h2, h3, ih]

theorem sky_vm_push_fields (vm : SkyVM) (v : SkyValue) (h : vm.stack_top < SKY_STACK_MAX) :
    (sky_vm_push vm v).stack_top = vm.stack_top + 1 ∧
    (sky_vm_push vm v).stack vm.stack_top = v ∧
    (∀ i, i ≠ vm.stack_top → (sky_vm_push vm v).stack i = vm.stack i) ∧
    (sky_vm_push vm v).ip = vm.ip ∧ (sky_vm_push vm v).globals = vm.globals ∧
    (sky_vm_push vm v).out = vm.out ∧ (sky_vm_push vm v).err = vm.err := by
  unfold sky_vm_push
  rw [if_neg (by omega)]
  refine ⟨rfl, by simp, fun i hi => by simp [hi], rfl, rfl, rfl, rfl⟩

theorem sky_vm_push_globals (vm : SkyVM) (v : SkyValue) :
    (sky_vm_push vm v).globals = vm.globals := by
  unfold sky_vm_push
  split <;> rfl

theorem sky_vm_pop_globals (vm : SkyVM) : (sky_vm_pop vm).2.globals = vm.globals :=
  (sky_vm_pop_state vm).2.2.1

theorem read_byte_globals (chunk : SkyChunk) (vm vm1 : SkyVM) (b : Nat)
    (h : read_byte chunk vm = some (b, vm1)) : vm1.globals = vm.globals := by
  unfold read_byte at h
  split at h
  · simp only [Option.some.injEq, Prod.mk.injEq] at h
    obtain ⟨_, rfl⟩ := h
    rfl
  · cases h

theorem read_short_globals (chunk : SkyChunk) (vm vm1 : SkyVM) (b : Nat)
    (h : read_short chunk vm = some (b, vm1)) : vm1.globals = vm.globals := by
  unfold read_short at h
  split at h
  · simp only [Option.some.injEq, Prod.mk.injEq] at h
    obtain ⟨_, rfl⟩ := h
    rfl
  · cases h

theorem read_constant_globals (chunk : SkyChunk) (vm vm1 : SkyVM) (v : SkyValue)
    (h : read_constant chunk vm = some (v, vm1)) : vm1.globals = vm.globals := by
  unfold read_constant at h
  split at h
  · rename_i idx vm2 hb
    split at h
    · simp only [Option.some.injEq, Prod.mk.injEq] at h
      obtain ⟨_, rfl⟩ := h
      exact read_byte_globals chunk vm vm2 idx hb
    · cases h
  · cases h

theorem binary_op_globals (f : SkyValue → SkyValue → OpResult) (vm vm1 : SkyVM)
    (h : binary_op f vm = .continue_ vm1) : vm1.globals = vm.globals := by
  unfold binary_op at h
  dsimp only at h
  split at h
  · simp only [Step.continue_.injEq] at h
    rw [← h, sky_vm_push_globals, sky_vm_pop_globals, sky_vm_pop_globals]
  · cases h
  · cases h

theorem pop_items_globals (n : Nat) : ∀ vm : SkyVM, (pop_items n vm).2.globals = vm.globals := by
  induction n with
  | zero => intro vm; rfl
  | succ n ih =>
      intro vm
      simp only [pop_items]
      rw [ih, sky_vm_pop_globals]

/-- An instruction after which the loop goes on leaves the global `name`
as it was, unless it is a `SET_GLOBAL` of that name. -/
theorem exec_keeps_global (chunk : SkyChunk) (name : String) (vm vm1 : SkyVM) (op : SkyOpCode)
    (hw : op = OP_SET_GLOBAL →
      ∀ idx n, chunk.code[vm.ip]? = some idx →
        chunk.constants[idx]? = some (.string (some n)) → n ≠ name)
    (h : exec chunk vm op = .continue_ vm1) :
    sky_table_get vm1.globals name = sky_table_get vm.globals name := by
  cases op
  case OP_SET_GLOBAL =>
    simp only [exec] at h
    split at h
    · rename_i n vm2 hc
      split at h
      · simp only [Step.continue_.injEq] at h
        have hg := read_constant_globals chunk vm vm2 _ hc
        rw [← h]
        show sky_table_get (sky_table_set vm2.globals n _) name = _
        rw [hg]
        apply sky_table_get_set_other
        intro e
        unfold read_constant read_byte at hc
        split at hc
        · rename_i idx vm3 hb
          split at hb
          · rename_i b hb0
            simp only [Option.some.injEq, Prod.mk.injEq] at hb
            obtain ⟨rfl, _⟩ := hb
            split at hc
            · rename_i cv hcv
              simp only [Option.some.injEq, Prod.mk.injEq] at hc
              obtain ⟨rfl, _⟩ := hc
              exact hw rfl _ n hb0 hcv e.symm
            · cases hc
          · cases hb
        · cases hc
      · cases h
    · cases h
    · cases h
  case OP_EQUAL =>
    exact congrArg (fun g => sky_table_get g name)
      (binary_op_globals (fun a b => .value (.bool (sky_values_equal a b))) vm vm1 h)
  case OP_NOT_EQUAL =>
    exact congrArg (fun g => sky_table_get g name)
      (binary_op_globals (fun a b => .value (.bool (!sky_values_equal a b))) vm vm1 h)
  case OP_AND =>
    exact congrArg (fun g => sky_table_get g name)
      (binary_op_globals (fun a b => .value (.bool (and_or_bool a && and_or_bool b))) vm vm1 h)
  case OP_OR =>
    exact congrArg (fun g => sky_table_get g name)
      (binary_op_globals (fun a b => .value (.bool (and_or_bool a || and_or_bool b))) vm vm1 h)
  all_goals first
    | exact congrArg (fun g => sky_table_get g name) (binary_op_globals _ _ _ h)
    | (simp only [exec] at h
       repeat' split at h
       all_goals first
         | (cases h; done)
         | (cases h
            try simp only [sky_vm_push_globals, sky_vm_pop_globals, pop_items_globals]
            repeat (first
              | rfl
              | rw [read_constant_globals chunk _ _ _ (by assumption)]
              | rw [read_byte_globals chunk _ _ _ (by assumption)]
              | rw [read_short_globals chunk _ _ _ (by assumption)])))

/-- One turn of the loop leaves the global `name` as it was, unless it
executes a `SET_GLOBAL` of that name. -/
theorem step_keeps_global (chunk : SkyChunk) (name : String) (vm vm1 : SkyVM)
    (hw : writes_global chunk name vm = false) (h : step chunk vm = .continue_ vm1) :
    sky_table_get vm1.globals name = sky_table_get vm.globals name := by
  unfold step read_byte at h
  split at h
  · rename_i instruction vm2 hb
    split at hb
    · rename_i b hb0
      simp only [Option.some.injEq, Prod.mk.injEq] at hb
      obtain ⟨rfl, rfl⟩ := hb
      split at h
      · rename_i op hop
        refine exec_keeps_global chunk name { vm with ip := vm.ip + 1 } vm1 op ?_ h
        intro hop1 idx n hidx hn e
        subst hop1
        have hb1 : b = OP_SET_GLOBAL.toByte := by
          unfold SkyOpCode.ofByte at hop
          split at hop <;> first | rfl | cases hop
        have hidx1 : chunk.code[vm.ip + 1]? = some idx := hidx
        simp [writes_global, hb0, hidx1, hn, hb1, e] at hw
      · cases h
    · cases hb
  · cases h

/-- A run in which no `SET_GLOBAL` of `name` is executed leaves the global
`name` as it was. -/
theorem steps_keep_global (chunk : SkyChunk) (name : String) (k : Nat) :
    ∀ vm vm2 : SkyVM, steps chunk k vm = some vm2 →
      (∀ j vmj, j < k → steps chunk j vm = some vmj → writes_global chunk name vmj = false) →
      sky_table_get vm2.globals name = sky_table_get vm.globals name := by
  induction k with
  | zero =>
      intro vm vm2 h _
      simp only [steps, Option.some.injEq] at h
      rw [h]
  | succ k ih =>
      intro vm vm2 h hw
      simp only [steps] at h
      split at h
      · rename_i vm1 hs
        have h0 := hw 0 vm (Nat.succ_pos k) rfl
        rw [ih vm1 vm2 h (fun j vmj hj hsj => hw (j + 1) vmj (Nat.succ_lt_succ hj)
          (by simp only [steps, hs]; exact hsj))]
        exact step_keeps_global chunk name vm vm1 h0 hs
      · cases h

/-- C13.  Let the operand of the instruction at `vm.ip` name `name` in the
constant pool.  (1) `GET_GLOBAL` of a name with no entry in the globals
table returns `VM_RUNTIME_ERROR`, reporting the name, the stack and the
globals untouched.  (2) `GET_GLOBAL` of a name whose entry holds `v`
pushes `v` (on a stack that is not full) and goes on.  (3) `SET_GLOBAL`
stores the top of the stack under the name, leaving the stack and every
other global as they were.  (4) Whatever is executed afterwards, the entry
of `name` stays as it is until a `SET_GLOBAL` of that name is executed: so
`GET_GLOBAL` pushes the value most recently written. -/
theorem get_global_reads_last_set_global (chunk : SkyChunk) (vm : SkyVM) (idx : Nat)
    (name : String) (hidx : chunk.code[vm.ip + 1]? = some idx)
    (hname : chunk.constants[idx]? = some (.string (some name))) :
    (chunk.code[vm.ip]? = some OP_GET_GLOBAL.toByte → sky_table_get vm.globals name = none →
      ∃ vm1, step chunk vm = .return_ VM_RUNTIME_ERROR vm1 ∧ vm1.stack = vm.stack ∧
        vm1.stack_top = vm.stack_top ∧ vm1.globals = vm.globals ∧
        vm1.err = vm.err ++ ["Undefined variable '" ++ name ++ "'"]) ∧
    (∀ v, chunk.code[vm.ip]? = some OP_GET_GLOBAL.toByte →
      sky_table_get vm.globals name = some v → vm.stack_top < SKY_STACK_MAX →
      ∃ vm1, step chunk vm = .continue_ vm1 ∧ vm1.ip = vm.ip + 2 ∧
        vm1.stack_top = vm.stack_top + 1 ∧ vm1.stack vm.stack_top = v ∧
        (∀ i, i ≠ vm.stack_top → vm1.stack i = vm.stack i) ∧ vm1.globals = vm.globals) ∧
    (chunk.code[vm.ip]? = some OP_SET_GLOBAL.toByte → 0 < vm.stack_top →
      ∃ vm1, step chunk vm = .continue_ vm1 ∧ vm1.ip = vm.ip + 2 ∧ vm1.stack = vm.stack ∧
        vm1.stack_top = vm.stack_top ∧
        sky_table_get vm1.globals name = some (vm.stack (vm.stack_top - 1)) ∧
        ∀ n, n ≠ name → sky_table_get vm1.globals n = sky_table_get vm.globals n) ∧
    (∀ k vm2, steps chunk k vm = some vm2 →
      (∀ j vmj, j < k → steps chunk j vm = some vmj → writes_global chunk name vmj = false) →
      sky_table_get vm2.globals name = sky_table_get vm.globals name) := by
  have hc : read_constant chunk { vm with ip := vm.ip + 1 } =
      some (.string (some name), { vm with ip := vm.ip + 1 + 1 }) := by
    simp [read_constant, read_byte, hidx, hname]
  refine ⟨?_, ?_, ?_, fun k vm2 => steps_keep_global chunk name k vm vm2⟩
  · intro h0 hget
    rw [step_of_fetch chunk vm OP_GET_GLOBAL h0]
    have hget1 : sky_table_get ({ vm with ip := vm.ip + 1 + 1 } : SkyVM).globals name = none :=
      hget
    simp only [exec, hc, hget1]
    exact ⟨_, rfl, rfl, rfl, rfl, rfl⟩
  · intro v h0 hget hroom
    rw [step_of_fetch chunk vm OP_GET_GLOBAL h0]
    have hget1 : sky_table_get ({ vm with ip := vm.ip + 1 + 1 } : SkyVM).globals name =
        some v := hget
    simp only [exec, hc, hget1]
    obtain ⟨p1, p2, p3, p4, p5, _, _⟩ :=
      sky_vm_push_fields { vm with ip := vm.ip + 1 + 1 } v hroom
    exact ⟨_, rfl, p4, p1, p2, p3, p5⟩
  · intro h0 htop
    rw [step_of_fetch chunk vm OP_SET_GLOBAL h0]
    have hp : sky_vm_peek { vm with ip := vm.ip + 1 + 1 } 0 =
        some (vm.stack (vm.stack_top - 1)) := by
      simp [sky_vm_peek, htop]
    simp only [exec, hc, hp]
    exact ⟨_, rfl, rfl, rfl, rfl, sky_table_get_set_same _ _ _,
      fun n hn => sky_table_get_set_other _ _ _ _ hn⟩

/-- Witness for C13: on a fresh machine `GET_GLOBAL x` returns
`VM_RUNTIME_ERROR`, as does the program `print(x)`; after `let x = 5` and
`x = 7`, `print(x)` prints 7. -/
theorem get_global_reads_last_set_global_witness :
    (∃ vm1, step chunk_get_x sky_vm_init = .return_ VM_RUNTIME_ERROR vm1 ∧
      vm1.stack = sky_vm_init.stack ∧ vm1.stack_top = sky_vm_init.stack_top ∧
      vm1.globals = sky_vm_init.globals ∧
      vm1.err = sky_vm_init.err ++ ["Undefined variable '" ++ "x" ++ "'"]) ∧
    (run_file 100 prog_print_x).bind RunResult.result = some VM_RUNTIME_ERROR ∧
    (run_file 100 prog_print_x).bind RunResult.stderr = some ["Undefined variable 'x'"] ∧
    (run_file 100 prog_set_twice).bind RunResult.stdout = some ["7", "\n"] :=
  ⟨(get_global_reads_last_set_global chunk_get_x sky_vm_init 0 "x" rfl rfl).1 rfl rfl,
    rfl, rfl, rfl⟩

theorem make_constants_pool (vs : List SkyValue) :
    ∀ c : SkyCompiler, (make_constants vs c).chunk.constants = c.chunk.constants ++ vs := by
  induction vs with
  | nil => intro c; simp [make_constants]
  | cons v vs ih =>
      intro c
      rw [make_constants, ih]
      simp [make_constant, sky_chunk_add_constant]
      split <;> simp

theorem make_constants_ok (vs : List SkyValue) :
    ∀ c : SkyCompiler, c.chunk.constants.length + vs.length ≤ 256 →
      (make_constants vs c).had_error = c.had_error := by
  induction vs with
  | nil => intro c _; rfl
  | cons v vs ih =>
      intro c h
      have h1 : (make_constant c v).2.chunk.constants = c.chunk.constants ++ [v] := by
        simp [make_constant, sky_chunk_add_constant]
        split <;> simp
      have h2 : (make_constant c v).2.had_error = c.had_error := by
        simp only [make_constant, sky_chunk_add_constant]
        rw [if_neg (by simp only [List.length_cons] at h; omega)]
      have h3 : (make_constant c v).2.chunk.constants.length + vs.length ≤ 256 := by
        rw [h1]
        simp only [List.length_append, List.length_cons, List.length_nil] at h ⊢
        omega
      rw [make_constants, ih _ h3, h2]

/-- After the additions of fewer than 256 values to an empty pool, the next
`make_constant` returns the index of the value it appends and raises no
error. -/
theorem next_constant_index (c : SkyCompiler) (vs : List SkyValue) (v : SkyValue)
    (h0 : c.chunk.constants = []) (h1 : c.had_error = false) (hlt : vs.length < 256) :
    (make_constant (make_constants vs c) v).1 = vs.length ∧
    (make_constant (make_constants vs c) v).2.had_error = false := by
  have hp := make_constants_pool vs c
  rw [h0, List.nil_append] at hp
  have hok := make_constants_ok vs c (by rw [h0]; simp; omega)
  simp only [make_constant, sky_chunk_add_constant, hp]
  rw [if_neg (by omega)]
  exact ⟨rfl, hok.trans h1⟩

/-- C18, counterexample: the 256th addition to a pool (after 255
additions) returns the index 255 and leaves `had_error` false. -/
theorem constant_256_is_accepted :
    (make_constant (make_constants (List.replicate 255 .nil) (sky_compiler_init sky_chunk_init))
      (.int 7)).1 = 255 ∧
    (make_constant (make_constants (List.replicate 255 .nil) (sky_compiler_init sky_chunk_init))
      (.int 7)).2.had_error = false := by
  have h := next_constant_index (sky_compiler_init sky_chunk_init)
    (List.replicate 255 .nil) (.int 7) rfl rfl
    (by rw [List.length_replicate]; exact Nat.lt_succ_self 255)
  rw [List.length_replicate] at h
  exact h

/-- C18 (as amended).  From an empty pool and no error, after the
additions of `vs` the next addition through `make_constant` appends its
value in every case; when fewer than 256 constants were added before it,
it returns the index of the new constant and leaves `had_error` false (so
the first 256 additions succeed, with the indices 0 to 255); when 256 or
more were added before it, it returns 0 and sets `had_error` (so the 257th
addition is the first to fail). -/
theorem make_constant_accepts_256 (c : SkyCompiler) (vs : List SkyValue) (v : SkyValue)
    (h0 : c.chunk.constants = []) (h1 : c.had_error = false) :
    (make_constant (make_constants vs c) v).2.chunk.constants = vs ++ [v] ∧
    (vs.length < 256 →
      (make_constant (make_constants vs c) v).1 = vs.length ∧
      (make_constant (make_constants vs c) v).2.had_error = false) ∧
    (256 ≤ vs.length →
      (make_constant (make_constants vs c) v).1 = 0 ∧
      (make_constant (make_constants vs c) v).2.had_error = true) := by
  have hp := make_constants_pool vs c
  rw [h0, List.nil_append] at hp
  refine ⟨?_, ?_, ?_⟩
  · simp only [make_constant, sky_chunk_add_constant, hp]
    split <;> rfl
  · exact next_constant_index c vs v h0 h1
  · intro hge
    simp only [make_constant, sky_chunk_add_constant, hp]
    rw [if_pos (by omega)]
    exact ⟨rfl, rfl⟩

/-- Witness for C18 (as amended): after the constants 1 and 2 the constant
3 gets the index 2. -/
theorem make_constant_accepts_256_witness :
    (make_constant (make_constants [.int 1, .int 2] (sky_compiler_init sky_chunk_init))
      (.int 3)).1 = 2 ∧
    (make_constant (make_constants [.int 1, .int 2] (sky_compiler_init sky_chunk_init))
      (.int 3)).2.had_error = false :=
  (make_constant_accepts_256 (sky_compiler_init sky_chunk_init) [.int 1, .int 2] (.int 3)
    rfl rfl).2.1 (by decide)

/-- `CALL argc` on a nil callee: the callee and the `argc` arguments are
removed, nil is pushed, nothing else changes and the loop goes on. -/
theorem step_call_nil (chunk : SkyChunk) (vm : SkyVM) (argc : Nat)
    (h0 : chunk.code[vm.ip]? = some OP_CALL.toByte)
    (h1 : chunk.code[vm.ip + 1]? = some argc)
    (hc : argc < vm.stack_top) (hle : vm.stack_top ≤ SKY_STACK_MAX)
    (hnil : vm.stack (vm.stack_top - 1 - argc) = .nil) :
    ∃ vm1, step chunk vm = .continue_ vm1 ∧ vm1.ip = vm.ip + 2 ∧
      vm1.stack_top = vm.stack_top - argc ∧
      vm1.stack (vm.stack_top - argc - 1) = .nil ∧
      (∀ i, i < vm.stack_top - argc - 1 → vm1.stack i = vm.stack i) ∧
      vm1.globals = vm.globals ∧ vm1.out = vm.out ∧ vm1.err = vm.err := by
  rw [step_of_fetch chunk vm OP_CALL h0]
  have hb : read_byte chunk { vm with ip := vm.ip + 1 } =
      some (argc, { vm with ip := vm.ip + 1 + 1 }) := by
    simp [read_byte, h1]
  have hp : sky_vm_peek { vm with ip := vm.ip + 1 + 1 } argc = some .nil := by
    simp [sky_vm_peek, hc, hnil]
  simp only [exec, hb, hp]
  obtain ⟨p1, p2, p3, p4, p5, p6, p7⟩ := sky_vm_push_fields
    { vm with ip := vm.ip + 1 + 1, stack_top := vm.stack_top - (argc + 1) } .nil
    (by show vm.stack_top - (argc + 1) < SKY_STACK_MAX; omega)
  refine ⟨_, rfl, p4, ?_, ?_, ?_, p5, p6, p7⟩
  · rw [p1]; show vm.stack_top - (argc + 1) + 1 = _; omega
  · have : vm.stack_top - argc - 1 = vm.stack_top - (argc + 1) := by omega
    rw [this]; exact p2
  · intro i hi
    exact p3 i (by show i ≠ vm.stack_top - (argc + 1); omega)

set_option maxRecDepth 100000 in
/-- C14.  On the machine, `CALL argc` on a nil callee removes the callee
and the arguments, pushes nil, leaves the lower cells and the globals and
goes on; after `fn f() { }`, `print(f(true, true))` prints nil.  With 256
arguments the compiler emits `CALL 0` (the count cast to `uint8_t`): the
machine takes the last argument, `true`, for the callee and the run
returns `VM_RUNTIME_ERROR` with "Can only call functions", nothing
printed. -/
theorem call_with_256_arguments_is_an_error :
    (∀ (chunk : SkyChunk) (vm : SkyVM) (argc : Nat),
      chunk.code[vm.ip]? = some OP_CALL.toByte → chunk.code[vm.ip + 1]? = some argc →
      argc < vm.stack_top → vm.stack_top ≤ SKY_STACK_MAX →
      vm.stack (vm.stack_top - 1 - argc) = .nil →
      ∃ vm1, step chunk vm = .continue_ vm1 ∧ vm1.ip = vm.ip + 2 ∧
        vm1.stack_top = vm.stack_top - argc ∧
        vm1.stack (vm.stack_top - argc - 1) = .nil ∧
        (∀ i, i < vm.stack_top - argc - 1 → vm1.stack i = vm.stack i) ∧
        vm1.globals = vm.globals ∧ vm1.out = vm.out ∧ vm1.err = vm.err) ∧
    (run_file 1000 (prog_call_f 2)).bind RunResult.summary =
      some (VM_OK, ["nil", "\n"], [], 1) ∧
    (run_file 1000 (prog_call_f 256)).bind RunResult.summary =
      some (VM_RUNTIME_ERROR, [], ["Can only call functions"], 258) :=
  ⟨step_call_nil, rfl, by decide!⟩

set_option maxRecDepth 100000 in
/-- C15.  `print(len([nil, nil, nil]))` prints 3 and `print(len([]))`
prints 0.  With 256 elements the compiler emits `ARRAY 0` (the count cast
to `uint8_t`): the machine builds an empty array above the 256 element
values, `CALL 1` then finds the last element, nil, where the callee `len`
should be, and `print(len([nil, ..., nil]))`, compiled without error,
prints nil, not 256, the run ending with 256 values on the stack. -/
theorem array_literal_of_256_elements_is_empty :
    (run_file 1000 (prog_len_nils 3)).bind RunResult.summary =
      some (VM_OK, ["3", "\n"], [], 0) ∧
    (run_file 1000 (prog_len_nils 0)).bind RunResult.summary =
      some (VM_OK, ["0", "\n"], [], 0) ∧
    (run_file 1000 (prog_len_nils 256)).bind RunResult.summary =
      some (VM_OK, ["nil", "\n"], [], 256) :=
  ⟨rfl, rfl, by decide!⟩

/-! ## Jump patching -/

theorem compile_nodes_nil_statements (n : Nat) :
    ∀ c : SkyCompiler,
      (compile_nodes (nil_statements n) c).code_count = c.code_count + 2 * n := by
  induction n with
  | zero => intro c; rfl
  | succ n ih =>
      intro c
      show (compile_nodes (nil_statements n)
        (emit_byte (emit_byte c OP_NIL.toByte 1) OP_POP.toByte 1)).code_count = _
      rw [ih]
      simp only [SkyCompiler.code_count, emit_byte_code, List.length_append, List.length_cons,
        List.length_nil]
      omega

/-- Unfolding `compile_node` at an `if` without `else`. -/
theorem compile_node_if_none (line : Int) (C T : SkyASTNode) (c : SkyCompiler) :
    compile_node (.if_stmt line C T none) c =
      emit_byte (patch_jump (compile_node T (if_then_entry line C c))
        (emit_jump (compile_node C c) OP_JUMP_IF_FALSE line).1) OP_POP.toByte line := rfl

theorem if_then_entry_code_count (line : Int) (C : SkyASTNode) (c : SkyCompiler) :
    (if_then_entry line C c).code_count = (compile_node C c).code_count + 4 := by
  simp [if_then_entry, SkyCompiler.code_count, emit_byte_code, emit_jump_code]

/-- An `if` whose then-branch is compiled to more than 65535 bytes raises
the compile error of `patch_jump`. -/
theorem if_too_large (line : Int) (C T : SkyASTNode) (E : Option SkyASTNode)
    (c : SkyCompiler)
    (h : 0xffff < (compile_node T (if_then_entry line C c)).code_count -
      (if_then_entry line C c).code_count) :
    (compile_node (.if_stmt line C T E) c).had_error = true := by
  cases E with
  | none =>
      rw [compile_node_if_none, emit_byte_had_error]
      apply patch_jump_of_gt
      rw [emit_jump_fst]
      rw [if_then_entry_code_count] at h
      omega
  | some E =>
      cases hok : (compile_node (.if_stmt line C T (some E)) c).had_error with
      | true => rfl
      | false =>
          obtain ⟨sT, sE, e4, _, hj1, _, _⟩ := if_else_layout line C T E c hok
          have p2 : (compile_node T (if_then_entry line C c)).code_count =
              (compile_node C c).code_count + 4 + sT.length := by
            simp only [SkyCompiler.code_count, e4]; simp; omega
          rw [p2, if_then_entry_code_count] at h
          omega

theorem getElem?_set_at {α : Type} (l : List α) (i : Nat) (a : α) (h : i < l.length) :
    (l.set i a)[i]? = some a := by
  simp [List.getElem?_set, h]

theorem getElem?_set_away {α : Type} (l : List α) (i j : Nat) (a : α) (h : i ≠ j) :
    (l.set i a)[j]? = l[j]? := by
  simp [List.getElem?_set, h]

/-- C17.  Let `offset` be the offset of a two-byte operand inside the code
(`offset + 2 <= code_count`), so that the distance
`d = code_count - offset - 2` is not negative.  When `d <= 65535`,
`patch_jump` writes `d` big-endian into `code[offset]`, `code[offset + 1]`,
changes no other byte, leaves `had_error` as it was, and `read_short` at
`offset` of the patched chunk returns `d`.  When `d > 65535` it sets
`had_error` and leaves the chunk as it was.  An `if`, with or without
`else`, whose then-branch is compiled to more than 65535 bytes leaves
`had_error` set, so `sky_compiler_compile` returns false. -/
theorem patch_jump_writes_distance (c : SkyCompiler) (offset : Nat) (vm : SkyVM)
    (h : offset + 2 ≤ c.code_count) :
    (c.code_count - offset - 2 ≤ 0xffff →
      (patch_jump c offset).chunk.code[offset]? =
        some (((c.code_count - offset - 2) >>> 8) &&& 0xff) ∧
      (patch_jump c offset).chunk.code[offset + 1]? =
        some ((c.code_count - offset - 2) &&& 0xff) ∧
      (∀ i, i ≠ offset → i ≠ offset + 1 →
        (patch_jump c offset).chunk.code[i]? = c.chunk.code[i]?) ∧
      read_short (patch_jump c offset).chunk { vm with ip := offset } =
        some (c.code_count - offset - 2, { vm with ip := offset + 2 }) ∧
      (patch_jump c offset).had_error = c.had_error) ∧
    (0xffff < c.code_count - offset - 2 →
      (patch_jump c offset).had_error = true ∧ (patch_jump c offset).chunk = c.chunk) ∧
    (∀ (c0 : SkyCompiler) (line : Int) (C T : SkyASTNode) (E : Option SkyASTNode),
      0xffff < (compile_node T (if_then_entry line C c0)).code_count -
        (if_then_entry line C c0).code_count →
      (sky_compiler_compile c0 (.if_stmt line C T E)).had_error = true) := by
  refine ⟨?_, ?_, fun c0 line C T E hT => if_too_large line C T E c0 hT⟩
  · intro hd
    obtain ⟨e1, e2⟩ := patch_jump_of_le c offset hd
    have hlen : offset + 1 < c.chunk.code.length := by
      have : c.code_count = c.chunk.code.length := rfl
      omega
    have b0 : (patch_jump c offset).chunk.code[offset]? =
        some (((c.code_count - offset - 2) >>> 8) &&& 0xff) := by
      rw [e1, getElem?_set_away _ _ _ _ (by omega)]
      exact getElem?_set_at _ _ _ (by omega)
    have b1 : (patch_jump c offset).chunk.code[offset + 1]? =
        some ((c.code_count - offset - 2) &&& 0xff) := by
      rw [e1]
      exact getElem?_set_at _ _ _ (by rw [List.length_set]; exact hlen)
    refine ⟨b0, b1, fun i h1 h2 => patch_jump_getElem c offset i h1 h2, ?_, e2⟩
    have b1' : (patch_jump c offset).chunk.code[({ vm with ip := offset } : SkyVM).ip + 1]? =
        some ((c.code_count - offset - 2) &&& 0xff) := b1
    have b0' : (patch_jump c offset).chunk.code[({ vm with ip := offset } : SkyVM).ip]? =
        some (((c.code_count - offset - 2) >>> 8) &&& 0xff) := b0
    simp only [read_short, b0', b1', decode_patched _ hd]
  · intro hd
    have hgt : c.code_count - offset - 2 > 0xffff := hd
    unfold patch_jump
    dsimp only
    rw [if_pos hgt]
    exact ⟨rfl, rfl⟩

/-- Witness for C17: after `JUMP` with its placeholders and two `NIL` the
patch at offset 1 writes the distance 2 as the bytes 0 and 2;
`if true { nil ... nil }` with 32768 statements in the block does not
compile. -/
theorem patch_jump_writes_distance_witness :
    ((patch_jump compiler_with_jump 1).chunk.code = [31, 0, 2, 5, 5] ∧
      read_short (patch_jump compiler_with_jump 1).chunk { sky_vm_init with ip := 1 } =
        some (compiler_with_jump.code_count - 1 - 2, { sky_vm_init with ip := 1 + 2 })) ∧
    (sky_compiler_compile (sky_compiler_init sky_chunk_init) prog_if_huge).had_error = true :=
  ⟨⟨rfl, ((patch_jump_writes_distance compiler_with_jump 1 sky_vm_init (by decide)).1
      (by decide)).2.2.2.1⟩,
   (patch_jump_writes_distance compiler_with_jump 1 sky_vm_init (by decide)).2.2
     (sky_compiler_init sky_chunk_init) 1 (.bool_literal 1 true)
     (.block 1 (nil_statements 32768)) none (by
       have h1 := compile_nodes_nil_statements 32768
         (begin_scope (if_then_entry 1 (.bool_literal 1 true)
           (sky_compiler_init sky_chunk_init)))
       have h2 := (grows_end_scope (compile_nodes (nil_statements 32768)
         (begin_scope (if_then_entry 1 (.bool_literal 1 true)
           (sky_compiler_init sky_chunk_init)))) 1).le
       have h3 : (begin_scope (if_then_entry 1 (.bool_literal 1 true)
           (sky_compiler_init sky_chunk_init))).code_count =
           (if_then_entry 1 (.bool_literal 1 true)
             (sky_compiler_init sky_chunk_init)).code_count := rfl
       rw [compile_node_block]
       omega)⟩

/-! ## Assignment -/

/-- `SET_LOCAL slot` on a non-empty stack: the top is copied into the
cell `slot`, the depth and the top stay. -/
theorem step_set_local (chunk : SkyChunk) (vm : SkyVM) (slot : Nat)
    (h0 : chunk.code[vm.ip]? = some OP_SET_LOCAL.toByte)
    (h1 : chunk.code[vm.ip + 1]? = some slot) (htop : 0 < vm.stack_top) :
    ∃ vm1, step chunk vm = .continue_ vm1 ∧ vm1.ip = vm.ip + 2 ∧
      vm1.stack_top = vm.stack_top ∧
      vm1.stack (vm.stack_top - 1) = vm.stack (vm.stack_top - 1) ∧
      vm1.stack slot = vm.stack (vm.stack_top - 1) := by
  rw [step_of_fetch chunk vm OP_SET_LOCAL h0]
  have hb : read_byte chunk { vm with ip := vm.ip + 1 } =
      some (slot, { vm with ip := vm.ip + 1 + 1 }) := by
    simp [read_byte, h1]
  have hp : sky_vm_peek { vm with ip := vm.ip + 1 + 1 } 0 =
      some (vm.stack (vm.stack_top - 1)) := by
    simp [sky_vm_peek, htop]
  simp only [exec, hb, hp]
  refine ⟨_, rfl, rfl, rfl, ?_, ?_⟩
  · show (if vm.stack_top - 1 = slot then _ else _) = _
    split <;> rfl
  · show (if slot = slot then _ else _) = _
    rw [if_pos rfl]

theorem advance_while_run (p : Nat → Bool) (n : Nat) :
    ∀ (fuel : Nat) (lex : SkyLexer),
      (∀ j, j < n → p (lex.source.getD (lex.current + j) 0) = true) →
      p (lex.source.getD (lex.current + n) 0) = false → n ≤ fuel →
      advance_while p fuel lex = { lex with current := lex.current + n } := by
  induction n with
  | zero =>
      intro fuel lex _ hstop _
      cases fuel with
      | zero => rfl
      | succ fuel =>
          have : p (peek lex) = false := hstop
          simp only [advance_while, this]
          rfl
  | succ n ih =>
      intro fuel lex hrun hstop hfuel
      cases fuel with
      | zero => omega
      | succ fuel =>
          have h0 : p (peek lex) = true := hrun 0 (Nat.succ_pos n)
          simp only [advance_while, h0, if_true]
          rw [ih fuel (advance_char lex)
            (fun j hj => by
              have := hrun (j + 1) (Nat.succ_lt_succ hj)
              simp only [advance_char]
              rw [show lex.current + 1 + j = lex.current + (j + 1) by omega]
              exact this)
            (by
              simp only [advance_char]
              rw [show lex.current + 1 + n = lex.current + (n + 1) by omega]
              exact hstop)
            (by omega)]
          simp only [advance_char]
          rw [show lex.current + 1 + n = lex.current + (n + 1) by omega]

theorem skip_whitespace_none (lex : SkyLexer)
    (h : peek lex ≠ 32 ∧ peek lex ≠ 13 ∧ peek lex ≠ 9 ∧ peek lex ≠ 10 ∧ peek lex ≠ 47) :
    skip_whitespace lex = lex := by
  obtain ⟨h1, h2, h3, h4, h5⟩ := h
  simp [skip_whitespace, skip_whitespace_loop, h1, h2, h3, h4, h5]

theorem is_at_end_false (lex : SkyLexer) (h : lex.source.getD lex.current 0 ≠ 0) :
    is_at_end lex = false := by
  simpa [is_at_end, peek] using h

theorem isdigit_cases (c : Nat) (h : isdigit c = true) :
    c ≠ 0 ∧ c ≠ 32 ∧ c ≠ 13 ∧ c ≠ 9 ∧ c ≠ 10 ∧ c ≠ 47 ∧ c ≠ 46 ∧ c ≠ 0xEF := by
  simp only [isdigit, Bool.and_eq_true, decide_eq_true_eq] at h
  omega

/-- An integer literal: `n + 1` digits from `current`, then a byte that is
neither a digit nor a `.` followed by a digit. -/
theorem sky_lexer_next_int (lex : SkyLexer) (n : Nat)
    (hd : ∀ j, j < n + 1 → isdigit (lex.source.getD (lex.current + j) 0) = true)
    (hstop : isdigit (lex.source.getD (lex.current + (n + 1)) 0) = false)
    (hdot : ¬ (lex.source.getD (lex.current + (n + 1)) 0 = 46 ∧
      isdigit (lex.source.getD (lex.current + (n + 1) + 1) 0) = true))
    (hlen : lex.current + (n + 1) ≤ lex.source.length) :
    sky_lexer_next lex =
      some (make_token { lex with start := lex.current, current := lex.current + (n + 1) }
          TOKEN_INT_LITERAL,
        { lex with start := lex.current, current := lex.current + (n + 1) }) := by
  have h0 := hd 0 (Nat.succ_pos n)
  rw [Nat.add_zero] at h0
  obtain ⟨c0, c1, c2, c3, c4, c5, _, _⟩ := isdigit_cases _ h0
  have hp : peek lex = lex.source.getD lex.current 0 := rfl
  have hs : skip_whitespace lex = lex := skip_whitespace_none lex (by rw [hp]; exact ⟨c1, c2, c3, c4, c5⟩)
  have hrun := advance_while_run isdigit n
    (lex.source.length - (lex.current + 1))
    { lex with start := lex.current, current := lex.current + 1 }
    (fun j hj => by
      have := hd (j + 1) (Nat.succ_lt_succ hj)
      show isdigit (lex.source.getD (lex.current + 1 + j) 0) = true
      rw [show lex.current + 1 + j = lex.current + (j + 1) by omega]
      exact this)
    (by
      show isdigit (lex.source.getD (lex.current + 1 + n) 0) = false
      rw [show lex.current + 1 + n = lex.current + (n + 1) by omega]
      exact hstop)
    (by omega)
  have hrun1 : advance_while isdigit
      (SkyLexer.remaining (advance_char { lex with start := lex.current }))
      (advance_char { lex with start := lex.current }) =
      { lex with start := lex.current, current := lex.current + (n + 1) } := by
    have e : advance_char { lex with start := lex.current } =
        { lex with start := lex.current, current := lex.current + 1 } := rfl
    rw [e]
    show advance_while isdigit (lex.source.length - (lex.current + 1)) _ = _
    rw [hrun]
    show ({ lex with start := lex.current, current := lex.current + 1 + n } : SkyLexer) = _
    rw [show lex.current + 1 + n = lex.current + (n + 1) by omega]
  have hend : is_at_end { lex with start := lex.current } = false := by
    simpa [is_at_end, peek] using c0
  have hpk : peek { lex with start := lex.current } = lex.source.getD lex.current 0 := rfl
  have hnotfloat : ∀ l1 : SkyLexer,
      l1 = { lex with start := lex.current, current := lex.current + (n + 1) } →
      ¬ (peek l1 = 46 ∧ isdigit (peek_next l1) = true) := by
    intro l1 hl1
    subst hl1
    intro ⟨e1, e2⟩
    have e1' : lex.source.getD (lex.current + (n + 1)) 0 = 46 := e1
    apply hdot
    refine ⟨e1', ?_⟩
    have hne := is_at_end_false
      { lex with start := lex.current, current := lex.current + (n + 1) }
      (by rw [e1']; decide)
    simp only [peek_next, hne] at e2
    exact e2
  simp only [sky_lexer_next, hs, hend, hpk, h0, number_token, hrun1, hnotfloat _ rfl]
  simp

/-- A float literal: `n + 1` digits from `current`, a `.`, `m + 1` digits and
then a byte that is not a digit. -/
theorem sky_lexer_next_float (lex : SkyLexer) (n m : Nat)
    (hd : ∀ j, j < n + 1 → isdigit (lex.source.getD (lex.current + j) 0) = true)
    (hdot : lex.source.getD (lex.current + (n + 1)) 0 = 46)
    (hd2 : ∀ j, j < m + 1 →
      isdigit (lex.source.getD (lex.current + (n + 1) + 1 + j) 0) = true)
    (hstop : isdigit (lex.source.getD (lex.current + (n + 1) + 1 + (m + 1)) 0) = false)
    (hlen : lex.current + (n + 1) + 1 + (m + 1) ≤ lex.source.length) :
    sky_lexer_next lex =
      some (make_token
          { lex with start := lex.current, current := lex.current + (n + 1) + 1 + (m + 1) }
          TOKEN_FLOAT_LITERAL,
        { lex with start := lex.current, current := lex.current + (n + 1) + 1 + (m + 1) }) := by
  have h0 := hd 0 (Nat.succ_pos n)
  rw [Nat.add_zero] at h0
  obtain ⟨c0, c1, c2, c3, c4, c5, _, _⟩ := isdigit_cases _ h0
  have hp : peek lex = lex.source.getD lex.current 0 := rfl
  have hs : skip_whitespace lex = lex :=
    skip_whitespace_none lex (by rw [hp]; exact ⟨c1, c2, c3, c4, c5⟩)
  have hrun := advance_while_run isdigit n
    (lex.source.length - (lex.current + 1))
    { lex with start := lex.current, current := lex.current + 1 }
    (fun j hj => by
      have := hd (j + 1) (Nat.succ_lt_succ hj)
      show isdigit (lex.source.getD (lex.current + 1 + j) 0) = true
      rw [show lex.current + 1 + j = lex.current + (j + 1) by omega]
      exact this)
    (by
      show isdigit (lex.source.getD (lex.current + 1 + n) 0) = false
      rw [show lex.current + 1 + n = lex.current + (n + 1) by omega, hdot]
      decide)
    (by omega)
  have hrun1 : advance_while isdigit
      (SkyLexer.remaining (advance_char { lex with start := lex.current }))
      (advance_char { lex with start := lex.current }) =
      { lex with start := lex.current, current := lex.current + (n + 1) } := by
    have e : advance_char { lex with start := lex.current } =
        { lex with start := lex.current, current := lex.current + 1 } := rfl
    rw [e]
    show advance_while isdigit (lex.source.length - (lex.current + 1)) _ = _
    rw [hrun]
    show ({ lex with start := lex.current, current := lex.current + 1 + n } : SkyLexer) = _
    rw [show lex.current + 1 + n = lex.current + (n + 1) by omega]
  have hend : is_at_end { lex with start := lex.current } = false :=
    is_at_end_false _ c0
  have hpk : peek { lex with start := lex.current } = lex.source.getD lex.current 0 := rfl
  have hne := is_at_end_false
    { lex with start := lex.current, current := lex.current + (n + 1) }
    (by
      show lex.source.getD (lex.current + (n + 1)) 0 ≠ 0
      rw [hdot]; decide)
  have hd20 := hd2 0 (Nat.succ_pos m)
  rw [Nat.add_zero] at hd20
  have hfloat : ∀ l1 : SkyLexer,
      l1 = { lex with start := lex.current, current := lex.current + (n + 1) } →
      (peek l1 = 46 ∧ isdigit (peek_next l1) = true) := by
    intro l1 hl1
    subst hl1
    refine ⟨hdot, ?_⟩
    simp only [peek_next, hne]
    exact hd20
  have hrun2 := advance_while_run isdigit (m + 1)
    (lex.source.length - (lex.current + (n + 1) + 1))
    { lex with start := lex.current, current := lex.current + (n + 1) + 1 }
    hd2 hstop (by omega)
  have hrun3 : ∀ l1 : SkyLexer,
      l1 = { lex with start := lex.current, current := lex.current + (n + 1) } →
      advance_while isdigit (SkyLexer.remaining (advance_char l1)) (advance_char l1) =
      { lex with start := lex.current, current := lex.current + (n + 1) + 1 + (m + 1) } := by
    intro l1 hl1
    subst hl1
    exact hrun2
  simp only [sky_lexer_next, hs, hend, hpk, h0, number_token, hrun1, hfloat _ rfl,
    hrun3 _ rfl]
  simp

/-- Two dots in a row are one `..` token. -/
theorem sky_lexer_next_dot_dot (lex : SkyLexer)
    (h1 : lex.source.getD lex.current 0 = 46)
    (h2 : lex.source.getD (lex.current + 1) 0 = 46) :
    sky_lexer_next lex =
      some (make_token { lex with start := lex.current, current := lex.current + 1 + 1 }
          TOKEN_DOT_DOT,
        { lex with start := lex.current, current := lex.current + 1 + 1 }) := by
  have hp : peek lex = lex.source.getD lex.current 0 := rfl
  have hs : skip_whitespace lex = lex :=
    skip_whitespace_none lex (by rw [hp, h1]; decide)
  have hend : is_at_end { lex with start := lex.current } = false :=
    is_at_end_false _ (by
      show lex.source.getD lex.current 0 ≠ 0
      rw [h1]; decide)
  have hpk : peek { lex with start := lex.current } = 46 := h1
  have hm : match_char (advance_char { lex with start := lex.current }) 46 =
      (true, { lex with start := lex.current, current := lex.current + 1 + 1 }) := by
    have hne := is_at_end_false (advance_char { lex with start := lex.current })
      (by
        show lex.source.getD (lex.current + 1) 0 ≠ 0
        rw [h2]; decide)
    have hpk2 : peek (advance_char { lex with start := lex.current }) = 46 := h2
    simp only [match_char, hne, hpk2]
    rfl
  simp only [sky_lexer_next, hs, hend, hpk, one_or_two, hm]
  simp [isdigit, isalpha]

/-- At the terminator the token is `TOKEN_EOF`, with an empty lexeme. -/
theorem sky_lexer_next_eof (lex : SkyLexer) (h : lex.source.getD lex.current 0 = 0) :
    sky_lexer_next lex =
      some (make_token { lex with start := lex.current } TOKEN_EOF,
        { lex with start := lex.current }) := by
  have hp : peek lex = lex.source.getD lex.current 0 := rfl
  have hs : skip_whitespace lex = lex :=
    skip_whitespace_none lex (by rw [hp, h]; decide)
  have hend : is_at_end { lex with start := lex.current } = true := by
    simp only [is_at_end, peek]
    rw [h]
    rfl
  simp only [sky_lexer_next, hs, hend]
  simp

theorem sky_lexer_tokens_step (fuel : Nat) (lex lex1 : SkyLexer) (tok : SkyToken)
    (h : sky_lexer_next lex = some (tok, lex1)) (hne : tok.type ≠ TOKEN_EOF) :
    sky_lexer_tokens (fuel + 1) lex =
      (sky_lexer_tokens fuel lex1).map (fun rest => tok :: rest) := by
  simp only [sky_lexer_tokens, h, hne, if_false]

theorem sky_lexer_tokens_eof (fuel : Nat) (lex lex1 : SkyLexer) (tok : SkyToken)
    (h : sky_lexer_next lex = some (tok, lex1)) (he : tok.type = TOKEN_EOF) :
    sky_lexer_tokens (fuel + 1) lex = some [tok] := by
  simp only [sky_lexer_tokens, h, he, if_true]

theorem getD_digits (l : List Nat) (h : ∀ c ∈ l, isdigit c = true) (j : Nat)
    (hj : j < l.length) : isdigit (l.getD j 0) = true := by
  rw [List.getD_eq_getElem l 0 hj]
  exact h _ (List.getElem_mem hj)

theorem getD_append_at (l r : List Nat) (j : Nat) :
    (l ++ r).getD (l.length + j) 0 = r.getD j 0 := by
  rw [List.getD_append_right l r 0 _ (Nat.le_add_right _ _)]
  simp

theorem getD_append_before (l r : List Nat) (j : Nat) (hj : j < l.length) :
    (l ++ r).getD j 0 = l.getD j 0 :=
  List.getD_append l r 0 j hj

theorem sky_lexer_init_digit (source : List Nat) (h : isdigit (source.getD 0 0) = true) :
    sky_lexer_init source = lexer_at source 0 0 := by
  have := (isdigit_cases _ h).2.2.2.2.2.2.2
  simp only [sky_lexer_init, lexer_at]
  rw [if_neg (fun hh => this hh.1)]

theorem lex_range (a b : List Nat) (n m : Nat) (hn : a.length = n + 1) (hm : b.length = m + 1)
    (hda : ∀ c ∈ a, isdigit c = true) (hdb : ∀ c ∈ b, isdigit c = true) :
    (lex_source (a ++ ([46, 46] ++ b))).map token_lexemes =
      some [(TOKEN_INT_LITERAL, a), (TOKEN_DOT_DOT, [46, 46]), (TOKEN_INT_LITERAL, b),
        (TOKEN_EOF, [])] := by
  have hA : ∀ j, j < n + 1 → isdigit ((a ++ ([46, 46] ++ b)).getD j 0) = true := by
    intro j hj
    rw [getD_append_before _ _ _ (by omega)]
    exact getD_digits a hda j (by omega)
  have hdot1 : (a ++ ([46, 46] ++ b)).getD (n + 1) 0 = 46 := by
    have := getD_append_at a ([46, 46] ++ b) 0
    rw [hn] at this
    exact this
  have hdot2 : (a ++ ([46, 46] ++ b)).getD (n + 1 + 1) 0 = 46 := by
    have := getD_append_at a ([46, 46] ++ b) 1
    rw [hn] at this
    exact this
  have hB : ∀ j, (a ++ ([46, 46] ++ b)).getD (n + 1 + 1 + 1 + j) 0 = b.getD j 0 := by
    intro j
    have := getD_append_at a ([46, 46] ++ b) (2 + j)
    rw [hn, show n + 1 + (2 + j) = n + 1 + 1 + 1 + j by omega] at this
    rw [this]
    have h2 := getD_append_at [46, 46] b j
    exact h2
  have hBd : ∀ j, j < m + 1 →
      isdigit ((a ++ ([46, 46] ++ b)).getD (n + 1 + 1 + 1 + j) 0) = true := by
    intro j hj
    rw [hB]
    exact getD_digits b hdb j (by omega)
  have hend : (a ++ ([46, 46] ++ b)).getD (n + 1 + 1 + 1 + (m + 1)) 0 = 0 := by
    rw [hB]
    exact List.getD_eq_default _ _ (by omega)
  have hlen : (a ++ ([46, 46] ++ b)).length = n + 1 + 1 + 1 + (m + 1) := by
    simp only [List.length_append, hn, hm, List.length_cons, List.length_nil]
    omega
  have h00 := hA 0 (Nat.succ_pos n)
  have t1 : sky_lexer_next (lexer_at (a ++ ([46, 46] ++ b)) 0 0) =
      some (make_token (lexer_at (a ++ ([46, 46] ++ b)) 0 (n + 1)) TOKEN_INT_LITERAL,
        lexer_at (a ++ ([46, 46] ++ b)) 0 (n + 1)) := by
    have t := sky_lexer_next_int (lexer_at (a ++ ([46, 46] ++ b)) 0 0) n
      (fun j hj => by
        show isdigit ((a ++ ([46, 46] ++ b)).getD (0 + j) 0) = true
        rw [Nat.zero_add]; exact hA j hj)
      (by
        show isdigit ((a ++ ([46, 46] ++ b)).getD (0 + (n + 1)) 0) = false
        rw [Nat.zero_add, hdot1]; decide)
      (by
        show ¬ ((a ++ ([46, 46] ++ b)).getD (0 + (n + 1)) 0 = 46 ∧
          isdigit ((a ++ ([46, 46] ++ b)).getD (0 + (n + 1) + 1) 0) = true)
        rw [Nat.zero_add, hdot2]
        intro h; exact absurd h.2 (by decide))
      (by
        show 0 + (n + 1) ≤ (a ++ ([46, 46] ++ b)).length
        omega)
    simpa only [lexer_at, Nat.zero_add] using t
  have t2 : sky_lexer_next (lexer_at (a ++ ([46, 46] ++ b)) 0 (n + 1)) =
      some (make_token (lexer_at (a ++ ([46, 46] ++ b)) (n + 1) (n + 1 + 1 + 1)) TOKEN_DOT_DOT,
        lexer_at (a ++ ([46, 46] ++ b)) (n + 1) (n + 1 + 1 + 1)) :=
    sky_lexer_next_dot_dot (lexer_at (a ++ ([46, 46] ++ b)) 0 (n + 1)) hdot1 hdot2
  have t3 : sky_lexer_next (lexer_at (a ++ ([46, 46] ++ b)) (n + 1) (n + 1 + 1 + 1)) =
      some (make_token
          (lexer_at (a ++ ([46, 46] ++ b)) (n + 1 + 1 + 1) (n + 1 + 1 + 1 + (m + 1)))
          TOKEN_INT_LITERAL,
        lexer_at (a ++ ([46, 46] ++ b)) (n + 1 + 1 + 1) (n + 1 + 1 + 1 + (m + 1))) :=
    sky_lexer_next_int (lexer_at (a ++ ([46, 46] ++ b)) (n + 1) (n + 1 + 1 + 1)) m
    hBd
    (by
      show isdigit ((a ++ ([46, 46] ++ b)).getD (n + 1 + 1 + 1 + (m + 1)) 0) = false
      rw [hend]; decide)
    (by
      show ¬ ((a ++ ([46, 46] ++ b)).getD (n + 1 + 1 + 1 + (m + 1)) 0 = 46 ∧ _)
      rw [hend]
      intro h; exact absurd h.1 (by decide))
    (by
      show n + 1 + 1 + 1 + (m + 1) ≤ (a ++ ([46, 46] ++ b)).length
      omega)
  have t4 : sky_lexer_next
      (lexer_at (a ++ ([46, 46] ++ b)) (n + 1 + 1 + 1) (n + 1 + 1 + 1 + (m + 1))) =
      some (make_token
          (lexer_at (a ++ ([46, 46] ++ b)) (n + 1 + 1 + 1 + (m + 1)) (n + 1 + 1 + 1 + (m + 1)))
          TOKEN_EOF,
        lexer_at (a ++ ([46, 46] ++ b)) (n + 1 + 1 + 1 + (m + 1)) (n + 1 + 1 + 1 + (m + 1))) :=
    sky_lexer_next_eof
    (lexer_at (a ++ ([46, 46] ++ b)) (n + 1 + 1 + 1) (n + 1 + 1 + 1 + (m + 1))) hend
  have hfuel : (a ++ ([46, 46] ++ b)).length + 1 = (n + m + 1) + 1 + 1 + 1 + 1 := by omega
  rw [lex_source, sky_lexer_init_digit _ h00, hfuel,
    sky_lexer_tokens_step _ _ _ _ t1 (by simp [make_token]),
    sky_lexer_tokens_step _ _ _ _ t2 (by simp [make_token]),
    sky_lexer_tokens_step _ _ _ _ t3 (by simp [make_token]),
    sky_lexer_tokens_eof _ _ _ _ t4 rfl]
  have e1 : (List.drop 0 (a ++ ([46, 46] ++ b))).take (n + 1 - 0) = a := by
    rw [List.drop_zero, Nat.sub_zero, ← hn, List.take_left]
  have e2 : (List.drop (n + 1) (a ++ ([46, 46] ++ b))).take (n + 1 + 1 + 1 - (n + 1)) =
      [46, 46] := by
    rw [← hn, List.drop_left, show a.length + 1 + 1 - a.length = 2 by omega]
    rfl
  have e3 : (List.drop (n + 1 + 1 + 1) (a ++ ([46, 46] ++ b))).take
      (n + 1 + 1 + 1 + (m + 1) - (n + 1 + 1 + 1)) = b := by
    rw [show n + 1 + 1 + 1 + (m + 1) - (n + 1 + 1 + 1) = b.length by omega,
      show a ++ ([46, 46] ++ b) = (a ++ [46, 46]) ++ b by simp,
      show n + 1 + 1 + 1 = (a ++ [46, 46]).length by simp [hn],
      List.drop_left, List.take_length]
  simp only [Option.map_some', token_lexemes, List.map, make_token, lexer_at, e1, e2, e3,
    Nat.sub_self, List.take_zero]

theorem lex_float (a b : List Nat) (n m : Nat) (hn : a.length = n + 1)
    (hm : b.length = m + 1)
    (hda : ∀ c ∈ a, isdigit c = true) (hdb : ∀ c ∈ b, isdigit c = true) :
    (lex_source (a ++ ([46] ++ b))).map token_lexemes =
      some [(TOKEN_FLOAT_LITERAL, a ++ ([46] ++ b)), (TOKEN_EOF, [])] := by
  have hA : ∀ j, j < n + 1 → isdigit ((a ++ ([46] ++ b)).getD j 0) = true := by
    intro j hj
    rw [getD_append_before _ _ _ (by omega)]
    exact getD_digits a hda j (by omega)
  have hdot1 : (a ++ ([46] ++ b)).getD (n + 1) 0 = 46 := by
    have := getD_append_at a ([46] ++ b) 0
    rw [hn] at this
    exact this
  have hB : ∀ j, (a ++ ([46] ++ b)).getD (n + 1 + 1 + j) 0 = b.getD j 0 := by
    intro j
    have := getD_append_at a ([46] ++ b) (1 + j)
    rw [hn, show n + 1 + (1 + j) = n + 1 + 1 + j by omega] at this
    rw [this]
    have h2 := getD_append_at [46] b j
    exact h2
  have hBd : ∀ j, j < m + 1 →
      isdigit ((a ++ ([46] ++ b)).getD (n + 1 + 1 + j) 0) = true := by
    intro j hj
    rw [hB]
    exact getD_digits b hdb j (by omega)
  have hend : (a ++ ([46] ++ b)).getD (n + 1 + 1 + (m + 1)) 0 = 0 := by
    rw [hB]
    exact List.getD_eq_default _ _ (by omega)
  have hlen : (a ++ ([46] ++ b)).length = n + 1 + 1 + (m + 1) := by
    simp only [List.length_append, hn, hm, List.length_cons, List.length_nil]
    omega
  have h00 := hA 0 (Nat.succ_pos n)
  have t1 : sky_lexer_next (lexer_at (a ++ ([46] ++ b)) 0 0) =
      some (make_token (lexer_at (a ++ ([46] ++ b)) 0 (n + 1 + 1 + (m + 1)))
          TOKEN_FLOAT_LITERAL,
        lexer_at (a ++ ([46] ++ b)) 0 (n + 1 + 1 + (m + 1))) := by
    have t := sky_lexer_next_float (lexer_at (a ++ ([46] ++ b)) 0 0) n m
      (fun j hj => by
        show isdigit ((a ++ ([46] ++ b)).getD (0 + j) 0) = true
        rw [Nat.zero_add]; exact hA j hj)
      (by
        show (a ++ ([46] ++ b)).getD (0 + (n + 1)) 0 = 46
        rw [Nat.zero_add, hdot1])
      (fun j hj => by
        show isdigit ((a ++ ([46] ++ b)).getD (0 + (n + 1) + 1 + j) 0) = true
        rw [Nat.zero_add]; exact hBd j hj)
      (by
        show isdigit ((a ++ ([46] ++ b)).getD (0 + (n + 1) + 1 + (m + 1)) 0) = false
        rw [Nat.zero_add, hend]; decide)
      (by
        show 0 + (n + 1) + 1 + (m + 1) ≤ (a ++ ([46] ++ b)).length
        omega)
    simpa only [lexer_at, Nat.zero_add] using t
  have t2 : sky_lexer_next (lexer_at (a ++ ([46] ++ b)) 0 (n + 1 + 1 + (m + 1))) =
      some (make_token
          (lexer_at (a ++ ([46] ++ b)) (n + 1 + 1 + (m + 1)) (n + 1 + 1 + (m + 1)))
          TOKEN_EOF,
        lexer_at (a ++ ([46] ++ b)) (n + 1 + 1 + (m + 1)) (n + 1 + 1 + (m + 1))) :=
    sky_lexer_next_eof (lexer_at (a ++ ([46] ++ b)) 0 (n + 1 + 1 + (m + 1))) hend
  have hfuel : (a ++ ([46] ++ b)).length + 1 = (n + m + 2) + 1 + 1 := by omega
  rw [lex_source, sky_lexer_init_digit _ h00, hfuel,
    sky_lexer_tokens_step _ _ _ _ t1 (by simp [make_token]),
    sky_lexer_tokens_eof _ _ _ _ t2 rfl]
  have e1 : (List.drop 0 (a ++ ([46] ++ b))).take (n + 1 + 1 + (m + 1) - 0) =
      a ++ ([46] ++ b) := by
    rw [List.drop_zero, Nat.sub_zero, ← hlen, List.take_length]
  simp only [Option.map_some', token_lexemes, List.map, make_token, lexer_at, e1,
    Nat.sub_self, List.take_zero]

/-- C20.  For non-empty runs of decimal digits `a` and `b`: the source
`a..b` lexes to exactly an integer literal with lexeme `a`, the token `..`,
an integer literal with lexeme `b`, and end of file (so `..` is not taken
for a decimal point); the source `a.b` lexes to exactly one float literal
with lexeme `a.b`, and end of file. -/
theorem range_dots_are_not_a_decimal_point (a b : List Nat) (ha : a ≠ []) (hb : b ≠ [])
    (hda : ∀ c ∈ a, isdigit c = true) (hdb : ∀ c ∈ b, isdigit c = true) :
    (lex_source (a ++ c_str ".." ++ b)).map token_lexemes =
      some [(TOKEN_INT_LITERAL, a), (TOKEN_DOT_DOT, c_str ".."), (TOKEN_INT_LITERAL, b),
        (TOKEN_EOF, [])] ∧
    (lex_source (a ++ c_str "." ++ b)).map token_lexemes =
      some [(TOKEN_FLOAT_LITERAL, a ++ c_str "." ++ b), (TOKEN_EOF, [])] := by
  obtain ⟨n, hn⟩ : ∃ n, a.length = n + 1 :=
    ⟨a.length - 1, by have := List.length_pos.mpr ha; omega⟩
  obtain ⟨m, hm⟩ : ∃ m, b.length = m + 1 :=
    ⟨b.length - 1, by have := List.length_pos.mpr hb; omega⟩
  have e2 : c_str ".." = [46, 46] := by decide
  have e1 : c_str "." = [46] := by decide
  rw [e1, e2, List.append_assoc, List.append_assoc]
  exact ⟨lex_range a b n m hn hm hda hdb, lex_float a b n m hn hm hda hdb⟩

/-- C20, at the sources `1..5` and `3.14`. -/
theorem range_dots_are_not_a_decimal_point_witness :
    ((lex_source (c_str "1..5")).map token_lexemes =
      some [(TOKEN_INT_LITERAL, c_str "1"), (TOKEN_DOT_DOT, c_str ".."),
        (TOKEN_INT_LITERAL, c_str "5"), (TOKEN_EOF, [])] ∧
     (lex_source (c_str "1.5")).map token_lexemes =
      some [(TOKEN_FLOAT_LITERAL, c_str "1.5"), (TOKEN_EOF, [])]) ∧
    ((lex_source (c_str "3..14")).map token_lexemes =
      some [(TOKEN_INT_LITERAL, c_str "3"), (TOKEN_DOT_DOT, c_str ".."),
        (TOKEN_INT_LITERAL, c_str "14"), (TOKEN_EOF, [])] ∧
     (lex_source (c_str "3.14")).map token_lexemes =
      some [(TOKEN_FLOAT_LITERAL, c_str "3.14"), (TOKEN_EOF, [])]) :=
  ⟨range_dots_are_not_a_decimal_point (c_str "1") (c_str "5") (by decide) (by decide)
      (by decide) (by decide),
   range_dots_are_not_a_decimal_point (c_str "3") (c_str "14") (by decide) (by decide)
      (by decide) (by decide)⟩

/-! ## Forward jumps lead to instruction starts -/

theorem instruction_size_pos (b : Nat) : 1 ≤ instruction_size b := by
  unfold instruction_size
  split <;> omega

theorem instruction_size_jump (b : Nat) (h : b = 31 ∨ b = 32) : instruction_size b = 3 := by
  rcases h with h | h <;> subst h <;> rfl

theorem residue_append (A B : List Nat) : residue (A ++ B) = B.foldl scan_step (residue A) := by
  simp [residue, List.foldl_append]

theorem Exact.concat {A B : List Nat} (hA : Exact A) (hB : Exact B) : Exact (A ++ B) := by
  unfold Exact at *
  rw [residue_append, hA]
  exact hB

theorem exact_nil : Exact [] := rfl

theorem Boundary.zero (code : List Nat) : Boundary code 0 := ⟨Nat.zero_le _, rfl⟩

theorem Exact.boundary_length {code : List Nat} (h : Exact code) : Boundary code code.length :=
  ⟨Nat.le_refl _, by rw [List.take_length]; exact h⟩

theorem Boundary.append_left {A : List Nat} {t : Nat} (h : Boundary A t) (B : List Nat) :
    Boundary (A ++ B) t := by
  refine ⟨by rw [List.length_append]; exact Nat.le_add_right_of_le h.1, ?_⟩
  rw [List.take_append_of_le_length h.1]
  exact h.2

theorem Boundary.append_right {A B : List Nat} {t : Nat} (hA : Exact A) (h : Boundary B t) :
    Boundary (A ++ B) (A.length + t) := by
  refine ⟨by rw [List.length_append]; exact Nat.add_le_add_left h.1 _, ?_⟩
  rw [List.take_append, residue_append, hA]
  exact h.2

theorem Boundary.of_append_left {A B : List Nat} {p : Nat} (h : Boundary (A ++ B) p)
    (hp : p ≤ A.length) : Boundary A p := by
  refine ⟨hp, ?_⟩
  have := h.2
  rw [List.take_append_of_le_length hp] at this
  exact this

theorem Boundary.of_append_right {A B : List Nat} {q : Nat} (hA : Exact A)
    (h : Boundary (A ++ B) (A.length + q)) : Boundary B q := by
  refine ⟨?_, ?_⟩
  · have := h.1
    rw [List.length_append] at this
    omega
  · have := h.2
    rw [List.take_append, residue_append, hA] at this
    exact this

theorem foldl_scan_le (l : List Nat) : ∀ k, l.foldl scan_step k = 0 → k ≤ l.length := by
  induction l with
  | nil => intro k h; simpa using h
  | cons b l ih =>
      intro k h
      rw [List.foldl_cons] at h
      have := ih _ h
      unfold scan_step at this
      rw [List.length_cons]
      split at this
      · omega
      · omega

/-- A whole instruction starting inside a sequence of whole instructions
ends inside it. -/
theorem Exact.fits {code : List Nat} (h : Exact code) {p : Nat} (hb : Boundary code p)
    (hp : p < code.length) : p + instruction_size (code.getD p 0) ≤ code.length := by
  have e : code = code.take p ++ code.getD p 0 :: code.drop (p + 1) := by
    rw [List.getD_eq_getElem code 0 hp]
    conv_lhs => rw [← List.take_append_drop p code]
    rw [List.drop_eq_getElem_cons hp]
  have h1 : residue code = 0 := h
  rw [e, residue_append, hb.2, List.foldl_cons] at h1
  have h2 := foldl_scan_le _ _ h1
  rw [List.length_drop] at h2
  have h3 := instruction_size_pos (code.getD p 0)
  simp only [scan_step, if_true] at h2
  omega

theorem getD_append_lt (A B : List Nat) (i : Nat) (h : i < A.length) :
    (A ++ B).getD i 0 = A.getD i 0 := List.getD_append A B 0 i h

theorem getD_append_ge (A B : List Nat) (q : Nat) :
    (A ++ B).getD (A.length + q) 0 = B.getD q 0 := by
  rw [List.getD_append_right A B 0 _ (Nat.le_add_right _ _)]
  simp

theorem target_at_append_left (A B : List Nat) (p : Nat) (h : p + 3 ≤ A.length) :
    target_at (A ++ B) p = target_at A p := by
  unfold target_at
  rw [getD_append_lt A B (p + 1) (by omega), getD_append_lt A B (p + 2) (by omega)]

theorem target_at_append_right (A B : List Nat) (q : Nat) :
    target_at (A ++ B) (A.length + q) = A.length + target_at B q := by
  unfold target_at
  rw [show A.length + q + 1 = A.length + (q + 1) by omega,
    show A.length + q + 2 = A.length + (q + 2) by omega,
    getD_append_ge, getD_append_ge]
  omega

/-- A sequence of whole instructions before a well-aimed sequence, its own
forward jumps leading to boundaries of the whole. -/
theorem SegOk.append_of {A B : List Nat} (hA : Exact A) (hB : SegOk B)
    (hj : ∀ p, Boundary A p → p < A.length → (A.getD p 0 = 31 ∨ A.getD p 0 = 32) →
      Boundary (A ++ B) (target_at A p)) : SegOk (A ++ B) := by
  refine ⟨hA.concat hB.1, ?_⟩
  intro p hp hlt hop
  by_cases h : p < A.length
  · have hbA := hp.of_append_left (Nat.le_of_lt h)
    rw [getD_append_lt A B p h] at hop
    have hfit := hA.fits hbA h
    rw [instruction_size_jump _ hop] at hfit
    rw [target_at_append_left A B p hfit]
    exact hj p hbA h hop
  · obtain ⟨q, rfl⟩ : ∃ q, p = A.length + q := ⟨p - A.length, by omega⟩
    have hbB := Boundary.of_append_right hA hp
    rw [getD_append_ge] at hop
    rw [List.length_append] at hlt
    rw [target_at_append_right]
    exact Boundary.append_right hA (hB.2 q hbB (by omega) hop)

theorem SegOk.join {A B : List Nat} (hA : SegOk A) (hB : SegOk B) : SegOk (A ++ B) :=
  SegOk.append_of hA.1 hB (fun p hp hlt hop => (hA.2 p hp hlt hop).append_left B)

theorem segok_nil : SegOk [] :=
  ⟨rfl, fun p _ hlt _ => absurd hlt (Nat.not_lt_zero p)⟩

theorem segok_one (b : Nat) (h : instruction_size b = 1) : SegOk [b] := by
  refine ⟨?_, ?_⟩
  · show scan_step 0 b = 0
    simp [scan_step, h]
  · intro p _ hlt hop
    have hp : p = 0 := by simpa using hlt
    subst hp
    have := instruction_size_jump _ hop
    rw [show [b].getD 0 0 = b from rfl, h] at this
    cases this

theorem segok_two (b x : Nat) (h : instruction_size b = 2) : SegOk [b, x] := by
  refine ⟨?_, ?_⟩
  · show scan_step (scan_step 0 b) x = 0
    simp [scan_step, h]
  · intro p hp hlt hop
    have hp2 : p = 0 ∨ p = 1 := by
      have : p < 2 := hlt
      omega
    rcases hp2 with rfl | rfl
    · have := instruction_size_jump _ hop
      rw [show [b, x].getD 0 0 = b from rfl, h] at this
      cases this
    · have := hp.2
      have e : residue ([b, x].take 1) = scan_step 0 b := rfl
      rw [e] at this
      simp [scan_step, h] at this

theorem exact_three (b x y : Nat) (h : instruction_size b = 3) : Exact [b, x, y] := by
  show scan_step (scan_step (scan_step 0 b) x) y = 0
  simp [scan_step, h]

theorem boundary_three (b x y : Nat) (h : instruction_size b = 3) (p : Nat)
    (hp : Boundary [b, x, y] p) (hlt : p < 3) : p = 0 := by
  have hp3 : p = 0 ∨ p = 1 ∨ p = 2 := by omega
  rcases hp3 with rfl | rfl | rfl
  · rfl
  · have := hp.2
    have e : residue ([b, x, y].take 1) = scan_step 0 b := rfl
    rw [e] at this
    simp [scan_step, h] at this
  · have := hp.2
    have e : residue ([b, x, y].take 2) = scan_step (scan_step 0 b) x := rfl
    rw [e] at this
    simp [scan_step, h] at this

theorem segok_jump_back (x y : Nat) : SegOk [33, x, y] := by
  refine ⟨exact_three 33 x y rfl, ?_⟩
  intro p hp hlt hop
  have := boundary_three 33 x y rfl p hp hlt
  subst this
  rcases hop with h | h <;> cases h

/-- A forward jump whose operand is the distance to a boundary of the
well-aimed sequence after it. -/
theorem segok_jump_cons (op hi lo : Nat) (R : List Nat) (d : Nat)
    (hop : op = 31 ∨ op = 32) (hR : SegOk R) (hd : Boundary R d)
    (hdec : ((hi <<< 8) ||| lo) % 65536 = d) : SegOk ([op, hi, lo] ++ R) := by
  have hs := instruction_size_jump op hop
  refine SegOk.append_of (exact_three op hi lo hs) hR ?_
  intro p hp hlt _
  have := boundary_three op hi lo hs p hp hlt
  subst this
  have e : target_at [op, hi, lo] 0 = [op, hi, lo].length + d := by
    unfold target_at
    show 0 + 3 + ((hi <<< 8) ||| lo) % 65536 = 3 + d
    rw [hdec]
  rw [e]
  exact Boundary.append_right (exact_three op hi lo hs) hd

theorem residue_take_succ (code : List Nat) (t : Nat) (h : t < code.length) :
    residue (code.take (t + 1)) = scan_step (residue (code.take t)) (code.getD t 0) := by
  rw [List.take_succ, residue_append, List.getD_eq_getElem code 0 h,
    List.getElem?_eq_getElem h]
  rfl

/-- Inside an instruction the scan still expects operand bytes. -/
theorem residue_inside (code : List Nat) (off : Nat) (hb : Boundary code off) :
    ∀ j, 1 ≤ j → j ≤ instruction_size (code.getD off 0) → off + j ≤ code.length →
      residue (code.take (off + j)) = instruction_size (code.getD off 0) - j := by
  intro j
  induction j with
  | zero => intro h; omega
  | succ j ih =>
      intro _ hj hlen
      rw [← Nat.add_assoc, residue_take_succ code (off + j) (by omega)]
      by_cases h0 : j = 0
      · subst h0
        rw [Nat.add_zero, hb.2]
        simp [scan_step]
      · rw [ih (by omega) (by omega) (by omega)]
        unfold scan_step
        rw [if_neg (by omega)]
        omega

theorem disassemble_loop_past (chunk : SkyChunk) (fuel off : Nat)
    (h : chunk.code.length ≤ off) : disassemble_loop chunk fuel off = [] := by
  cases fuel with
  | zero => rfl
  | succ fuel =>
      unfold disassemble_loop
      rw [if_neg (by omega)]

/-- The offsets the disassembler visits from a boundary are the boundaries
from there on. -/
theorem mem_disassemble_loop (chunk : SkyChunk) (p : Nat) :
    ∀ (fuel off : Nat), Boundary chunk.code off → chunk.code.length - off ≤ fuel →
      (p ∈ disassemble_loop chunk fuel off ↔
        off ≤ p ∧ p < chunk.code.length ∧ Boundary chunk.code p) := by
  intro fuel
  induction fuel with
  | zero =>
      intro off _ hf
      simp only [disassemble_loop, List.not_mem_nil, false_iff]
      intro ⟨h1, h2, _⟩
      omega
  | succ fuel ih =>
      intro off hb hf
      unfold disassemble_loop
      by_cases hlt : off < chunk.code.length
      · rw [if_pos hlt, List.mem_cons]
        have hpos := instruction_size_pos (chunk.code.getD off 0)
        have hin := residue_inside chunk.code off hb
        have hmid : ∀ q, off < q → q < off + instruction_size (chunk.code.getD off 0) →
            ¬ Boundary chunk.code q := by
          intro q h1 h2 hq
          obtain ⟨j, rfl⟩ : ∃ j, q = off + j := ⟨q - off, by omega⟩
          have := hin j (by omega) (by omega) hq.1
          rw [hq.2] at this
          omega
        by_cases hfit : off + instruction_size (chunk.code.getD off 0) ≤ chunk.code.length
        · have hnext : Boundary chunk.code (off + instruction_size (chunk.code.getD off 0)) :=
            ⟨hfit, by rw [hin _ hpos (Nat.le_refl _) hfit]; omega⟩
          have := ih (sky_disassemble_instruction chunk off) hnext
            (by unfold sky_disassemble_instruction; omega)
          rw [this]
          unfold sky_disassemble_instruction
          constructor
          · rintro (rfl | ⟨h1, h2, h3⟩)
            · exact ⟨Nat.le_refl _, hlt, hb⟩
            · exact ⟨by omega, h2, h3⟩
          · rintro ⟨h1, h2, h3⟩
            by_cases hpe : p = off
            · exact Or.inl hpe
            · refine Or.inr ⟨?_, h2, h3⟩
              by_contra hc
              exact hmid p (by omega) (by omega) h3
        · rw [disassemble_loop_past chunk fuel _
            (by unfold sky_disassemble_instruction; omega)]
          simp only [List.not_mem_nil, or_false]
          constructor
          · rintro rfl
            exact ⟨Nat.le_refl _, hlt, hb⟩
          · rintro ⟨h1, h2, h3⟩
            by_contra hc
            exact hmid p (by omega) (by omega) h3
      · rw [if_neg hlt]
        simp only [List.not_mem_nil, false_iff]
        intro ⟨h1, h2, _⟩
        omega

/-- The offsets `sky_disassemble_chunk` visits are the starts of the
instructions of the code. -/
theorem mem_sky_disassemble_chunk (chunk : SkyChunk) (p : Nat) :
    p ∈ sky_disassemble_chunk chunk ↔ p < chunk.code.length ∧ Boundary chunk.code p := by
  unfold sky_disassemble_chunk
  rw [mem_disassemble_loop chunk p _ 0 (Boundary.zero _) (by omega)]
  simp

theorem Ext.here (c : SkyCompiler) : Ext c c :=
  fun h => ⟨h, [], by simp, segok_nil⟩

theorem Ext.comp {a b c : SkyCompiler} (h1 : Ext a b) (h2 : Ext b c) : Ext a c := by
  intro h
  obtain ⟨hb, s2, e2, ok2⟩ := h2 h
  obtain ⟨ha, s1, e1, ok1⟩ := h1 hb
  exact ⟨ha, s1 ++ s2, by rw [e2, e1, List.append_assoc], ok1.join ok2⟩

theorem ext_emit_byte (c : SkyCompiler) (b : Nat) (line : Int)
    (h : instruction_size (b % 256) = 1) : Ext c (emit_byte c b line) :=
  fun he => ⟨he, [b % 256], rfl, segok_one _ h⟩

theorem ext_emit_bytes (c : SkyCompiler) (b1 b2 : Nat) (line : Int)
    (h : instruction_size (b1 % 256) = 2) : Ext c (emit_bytes c b1 b2 line) :=
  fun he => ⟨he, [b1 % 256, b2 % 256], by
    show (c.chunk.code ++ [b1 % 256]) ++ [b2 % 256] = _
    simp, segok_two _ _ h⟩

theorem ext_make_constant (c : SkyCompiler) (v : SkyValue) : Ext c (make_constant c v).2 := by
  unfold make_constant sky_chunk_add_constant
  dsimp only
  split
  · intro h; cases h
  · exact fun h => ⟨h, [], by simp, segok_nil⟩

theorem ext_emit_constant (c : SkyCompiler) (v : SkyValue) (line : Int) :
    Ext c (emit_constant c v line) :=
  (ext_make_constant c v).comp (ext_emit_bytes _ _ _ line rfl)

theorem ext_add_local (c : SkyCompiler) (name : String) : Ext c (add_local c name).2 := by
  unfold add_local
  split
  · intro h; cases h
  · exact fun h => ⟨h, [], by simp, segok_nil⟩

theorem ext_begin_scope (c : SkyCompiler) : Ext c (begin_scope c) :=
  fun h => ⟨h, [], by simp [begin_scope], segok_nil⟩

theorem ext_end_scope_loop (line : Int) (ls : List Local) :
    ∀ c : SkyCompiler, Ext c (end_scope_loop c line ls) := by
  induction ls with
  | nil => intro c; exact fun h => ⟨h, [], by simp [end_scope_loop], segok_nil⟩
  | cons l below ih =>
      intro c
      unfold end_scope_loop
      split
      · exact (ext_emit_byte c OP_POP.toByte line rfl).comp (ih _)
      · exact fun h => ⟨h, [], by simp, segok_nil⟩

theorem ext_end_scope (c : SkyCompiler) (line : Int) : Ext c (end_scope c line) :=
  Ext.comp (b := { c with scope_depth := c.scope_depth - 1 })
    (fun h => ⟨h, [], by simp, segok_nil⟩) (ext_end_scope_loop line _ _)

theorem ext_emit_jump_back (c : SkyCompiler) (loop_start : Nat) (line : Int) :
    Ext c (emit_jump_back c loop_start line) := by
  intro h
  refine ⟨h, [33, ((c.code_count - loop_start + 3) >>> 8 &&& 0xff) % 256,
    ((c.code_count - loop_start + 3) &&& 0xff) % 256], ?_, segok_jump_back _ _⟩
  simp [emit_jump_back, emit_byte, sky_chunk_write, SkyOpCode.toByte]

theorem ext_set_error (c : SkyCompiler) : Ext c { c with had_error := true } := by
  intro h; cases h

/-- A successful `patch_jump` at the operand of `op x y`, the code being
`A ++ op :: x :: y :: R`: the operand becomes the length of `R`. -/
theorem patch_layout (c : SkyCompiler) (A R : List Nat) (op x y : Nat)
    (hcode : c.chunk.code = A ++ op :: x :: y :: R)
    (hok : (patch_jump c (A.length + 1)).had_error = false) :
    c.had_error = false ∧ ∃ hi lo, (patch_jump c (A.length + 1)).chunk.code =
      A ++ op :: hi :: lo :: R ∧ ((hi <<< 8) ||| lo) % 65536 = R.length := by
  have hj : c.code_count - (A.length + 1) - 2 = R.length := by
    rw [SkyCompiler.code_count, hcode]
    simp
    omega
  by_cases hle : c.code_count - (A.length + 1) - 2 ≤ 0xffff
  · obtain ⟨e, g⟩ := patch_jump_of_le c (A.length + 1) hle
    refine ⟨by rw [← g]; exact hok, ((R.length >>> 8) &&& 0xff), (R.length &&& 0xff), ?_, ?_⟩
    · rw [e, hj, hcode, set_append_add, show A.length + 1 + 1 = A.length + 2 by omega,
        set_append_add]
      rfl
    · rw [hj] at hle
      exact decode_patched _ hle
  · have := patch_jump_of_gt c (A.length + 1) hle
    rw [this] at hok; cases hok

/-- Patching the forward jump emitted at `c1` once a well-aimed sequence has
been appended after it: the jump leads to the end of the code. -/
theorem ext_patch (c c1 c4 : SkyCompiler) (op : SkyOpCode) (line : Int)
    (hop : op = OP_JUMP ∨ op = OP_JUMP_IF_FALSE) (h1 : Ext c c1)
    (h4 : Ext (emit_jump c1 op line).2 c4) :
    Ext c (patch_jump c4 (emit_jump c1 op line).1) := by
  intro hok
  have hok4 : c4.had_error = false := by
    cases h : c4.had_error with
    | false => rfl
    | true => rw [patch_jump_keeps_error c4 _ h] at hok; cases hok
  obtain ⟨hok2, s4, e4, ok4⟩ := h4 hok4
  rw [emit_jump_had_error] at hok2
  obtain ⟨hok0, s1, e1, ok1⟩ := h1 hok2
  have hb : op.toByte % 256 = 31 ∨ op.toByte % 256 = 32 := by
    rcases hop with rfl | rfl
    · exact Or.inl rfl
    · exact Or.inr rfl
  have hcode : c4.chunk.code = c1.chunk.code ++ op.toByte % 256 :: 255 :: 255 :: s4 := by
    rw [e4, emit_jump_code]; simp
  rw [emit_jump_fst] at hok ⊢
  obtain ⟨_, hi, lo, e, hdec⟩ := patch_layout c4 c1.chunk.code s4 _ 255 255 hcode hok
  refine ⟨hok0, s1 ++ ([op.toByte % 256, hi, lo] ++ s4), ?_, ?_⟩
  · show (patch_jump c4 (c1.chunk.code.length + 1)).chunk.code = _
    rw [e, e1]; simp
  · exact ok1.join (segok_jump_cons _ hi lo s4 s4.length hb ok4 ok4.1.boundary_length hdec)

/-- The two patches of an `if` with an else-branch: `JUMP_IF_FALSE` leads
to the `POP` before the else-branch, `JUMP` to the end of the code. -/
theorem ext_if_else (c c1 c4 c8 : SkyCompiler) (line : Int) (h1 : Ext c c1)
    (h4 : Ext (emit_byte (emit_jump c1 OP_JUMP_IF_FALSE line).2 OP_POP.toByte line) c4)
    (h8 : Ext (emit_byte (patch_jump (emit_jump c4 OP_JUMP line).2
      (emit_jump c1 OP_JUMP_IF_FALSE line).1) OP_POP.toByte line) c8) :
    Ext c (patch_jump c8 (emit_jump c4 OP_JUMP line).1) := by
  intro hok
  have hok8 : c8.had_error = false := by
    cases h : c8.had_error with
    | false => rfl
    | true => rw [patch_jump_keeps_error c8 _ h] at hok; cases hok
  obtain ⟨hok7, sE, e8, okE⟩ := h8 hok8
  rw [emit_byte_had_error] at hok7
  have hok5 : (emit_jump c4 OP_JUMP line).2.had_error = false := by
    cases h : (emit_jump c4 OP_JUMP line).2.had_error with
    | false => rfl
    | true => rw [patch_jump_keeps_error _ _ h] at hok7; cases hok7
  rw [emit_jump_had_error] at hok5
  obtain ⟨hok3, sT, e4, okT⟩ := h4 hok5
  rw [emit_byte_had_error, emit_jump_had_error] at hok3
  obtain ⟨hok0, s1, e1, ok1⟩ := h1 hok3
  have e4x : c4.chunk.code = c1.chunk.code ++ 32 :: 255 :: 255 :: 6 :: sT := by
    rw [e4, emit_byte_code, emit_jump_code]
    simp [SkyOpCode.toByte]
  have e5 : (emit_jump c4 OP_JUMP line).2.chunk.code =
      c1.chunk.code ++ 32 :: 255 :: 255 :: (6 :: (sT ++ [31, 255, 255])) := by
    rw [emit_jump_code, e4x]
    simp [SkyOpCode.toByte]
  rw [emit_jump_fst c1] at hok7 e8
  obtain ⟨_, hi1, lo1, e6, dec1⟩ := patch_layout _ c1.chunk.code _ 32 255 255 e5 hok7
  have e8x : c8.chunk.code =
      (c1.chunk.code ++ 32 :: hi1 :: lo1 :: 6 :: sT) ++ 31 :: 255 :: 255 :: (6 :: sE) := by
    rw [e8, emit_byte_code]
    show (patch_jump (emit_jump c4 OP_JUMP line).2 (c1.chunk.code.length + 1)).chunk.code ++
      [OP_POP.toByte % 256] ++ sE = _
    rw [e6]
    simp [SkyOpCode.toByte]
  have hlen : c4.code_count = (c1.chunk.code ++ 32 :: hi1 :: lo1 :: 6 :: sT).length := by
    rw [SkyCompiler.code_count, e4x]
    simp
  rw [emit_jump_fst c4, hlen] at hok ⊢
  obtain ⟨_, hi2, lo2, e9, dec2⟩ := patch_layout c8 _ _ 31 255 255 e8x hok
  refine ⟨hok0, s1 ++ ([32, hi1, lo1] ++ (([6] ++ sT) ++ ([31, hi2, lo2] ++ ([6] ++ sE)))),
    ?_, ?_⟩
  · rw [e9, e1]; simp
  · have okJ2 : SegOk ([31, hi2, lo2] ++ ([6] ++ sE)) :=
      segok_jump_cons 31 hi2 lo2 _ _ (Or.inl rfl) ((segok_one 6 rfl).join okE)
        ((segok_one 6 rfl).join okE).1.boundary_length dec2
    have okPT : SegOk ([6] ++ sT) := (segok_one 6 rfl).join okT
    have hb : Boundary (([6] ++ sT) ++ ([31, hi2, lo2] ++ ([6] ++ sE)))
        (([6] ++ sT).length + 3) :=
      Boundary.append_right okPT.1
        (Boundary.append_left (exact_three 31 hi2 lo2 rfl).boundary_length _)
    refine ok1.join (segok_jump_cons 32 hi1 lo1 _ _ (Or.inr rfl) (okPT.join okJ2) hb ?_)
    rw [dec1]
    simp

theorem binary_opcode_size (op : SkyTokenType) (o : SkyOpCode)
    (h : binary_opcode op = some o) : instruction_size (o.toByte % 256) = 1 := by
  cases op <;> simp [binary_opcode] at h <;> subst h <;> rfl

theorem unary_opcode_size (op : SkyTokenType) (o : SkyOpCode)
    (h : unary_opcode op = some o) : instruction_size (o.toByte % 256) = 1 := by
  cases op <;> simp [unary_opcode] at h <;> subst h <;> rfl

/-- The part of the `AST_FOR` case after the start value, from the
compiler `c1` that has compiled it. -/
theorem for_range_rest_ext (c c1 : SkyCompiler) (line : Int) (var_name : String)
    (end_ body : SkyASTNode) (h1 : Ext c c1)
    (hend : ∀ c2, Ext c2 (compile_ast false end_ c2))
    (hbody : ∀ c2, Ext c2 (compile_ast true body c2)) :
    Ext c
      (let p := add_local c1 var_name
       let c3 := emit_bytes p.2 OP_GET_LOCAL.toByte (u8 p.1) line
       let c5 := emit_byte (compile_ast false end_ c3) OP_LESS.toByte line
       let j := emit_jump c5 OP_JUMP_IF_FALSE line
       let c7 := emit_byte j.2 OP_POP.toByte line
       let c9 := emit_bytes (compile_ast true body c7) OP_GET_LOCAL.toByte (u8 p.1) line
       let c11 := emit_byte (emit_constant c9 (.int 1) line) OP_ADD.toByte line
       let c13 := emit_byte (emit_bytes c11 OP_SET_LOCAL.toByte (u8 p.1) line) OP_POP.toByte line
       let c14 := emit_jump_back c13 p.2.code_count line
       end_scope (emit_byte (patch_jump c14 j.1) OP_POP.toByte line) line) := by
  let p := add_local c1 var_name
  let c3 := emit_bytes p.2 OP_GET_LOCAL.toByte (u8 p.1) line
  let c5 := emit_byte (compile_ast false end_ c3) OP_LESS.toByte line
  let j := emit_jump c5 OP_JUMP_IF_FALSE line
  let c7 := emit_byte j.2 OP_POP.toByte line
  let c9 := emit_bytes (compile_ast true body c7) OP_GET_LOCAL.toByte (u8 p.1) line
  let c11 := emit_byte (emit_constant c9 (.int 1) line) OP_ADD.toByte line
  let c13 := emit_byte (emit_bytes c11 OP_SET_LOCAL.toByte (u8 p.1) line) OP_POP.toByte line
  let c14 := emit_jump_back c13 p.2.code_count line
  show Ext c (end_scope (emit_byte (patch_jump c14 j.1) OP_POP.toByte line) line)
  have h3 : Ext c c3 := (h1.comp (ext_add_local c1 var_name)).comp (ext_emit_bytes _ _ _ _ rfl)
  have h5 : Ext c c5 := (h3.comp (hend c3)).comp (ext_emit_byte _ _ _ rfl)
  have h7 : Ext j.2 c7 := ext_emit_byte _ _ _ rfl
  have h9 : Ext j.2 c9 := (h7.comp (hbody c7)).comp (ext_emit_bytes _ _ _ _ rfl)
  have h11 : Ext j.2 c11 := (h9.comp (ext_emit_constant _ _ _)).comp (ext_emit_byte _ _ _ rfl)
  have h13 : Ext j.2 c13 :=
    (h11.comp (ext_emit_bytes _ OP_SET_LOCAL.toByte _ _ rfl)).comp
      (ext_emit_byte _ OP_POP.toByte _ rfl)
  have h14 : Ext j.2 c14 := h13.comp (ext_emit_jump_back _ _ _)
  have h15 := ext_patch c c5 c14 OP_JUMP_IF_FALSE line (Or.inr rfl) h5 h14
  exact (h15.comp (ext_emit_byte _ OP_POP.toByte _ rfl)).comp (ext_end_scope _ _)

mutual
/-- Code compiled without error is a sequence of whole instructions whose
forward jumps lead to starts of instructions of that code or to its end. -/
theorem compile_ast_ext :
    ∀ (b : Bool) (n : SkyASTNode) (c : SkyCompiler), Ext c (compile_ast b n c)
  | _, .program _ statements, c => compile_nodes_ext statements c
  | _, .int_literal line value, c => ext_emit_constant c (.int value) line
  | _, .float_literal line value, c => ext_emit_constant c (.float value) line
  | _, .string_literal line value, c => ext_emit_constant c (.string (some value)) line
  | _, .bool_literal line value, c => by
      cases value
      · exact ext_emit_byte c OP_FALSE.toByte line rfl
      · exact ext_emit_byte c OP_TRUE.toByte line rfl
  | _, .nil_literal line, c => ext_emit_byte c OP_NIL.toByte line rfl
  | _, .identifier line name, c => by
      show Ext c (if resolve_local c name ≥ 0 then
          emit_bytes c OP_GET_LOCAL.toByte (u8 (resolve_local c name)) line
        else emit_bytes (make_constant c (.string (some name))).2 OP_GET_GLOBAL.toByte
          (make_constant c (.string (some name))).1 line)
      split
      · exact ext_emit_bytes _ _ _ _ rfl
      · exact (ext_make_constant _ _).comp (ext_emit_bytes _ _ _ _ rfl)
  | _, .binary line op left right, c => by
      have h := (compile_ast_ext false left c).comp
        (compile_ast_ext false right (compile_ast false left c))
      show Ext c (match binary_opcode op with
        | some o => emit_byte (compile_ast false right (compile_ast false left c)) o.toByte line
        | none => { compile_ast false right (compile_ast false left c) with had_error := true })
      cases ho : binary_opcode op with
      | some o => exact h.comp (ext_emit_byte _ _ _ (binary_opcode_size op o ho))
      | none => exact h.comp (ext_set_error _)
  | _, .unary line op operand, c => by
      have h := compile_ast_ext false operand c
      show Ext c (match unary_opcode op with
        | some o => emit_byte (compile_ast false operand c) o.toByte line
        | none => { compile_ast false operand c with had_error := true })
      cases ho : unary_opcode op with
      | some o => exact h.comp (ext_emit_byte _ _ _ (unary_opcode_size op o ho))
      | none => exact h.comp (ext_set_error _)
  | _, .call line callee args, c =>
      ((compile_ast_ext false callee c).comp (compile_nodes_ext args _)).comp
        (ext_emit_bytes _ OP_CALL.toByte _ line rfl)
  | _, .dot line object field, c =>
      ((compile_ast_ext false object c).comp (ext_make_constant _ _)).comp
        (ext_emit_bytes _ OP_GET_FIELD.toByte _ line rfl)
  | _, .index_access line object index, c =>
      ((compile_ast_ext false object c).comp (compile_ast_ext false index _)).comp
        (ext_emit_byte _ OP_GET_INDEX.toByte line rfl)
  | _, .array_literal line elements, c =>
      (compile_nodes_ext elements c).comp (ext_emit_bytes _ OP_ARRAY.toByte _ line rfl)
  | _, .map_literal _ _ _, c => Ext.here c
  | _, .assign line target value, c => by
      have h := compile_ast_ext false value c
      cases target
      case identifier il name =>
        show Ext c (if resolve_local (compile_ast false value c) name ≥ 0 then
            emit_bytes (compile_ast false value c) OP_SET_LOCAL.toByte
              (u8 (resolve_local (compile_ast false value c) name)) line
          else emit_bytes (make_constant (compile_ast false value c) (.string (some name))).2
            OP_SET_GLOBAL.toByte
            (make_constant (compile_ast false value c) (.string (some name))).1 line)
        split
        · exact h.comp (ext_emit_bytes _ _ _ _ rfl)
        · exact (h.comp (ext_make_constant _ _)).comp (ext_emit_bytes _ _ _ _ rfl)
      case dot dl object field =>
        exact ((h.comp (compile_ast_ext false object _)).comp
          (ext_make_constant _ _)).comp (ext_emit_bytes _ OP_SET_FIELD.toByte _ line rfl)
      case index_access il object index =>
        exact ((h.comp (compile_ast_ext false object _)).comp
          (compile_ast_ext false index _)).comp (ext_emit_byte _ OP_SET_INDEX.toByte line rfl)
      all_goals exact h
  | _, .let_ line name _ (some e), c => by
      have h := compile_ast_ext false e c
      show Ext c (if (compile_ast false e c).scope_depth > 0 then
          (add_local (compile_ast false e c) name).2
        else emit_bytes (make_constant (compile_ast false e c) (.string (some name))).2
          OP_SET_GLOBAL.toByte (make_constant (compile_ast false e c) (.string (some name))).1
          line)
      split
      · exact h.comp (ext_add_local _ _)
      · exact (h.comp (ext_make_constant _ _)).comp (ext_emit_bytes _ _ _ _ rfl)
  | _, .let_ line name _ none, c => by
      have h := ext_emit_byte c OP_NIL.toByte line rfl
      show Ext c (if (emit_byte c OP_NIL.toByte line).scope_depth > 0 then
          (add_local (emit_byte c OP_NIL.toByte line) name).2
        else emit_bytes (make_constant (emit_byte c OP_NIL.toByte line) (.string (some name))).2
          OP_SET_GLOBAL.toByte
          (make_constant (emit_byte c OP_NIL.toByte line) (.string (some name))).1 line)
      split
      · exact h.comp (ext_add_local _ _)
      · exact (h.comp (ext_make_constant _ _)).comp (ext_emit_bytes _ _ _ _ rfl)
  | _, .if_stmt line condition then_branch (some e), c =>
      ext_if_else c _ _ _ line (compile_ast_ext false condition c)
        (compile_ast_ext false then_branch _) (compile_ast_ext false e _)
  | _, .if_stmt line condition then_branch none, c =>
      (ext_patch c _ _ OP_JUMP_IF_FALSE line (Or.inr rfl) (compile_ast_ext false condition c)
        ((ext_emit_byte _ OP_POP.toByte line rfl).comp
          (compile_ast_ext false then_branch _))).comp
        (ext_emit_byte _ OP_POP.toByte line rfl)
  | _, .while_stmt line condition body, c =>
      (ext_patch c _ _ OP_JUMP_IF_FALSE line (Or.inr rfl) (compile_ast_ext false condition c)
        (((ext_emit_byte _ OP_POP.toByte line rfl).comp
          (compile_ast_ext true body _)).comp (ext_emit_jump_back _ c.code_count line))).comp
        (ext_emit_byte _ OP_POP.toByte line rfl)
  | _, .for_range line var_name (some e) end_ body, c =>
      for_range_rest_ext c _ line var_name end_ body
        ((ext_begin_scope c).comp (compile_ast_ext false e _))
        (fun c1 => compile_ast_ext false end_ c1) (fun c1 => compile_ast_ext true body c1)
  | _, .for_range line var_name none end_ body, c =>
      for_range_rest_ext c _ line var_name end_ body
        ((ext_begin_scope c).comp (ext_emit_constant _ (.int 0) line))
        (fun c1 => compile_ast_ext false end_ c1) (fun c1 => compile_ast_ext true body c1)
  | _, .for_each _ _ _ _, c => Ext.here c
  | as_block, .block line statements, c => by
      show Ext c (if as_block then compile_nodes statements c
        else end_scope (compile_nodes statements (begin_scope c)) line)
      cases as_block with
      | true => exact compile_nodes_ext statements c
      | false =>
          exact ((ext_begin_scope c).comp (compile_nodes_ext statements _)).comp
            (ext_end_scope _ line)
  | _, .function line name _ _ _ _ _, c => by
      have h := ext_emit_byte c OP_NIL.toByte line rfl
      show Ext c (if (emit_byte c OP_NIL.toByte line).scope_depth = 0 then
          emit_bytes (make_constant (emit_byte c OP_NIL.toByte line) (.string (some name))).2
            OP_SET_GLOBAL.toByte
            (make_constant (emit_byte c OP_NIL.toByte line) (.string (some name))).1 line
        else emit_byte c OP_NIL.toByte line)
      split
      · exact (h.comp (ext_make_constant _ _)).comp (ext_emit_bytes _ _ _ _ rfl)
      · exact h
  | _, .return_stmt line (some e), c =>
      (compile_ast_ext false e c).comp (ext_emit_byte _ OP_RETURN.toByte line rfl)
  | _, .return_stmt line none, c =>
      (ext_emit_byte c OP_NIL.toByte line rfl).comp (ext_emit_byte _ OP_RETURN.toByte line rfl)
  | _, .print_stmt line value, c =>
      (compile_ast_ext false value c).comp (ext_emit_byte _ OP_PRINT.toByte line rfl)
  | _, .expr_stmt line expr, c =>
      (compile_ast_ext false expr c).comp (ext_emit_byte _ OP_POP.toByte line rfl)
  | _, .import_stmt _ _, c => Ext.here c
  | _, .server _ _ _ _, c => Ext.here c
  | _, .route _ _ _ _ _, c => Ext.here c
  | _, .respond _ _ _, c => Ext.here c
  | _, .security _ _, c => Ext.here c
  | _, .security_rule _ _ _, c => Ext.here c
  | _, .class_def _ _ _, c => Ext.here c
  | _, .break_ _, c => Ext.here c
  | _, .continue_ _, c => Ext.here c
/-- The code of a child array compiled without error, likewise. -/
theorem compile_nodes_ext :
    ∀ (ns : List SkyASTNode) (c : SkyCompiler), Ext c (compile_nodes ns c)
  | [], c => Ext.here c
  | n :: rest, c => (compile_ast_ext false n c).comp (compile_nodes_ext rest _)
end

/-- C16.  Let a program be compiled into a fresh chunk without error, and
let `p` be the offset of an instruction of the chunk (one the disassembler
visits) whose opcode is `JUMP` or `JUMP_IF_FALSE`.  The instruction lies
whole inside the code; its target, the offset after the operand plus the
big-endian operand, is at most `code_count`; the target is the offset of an
instruction of the chunk or the end of the code; the machine reads that
operand with `read_short`; and every instruction of the chunk ends inside
the code. -/
theorem forward_jumps_lead_to_instruction_starts (ast : SkyASTNode)
    (hok : (sky_compiler_compile (sky_compiler_init sky_chunk_init) ast).had_error = false)
    (p : Nat)
    (hp : p ∈ sky_disassemble_chunk
      (sky_compiler_compile (sky_compiler_init sky_chunk_init) ast).chunk)
    (hop : (sky_compiler_compile (sky_compiler_init sky_chunk_init) ast).chunk.code.getD p 0 =
        OP_JUMP.toByte ∨
      (sky_compiler_compile (sky_compiler_init sky_chunk_init) ast).chunk.code.getD p 0 =
        OP_JUMP_IF_FALSE.toByte) :
    p + 3 ≤ (sky_compiler_compile (sky_compiler_init sky_chunk_init) ast).code_count ∧
    jump_target (sky_compiler_compile (sky_compiler_init sky_chunk_init) ast).chunk p ≤
      (sky_compiler_compile (sky_compiler_init sky_chunk_init) ast).code_count ∧
    (jump_target (sky_compiler_compile (sky_compiler_init sky_chunk_init) ast).chunk p ∈
        sky_disassemble_chunk
          (sky_compiler_compile (sky_compiler_init sky_chunk_init) ast).chunk ∨
      jump_target (sky_compiler_compile (sky_compiler_init sky_chunk_init) ast).chunk p =
        (sky_compiler_compile (sky_compiler_init sky_chunk_init) ast).code_count) ∧
    (∀ vm : SkyVM,
      read_short (sky_compiler_compile (sky_compiler_init sky_chunk_init) ast).chunk
          { vm with ip := p + 1 } =
        some (jump_target (sky_compiler_compile (sky_compiler_init sky_chunk_init) ast).chunk p
            - (p + 3), { vm with ip := p + 3 })) ∧
    (∀ q ∈ sky_disassemble_chunk
        (sky_compiler_compile (sky_compiler_init sky_chunk_init) ast).chunk,
      sky_disassemble_instruction
          (sky_compiler_compile (sky_compiler_init sky_chunk_init) ast).chunk q ≤
        (sky_compiler_compile (sky_compiler_init sky_chunk_init) ast).code_count) := by
  obtain ⟨_, seg, hseg, ok⟩ :=
    compile_ast_ext false ast (sky_compiler_init sky_chunk_init) hok
  have hcode : (sky_compiler_compile (sky_compiler_init sky_chunk_init) ast).chunk.code = seg := by
    rw [show (sky_compiler_compile (sky_compiler_init sky_chunk_init) ast).chunk.code =
      (sky_compiler_init sky_chunk_init).chunk.code ++ seg from hseg]
    rfl
  generalize (sky_compiler_compile (sky_compiler_init sky_chunk_init) ast) = cc at *
  obtain ⟨chunk, locals, depth, err⟩ := cc
  obtain ⟨code, lines, constants⟩ := chunk
  simp only at hcode
  subst hcode
  rw [mem_sky_disassemble_chunk] at hp
  have hop2 : code.getD p 0 = 31 ∨ code.getD p 0 = 32 := hop
  have hfit := ok.1.fits hp.2 hp.1
  rw [instruction_size_jump _ hop2] at hfit
  have htarget := ok.2 p hp.2 hp.1 hop2
  have e1 : code[p + 1]? = some (code.getD (p + 1) 0) := by
    rw [List.getD_eq_getElem code 0 (by omega), List.getElem?_eq_getElem]
  have e2 : code[p + 1 + 1]? = some (code.getD (p + 2) 0) := by
    rw [List.getD_eq_getElem code 0 (by omega), List.getElem?_eq_getElem]
  refine ⟨hfit, htarget.1, ?_, ?_, ?_⟩
  · by_cases hlt : target_at code p < code.length
    · exact Or.inl ((mem_sky_disassemble_chunk _ _).mpr ⟨hlt, htarget⟩)
    · exact Or.inr (Nat.le_antisymm htarget.1 (Nat.not_lt.mp hlt))
  · intro vm
    simp only [read_short, e1, e2, jump_target]
    congr 2
    omega
  · intro q hq
    rw [mem_sky_disassemble_chunk] at hq
    exact ok.1.fits hq.2 hq.1

/-- C16 at `if 5 > 3 { print("yes") } else { print("no") }`, whose code is
19 bytes: the `JUMP_IF_FALSE` at offset 5 leads to the `POP` at offset 15,
the `JUMP` at offset 12 to the end of the code. -/
theorem forward_jumps_lead_to_instruction_starts_witness :
    (sky_compiler_compile (sky_compiler_init sky_chunk_init) prog_if_yes_no).chunk.code =
      [1, 0, 1, 1, 25, 32, 0, 7, 6, 1, 2, 36, 31, 0, 4, 6, 1, 3, 36] ∧
    sky_disassemble_chunk
        (sky_compiler_compile (sky_compiler_init sky_chunk_init) prog_if_yes_no).chunk =
      [0, 2, 4, 5, 8, 9, 11, 12, 15, 16, 18] ∧
    jump_target (sky_compiler_compile (sky_compiler_init sky_chunk_init) prog_if_yes_no).chunk
      5 = 15 ∧
    (5 + 3 ≤ (sky_compiler_compile (sky_compiler_init sky_chunk_init) prog_if_yes_no).code_count ∧
    jump_target (sky_compiler_compile (sky_compiler_init sky_chunk_init) prog_if_yes_no).chunk
        5 ≤
      (sky_compiler_compile (sky_compiler_init sky_chunk_init) prog_if_yes_no).code_count ∧
    (jump_target (sky_compiler_compile (sky_compiler_init sky_chunk_init) prog_if_yes_no).chunk
          5 ∈
        sky_disassemble_chunk
          (sky_compiler_compile (sky_compiler_init sky_chunk_init) prog_if_yes_no).chunk ∨
      jump_target (sky_compiler_compile (sky_compiler_init sky_chunk_init) prog_if_yes_no).chunk
          5 =
        (sky_compiler_compile (sky_compiler_init sky_chunk_init) prog_if_yes_no).code_count) ∧
    (∀ vm : SkyVM,
      read_short (sky_compiler_compile (sky_compiler_init sky_chunk_init) prog_if_yes_no).chunk
          { vm with ip := 5 + 1 } =
        some (jump_target
              (sky_compiler_compile (sky_compiler_init sky_chunk_init) prog_if_yes_no).chunk 5
            - (5 + 3), { vm with ip := 5 + 3 })) ∧
    (∀ q ∈ sky_disassemble_chunk
        (sky_compiler_compile (sky_compiler_init sky_chunk_init) prog_if_yes_no).chunk,
      sky_disassemble_instruction
          (sky_compiler_compile (sky_compiler_init sky_chunk_init) prog_if_yes_no).chunk q ≤
        (sky_compiler_compile (sky_compiler_init sky_chunk_init) prog_if_yes_no).code_count)) :=
  ⟨by decide, by decide, by decide,
    forward_jumps_lead_to_instruction_starts prog_if_yes_no (by decide) 5 (by decide)
      (Or.inr (by decide))⟩

/-! ## Keywords and identifiers -/

theorem ident_start_cases (c : Nat) (h : isalpha c = true ∨ c = 95) :
    c ≠ 0 ∧ c ≠ 32 ∧ c ≠ 13 ∧ c ≠ 9 ∧ c ≠ 10 ∧ c ≠ 47 ∧ c ≠ 0xEF ∧ isdigit c = false := by
  simp only [isalpha, isdigit, Bool.or_eq_true, Bool.and_eq_true, decide_eq_true_eq,
    Bool.and_eq_false_iff, decide_eq_false_iff_not] at h ⊢
  omega

/-- An identifier or keyword: a letter or underscore at `current`, then `n`
identifier characters and a byte that is not one. -/
theorem sky_lexer_next_identifier (lex : SkyLexer) (n : Nat)
    (h0 : isalpha (lex.source.getD lex.current 0) = true ∨ lex.source.getD lex.current 0 = 95)
    (hd : ∀ j, j < n → is_ident_char (lex.source.getD (lex.current + 1 + j) 0) = true)
    (hstop : is_ident_char (lex.source.getD (lex.current + 1 + n) 0) = false)
    (hlen : lex.current + 1 + n ≤ lex.source.length) :
    sky_lexer_next lex =
      some (make_token { lex with start := lex.current, current := lex.current + 1 + n }
          (check_keyword { lex with start := lex.current, current := lex.current + 1 + n }),
        { lex with start := lex.current, current := lex.current + 1 + n }) := by
  obtain ⟨c0, c1, c2, c3, c4, c5, _, cd⟩ := ident_start_cases _ h0
  have hp : peek lex = lex.source.getD lex.current 0 := rfl
  have hs : skip_whitespace lex = lex :=
    skip_whitespace_none lex (by rw [hp]; exact ⟨c1, c2, c3, c4, c5⟩)
  have hrun := advance_while_run is_ident_char n
    (lex.source.length - (lex.current + 1))
    { lex with start := lex.current, current := lex.current + 1 } hd hstop (by omega)
  have hrun1 : advance_while (fun c => isalnum c || c == 95)
      (SkyLexer.remaining (advance_char { lex with start := lex.current }))
      (advance_char { lex with start := lex.current }) =
      { lex with start := lex.current, current := lex.current + 1 + n } := hrun
  have hend : is_at_end { lex with start := lex.current } = false :=
    is_at_end_false _ c0
  have hpk : peek { lex with start := lex.current } = lex.source.getD lex.current 0 := rfl
  simp only [sky_lexer_next, hs, hend, hpk, cd, identifier_token, hrun1, h0]
  simp

/-- The table look-up of `check_keyword`: the kind of the entry whose name
is the lexeme, `TOKEN_IDENTIFIER` when there is none. -/
theorem check_keyword_loop_spec (w : List Nat) :
    ∀ table : List (String × SkyTokenType), (table.map (fun e => c_str e.1)).Nodup →
      (∀ name kind, (name, kind) ∈ table → w = c_str name →
        check_keyword_loop w table = kind) ∧
      ((∀ name kind, (name, kind) ∈ table → w ≠ c_str name) →
        check_keyword_loop w table = TOKEN_IDENTIFIER) := by
  intro table
  induction table with
  | nil => intro _; exact ⟨fun _ _ h => absurd h (List.not_mem_nil _), fun _ => rfl⟩
  | cons e rest ih =>
      intro hnd
      obtain ⟨name0, kind0⟩ := e
      rw [List.map_cons, List.nodup_cons] at hnd
      obtain ⟨ih1, ih2⟩ := ih hnd.2
      constructor
      · intro name kind hmem hw
        rw [List.mem_cons] at hmem
        unfold check_keyword_loop
        rcases hmem with h | h
        · obtain ⟨rfl, rfl⟩ := Prod.mk.inj h
          rw [if_pos hw.symm]
        · have hne : c_str name0 ≠ w := by
            intro hc
            apply hnd.1
            rw [hc, hw]
            exact List.mem_map.mpr ⟨(name, kind), h, rfl⟩
          rw [if_neg hne]
          exact ih1 name kind h hw
      · intro hall
        unfold check_keyword_loop
        rw [if_neg (fun hc => hall name0 kind0 (List.mem_cons_self _ _) hc.symm)]
        exact ih2 (fun name kind h => hall name kind (List.mem_cons_of_mem _ h))

theorem keywords_nodup : (keywords.map (fun e => c_str e.1)).Nodup := by decide

theorem getD_ident_chars (l : List Nat) (h : ∀ b ∈ l, is_ident_char b = true) (j : Nat)
    (hj : j < l.length) : is_ident_char (l.getD j 0) = true := by
  rw [List.getD_eq_getElem l 0 hj]
  exact h _ (List.getElem_mem hj)

/-- C23.  Let the source begin with a lexeme `c :: cs`, a letter or
underscore followed by letters, digits and underscores, and go on with a
byte that is none of these (or end there).  The first token has that
lexeme; its kind is the kind of the reserved word the whole lexeme is equal
to, and `TOKEN_IDENTIFIER` when the lexeme is none of the reserved words.
The table has 27 reserved words and none has the kind
`TOKEN_IDENTIFIER`. -/
theorem keyword_kind_iff_whole_lexeme_is_reserved (c : Nat) (cs rest : List Nat)
    (hc : isalpha c = true ∨ c = 95) (hcs : ∀ b ∈ cs, is_ident_char b = true)
    (hrest : is_ident_char (rest.getD 0 0) = false) :
    ∃ tok lex1, sky_lexer_next (sky_lexer_init (c :: cs ++ rest)) = some (tok, lex1) ∧
      tok.start = c :: cs ∧ tok.length = (c :: cs).length ∧
      lex1.current = (c :: cs).length ∧
      (∀ name kind, (name, kind) ∈ keywords → c :: cs = c_str name → tok.type = kind) ∧
      ((∀ name kind, (name, kind) ∈ keywords → c :: cs ≠ c_str name) →
        tok.type = TOKEN_IDENTIFIER) ∧
      keywords.length = 27 ∧
      TOKEN_IDENTIFIER ∉ keywords.map (fun e => e.2) := by
  have hinit : sky_lexer_init (c :: cs ++ rest) = lexer_at (c :: cs ++ rest) 0 0 := by
    have := (ident_start_cases c hc).2.2.2.2.2.2.1
    simp only [sky_lexer_init, lexer_at]
    rw [if_neg (fun hh => this hh.1)]
  have hget : ∀ j, (c :: cs ++ rest).getD (0 + 1 + j) 0 = (cs ++ rest).getD j 0 := by
    intro j
    rw [Nat.zero_add, Nat.add_comm]
    rfl
  have t := sky_lexer_next_identifier (lexer_at (c :: cs ++ rest) 0 0) cs.length
    (by exact hc)
    (fun j hj => by
      show is_ident_char ((c :: cs ++ rest).getD (0 + 1 + j) 0) = true
      rw [hget, getD_append_before _ _ _ hj]
      exact getD_ident_chars cs hcs j hj)
    (by
      show is_ident_char ((c :: cs ++ rest).getD (0 + 1 + cs.length) 0) = false
      rw [hget]
      have := getD_append_at cs rest 0
      rw [Nat.add_zero] at this
      rw [this]
      exact hrest)
    (by
      show 0 + 1 + cs.length ≤ (c :: cs ++ rest).length
      simp
      omega)
  have hlexeme : (List.drop 0 (c :: cs ++ rest)).take (0 + 1 + cs.length - 0) = c :: cs := by
    rw [List.drop_zero, Nat.sub_zero, Nat.zero_add, Nat.add_comm]
    exact List.take_left' (show (c :: cs).length = cs.length + 1 from rfl)
  have hspec := check_keyword_loop_spec (c :: cs) keywords keywords_nodup
  rw [hinit, t]
  refine ⟨_, _, rfl, ?_, ?_, ?_, ?_, ?_, by decide, by decide⟩
  · simp only [make_token, lexer_at]
    exact hlexeme
  · simp only [make_token, lexer_at]
    simp
    omega
  · simp only [lexer_at]
    simp
    omega
  · intro name kind hmem hw
    simp only [make_token, check_keyword, lexer_at, hlexeme]
    exact hspec.1 name kind hmem hw
  · intro hall
    simp only [make_token, check_keyword, lexer_at, hlexeme]
    exact hspec.2 hall

/-- C23 at the sources `let x`, `letx` and `if_`: `let` is a keyword, `letx`
and `if_` are identifiers. -/
theorem keyword_kind_iff_whole_lexeme_is_reserved_witness :
    (∃ tok lex1, sky_lexer_next (sky_lexer_init (c_str "let x")) = some (tok, lex1) ∧
      tok.start = c_str "let" ∧ tok.length = (c_str "let").length ∧
      lex1.current = (c_str "let").length ∧
      (∀ name kind, (name, kind) ∈ keywords → c_str "let" = c_str name → tok.type = kind) ∧
      ((∀ name kind, (name, kind) ∈ keywords → c_str "let" ≠ c_str name) →
        tok.type = TOKEN_IDENTIFIER) ∧
      keywords.length = 27 ∧
      TOKEN_IDENTIFIER ∉ keywords.map (fun e => e.2)) ∧
    (lex_source (c_str "let letx if_ Let")).map (fun ts => ts.map (fun t => t.type)) =
      some [TOKEN_LET, TOKEN_IDENTIFIER, TOKEN_IDENTIFIER, TOKEN_IDENTIFIER, TOKEN_EOF] :=
  ⟨keyword_kind_iff_whole_lexeme_is_reserved 108 [101, 116] [32, 120] (by decide) (by decide)
      (by decide),
    by decide⟩

/-! ## String literals -/

theorem getD_drop_add (l : List Nat) (n j : Nat) :
    (l.drop n).getD j 0 = l.getD (n + j) 0 := by
  simp [List.getD_eq_getElem?_getD, List.getElem?_drop]

theorem string_loop_stop (fuel : Nat) (lex : SkyLexer)
    (h : lex.source.getD lex.current 0 = 34 ∨ lex.source.getD lex.current 0 = 0) :
    string_loop (fuel + 1) lex = some lex := by
  have hp : peek lex = lex.source.getD lex.current 0 := rfl
  unfold string_loop
  rcases h with h | h
  · rw [if_neg (by rw [hp, h]; simp)]
  · have he : is_at_end lex = true := by
      simp only [is_at_end, hp, h]
      rfl
    rw [if_neg (fun hh => hh.2 he)]

/-- The loop of `string_token` over an escaped body that is followed by a
`"` or by the end of the source: it stops after the body. -/
theorem string_loop_body (n : Nat) :
    ∀ (body : List Nat) (fuel : Nat) (lex : SkyLexer), body.length = n →
      escaped_body body = true →
      (∀ j, j < body.length → lex.source.getD (lex.current + j) 0 = body.getD j 0) →
      (lex.source.getD (lex.current + body.length) 0 = 34 ∨
        lex.source.getD (lex.current + body.length) 0 = 0) →
      body.length < fuel →
      ∃ line1, string_loop fuel lex =
        some { lex with current := lex.current + body.length, line := line1 } := by
  induction n using Nat.strong_induction_on with
  | _ n ih =>
    intro body fuel lex hn hesc hsrc hstop hfuel
    obtain ⟨fuel, rfl⟩ : ∃ f, fuel = f + 1 := ⟨fuel - 1, by omega⟩
    match body, hn, hesc, hsrc, hstop, hfuel with
    | [], _, _, _, hstop, _ =>
        exact ⟨lex.line, by rw [string_loop_stop fuel lex hstop]; rfl⟩
    | [b], hn, hesc, hsrc, hstop, hfuel =>
        have hb : lex.source.getD lex.current 0 = b := hsrc 0 (by simp)
        simp only [escaped_body, Bool.and_eq_true, bne_iff_ne, ne_eq] at hesc
        obtain ⟨⟨h92, h34⟩, h0⟩ := hesc
        have hp : peek lex = b := hb
        have hne : is_at_end lex = false := is_at_end_false lex (by rw [hb]; exact h0)
        obtain ⟨fuel, rfl⟩ : ∃ f, fuel = f + 1 := ⟨fuel - 1, by simp at hfuel; omega⟩
        by_cases h10 : b = 10
        · refine ⟨lex.line + 1, ?_⟩
          have hp1 : peek { lex with line := lex.line + 1 } = b := hb
          unfold string_loop
          rw [if_pos (by rw [hp, hne]; simp [h34])]
          simp only [hp, h10, if_true, hp1]
          rw [if_neg (by omega)]
          exact string_loop_stop fuel _ hstop
        · refine ⟨lex.line, ?_⟩
          unfold string_loop
          rw [if_pos (by rw [hp, hne]; simp [h34])]
          simp only [hp, h10, if_false]
          rw [if_neg h92]
          exact string_loop_stop fuel _ hstop
    | b :: b2 :: rest, hn, hesc, hsrc, hstop, hfuel =>
        have hb : lex.source.getD lex.current 0 = b := hsrc 0 (by simp)
        have hb2 : lex.source.getD (lex.current + 1) 0 = b2 := hsrc 1 (by simp)
        have hp : peek lex = b := hb
        simp only [List.length_cons] at hfuel hstop hsrc hn
        by_cases h92 : b = 92
        · simp only [escaped_body, h92, if_true, Bool.and_eq_true, bne_iff_ne, ne_eq] at hesc
          obtain ⟨h20, hrest⟩ := hesc
          have hne : is_at_end lex = false := is_at_end_false lex (by rw [hb, h92]; decide)
          have hne2 : is_at_end (advance_char lex) = false :=
            is_at_end_false _ (by
              show lex.source.getD (lex.current + 1) 0 ≠ 0
              rw [hb2]; exact h20)
          obtain ⟨line1, hl⟩ := ih rest.length (by omega) rest fuel
            (advance_char (advance_char lex)) rfl hrest
            (fun j hj => by
              have := hsrc (j + 2) (by omega)
              show lex.source.getD (lex.current + 1 + 1 + j) 0 = rest.getD j 0
              rw [show lex.current + 1 + 1 + j = lex.current + (j + 2) by omega, this]
              rfl)
            (by
              show lex.source.getD (lex.current + 1 + 1 + rest.length) 0 = 34 ∨
                lex.source.getD (lex.current + 1 + 1 + rest.length) 0 = 0
              rw [show lex.current + 1 + 1 + rest.length = lex.current + (rest.length + 1 + 1)
                by omega]
              exact hstop)
            (by omega)
          refine ⟨line1, ?_⟩
          unfold string_loop
          rw [if_pos (by rw [hp, hne, h92]; simp)]
          simp only [hp, h92, show ¬ (92 : Nat) = 10 by decide, if_false, if_true, hne2]
          rw [hl]
          simp only [advance_char]
          rw [show lex.current + 1 + 1 + rest.length = lex.current + (rest.length + 1 + 1)
            by omega]
          rfl
        · simp only [escaped_body, h92, if_false, Bool.and_eq_true, bne_iff_ne, ne_eq] at hesc
          obtain ⟨⟨h34, h0⟩, hrest⟩ := hesc
          have hne : is_at_end lex = false := is_at_end_false lex (by rw [hb]; exact h0)
          have hgen : ∀ lexA : SkyLexer, lexA.source = lex.source → lexA.current = lex.current →
              lexA.start = lex.start → lexA.had_error = lex.had_error →
              lexA.error_msg = lex.error_msg →
              ∃ line1, string_loop fuel (advance_char lexA) =
                some { lex with current := lex.current + (rest.length + 1 + 1),
                                line := line1 } := by
            intro lexA hs hc hst hhe hem
            obtain ⟨line1, hl⟩ := ih (rest.length + 1) (by omega) (b2 :: rest) fuel
              (advance_char lexA) rfl hrest
              (fun j hj => by
                have := hsrc (j + 1) (by simp at hj; omega)
                show lexA.source.getD (lexA.current + 1 + j) 0 = (b2 :: rest).getD j 0
                rw [hs, hc, show lex.current + 1 + j = lex.current + (j + 1) by omega, this]
                rfl)
              (by
                show lexA.source.getD (lexA.current + 1 + (rest.length + 1)) 0 = 34 ∨
                  lexA.source.getD (lexA.current + 1 + (rest.length + 1)) 0 = 0
                rw [hs, hc, show lex.current + 1 + (rest.length + 1) =
                  lex.current + (rest.length + 1 + 1) by omega]
                exact hstop)
              (by simp; omega)
            refine ⟨line1, ?_⟩
            rw [hl]
            simp only [advance_char, hs, hc, hst, hhe, hem, List.length_cons]
            rw [show lex.current + 1 + (rest.length + 1) = lex.current + (rest.length + 1 + 1)
              by omega]
          by_cases h10 : b = 10
          · obtain ⟨line1, hl⟩ := hgen { lex with line := lex.line + 1 } rfl rfl rfl rfl rfl
            have hp1 : peek { lex with line := lex.line + 1 } = b := hb
            refine ⟨line1, ?_⟩
            unfold string_loop
            rw [if_pos (by rw [hp, hne]; simp [h34])]
            simp only [hp, h10, if_true, hp1]
            rw [if_neg (by omega)]
            exact hl
          · obtain ⟨line1, hl⟩ := hgen lex rfl rfl rfl rfl rfl
            refine ⟨line1, ?_⟩
            unfold string_loop
            rw [if_pos (by rw [hp, hne]; simp [h34])]
            simp only [hp, h10, if_false]
            rw [if_neg h92]
            exact hl

/-- The call of `sky_lexer_next` at an opening `"`: the lexer that
`string_token` leaves after the loop, the body being escaped and followed
by a `"` or by the end of the source. -/
theorem string_token_scan (lex : SkyLexer) (body tail : List Nat)
    (hesc : escaped_body body = true)
    (hsrc : lex.source.drop lex.current = 34 :: body ++ tail)
    (htail : tail.getD 0 0 = 34 ∨ tail = []) :
    ∃ line1, sky_lexer_next lex =
      string_token { lex with start := lex.current, current := lex.current + 1 } ∧
      string_loop
        (SkyLexer.remaining { lex with start := lex.current, current := lex.current + 1 } + 1)
        { lex with start := lex.current, current := lex.current + 1 } =
      some { lex with start := lex.current, current := lex.current + 1 + body.length,
                      line := line1 } := by
  have hget : ∀ j, lex.source.getD (lex.current + j) 0 = (34 :: body ++ tail).getD j 0 := by
    intro j
    rw [← getD_drop_add, hsrc]
  have h0 : lex.source.getD lex.current 0 = 34 := by
    have := hget 0
    rw [Nat.add_zero] at this
    rw [this]; rfl
  have hlen : lex.current + 1 + body.length + tail.length = lex.source.length := by
    have := congrArg List.length hsrc
    simp only [List.length_drop, List.length_cons, List.length_append] at this
    omega
  have hp : peek lex = 34 := h0
  have hs : skip_whitespace lex = lex := skip_whitespace_none lex (by rw [hp]; decide)
  have hend : is_at_end { lex with start := lex.current } = false :=
    is_at_end_false _ (by
      show lex.source.getD lex.current 0 ≠ 0
      rw [h0]; decide)
  have hpk : peek { lex with start := lex.current } = 34 := h0
  obtain ⟨line1, hl⟩ := string_loop_body body.length body
    (SkyLexer.remaining { lex with start := lex.current, current := lex.current + 1 } + 1)
    { lex with start := lex.current, current := lex.current + 1 } rfl hesc
    (fun j hj => by
      show lex.source.getD (lex.current + 1 + j) 0 = body.getD j 0
      rw [show lex.current + 1 + j = lex.current + (j + 1) by omega, hget]
      show (body ++ tail).getD j 0 = body.getD j 0
      exact getD_append_before _ _ _ hj)
    (by
      show lex.source.getD (lex.current + 1 + body.length) 0 = 34 ∨
        lex.source.getD (lex.current + 1 + body.length) 0 = 0
      rw [show lex.current + 1 + body.length = lex.current + (body.length + 1) by omega, hget]
      have e : (34 :: body ++ tail).getD (body.length + 1) 0 = tail.getD 0 0 := by
        show (body ++ tail).getD body.length 0 = tail.getD 0 0
        have := getD_append_at body tail 0
        rw [Nat.add_zero] at this
        exact this
      rw [e]
      rcases htail with h | h
      · exact Or.inl h
      · exact Or.inr (by rw [h]; rfl))
    (by
      show body.length < lex.source.length - (lex.current + 1) + 1
      omega)
  refine ⟨line1, ?_, hl⟩
  simp only [sky_lexer_next, hs, hend, hpk]
  simp [isdigit, isalpha]
  rfl

/-- C22 (as amended).  Let the source go on, at the position of the lexer,
with `"`, an escaped body (no terminator byte, every backslash followed by
a byte of the body, every other `"` escaped) and then either a closing `"`
or the end of the source.  With the closing `"` the token is a
`TOKEN_STRING_LITERAL` whose lexeme is the body, byte for byte, whose
length is that of the body and whose value is the first 255 bytes of the
body (the whole body when it has at most 255 bytes); the error flag is
left alone.  At the end of the source the token is `TOKEN_ERROR` with the
message `Unterminated string`, and `had_error` is set. -/
theorem string_body_is_copied_verbatim (lex : SkyLexer) (body rest : List Nat)
    (hesc : escaped_body body = true) :
    (lex.source.drop lex.current = 34 :: body ++ 34 :: rest →
      ∃ tok lex1, sky_lexer_next lex = some (tok, lex1) ∧
        tok.type = TOKEN_STRING_LITERAL ∧ tok.start = body ∧ tok.length = body.length ∧
        tok.value = body.take 255 ∧ (body.length ≤ 255 → tok.value = body) ∧
        lex1.current = lex.current + body.length + 2 ∧ lex1.had_error = lex.had_error) ∧
    (lex.source.drop lex.current = 34 :: body →
      ∃ tok lex1, sky_lexer_next lex = some (tok, lex1) ∧
        tok.type = TOKEN_ERROR ∧ tok.start = c_str "Unterminated string" ∧
        tok.value = c_str "Unterminated string" ∧
        lex1.had_error = true ∧ lex1.error_msg = "Unterminated string") := by
  constructor
  · intro hsrc
    obtain ⟨line1, hnext, hl⟩ := string_token_scan lex body (34 :: rest) hesc hsrc (Or.inl rfl)
    have hq : lex.source.getD (lex.current + 1 + body.length) 0 = 34 := by
      rw [show lex.current + 1 + body.length = lex.current + (body.length + 1) by omega,
        ← getD_drop_add, hsrc]
      show (body ++ 34 :: rest).getD body.length 0 = 34
      have := getD_append_at body (34 :: rest) 0
      rw [Nat.add_zero] at this
      rw [this]; rfl
    have hne : ∀ l1 : SkyLexer,
        l1 = { lex with start := lex.current, current := lex.current + 1 + body.length, line := line1 } →
        is_at_end l1 = false := by
      intro l1 h1
      subst h1
      exact is_at_end_false _ (by
        show lex.source.getD (lex.current + 1 + body.length) 0 ≠ 0
        rw [hq]; decide)
    have hbody : (lex.source.drop (lex.current + 1)).take body.length = body := by
      rw [← List.drop_drop, hsrc]
      show (body ++ 34 :: rest).take body.length = body
      exact List.take_left' rfl
    rw [hnext]
    unfold string_token
    rw [hl]
    simp only [hne _ rfl, advance_char]
    refine ⟨_, _, rfl, rfl, ?_, ?_, ?_, ?_, ?_, rfl⟩
    · show (lex.source.drop (lex.current + 1)).take
        (lex.current + 1 + body.length + 1 - lex.current - 2) = body
      rw [show lex.current + 1 + body.length + 1 - lex.current - 2 = body.length by omega]
      exact hbody
    · show lex.current + 1 + body.length + 1 - lex.current - 2 = body.length
      omega
    · show ((lex.source.drop (lex.current + 1)).take
        (lex.current + 1 + body.length + 1 - lex.current - 2)).take
        (if lex.current + 1 + body.length + 1 - lex.current - 2 ≥ 255 then 255
          else lex.current + 1 + body.length + 1 - lex.current - 2) = body.take 255
      rw [show lex.current + 1 + body.length + 1 - lex.current - 2 = body.length by omega,
        hbody]
      split
      · rfl
      · rw [List.take_of_length_le (Nat.le_refl _), List.take_of_length_le (by omega)]
    · intro h255
      show ((lex.source.drop (lex.current + 1)).take
        (lex.current + 1 + body.length + 1 - lex.current - 2)).take
        (if lex.current + 1 + body.length + 1 - lex.current - 2 ≥ 255 then 255
          else lex.current + 1 + body.length + 1 - lex.current - 2) = body
      rw [show lex.current + 1 + body.length + 1 - lex.current - 2 = body.length by omega,
        hbody]
      split
      · exact List.take_of_length_le h255
      · exact List.take_of_length_le (Nat.le_refl _)
    · show lex.current + 1 + body.length + 1 = lex.current + body.length + 2
      omega
  · intro hsrc
    have hsrc2 : lex.source.drop lex.current = 34 :: body ++ [] := by
      rw [hsrc, List.append_nil]
    obtain ⟨line1, hnext, hl⟩ := string_token_scan lex body [] hesc hsrc2 (Or.inr rfl)
    have hq : lex.source.getD (lex.current + 1 + body.length) 0 = 0 := by
      rw [show lex.current + 1 + body.length = lex.current + (body.length + 1) by omega,
        ← getD_drop_add, hsrc]
      exact List.getD_eq_default _ _ (by simp)
    have hend : ∀ l1 : SkyLexer,
        l1 = { lex with start := lex.current, current := lex.current + 1 + body.length, line := line1 } →
        is_at_end l1 = true := by
      intro l1 h1
      subst h1
      show (lex.source.getD (lex.current + 1 + body.length) 0 == 0) = true
      rw [hq]
      rfl
    rw [hnext]
    unfold string_token
    rw [hl]
    simp only [hend _ rfl, if_true]
    have hv : (c_str "Unterminated string").take 255 = c_str "Unterminated string" := by
      decide
    exact ⟨_, _, rfl, rfl, rfl, hv, rfl, rfl⟩

/-- C22 (as amended) at the sources `"hi"` and `"hi`. -/
theorem string_body_is_copied_verbatim_witness :
    (∃ tok lex1, sky_lexer_next (lexer_at [34, 104, 105, 34] 0 0) = some (tok, lex1) ∧
        tok.type = TOKEN_STRING_LITERAL ∧ tok.start = [104, 105] ∧ tok.length = 2 ∧
        tok.value = [104, 105] ∧ lex1.current = 4 ∧ lex1.had_error = false) ∧
    (∃ tok lex1, sky_lexer_next (lexer_at [34, 104, 105] 0 0) = some (tok, lex1) ∧
        tok.type = TOKEN_ERROR ∧ tok.start = c_str "Unterminated string" ∧
        tok.value = c_str "Unterminated string" ∧
        lex1.had_error = true ∧ lex1.error_msg = "Unterminated string") := by
  obtain ⟨tok, lex1, h1, h2, h3, h4, _, h5, h6, h7⟩ :=
    (string_body_is_copied_verbatim (lexer_at [34, 104, 105, 34] 0 0) [104, 105] []
      (by decide)).1 rfl
  exact ⟨⟨tok, lex1, h1, h2, h3, h4, h5 (by decide), h6, h7⟩,
    (string_body_is_copied_verbatim (lexer_at [34, 104, 105] 0 0) [104, 105] []
      (by decide)).2 rfl⟩

/-- C22, counterexample.  The body `\` holds no `"`, yet `"\"` is not a
string literal: the backslash escapes the closing `"` and the token is the
error `Unterminated string`.  In `"\` (the source ends after the
backslash) the scan passes the terminator and the token is undefined. -/
theorem lone_backslash_body_is_unterminated :
    (lex_source [34, 92, 34]).map (fun ts => ts.map (fun t => (t.type, t.start))) =
      some [(TOKEN_ERROR, c_str "Unterminated string"), (TOKEN_EOF, [])] ∧
    sky_lexer_next (sky_lexer_init [34, 92]) = none := by
  decide

/-! ## Line numbers of tokens -/

theorem newlines_before_succ (source : List Nat) (n : Nat) :
    newlines_before source (n + 1) =
      newlines_before source n + (if source.getD n 0 = 10 then 1 else 0) := by
  unfold newlines_before
  by_cases h : n < source.length
  · rw [List.take_succ, List.getElem?_eq_getElem h, List.getD_eq_getElem source 0 h]
    simp only [Option.toList, List.count_append, List.count_cons, List.count_nil]
    by_cases h10 : source[n] = 10
    · simp [h10]
    · simp [h10]
  · rw [List.take_of_length_le (by omega), List.take_of_length_le (by omega),
      List.getD_eq_default _ _ (by omega)]
    simp

theorem Keeps.rfl_keeps (a : SkyLexer) : Keeps a a := ⟨rfl, rfl, rfl, Nat.le_refl _, rfl⟩

theorem Keeps.then_keeps {a b c : SkyLexer} (h1 : Keeps a b) (h2 : Keeps b c) : Keeps a c := by
  obtain ⟨s1, l1, t1, c1, n1⟩ := h1
  obtain ⟨s2, l2, t2, c2, n2⟩ := h2
  refine ⟨s2.trans s1, l2.trans l1, t2.trans t1, Nat.le_trans c1 c2, ?_⟩
  rw [s1] at n2
  rw [n2, n1]

theorem Keeps.line_ok {a b : SkyLexer} (h : Keeps a b) (ha : LineOk a) : LineOk b := by
  obtain ⟨s, l, _, _, n⟩ := h
  unfold LineOk at *
  rw [l, s, n, ha]

theorem keeps_advance_char (lex : SkyLexer) (h : peek lex ≠ 10) : Keeps lex (advance_char lex) := by
  refine ⟨rfl, rfl, rfl, Nat.le_succ _, ?_⟩
  show newlines_before lex.source (lex.current + 1) = _
  have h1 : ¬ lex.source.getD lex.current 0 = 10 := h
  rw [newlines_before_succ, if_neg h1, Nat.add_zero]

theorem keeps_advance_while (p : Nat → Bool) (hp : p 10 = false) :
    ∀ (fuel : Nat) (lex : SkyLexer), Keeps lex (advance_while p fuel lex) := by
  intro fuel
  induction fuel with
  | zero => intro lex; exact Keeps.rfl_keeps lex
  | succ fuel ih =>
      intro lex
      unfold advance_while
      split
      · rename_i h
        have hne : peek lex ≠ 10 := by
          intro h10
          rw [h10, hp] at h
          cases h
        exact (keeps_advance_char lex hne).then_keeps (ih _)
      · exact Keeps.rfl_keeps lex

theorem keeps_set_start (lex : SkyLexer) (start : Nat) :
    LineOk lex → LineOk { lex with start := start } := id

theorem keeps_match_char (lex : SkyLexer) (expected : Nat) (h : expected ≠ 10) :
    Keeps lex (match_char lex expected).2 := by
  unfold match_char
  split
  · exact Keeps.rfl_keeps lex
  · split
    · exact Keeps.rfl_keeps lex
    · rename_i h1 h2
      exact keeps_advance_char lex (by
        intro h10
        apply h
        have : peek lex = expected := by
          by_contra hc
          exact h2 hc
        rw [← this, h10])

theorem keeps_error_token (lex : SkyLexer) (message : String) :
    Keeps lex (error_token lex message).2 ∧
      (error_token lex message).1.line = (error_token lex message).2.line :=
  ⟨⟨rfl, rfl, rfl, Nat.le_refl _, rfl⟩, rfl⟩

theorem keeps_number_token (lex : SkyLexer) :
    Keeps lex (number_token lex).2 ∧ (number_token lex).1.line = (number_token lex).2.line := by
  have h1 := keeps_advance_while isdigit (by decide) lex.remaining lex
  unfold number_token
  dsimp only
  split
  · rename_i h
    have h2 := keeps_advance_char (advance_while isdigit lex.remaining lex)
      (by rw [h.1]; decide)
    have h3 := keeps_advance_while isdigit (by decide)
      (advance_char (advance_while isdigit lex.remaining lex)).remaining
      (advance_char (advance_while isdigit lex.remaining lex))
    exact ⟨(h1.then_keeps h2).then_keeps h3, rfl⟩
  · exact ⟨h1, rfl⟩

theorem keeps_identifier_token (lex : SkyLexer) :
    Keeps lex (identifier_token lex).2 ∧
      (identifier_token lex).1.line = (identifier_token lex).2.line :=
  ⟨keeps_advance_while _ (by decide) lex.remaining lex, rfl⟩

theorem keeps_one_or_two (lex : SkyLexer) (second : Nat) (two : SkyTokenType)
    (one : Option SkyTokenType) (message : String) (h : second ≠ 10) :
    Keeps lex (one_or_two lex second two one message).2 ∧
      (one_or_two lex second two one message).1.line =
        (one_or_two lex second two one message).2.line := by
  have hm := keeps_match_char lex second h
  unfold one_or_two
  generalize match_char lex second = r at hm
  obtain ⟨matched, lex1⟩ := r
  dsimp only
  split
  · exact ⟨hm, rfl⟩
  · cases one with
    | some t => exact ⟨hm, rfl⟩
    | none => exact ⟨hm.then_keeps (keeps_error_token lex1 message).1, rfl⟩

theorem peek_in_range (lex : SkyLexer) (h : peek lex ≠ 0) : lex.current < lex.source.length := by
  by_contra hc
  apply h
  exact List.getD_eq_default _ _ (by omega)

theorem advance_while_progress (p : Nat → Bool) (hp : p 10 = false) (fuel : Nat)
    (lex : SkyLexer) (h : p (peek lex) = true) :
    lex.current < (advance_while p (fuel + 1) lex).current := by
  unfold advance_while
  rw [if_pos h]
  have := (keeps_advance_while p hp fuel (advance_char lex)).2.2.2.1
  exact Nat.lt_of_lt_of_le (Nat.lt_succ_self _) this

theorem line_ok_newline (lex : SkyLexer) (h : peek lex = 10) (hl : LineOk lex) :
    LineOk (advance_char { lex with line := lex.line + 1 }) := by
  unfold LineOk at *
  show lex.line + 1 = 1 + (newlines_before lex.source (lex.current + 1) : Int)
  have h1 : lex.source.getD lex.current 0 = 10 := h
  rw [newlines_before_succ, if_pos h1, hl]
  push_cast
  ring

/-- `skip_whitespace` keeps the line counter right and stops before a byte
that is not a newline. -/
theorem skip_whitespace_loop_ok :
    ∀ (fuel : Nat) (lex : SkyLexer), lex.remaining < fuel →
      (skip_whitespace_loop fuel lex).source = lex.source ∧
      (LineOk lex → LineOk (skip_whitespace_loop fuel lex)) ∧
      peek (skip_whitespace_loop fuel lex) ≠ 10 := by
  intro fuel
  induction fuel with
  | zero => intro lex h; omega
  | succ fuel ih =>
      intro lex hf
      unfold skip_whitespace_loop
      dsimp only
      split
      · rename_i hc
        have hne : peek lex ≠ 10 := by omega
        have hin := peek_in_range lex (by omega)
        obtain ⟨i1, i2, i3⟩ := ih (advance_char lex) (by
          show lex.source.length - (lex.current + 1) < fuel
          unfold SkyLexer.remaining at hf
          omega)
        exact ⟨i1, fun hl => i2 ((keeps_advance_char lex hne).line_ok hl), i3⟩
      · split
        · rename_i _ h10
          have hin := peek_in_range lex (by omega)
          obtain ⟨i1, i2, i3⟩ := ih (advance_char { lex with line := lex.line + 1 }) (by
            show lex.source.length - (lex.current + 1) < fuel
            unfold SkyLexer.remaining at hf
            omega)
          exact ⟨i1, fun hl => i2 (line_ok_newline lex h10 hl), i3⟩
        · split
          · rename_i _ _ h47
            split
            · have hin := peek_in_range lex (by omega)
              have hk := keeps_advance_while (fun ch => ch != 10 && ch != 0) (by decide)
                lex.remaining lex
              have hrem : 0 < lex.remaining := by
                unfold SkyLexer.remaining
                omega
              obtain ⟨r, hr⟩ : ∃ r, lex.remaining = r + 1 := ⟨lex.remaining - 1, by omega⟩
              have hprog := advance_while_progress (fun ch => ch != 10 && ch != 0) (by decide)
                r lex (by rw [h47]; decide)
              rw [← hr] at hprog
              generalize advance_while (fun ch => ch != 10 && ch != 0) lex.remaining lex = X
                at hk hprog ⊢
              obtain ⟨i1, i2, i3⟩ := ih X (by
                  have hs := hk.1
                  unfold SkyLexer.remaining at hf ⊢
                  rw [hs]
                  omega)
              exact ⟨i1.trans hk.1, fun hl => i2 (hk.line_ok hl), i3⟩
            · exact ⟨rfl, id, by omega⟩
          · rename_i _ h10 _
            exact ⟨rfl, id, h10⟩

theorem skip_whitespace_ok (lex : SkyLexer) :
    (skip_whitespace lex).source = lex.source ∧
      (LineOk lex → LineOk (skip_whitespace lex)) ∧ peek (skip_whitespace lex) ≠ 10 :=
  skip_whitespace_loop_ok (lex.remaining + 1) lex (Nat.lt_succ_self _)

/-- The loop of `string_token`: it keeps the source and the start of the
token, stops at a `"` or at the end of the source, and keeps the line
counter right when no backslash it passes is followed by a newline. -/
theorem string_loop_ok :
    ∀ (fuel : Nat) (lex lex1 : SkyLexer), lex.remaining < fuel →
      string_loop fuel lex = some lex1 →
      lex1.source = lex.source ∧ lex1.start = lex.start ∧ lex.current ≤ lex1.current ∧
      (peek lex1 = 34 ∨ is_at_end lex1 = true) ∧
      ((∀ i, lex.current ≤ i → i + 1 < lex1.current →
          ¬ (lex.source.getD i 0 = 92 ∧ lex.source.getD (i + 1) 0 = 10)) →
        LineOk lex → LineOk lex1) := by
  intro fuel
  induction fuel with
  | zero => intro lex lex1 h; omega
  | succ fuel ih =>
      intro lex lex1 hf hloop
      unfold string_loop at hloop
      split at hloop
      · rename_i hgo
        have hne0 : peek lex ≠ 0 := by
          intro h0
          apply hgo.2
          simp [is_at_end, h0]
        have hin := peek_in_range lex hne0
        have hrem : ∀ l : SkyLexer, l.source = lex.source → lex.current + 1 ≤ l.current →
            l.remaining < fuel := by
          intro l h1 h2
          unfold SkyLexer.remaining at hf ⊢
          rw [h1]
          omega
        dsimp only at hloop
        by_cases h10 : peek lex = 10
        · have hp1 : peek { lex with line := lex.line + 1 } = 10 := h10
          simp only [h10, if_true, hp1] at hloop
          rw [if_neg (by decide)] at hloop
          obtain ⟨i1, i2, i3, i4, i5⟩ := ih (advance_char { lex with line := lex.line + 1 })
            lex1 (hrem (advance_char { lex with line := lex.line + 1 }) rfl (Nat.le_refl _))
            hloop
          have i3x : lex.current + 1 ≤ lex1.current := i3
          refine ⟨i1, i2, by omega, i4, ?_⟩
          intro hno hl
          exact i5 (fun i hi hi2 => hno i (by
              have : lex.current + 1 ≤ i := hi
              omega) hi2)
            (line_ok_newline lex h10 hl)
        · simp only [h10, if_false] at hloop
          by_cases h92 : peek lex = 92
          · simp only [h92, if_true] at hloop
            split at hloop
            · cases hloop
            · obtain ⟨i1, i2, i3, i4, i5⟩ := ih (advance_char (advance_char lex)) lex1
                (hrem (advance_char (advance_char lex)) rfl (Nat.le_succ _)) hloop
              have i3x : lex.current + 1 + 1 ≤ lex1.current := i3
              refine ⟨i1, i2, by omega, i4, ?_⟩
              intro hno hl
              have hnext : peek (advance_char lex) ≠ 10 := by
                intro hc
                exact hno lex.current (Nat.le_refl _) (by omega) ⟨h92, hc⟩
              exact i5 (fun i hi hi2 => hno i (by
                  have : lex.current + 1 + 1 ≤ i := hi
                  omega) hi2)
                (((keeps_advance_char lex h10).then_keeps
                  (keeps_advance_char (advance_char lex) hnext)).line_ok hl)
          · simp only [h92, if_false] at hloop
            obtain ⟨i1, i2, i3, i4, i5⟩ := ih (advance_char lex) lex1
              (hrem (advance_char lex) rfl (Nat.le_refl _)) hloop
            have i3x : lex.current + 1 ≤ lex1.current := i3
            refine ⟨i1, i2, by omega, i4, ?_⟩
            intro hno hl
            exact i5 (fun i hi hi2 => hno i (by
                have : lex.current + 1 ≤ i := hi
                omega) hi2)
              ((keeps_advance_char lex h10).line_ok hl)
      · rename_i hstop
        cases hloop
        refine ⟨rfl, rfl, Nat.le_refl _, ?_, fun _ hl => hl⟩
        by_cases h34 : peek lex = 34
        · exact Or.inl h34
        · right
          by_contra hc
          exact hstop ⟨h34, hc⟩

theorem next_ok_pair (lexA : SkyLexer) (r : SkyToken × SkyLexer)
    (hk : Keeps lexA r.2 ∧ r.1.line = r.2.line) : NextOk lexA (some r) := by
  intro tok lex1 h
  cases h
  exact ⟨hk.2, hk.1.1, hk.1.2.2.1, hk.1.2.2.2.1, fun _ hl => hk.1.line_ok hl⟩

theorem keeps_make_token (lex : SkyLexer) (type : SkyTokenType) :
    Keeps lex (make_token lex type, lex).2 ∧
      (make_token lex type, lex).1.line = (make_token lex type, lex).2.line :=
  ⟨Keeps.rfl_keeps lex, rfl⟩

theorem next_ok_string (lexA : SkyLexer) : NextOk lexA (string_token lexA) := by
  intro tok lex1 h
  unfold string_token at h
  split at h
  · cases h
  · rename_i lexB hloop
    obtain ⟨i1, i2, i3, i4, i5⟩ := string_loop_ok _ lexA lexB (Nat.lt_succ_self _) hloop
    split at h
    · cases h
      exact ⟨rfl, i1, i2, i3, fun hno hl => i5 hno hl⟩
    · rename_i hne
      cases h
      have h34 : peek lexB = 34 := by
        rcases i4 with h | h
        · exact h
        · exact absurd h hne
      have hk := keeps_advance_char lexB (by rw [h34]; decide)
      refine ⟨rfl, i1, i2, Nat.le_trans i3 (Nat.le_succ _), ?_⟩
      intro hno hl
      exact hk.line_ok (i5 (fun i hi hi2 => hno i hi (Nat.lt_succ_of_lt hi2)) hl)

theorem next_ok_number (lex : SkyLexer) : NextOk lex (some (number_token lex)) :=
  next_ok_pair _ _ (keeps_number_token lex)

theorem next_ok_identifier (lex : SkyLexer) : NextOk lex (some (identifier_token lex)) :=
  next_ok_pair _ _ (keeps_identifier_token lex)

theorem next_ok_make (lex : SkyLexer) (type : SkyTokenType) :
    NextOk lex (some (make_token lex type, lex)) :=
  next_ok_pair _ _ (keeps_make_token lex type)

theorem next_ok_one_or_two (lex : SkyLexer) (second : Nat) (two : SkyTokenType)
    (one : Option SkyTokenType) (message : String) (h : second ≠ 10) :
    NextOk lex (some (one_or_two lex second two one message)) :=
  next_ok_pair _ _ (keeps_one_or_two lex second two one message h)

theorem next_ok_error (lex : SkyLexer) (message : String) :
    NextOk lex (some (error_token lex message)) :=
  next_ok_pair _ _ (keeps_error_token lex message)

theorem next_ok_ite (lexA : SkyLexer) (P : Prop) [Decidable P]
    (a b : Option (SkyToken × SkyLexer)) (ha : NextOk lexA a) (hb : NextOk lexA b) :
    NextOk lexA (if P then a else b) := by
  split
  · exact ha
  · exact hb

/-- One call of `sky_lexer_next`: the token carries the line counter of
the lexer after the call; the source is kept; the counter stays right when
no backslash of the token is directly followed by a newline. -/
theorem sky_lexer_next_line (lex0 lex1 : SkyLexer) (tok : SkyToken)
    (h : sky_lexer_next lex0 = some (tok, lex1)) :
    tok.line = lex1.line ∧ lex1.source = lex0.source ∧ lex1.start ≤ lex1.current ∧
      (NoEscapedNewline lex1 → LineOk lex0 → LineOk lex1) := by
  obtain ⟨s1, s2, s3⟩ := skip_whitespace_ok lex0
  unfold sky_lexer_next at h
  generalize skip_whitespace lex0 = lexS at h s1 s2 s3
  conv at h => lhs; zeta
  by_cases hE : is_at_end { lexS with start := lexS.current } = true
  · rw [if_pos hE] at h
    cases h
    exact ⟨rfl, s1, Nat.le_refl _, fun _ hl => s2 hl⟩
  · rw [if_neg hE] at h
    have hne : peek { lexS with start := lexS.current } ≠ 10 := s3
    have hk := keeps_advance_char { lexS with start := lexS.current } hne
    have key : NextOk (advance_char { lexS with start := lexS.current }) (some (tok, lex1)) := by
      rw [← h]
      refine next_ok_ite _ _ _ _ (next_ok_number _) ?_
      refine next_ok_ite _ _ _ _ (next_ok_identifier _) ?_
      iterate 11 refine next_ok_ite _ _ _ _ (next_ok_make _ _) ?_
      refine next_ok_ite _ _ _ _ (next_ok_one_or_two _ _ _ _ _ (by decide)) ?_
      iterate 2 refine next_ok_ite _ _ _ _ (next_ok_make _ _) ?_
      iterate 7 refine next_ok_ite _ _ _ _ (next_ok_one_or_two _ _ _ _ _ (by decide)) ?_
      exact next_ok_ite _ _ _ _ (next_ok_string _) (next_ok_error _ _)
    obtain ⟨k1, k2, k3, k4, k5⟩ := key tok lex1 rfl
    have k2x : lex1.source = lexS.source := k2
    have k3x : lex1.start = lexS.current := k3
    have k4x : lexS.current + 1 ≤ lex1.current := k4
    refine ⟨k1, k2x.trans s1, by omega, ?_⟩
    intro hno hl
    apply k5
    · intro i hi hi2
      have hi' : lexS.current + 1 ≤ i := hi
      have := hno i (by omega) hi2
      rw [k2x] at this
      exact this
    · exact hk.line_ok (s2 hl)

theorem newlines_before_span (source : List Nat) (a : Nat) :
    ∀ k, (∀ i, a ≤ i → i < a + k → source.getD i 0 ≠ 10) →
      newlines_before source (a + k) = newlines_before source a := by
  intro k
  induction k with
  | zero => intro _; rfl
  | succ k ih =>
      intro h
      rw [← Nat.add_assoc, newlines_before_succ,
        if_neg (h (a + k) (Nat.le_add_right _ _) (by omega)), Nat.add_zero]
      exact ih (fun i h1 h2 => h i h1 (by omega))

theorem line_ok_init (source : List Nat) : LineOk (sky_lexer_init source) := by
  unfold LineOk sky_lexer_init newlines_before
  simp

/-- Along successive calls of `sky_lexer_next` in which no backslash of a
token is directly followed by a newline, every token carries one plus the
number of newlines before its end. -/
theorem sky_lexer_calls_lines :
    ∀ (fuel : Nat) (lex : SkyLexer) (calls : List (SkyToken × SkyLexer)), LineOk lex →
      sky_lexer_calls fuel lex = some calls →
      (∀ c ∈ calls, NoEscapedNewline c.2) →
      ∀ c ∈ calls, c.1.line = 1 + (newlines_before c.2.source c.2.current : Int) ∧
        c.2.start ≤ c.2.current ∧ c.2.source = lex.source := by
  intro fuel
  induction fuel with
  | zero => intro lex calls _ h; cases h
  | succ fuel ih =>
      intro lex calls hl h hno c hc
      unfold sky_lexer_calls at h
      cases hn : sky_lexer_next lex with
      | none => rw [hn] at h; cases h
      | some r =>
          obtain ⟨tok, lex1⟩ := r
          rw [hn] at h
          obtain ⟨n1, n2, n3, n4⟩ := sky_lexer_next_line lex lex1 tok hn
          dsimp only at h
          split at h
          · cases h
            rw [List.mem_singleton] at hc
            subst hc
            have hl1 := n4 (hno _ (List.mem_singleton_self _)) hl
            exact ⟨n1.trans hl1, n3, n2⟩
          · cases hr : sky_lexer_calls fuel lex1 with
            | none => rw [hr] at h; cases h
            | some rest =>
                rw [hr] at h
                cases h
                have hl1 := n4 (hno _ (List.mem_cons_self _ _)) hl
                rw [List.mem_cons] at hc
                rcases hc with hc | hc
                · subst hc
                  exact ⟨n1.trans hl1, n3, n2⟩
                · obtain ⟨r1, r2, r3⟩ := ih lex1 rest hl1 hr
                    (fun c hc => hno c (List.mem_cons_of_mem _ hc)) c hc
                  exact ⟨r1, r2, r3.trans n2⟩

/-- C21 (as amended).  Let successive calls of `sky_lexer_next` on a source
return `calls`, each token with the lexer after the call (its `start` the
offset of the first character of the token, its `current` the offset after
the last), and let no backslash of a token be directly followed by a
newline.  Every token carries one plus the number of newlines of the
source (after a byte order mark) before the END of the token; when the
token holds no newline, that is one plus the number of newlines before its
first character. -/
theorem token_line_counts_newlines_before_its_end (source : List Nat) (fuel : Nat)
    (calls : List (SkyToken × SkyLexer))
    (h : sky_lexer_calls fuel (sky_lexer_init source) = some calls)
    (hno : ∀ c ∈ calls, NoEscapedNewline c.2) :
    ∀ c ∈ calls,
      c.2.source = (sky_lexer_init source).source ∧
      c.1.line = 1 + (newlines_before c.2.source c.2.current : Int) ∧
      ((∀ i, c.2.start ≤ i → i < c.2.current → c.2.source.getD i 0 ≠ 10) →
        c.1.line = 1 + (newlines_before c.2.source c.2.start : Int)) := by
  intro c hc
  obtain ⟨r1, r2, r3⟩ := sky_lexer_calls_lines fuel _ calls (line_ok_init source) h hno c hc
  refine ⟨r3, r1, ?_⟩
  intro hfree
  obtain ⟨k, hk⟩ : ∃ k, c.2.current = c.2.start + k := ⟨c.2.current - c.2.start, by omega⟩
  rw [r1, hk, newlines_before_span _ _ k (fun i h1 h2 => hfree i h1 (by omega))]

/-- C21 (as amended) at the source `x`, newline, `y`: the identifiers are
on lines 1 and 2 and the end of the source on line 2. -/
theorem token_line_counts_newlines_before_its_end_witness :
    (sky_lexer_calls 3 (sky_lexer_init [120, 10, 121])).map
        (fun cs => cs.map (fun c => (c.1.type, c.1.line, c.2.start))) =
      some [(TOKEN_IDENTIFIER, 1, 0), (TOKEN_IDENTIFIER, 2, 2), (TOKEN_EOF, 2, 3)] ∧
    ∀ c ∈ (sky_lexer_calls 3 (sky_lexer_init [120, 10, 121])).getD [],
      c.2.source = (sky_lexer_init [120, 10, 121]).source ∧
      c.1.line = 1 + (newlines_before c.2.source c.2.current : Int) ∧
      ((∀ i, c.2.start ≤ i → i < c.2.current → c.2.source.getD i 0 ≠ 10) →
        c.1.line = 1 + (newlines_before c.2.source c.2.start : Int)) :=
  ⟨by decide,
    token_line_counts_newlines_before_its_end [120, 10, 121] 3 _ (by decide) (by
      intro c hc
      have h3 : c.2.current ≤ c.2.start + 1 := by
        revert c
        decide
      intro i h1 h2
      omega)⟩

/-- C21, counterexample.  In the source `"a`, newline, `b"` the string
literal starts on line 1, before any newline, and carries line 2. -/
theorem multi_line_string_carries_its_last_line :
    (sky_lexer_calls 2 (sky_lexer_init [34, 97, 10, 98, 34])).map
        (fun cs => cs.map (fun c =>
          (c.1.type, c.2.start, c.1.line, 1 + (newlines_before c.2.source c.2.start : Int)))) =
      some [(TOKEN_STRING_LITERAL, 0, 2, 1), (TOKEN_EOF, 5, 2, 2)] := by
  decide

/-- In the source `"\`, newline, `" x` the newline after the backslash is
passed without counting: the identifier `x` on line 2 carries line 1. -/
theorem escaped_newline_is_not_counted :
    (sky_lexer_calls 3 (sky_lexer_init [34, 92, 10, 34, 32, 120])).map
        (fun cs => cs.map (fun c =>
          (c.1.type, c.2.start, c.1.line, 1 + (newlines_before c.2.source c.2.start : Int)))) =
      some [(TOKEN_STRING_LITERAL, 0, 1, 1), (TOKEN_IDENTIFIER, 5, 1, 2),
        (TOKEN_EOF, 6, 1, 2)] := by
  decide

/-! ## Parsing closed sources -/

mutual
theorem SkyASTNode.same_sound : ∀ (a b : SkyASTNode), a.same b = true → a = b
  | .program l1 s1, b, h => by
      cases b <;> first | exact Bool.noConfusion h | skip
      case program l2 s2 =>
        have h1 : (l1 == l2 && same_nodes s1 s2) = true := h
        simp only [Bool.and_eq_true, beq_iff_eq] at h1
        rw [h1.1, same_nodes_sound s1 s2 h1.2]
  | .int_literal l1 v1, b, h => by
      cases b <;> first | exact Bool.noConfusion h | skip
      case int_literal l2 v2 =>
        have h1 : (l1 == l2 && v1 == v2) = true := h
        simp only [Bool.and_eq_true, beq_iff_eq] at h1
        rw [h1.1, h1.2]
  | .float_literal _ _, _, h => Bool.noConfusion h
  | .string_literal l1 v1, b, h => by
      cases b <;> first | exact Bool.noConfusion h | skip
      case string_literal l2 v2 =>
        have h1 : (l1 == l2 && v1 == v2) = true := h
        simp only [Bool.and_eq_true, beq_iff_eq] at h1
        rw [h1.1, h1.2]
  | .bool_literal l1 v1, b, h => by
      cases b <;> first | exact Bool.noConfusion h | skip
      case bool_literal l2 v2 =>
        have h1 : (l1 == l2 && v1 == v2) = true := h
        simp only [Bool.and_eq_true, beq_iff_eq] at h1
        rw [h1.1, h1.2]
  | .nil_literal l1, b, h => by
      cases b <;> first | exact Bool.noConfusion h | skip
      case nil_literal l2 =>
        have h1 : (l1 == l2) = true := h
        simp only [beq_iff_eq] at h1
        rw [h1]
  | .identifier l1 n1, b, h => by
      cases b <;> first | exact Bool.noConfusion h | skip
      case identifier l2 n2 =>
        have h1 : (l1 == l2 && n1 == n2) = true := h
        simp only [Bool.and_eq_true, beq_iff_eq] at h1
        rw [h1.1, h1.2]
  | .binary l1 o1 x1 y1, b, h => by
      cases b <;> first | exact Bool.noConfusion h | skip
      case binary l2 o2 x2 y2 =>
        have h1 : (l1 == l2 && o1 == o2 && x1.same x2 && y1.same y2) = true := h
        simp only [Bool.and_eq_true, beq_iff_eq] at h1
        rw [h1.1.1.1, h1.1.1.2, SkyASTNode.same_sound x1 x2 h1.1.2, SkyASTNode.same_sound y1 y2 h1.2]
  | .unary l1 o1 x1, b, h => by
      cases b <;> first | exact Bool.noConfusion h | skip
      case unary l2 o2 x2 =>
        have h1 : (l1 == l2 && o1 == o2 && x1.same x2) = true := h
        simp only [Bool.and_eq_true, beq_iff_eq] at h1
        rw [h1.1.1, h1.1.2, SkyASTNode.same_sound x1 x2 h1.2]
  | .call l1 c1 a1, b, h => by
      cases b <;> first | exact Bool.noConfusion h | skip
      case call l2 c2 a2 =>
        have h1 : (l1 == l2 && c1.same c2 && same_nodes a1 a2) = true := h
        simp only [Bool.and_eq_true, beq_iff_eq] at h1
        rw [h1.1.1, SkyASTNode.same_sound c1 c2 h1.1.2, same_nodes_sound a1 a2 h1.2]
  | .dot l1 o1 f1, b, h => by
      cases b <;> first | exact Bool.noConfusion h | skip
      case dot l2 o2 f2 =>
        have h1 : (l1 == l2 && o1.same o2 && f1 == f2) = true := h
        simp only [Bool.and_eq_true, beq_iff_eq] at h1
        rw [h1.1.1, SkyASTNode.same_sound o1 o2 h1.1.2, h1.2]
  | .index_access l1 o1 i1, b, h => by
      cases b <;> first | exact Bool.noConfusion h | skip
      case index_access l2 o2 i2 =>
        have h1 : (l1 == l2 && o1.same o2 && i1.same i2) = true := h
        simp only [Bool.and_eq_true, beq_iff_eq] at h1
        rw [h1.1.1, SkyASTNode.same_sound o1 o2 h1.1.2, SkyASTNode.same_sound i1 i2 h1.2]
  | .array_literal l1 e1, b, h => by
      cases b <;> first | exact Bool.noConfusion h | skip
      case array_literal l2 e2 =>
        have h1 : (l1 == l2 && same_nodes e1 e2) = true := h
        simp only [Bool.and_eq_true, beq_iff_eq] at h1
        rw [h1.1, same_nodes_sound e1 e2 h1.2]
  | .map_literal l1 k1 v1, b, h => by
      cases b <;> first | exact Bool.noConfusion h | skip
      case map_literal l2 k2 v2 =>
        have h1 : (l1 == l2 && same_nodes k1 k2 && same_nodes v1 v2) = true := h
        simp only [Bool.and_eq_true, beq_iff_eq] at h1
        rw [h1.1.1, same_nodes_sound k1 k2 h1.1.2, same_nodes_sound v1 v2 h1.2]
  | .assign l1 t1 v1, b, h => by
      cases b <;> first | exact Bool.noConfusion h | skip
      case assign l2 t2 v2 =>
        have h1 : (l1 == l2 && t1.same t2 && v1.same v2) = true := h
        simp only [Bool.and_eq_true, beq_iff_eq] at h1
        rw [h1.1.1, SkyASTNode.same_sound t1 t2 h1.1.2, SkyASTNode.same_sound v1 v2 h1.2]
  | .let_ l1 n1 t1 i1, b, h => by
      cases b <;> first | exact Bool.noConfusion h | skip
      case let_ l2 n2 t2 i2 =>
        have h1 : (l1 == l2 && n1 == n2 && t1 == t2 &&
            same_opt i1 i2) = true := h
        simp only [Bool.and_eq_true, beq_iff_eq] at h1
        have hi : i1 = i2 := same_opt_sound i1 i2 h1.2
        rw [h1.1.1.1, h1.1.1.2, h1.1.2, hi]
  | .if_stmt l1 c1 t1 e1, b, h => by
      cases b <;> first | exact Bool.noConfusion h | skip
      case if_stmt l2 c2 t2 e2 =>
        have h1 : (l1 == l2 && c1.same c2 && t1.same t2 &&
            same_opt e1 e2) = true := h
        simp only [Bool.and_eq_true, beq_iff_eq] at h1
        have hi : e1 = e2 := same_opt_sound e1 e2 h1.2
        rw [h1.1.1.1, SkyASTNode.same_sound c1 c2 h1.1.1.2, SkyASTNode.same_sound t1 t2 h1.1.2, hi]
  | .while_stmt l1 c1 b1, b, h => by
      cases b <;> first | exact Bool.noConfusion h | skip
      case while_stmt l2 c2 b2 =>
        have h1 : (l1 == l2 && c1.same c2 && b1.same b2) = true := h
        simp only [Bool.and_eq_true, beq_iff_eq] at h1
        rw [h1.1.1, SkyASTNode.same_sound c1 c2 h1.1.2, SkyASTNode.same_sound b1 b2 h1.2]
  | .for_range l1 v1 s1 e1 b1, b, h => by
      cases b <;> first | exact Bool.noConfusion h | skip
      case for_range l2 v2 s2 e2 b2 =>
        have h1 : (l1 == l2 && v1 == v2 &&
            same_opt s1 s2 && e1.same e2 && b1.same b2) = true := h
        simp only [Bool.and_eq_true, beq_iff_eq] at h1
        have hi : s1 = s2 := same_opt_sound s1 s2 h1.1.1.2
        rw [h1.1.1.1.1, h1.1.1.1.2, hi, SkyASTNode.same_sound e1 e2 h1.1.2, SkyASTNode.same_sound b1 b2 h1.2]
  | .for_each l1 v1 i1 b1, b, h => by
      cases b <;> first | exact Bool.noConfusion h | skip
      case for_each l2 v2 i2 b2 =>
        have h1 : (l1 == l2 && v1 == v2 && i1.same i2 && b1.same b2) = true := h
        simp only [Bool.and_eq_true, beq_iff_eq] at h1
        rw [h1.1.1.1, h1.1.1.2, SkyASTNode.same_sound i1 i2 h1.1.2, SkyASTNode.same_sound b1 b2 h1.2]
  | .block l1 s1, b, h => by
      cases b <;> first | exact Bool.noConfusion h | skip
      case block l2 s2 =>
        have h1 : (l1 == l2 && same_nodes s1 s2) = true := h
        simp only [Bool.and_eq_true, beq_iff_eq] at h1
        rw [h1.1, same_nodes_sound s1 s2 h1.2]
  | .function l1 n1 p1 t1 r1 b1 a1, b, h => by
      cases b <;> first | exact Bool.noConfusion h | skip
      case function l2 n2 p2 t2 r2 b2 a2 =>
        have h1 : (l1 == l2 && n1 == n2 && p1 == p2 && t1 == t2 && r1 == r2 && b1.same b2 && a1 == a2) = true := h
        simp only [Bool.and_eq_true, beq_iff_eq] at h1
        rw [h1.1.1.1.1.1.1, h1.1.1.1.1.1.2, h1.1.1.1.1.2, h1.1.1.1.2, h1.1.1.2,
          SkyASTNode.same_sound b1 b2 h1.1.2, h1.2]
  | .return_stmt l1 v1, b, h => by
      cases b <;> first | exact Bool.noConfusion h | skip
      case return_stmt l2 v2 =>
        have h1 : (l1 == l2 &&
            same_opt v1 v2) = true := h
        simp only [Bool.and_eq_true, beq_iff_eq] at h1
        have hi : v1 = v2 := same_opt_sound v1 v2 h1.2
        rw [h1.1, hi]
  | .print_stmt l1 v1, b, h => by
      cases b <;> first | exact Bool.noConfusion h | skip
      case print_stmt l2 v2 =>
        have h1 : (l1 == l2 && v1.same v2) = true := h
        simp only [Bool.and_eq_true, beq_iff_eq] at h1
        rw [h1.1, SkyASTNode.same_sound v1 v2 h1.2]
  | .class_def l1 n1 m1, b, h => by
      cases b <;> first | exact Bool.noConfusion h | skip
      case class_def l2 n2 m2 =>
        have h1 : (l1 == l2 && n1 == n2 && same_nodes m1 m2) = true := h
        simp only [Bool.and_eq_true, beq_iff_eq] at h1
        rw [h1.1.1, h1.1.2, same_nodes_sound m1 m2 h1.2]
  | .server l1 n1 p1 r1, b, h => by
      cases b <;> first | exact Bool.noConfusion h | skip
      case server l2 n2 p2 r2 =>
        have h1 : (l1 == l2 && n1 == n2 && p1 == p2 && same_nodes r1 r2) = true := h
        simp only [Bool.and_eq_true, beq_iff_eq] at h1
        rw [h1.1.1.1, h1.1.1.2, h1.1.2, same_nodes_sound r1 r2 h1.2]
  | .route l1 m1 p1 b1 w1, b, h => by
      cases b <;> first | exact Bool.noConfusion h | skip
      case route l2 m2 p2 b2 w2 =>
        have h1 : (l1 == l2 && m1 == m2 && p1 == p2 && b1.same b2 && w1 == w2) = true := h
        simp only [Bool.and_eq_true, beq_iff_eq] at h1
        rw [h1.1.1.1.1, h1.1.1.1.2, h1.1.1.2, SkyASTNode.same_sound b1 b2 h1.1.2, h1.2]
  | .respond l1 s1 b1, b, h => by
      cases b <;> first | exact Bool.noConfusion h | skip
      case respond l2 s2 b2 =>
        have h1 : (l1 == l2 && s1.same s2 && b1.same b2) = true := h
        simp only [Bool.and_eq_true, beq_iff_eq] at h1
        rw [h1.1.1, SkyASTNode.same_sound s1 s2 h1.1.2, SkyASTNode.same_sound b1 b2 h1.2]
  | .security l1 r1, b, h => by
      cases b <;> first | exact Bool.noConfusion h | skip
      case security l2 r2 =>
        have h1 : (l1 == l2 && same_nodes r1 r2) = true := h
        simp only [Bool.and_eq_true, beq_iff_eq] at h1
        rw [h1.1, same_nodes_sound r1 r2 h1.2]
  | .security_rule l1 e1 a1, b, h => by
      cases b <;> first | exact Bool.noConfusion h | skip
      case security_rule l2 e2 a2 =>
        have h1 : (l1 == l2 && e1 == e2 && same_nodes a1 a2) = true := h
        simp only [Bool.and_eq_true, beq_iff_eq] at h1
        rw [h1.1.1, h1.1.2, same_nodes_sound a1 a2 h1.2]
  | .import_stmt l1 m1, b, h => by
      cases b <;> first | exact Bool.noConfusion h | skip
      case import_stmt l2 m2 =>
        have h1 : (l1 == l2 && m1 == m2) = true := h
        simp only [Bool.and_eq_true, beq_iff_eq] at h1
        rw [h1.1, h1.2]
  | .break_ l1, b, h => by
      cases b <;> first | exact Bool.noConfusion h | skip
      case break_ l2 =>
        have h1 : (l1 == l2) = true := h
        simp only [beq_iff_eq] at h1
        rw [h1]
  | .continue_ l1, b, h => by
      cases b <;> first | exact Bool.noConfusion h | skip
      case continue_ l2 =>
        have h1 : (l1 == l2) = true := h
        simp only [beq_iff_eq] at h1
        rw [h1]
  | .expr_stmt l1 e1, b, h => by
      cases b <;> first | exact Bool.noConfusion h | skip
      case expr_stmt l2 e2 =>
        have h1 : (l1 == l2 && e1.same e2) = true := h
        simp only [Bool.and_eq_true, beq_iff_eq] at h1
        rw [h1.1, SkyASTNode.same_sound e1 e2 h1.2]
theorem same_opt_sound : ∀ (a b : Option SkyASTNode), same_opt a b = true → a = b
  | none, none, _ => rfl
  | none, some _, h => Bool.noConfusion h
  | some _, none, h => Bool.noConfusion h
  | some a, some b, h => by
      have h1 : a.same b = true := h
      rw [SkyASTNode.same_sound a b h1]
theorem same_nodes_sound : ∀ (as bs : List SkyASTNode), same_nodes as bs = true → as = bs
  | [], [], _ => rfl
  | [], _ :: _, h => Bool.noConfusion h
  | _ :: _, [], h => Bool.noConfusion h
  | a :: as, b :: bs, h => by
      have h1 : (a.same b && same_nodes as bs) = true := h
      simp only [Bool.and_eq_true] at h1
      rw [SkyASTNode.same_sound a b h1.1, same_nodes_sound as bs h1.2]
end

theorem same_outcome_sound : ∀ (a b : Option (Option SkyASTNode × Bool × Bool)),
    same_outcome a b = true → a = b
  | none, none, _ => rfl
  | none, some _, h => Bool.noConfusion h
  | some _, none, h => Bool.noConfusion h
  | some (t1, e1), some (t2, e2), h => by
      have h1 : (same_opt t1 t2 && e1 == e2) = true := h
      simp only [Bool.and_eq_true, beq_iff_eq] at h1
      rw [same_opt_sound t1 t2 h1.1, h1.2]

/-- C25.  The source `!true` is rejected: `parse_unary` accepts `-` and
`not` only, the token `!` reaches `parse_primary`, which reports an error,
and `sky_parser_parse` returns NULL.  The source `not true` parses to the
unary node and compiles to `TRUE NOT` (and the `POP` of the statement). -/
theorem bang_is_not_parsed_as_not :
    parse_outcome 20 (c_str "!true") = some (none, true, false) ∧
    parse_outcome 20 (c_str "not true") =
      some (some (.program 1 [ .expr_stmt 1 (.unary 1 TOKEN_NOT (.bool_literal 1 true)) ]),
        false, false) ∧
    compile_source 20 (c_str "not true") =
      some ([OP_TRUE.toByte, OP_NOT.toByte, OP_POP.toByte], false) ∧
    compile_source 20 (c_str "!true") = none :=
  ⟨same_outcome_sound _ _ (by decide!), same_outcome_sound _ _ (by decide!), by decide!,
    by decide!⟩

/-- C26.  In the source `class A { & }` the lexer returns the error token
for the stray `&` and sets its error flag; the member loop of
`parse_class` skips the token, the parser reports no error and
`sky_parser_parse` returns the tree.  The same holds for the unexpected
character in `server S { @ }`. -/
theorem error_token_in_class_body_is_skipped :
    (lex_source (c_str "class A { & }")).map (fun ts => ts.map (fun t => t.type)) =
      some [TOKEN_CLASS, TOKEN_IDENTIFIER, TOKEN_LBRACE, TOKEN_ERROR, TOKEN_RBRACE,
        TOKEN_EOF] ∧
    parse_outcome 20 (c_str "class A { & }") =
      some (some (.program 1 [ .class_def 1 "A" [] ]), false, true) ∧
    parse_outcome 20 (c_str "server S { @ }") =
      some (some (.program 1 [ .server 1 "S" 8080 [] ]), false, true) :=
  ⟨by decide!, same_outcome_sound _ _ (by decide!), same_outcome_sound _ _ (by decide!)⟩

/-- C27.  The source `let x int = 5` parses without error to a program of
two statements: `parse_let` does not read a type name, so the `let` ends
after the name, without initializer, and `int = 5` is an assignment
statement.  The source `let x = 5` parses to the one `let` with its
initializer. -/
theorem let_with_type_name_parses_to_two_statements :
    parse_outcome 20 (c_str "let x int = 5") =
      some (some (.program 1
        [ .let_ 1 "x" none none,
          .expr_stmt 1 (.assign 1 (.identifier 1 "int") (.int_literal 1 5)) ]),
        false, false) ∧
    parse_outcome 20 (c_str "let x = 5") =
      some (some (.program 1 [ .let_ 1 "x" none (some (.int_literal 1 5)) ]), false, false) :=
  ⟨same_outcome_sound _ _ (by decide!), same_outcome_sound _ _ (by decide!)⟩

/-- C28.  The sources `1 = 2` and `f() = 3` are accepted: the parser
returns a tree with the assignment to the literal (to the call), and
`sky_compiler_compile` compiles the value, emits nothing for the target and
reports no error. -/
theorem assignment_to_literal_is_accepted :
    parse_outcome 20 (c_str "1 = 2") =
      some (some (.program 1
        [ .expr_stmt 1 (.assign 1 (.int_literal 1 1) (.int_literal 1 2)) ]), false, false) ∧
    compile_source 20 (c_str "1 = 2") =
      some ([OP_CONSTANT.toByte, 0, OP_POP.toByte], false) ∧
    parse_outcome 20 (c_str "f() = 3") =
      some (some (.program 1
        [ .expr_stmt 1 (.assign 1 (.call 1 (.identifier 1 "f") []) (.int_literal 1 3)) ]),
        false, false) ∧
    compile_source 20 (c_str "f() = 3") =
      some ([OP_CONSTANT.toByte, 0, OP_POP.toByte], false) :=
  ⟨same_outcome_sound _ _ (by decide!), by decide!, same_outcome_sound _ _ (by decide!),
    by decide!⟩

/-! ## Precedence of binary operators -/

theorem level_ops_iff (k : Nat) (hk : 1 ≤ k) (t : SkyTokenType) :
    t ∈ level_ops k ↔ binary_level t = k := by
  by_cases h6 : k ≤ 6
  · interval_cases k <;> cases t <;> simp [level_ops, binary_level]
  · have : level_ops k = [] := by
      match k, hk, h6 with
      | k + 7, _, _ => rfl
    rw [this]
    constructor
    · intro h; cases h
    · intro h
      exfalso
      cases t <;> simp [binary_level] at h <;> omega

theorem match_any_hit (p p1 : SkyParser) (ops : List SkyTokenType)
    (h : p.current.type ∈ ops) (ha : advance p = some p1) :
    match_any p ops = some (true, p1) := by
  induction ops with
  | nil => cases h
  | cons type rest ih =>
      unfold match_any
      by_cases hc : check p type = true
      · rw [if_pos hc, ha]; rfl
      · rw [if_neg hc]
        apply ih
        rcases List.mem_cons.1 h with h1 | h1
        · exfalso; apply hc; simp [check, h1]
        · exact h1

theorem match_any_miss (p : SkyParser) (ops : List SkyTokenType)
    (h : p.current.type ∉ ops) : match_any p ops = some (false, p) := by
  induction ops with
  | nil => rfl
  | cons type rest ih =>
      unfold match_any
      have hc : ¬ check p type = true := by
        intro hc
        apply h
        simp only [check, beq_iff_eq] at hc
        rw [hc]; exact List.mem_cons_self _ _
      rw [if_neg hc]
      exact ih (fun hm => h (List.mem_cons_of_mem _ hm))

theorem advance_previous (p p1 : SkyParser) (h : advance p = some p1) :
    p1.previous = p.current := by
  unfold advance at h
  split at h
  · cases h
  · cases h; rfl

theorem level_factor :
    Level [TOKEN_STAR, TOKEN_SLASH, TOKEN_PERCENT] parse_unary parse_factor parse_factor_loop :=
  ⟨fun _ _ => rfl, fun fuel left p p1 h _ => by rw [parse_factor_loop, h],
    fun fuel left p h => by rw [parse_factor_loop, h]⟩

theorem level_term :
    Level [TOKEN_PLUS, TOKEN_MINUS] parse_factor parse_term parse_term_loop :=
  ⟨fun _ _ => rfl, fun fuel left p p1 h _ => by rw [parse_term_loop, h],
    fun fuel left p h => by rw [parse_term_loop, h]⟩

theorem level_comparison :
    Level [TOKEN_LESS, TOKEN_LESS_EQUAL, TOKEN_GREATER, TOKEN_GREATER_EQUAL] parse_term
      parse_comparison parse_comparison_loop :=
  ⟨fun _ _ => rfl, fun fuel left p p1 h _ => by rw [parse_comparison_loop, h],
    fun fuel left p h => by rw [parse_comparison_loop, h]⟩

theorem level_equality :
    Level [TOKEN_EQUAL_EQUAL, TOKEN_NOT_EQUAL] parse_comparison parse_equality
      parse_equality_loop :=
  ⟨fun _ _ => rfl, fun fuel left p p1 h _ => by rw [parse_equality_loop, h],
    fun fuel left p h => by rw [parse_equality_loop, h]⟩

theorem level_logic_and :
    Level [TOKEN_AND] parse_equality parse_logic_and parse_logic_and_loop :=
  ⟨fun _ _ => rfl,
    fun fuel left p p1 h hm => by
      rw [parse_logic_and_loop, h, List.mem_singleton.1 hm],
    fun fuel left p h => by rw [parse_logic_and_loop, h]⟩

theorem level_logic_or :
    Level [TOKEN_OR] parse_logic_and parse_logic_or parse_logic_or_loop :=
  ⟨fun _ _ => rfl,
    fun fuel left p p1 h hm => by
      rw [parse_logic_or_loop, h, List.mem_singleton.1 hm],
    fun fuel left p h => by rw [parse_logic_or_loop, h]⟩

theorem level_ok (k : Nat) (h1 : 1 ≤ k) (h6 : k ≤ 6) :
    Level (level_ops k) (parse_level (k - 1)) (parse_level k) (level_loop k) := by
  interval_cases k
  · exact level_factor
  · exact level_term
  · exact level_comparison
  · exact level_equality
  · exact level_logic_and
  · exact level_logic_or

theorem level_pass (ops : List SkyTokenType)
    (sub par : Nat → SkyParser → Option (SkyASTNode × SkyParser))
    (loop : Nat → SkyASTNode → SkyParser → Option (SkyASTNode × SkyParser))
    (L : Level ops sub par loop) (p p1 : SkyParser) (x : SkyASTNode)
    (hx : Parses sub p (x, p1)) (hn : p1.current.type ∉ ops) : Parses par p (x, p1) := by
  obtain ⟨n, hn1⟩ := hx
  refine ⟨n + 2, fun fuel hf => ?_⟩
  obtain ⟨f, rfl⟩ : ∃ f, fuel = f + 2 := ⟨fuel - 2, by omega⟩
  rw [L.par_eq, hn1 (f + 1) (by omega)]
  exact L.loop_miss f x p1 (match_any_miss p1 ops hn)

theorem level_step (ops : List SkyTokenType)
    (sub par : Nat → SkyParser → Option (SkyASTNode × SkyParser))
    (loop : Nat → SkyASTNode → SkyParser → Option (SkyASTNode × SkyParser))
    (L : Level ops sub par loop) (p0 p1 p2 p3 : SkyParser) (x y : SkyASTNode)
    (hx : Parses sub p0 (x, p1)) (hop : p1.current.type ∈ ops) (ha : advance p1 = some p2)
    (hy : Parses sub p2 (y, p3)) (hn : p3.current.type ∉ ops) :
    Parses par p0 (.binary p1.current.line p1.current.type x y, p3) := by
  obtain ⟨n, hn1⟩ := hx
  obtain ⟨m, hm1⟩ := hy
  refine ⟨n + m + 3, fun fuel hf => ?_⟩
  obtain ⟨f, rfl⟩ : ∃ f, fuel = f + 3 := ⟨fuel - 3, by omega⟩
  have hp := advance_previous p1 p2 ha
  rw [L.par_eq, hn1 (f + 2) (by omega)]
  show loop (f + 1 + 1) x p1 = _
  rw [L.loop_hit (f + 1) x p1 p2 (match_any_hit p1 p2 ops hop ha) (by rw [hp]; exact hop),
    hm1 (f + 1) (by omega), hp]
  exact L.loop_miss f _ p3 (match_any_miss p3 ops hn)

theorem level_lift (j k : Nat) (hjk : j ≤ k) (hk : k ≤ 6) (p p1 : SkyParser) (x : SkyASTNode)
    (hx : Parses (parse_level j) p (x, p1))
    (hn : ∀ i, j < i → i ≤ k → binary_level p1.current.type ≠ i) :
    Parses (parse_level k) p (x, p1) := by
  induction k with
  | zero =>
      have : j = 0 := by omega
      subst this
      exact hx
  | succ k ih =>
      by_cases hj : j = k + 1
      · subst hj; exact hx
      · have h1 := ih (by omega) (by omega) (fun i hi hik => hn i hi (by omega))
        have L := level_ok (k + 1) (by omega) hk
        exact level_pass _ _ _ _ L p p1 x h1
          (fun hm => hn (k + 1) (by omega) (le_refl _)
            ((level_ops_iff (k + 1) (by omega) _).1 hm))

theorem level_binary (k : Nat) (hk1 : 1 ≤ k) (hk : k ≤ 6) (p0 p1 p2 p3 : SkyParser)
    (x y : SkyASTNode) (hx : Parses (parse_level (k - 1)) p0 (x, p1))
    (hop : binary_level p1.current.type = k) (ha : advance p1 = some p2)
    (hy : Parses (parse_level (k - 1)) p2 (y, p3)) (hn : binary_level p3.current.type ≠ k) :
    Parses (parse_level k) p0 (.binary p1.current.line p1.current.type x y, p3) :=
  level_step _ _ _ _ (level_ok k hk1 hk) p0 p1 p2 p3 x y hx
    ((level_ops_iff k hk1 _).2 hop) ha hy (fun hm => hn ((level_ops_iff k hk1 _).1 hm))

theorem binary_level_le (t : SkyTokenType) : binary_level t ≤ 6 := by
  cases t <;> simp [binary_level]

theorem parse_expression_of_logic_or (p p1 : SkyParser) (x : SkyASTNode)
    (hx : Parses parse_logic_or p (x, p1)) (hn : p1.current.type ≠ TOKEN_ASSIGN) :
    Parses parse_expression p (x, p1) := by
  obtain ⟨n, hn1⟩ := hx
  refine ⟨n + 2, fun fuel hf => ?_⟩
  obtain ⟨f, rfl⟩ : ∃ f, fuel = f + 2 := ⟨fuel - 2, by omega⟩
  rw [parse_expression, parse_assignment, hn1 f (by omega)]
  have hc : ¬ check p1 TOKEN_ASSIGN = true := by simpa [check] using hn
  show (if check p1 TOKEN_ASSIGN = true then _ else _) = _
  rw [if_neg hc]

theorem parse_expression_assign (p0 p1 p2 p3 : SkyParser) (x v : SkyASTNode)
    (hx : Parses parse_logic_or p0 (x, p1)) (hop : p1.current.type = TOKEN_ASSIGN)
    (ha : advance p1 = some p2) (hv : Parses parse_expression p2 (v, p3)) :
    Parses parse_expression p0 (.assign p1.current.line x v, p3) := by
  obtain ⟨n, hn1⟩ := hx
  obtain ⟨m, hm1⟩ := hv
  refine ⟨n + m + 2, fun fuel hf => ?_⟩
  obtain ⟨f, rfl⟩ : ∃ f, fuel = f + 2 := ⟨fuel - 2, by omega⟩
  have hp := advance_previous p1 p2 ha
  have hv2 : parse_assignment f p2 = some (v, p3) := by
    have := hm1 (f + 1) (by omega)
    rwa [parse_expression] at this
  rw [parse_expression, parse_assignment, hn1 f (by omega)]
  have hc : check p1 TOKEN_ASSIGN = true := by simp [check, hop]
  show (if check p1 TOKEN_ASSIGN = true then _ else _) = _
  rw [if_pos hc, ha]
  show (match parse_assignment f p2 with
    | none => none
    | some (value, p3) => some (SkyASTNode.assign p2.previous.line x value, p3)) = _
  rw [hv2, hp]

theorem parse_call_loop_stop (fuel : Nat) (x : SkyASTNode) (p : SkyParser)
    (h1 : p.current.type ≠ TOKEN_LPAREN) (h2 : p.current.type ≠ TOKEN_DOT)
    (h3 : p.current.type ≠ TOKEN_LBRACKET) : parse_call_loop (fuel + 1) x p = some (x, p) := by
  have c1 : ¬ check p TOKEN_LPAREN = true := by simpa [check] using h1
  have c2 : ¬ check p TOKEN_DOT = true := by simpa [check] using h2
  have c3 : ¬ check p TOKEN_LBRACKET = true := by simpa [check] using h3
  rw [parse_call_loop]
  show (if check p TOKEN_LPAREN = true then _ else
    if check p TOKEN_DOT = true then _ else if check p TOKEN_LBRACKET = true then _ else _) = _
  rw [if_neg c1, if_neg c2, if_neg c3]

theorem parse_unary_of_primary (p p1 : SkyParser) (x : SkyASTNode)
    (hm : p.current.type ≠ TOKEN_MINUS) (hn : p.current.type ≠ TOKEN_NOT)
    (hx : ∀ fuel, parse_primary (fuel + 1) p = some (x, p1))
    (h1 : p1.current.type ≠ TOKEN_LPAREN) (h2 : p1.current.type ≠ TOKEN_DOT)
    (h3 : p1.current.type ≠ TOKEN_LBRACKET) : Parses parse_unary p (x, p1) := by
  refine ⟨3, fun fuel hf => ?_⟩
  obtain ⟨f, rfl⟩ : ∃ f, fuel = f + 3 := ⟨fuel - 3, by omega⟩
  have hmiss : match_any p [TOKEN_MINUS, TOKEN_NOT] = some (false, p) :=
    match_any_miss p _ (by simp [hm, hn])
  rw [parse_unary, hmiss]
  show parse_call (f + 1 + 1) p = _
  rw [parse_call, hx]
  exact parse_call_loop_stop f x p1 h1 h2 h3

/-- A single integer literal token as an operand. -/
theorem parse_unary_int_literal (p p1 : SkyParser) (line v : Int)
    (ht : p.current.type = TOKEN_INT_LITERAL) (ha : advance p = some p1)
    (hl : p.current.line = line) (hv : strtoll (token_tail p) = v)
    (h1 : p1.current.type ≠ TOKEN_LPAREN) (h2 : p1.current.type ≠ TOKEN_DOT)
    (h3 : p1.current.type ≠ TOKEN_LBRACKET) :
    Parses parse_unary p (.int_literal line v, p1) := by
  refine parse_unary_of_primary p p1 _ (by rw [ht]; decide) (by rw [ht]; decide) ?_ h1 h2 h3
  intro fuel
  have c : check p TOKEN_INT_LITERAL = true := by simp [check, ht]
  rw [parse_primary]
  show (if check p TOKEN_INT_LITERAL = true then _ else _) = _
  rw [if_pos c, ha, ← hl, ← hv, ← advance_previous p p1 ha]
  rfl

/-- A single identifier token as an operand. -/
theorem parse_unary_identifier (p p1 : SkyParser) (line : Int) (name : String)
    (ht : p.current.type = TOKEN_IDENTIFIER) (ha : advance p = some p1)
    (hl : p.current.line = line) (hv : copy_token_text p.current = name)
    (h1 : p1.current.type ≠ TOKEN_LPAREN) (h2 : p1.current.type ≠ TOKEN_DOT)
    (h3 : p1.current.type ≠ TOKEN_LBRACKET) :
    Parses parse_unary p (.identifier line name, p1) := by
  refine parse_unary_of_primary p p1 _ (by rw [ht]; decide) (by rw [ht]; decide) ?_ h1 h2 h3
  intro fuel
  have c0 : ∀ t, t ≠ TOKEN_IDENTIFIER → ¬ check p t = true := by
    intro t h hc
    simp only [check, beq_iff_eq] at hc
    exact h (hc ▸ ht)
  have c : check p TOKEN_IDENTIFIER = true := by simp [check, ht]
  rw [parse_primary]
  show (if check p TOKEN_INT_LITERAL = true then _ else
    if check p TOKEN_FLOAT_LITERAL = true then _ else
    if check p TOKEN_STRING_LITERAL = true then _ else
    if check p TOKEN_TRUE = true then _ else
    if check p TOKEN_FALSE = true then _ else
    if check p TOKEN_NIL = true then _ else
    if check p TOKEN_IDENTIFIER = true then _ else _) = _
  rw [if_neg (c0 _ (by decide)), if_neg (c0 _ (by decide)), if_neg (c0 _ (by decide)),
    if_neg (c0 _ (by decide)), if_neg (c0 _ (by decide)), if_neg (c0 _ (by decide)),
    if_pos c, ha, ← hl, ← hv, ← advance_previous p p1 ha]
  rfl

theorem advance_parser_at (source : List Nat) (i : Nat)
    (h : (advance (parser_at source i)).isSome = true) :
    advance (parser_at source i) = some (parser_at source (i + 1)) := by
  show _ = some ((advance (parser_at source i)).getD (parser_at source i))
  cases hh : advance (parser_at source i) with
  | none => rw [hh] at h; cases h
  | some q => rfl

/-- C24.  The parser nests binary operators by the level of the grammar,
and assignment to the right.  Let `x`, `y` and `z` be operands that
`parse_unary` parses (from the states `p0`, `p2`, `p4`, up to the states
`p1`, `p3`, `p5`), with one token between `x` and `y` and one between `y`
and `z`, and let the token after `z` be no binary operator and no `=`.  If
the second token is a binary operator of a tighter level than the first,
`parse_expression` returns `Binary(op2, x, Binary(op1, y, z))`; if the first
is tighter than the second, it returns `Binary(op2, Binary(op1, x, y), z)`;
if both are `=`, it returns `Assign(x, Assign(y, z))`.  In each case every
sufficient number of nested calls gives this result. -/
theorem binary_operators_nest_by_level (p0 p1 p2 p3 p4 p5 : SkyParser) (x y z : SkyASTNode)
    (hx : Parses parse_unary p0 (x, p1)) (h12 : advance p1 = some p2)
    (hy : Parses parse_unary p2 (y, p3)) (h34 : advance p3 = some p4)
    (hz : Parses parse_unary p4 (z, p5))
    (hend : binary_level p5.current.type = 0 ∧ p5.current.type ≠ TOKEN_ASSIGN) :
    (0 < binary_level p3.current.type →
      binary_level p3.current.type < binary_level p1.current.type →
      Parses parse_expression p0
        (.binary p1.current.line p1.current.type x
          (.binary p3.current.line p3.current.type y z), p5)) ∧
    (0 < binary_level p1.current.type →
      binary_level p1.current.type < binary_level p3.current.type →
      Parses parse_expression p0
        (.binary p3.current.line p3.current.type
          (.binary p1.current.line p1.current.type x y) z, p5)) ∧
    (p1.current.type = TOKEN_ASSIGN → p3.current.type = TOKEN_ASSIGN →
      Parses parse_expression p0
        (.assign p1.current.line x (.assign p3.current.line y z), p5)) := by
  have h6 : ∀ t, binary_level t ≤ 6 := binary_level_le
  have top : ∀ (k : Nat) (p q : SkyParser) (t : SkyASTNode), k ≤ 6 →
      Parses (parse_level k) p (t, q) → binary_level q.current.type = 0 →
      Parses parse_logic_or p (t, q) := by
    intro k p q t hk h h0
    exact level_lift k 6 hk (le_refl _) p q t h (fun i hi _ => by omega)
  refine ⟨fun h3 h31 => ?_, fun h1 h13 => ?_, fun h1 h3 => ?_⟩
  · have k1 := h6 p1.current.type
    have inner := level_binary (binary_level p3.current.type) h3 (by omega) p2 p3 p4 p5 y z
      (level_lift 0 _ (by omega) (by omega) p2 p3 y hy (fun i _ _ => by omega)) rfl h34
      (level_lift 0 _ (by omega) (by omega) p4 p5 z hz (fun i _ _ => by omega)) (by omega)
    have outer := level_binary (binary_level p1.current.type) (by omega) k1 p0 p1 p2 p5 x _
      (level_lift 0 _ (by omega) (by omega) p0 p1 x hx (fun i _ _ => by omega)) rfl h12
      (level_lift _ _ (by omega) (by omega) p2 p5 _ inner (fun i _ _ => by omega)) (by omega)
    exact parse_expression_of_logic_or _ _ _ (top _ _ _ _ k1 outer hend.1) hend.2
  · have k3 := h6 p3.current.type
    have inner := level_binary (binary_level p1.current.type) h1 (by omega) p0 p1 p2 p3 x y
      (level_lift 0 _ (by omega) (by omega) p0 p1 x hx (fun i _ _ => by omega)) rfl h12
      (level_lift 0 _ (by omega) (by omega) p2 p3 y hy (fun i _ _ => by omega)) (by omega)
    have outer := level_binary (binary_level p3.current.type) (by omega) k3 p0 p3 p4 p5 _ z
      (level_lift _ _ (by omega) (by omega) p0 p3 _ inner (fun i _ _ => by omega)) rfl h34
      (level_lift 0 _ (by omega) (by omega) p4 p5 z hz (fun i _ _ => by omega)) (by omega)
    exact parse_expression_of_logic_or _ _ _ (top _ _ _ _ k3 outer hend.1) hend.2
  · have b1 : binary_level p1.current.type = 0 := by rw [h1]; rfl
    have b3 : binary_level p3.current.type = 0 := by rw [h3]; rfl
    have hz1 := parse_expression_of_logic_or _ _ _ (top 0 _ _ _ (by omega) hz hend.1) hend.2
    have hy1 := parse_expression_assign p2 p3 p4 p5 y z (top 0 _ _ _ (by omega) hy b3) h3 h34 hz1
    exact parse_expression_assign p0 p1 p2 p5 x _ (top 0 _ _ _ (by omega) hx b1) h1 h12 hy1

/-- C24 on the sources `1 + 2 * 3`, `1 * 2 + 3` and `x = y = z`, whose
operands are single tokens: the states are those of `parser_at`. -/
theorem binary_operators_nest_by_level_witness :
    Parses parse_expression (parser_at (c_str "1 + 2 * 3") 0)
      (.binary 1 TOKEN_PLUS (.int_literal 1 1)
        (.binary 1 TOKEN_STAR (.int_literal 1 2) (.int_literal 1 3)),
        parser_at (c_str "1 + 2 * 3") 5) ∧
    Parses parse_expression (parser_at (c_str "1 * 2 + 3") 0)
      (.binary 1 TOKEN_PLUS (.binary 1 TOKEN_STAR (.int_literal 1 1) (.int_literal 1 2))
        (.int_literal 1 3), parser_at (c_str "1 * 2 + 3") 5) ∧
    Parses parse_expression (parser_at (c_str "x = y = z") 0)
      (.assign 1 (.identifier 1 "x") (.assign 1 (.identifier 1 "y") (.identifier 1 "z")),
        parser_at (c_str "x = y = z") 5) :=
  ⟨(binary_operators_nest_by_level
      (parser_at (c_str "1 + 2 * 3") 0) (parser_at (c_str "1 + 2 * 3") 1)
      (parser_at (c_str "1 + 2 * 3") 2) (parser_at (c_str "1 + 2 * 3") 3)
      (parser_at (c_str "1 + 2 * 3") 4) (parser_at (c_str "1 + 2 * 3") 5)
      (.int_literal 1 1) (.int_literal 1 2) (.int_literal 1 3)
      (parse_unary_int_literal _ _ 1 1 (by decide!) (advance_parser_at _ 0 (by decide!))
        (by decide!) (by decide!) (by decide!) (by decide!) (by decide!))
      (advance_parser_at _ 1 (by decide!))
      (parse_unary_int_literal _ _ 1 2 (by decide!) (advance_parser_at _ 2 (by decide!))
        (by decide!) (by decide!) (by decide!) (by decide!) (by decide!))
      (advance_parser_at _ 3 (by decide!))
      (parse_unary_int_literal _ _ 1 3 (by decide!) (advance_parser_at _ 4 (by decide!))
        (by decide!) (by decide!) (by decide!) (by decide!) (by decide!))
      (by decide!)).1 (by decide!) (by decide!),
   (binary_operators_nest_by_level
      (parser_at (c_str "1 * 2 + 3") 0) (parser_at (c_str "1 * 2 + 3") 1)
      (parser_at (c_str "1 * 2 + 3") 2) (parser_at (c_str "1 * 2 + 3") 3)
      (parser_at (c_str "1 * 2 + 3") 4) (parser_at (c_str "1 * 2 + 3") 5)
      (.int_literal 1 1) (.int_literal 1 2) (.int_literal 1 3)
      (parse_unary_int_literal _ _ 1 1 (by decide!) (advance_parser_at _ 0 (by decide!))
        (by decide!) (by decide!) (by decide!) (by decide!) (by decide!))
      (advance_parser_at _ 1 (by decide!))
      (parse_unary_int_literal _ _ 1 2 (by decide!) (advance_parser_at _ 2 (by decide!))
        (by decide!) (by decide!) (by decide!) (by decide!) (by decide!))
      (advance_parser_at _ 3 (by decide!))
      (parse_unary_int_literal _ _ 1 3 (by decide!) (advance_parser_at _ 4 (by decide!))
        (by decide!) (by decide!) (by decide!) (by decide!) (by decide!))
      (by decide!)).2.1 (by decide!) (by decide!),
   (binary_operators_nest_by_level
      (parser_at (c_str "x = y = z") 0) (parser_at (c_str "x = y = z") 1)
      (parser_at (c_str "x = y = z") 2) (parser_at (c_str "x = y = z") 3)
      (parser_at (c_str "x = y = z") 4) (parser_at (c_str "x = y = z") 5)
      (.identifier 1 "x") (.identifier 1 "y") (.identifier 1 "z")
      (parse_unary_identifier _ _ 1 "x" (by decide!) (advance_parser_at _ 0 (by decide!))
        (by decide!) (by decide!) (by decide!) (by decide!) (by decide!))
      (advance_parser_at _ 1 (by decide!))
      (parse_unary_identifier _ _ 1 "y" (by decide!) (advance_parser_at _ 2 (by decide!))
        (by decide!) (by decide!) (by decide!) (by decide!) (by decide!))
      (advance_parser_at _ 3 (by decide!))
      (parse_unary_identifier _ _ 1 "z" (by decide!) (advance_parser_at _ 4 (by decide!))
        (by decide!) (by decide!) (by decide!) (by decide!) (by decide!))
      (by decide!)).2.2 (by decide!) (by decide!)⟩

/-- The six levels in one source: `a or b and c == d < e + f * g` nests
each operator inside the looser one before it. -/
theorem all_levels_in_one_expression :
    parse_outcome 40 (c_str "a or b and c == d < e + f * g") =
      some (some (.program 1 [ .expr_stmt 1
        (.binary 1 TOKEN_OR (.identifier 1 "a")
          (.binary 1 TOKEN_AND (.identifier 1 "b")
            (.binary 1 TOKEN_EQUAL_EQUAL (.identifier 1 "c")
              (.binary 1 TOKEN_LESS (.identifier 1 "d")
                (.binary 1 TOKEN_PLUS (.identifier 1 "e")
                  (.binary 1 TOKEN_STAR (.identifier 1 "f") (.identifier 1 "g"))))))) ]),
        false, false) :=
  same_outcome_sound _ _ (by decide!)

/-! ## The hash table under insertion and deletion -/

namespace HashTable

theorem find_entry_loop_probe (entries : List SkyTableEntry) (cap : Nat) (key : String) :
    ∀ (d s fuel : Nat), d < fuel → s < cap →
      (∀ j, j < d → Skips entries key ((s + j) % cap)) → Stops entries key ((s + d) % cap) →
      find_entry_loop entries cap key fuel s none = some ((s + d) % cap) := by
  intro d
  induction d with
  | zero =>
      intro s fuel hf hs _ hstop
      obtain ⟨f, rfl⟩ : ∃ f, fuel = f + 1 := ⟨fuel - 1, by omega⟩
      have e0 : (s + 0) % cap = s := by rw [Nat.add_zero, Nat.mod_eq_of_lt hs]
      rw [e0] at hstop ⊢
      obtain ⟨e, he, h⟩ := hstop
      rw [find_entry_loop, he]
      rcases h with ⟨h1, h2⟩ | ⟨h1, h2⟩
      · simp [h1, h2]
      · simp [h1, h2]
  | succ d ih =>
      intro s fuel hf hs hskip hstop
      obtain ⟨f, rfl⟩ : ∃ f, fuel = f + 1 := ⟨fuel - 1, by omega⟩
      have h0 := hskip 0 (by omega)
      have e0 : (s + 0) % cap = s := by rw [Nat.add_zero, Nat.mod_eq_of_lt hs]
      rw [e0] at h0
      obtain ⟨e, he, h1, h2⟩ := h0
      have e1 : ∀ j, ((s + 1) % cap + j) % cap = (s + (j + 1)) % cap := by
        intro j
        rw [Nat.mod_add_mod]
        congr 1
        omega
      have := ih ((s + 1) % cap) f (by omega) (Nat.mod_lt _ (by omega))
        (fun j hj => by rw [e1]; exact hskip (j + 1) (by omega)) (by rw [e1]; exact hstop)
      rw [e1] at this
      rw [find_entry_loop, he]
      simp only [h1, h2, Bool.true_eq_false, if_false]
      exact this

theorem find_entry_of_probe (entries : List SkyTableEntry) (cap : Nat) (key : String) (i : Nat)
    (h : Probe entries cap key i) : find_entry entries cap key = some i := by
  obtain ⟨d, hd, hskip, hstop, rfl⟩ := h
  have hc : ¬ cap = 0 := by omega
  have e1 : ∀ j, (hash_string key % cap + j) % cap = (hash_string key + j) % cap :=
    fun j => Nat.mod_add_mod _ _ _
  unfold find_entry
  rw [if_neg hc, find_entry_loop_probe entries cap key d (hash_string key % cap) cap hd
    (Nat.mod_lt _ (by omega)) (fun j hj => by rw [e1]; exact hskip j hj)
    (by rw [e1]; exact hstop), e1]

theorem not_stops_and_skips (entries : List SkyTableEntry) (key : String) (i : Nat)
    (h1 : Stops entries key i) (h2 : Skips entries key i) : False := by
  obtain ⟨e, he, h⟩ := h1
  obtain ⟨e2, he2, ho, hk⟩ := h2
  rw [he] at he2
  cases he2
  rcases h with ⟨a, _⟩ | ⟨_, b⟩
  · rw [a] at ho; cases ho
  · exact hk b

theorem probe_unique (entries : List SkyTableEntry) (cap : Nat) (key : String) (i i1 : Nat)
    (h : Probe entries cap key i) (h1 : Probe entries cap key i1) : i = i1 := by
  obtain ⟨d, _, hskip, hstop, hi⟩ := h
  obtain ⟨d1, _, hskip1, hstop1, hi1⟩ := h1
  rcases Nat.lt_trichotomy d d1 with hlt | heq | hgt
  · exact absurd (hskip1 d hlt) (fun hs => not_stops_and_skips _ _ _ (hi ▸ hstop) hs)
  · rw [← hi, ← hi1, heq]
  · exact absurd (hskip d1 hgt) (fun hs => not_stops_and_skips _ _ _ (hi1 ▸ hstop1) hs)

theorem stops_or_skips (entries : List SkyTableEntry) (key : String) (hnt : NoTomb entries)
    (i : Nat) (hi : i < entries.length) : Stops entries key i ∨ Skips entries key i := by
  have he : entries[i]? = some entries[i] := List.getElem?_eq_getElem hi
  by_cases ho : entries[i].occupied = true
  · by_cases hk : entries[i].key = some key
    · exact Or.inl ⟨_, he, Or.inr ⟨ho, hk⟩⟩
    · exact Or.inr ⟨_, he, ho, hk⟩
  · have ho1 : entries[i].occupied = false := by simpa using ho
    exact Or.inl ⟨_, he, Or.inl ⟨ho1, hnt i _ he ho1⟩⟩

theorem reach_index (h cap i : Nat) (hi : i < cap) : ∃ d, d < cap ∧ (h + d) % cap = i := by
  have hr : h % cap < cap := Nat.mod_lt _ (by omega)
  by_cases hle : h % cap ≤ i
  · refine ⟨i - h % cap, by omega, ?_⟩
    rw [← Nat.mod_add_mod, show h % cap + (i - h % cap) = i by omega, Nat.mod_eq_of_lt hi]
  · refine ⟨i + cap - h % cap, by omega, ?_⟩
    rw [← Nat.mod_add_mod, show h % cap + (i + cap - h % cap) = i + cap by omega,
      Nat.add_mod_right, Nat.mod_eq_of_lt hi]

theorem probe_exists (entries : List SkyTableEntry) (cap : Nat) (key : String)
    (hlen : entries.length = cap) (hnt : NoTomb entries) (i0 : Nat)
    (h0 : Stops entries key i0) : ∃ i, Probe entries cap key i := by
  classical
  have hi0 : i0 < cap := by
    obtain ⟨e, he, _⟩ := h0
    rw [← hlen]
    exact (List.getElem?_eq_some_iff.1 he).1
  obtain ⟨d0, hd0, hr⟩ := reach_index (hash_string key) cap i0 hi0
  have hex : ∃ d, Stops entries key ((hash_string key + d) % cap) := ⟨d0, by rw [hr]; exact h0⟩
  refine ⟨(hash_string key + Nat.find hex) % cap, Nat.find hex, ?_, ?_, Nat.find_spec hex, rfl⟩
  · exact lt_of_le_of_lt (Nat.find_min' hex (by rw [hr]; exact h0)) hd0
  · intro j hj
    rcases stops_or_skips entries key hnt ((hash_string key + j) % cap)
        (by rw [hlen]; exact Nat.mod_lt _ (by omega)) with h | h
    · exact absurd h (Nat.find_min hex hj)
    · exact h

theorem occupied_count_cons (e : SkyTableEntry) (entries : List SkyTableEntry) :
    occupied_count (e :: entries) =
      (if e.occupied = true then 1 else 0) + occupied_count entries := by
  unfold occupied_count
  by_cases h : e.occupied = true
  · rw [List.filter_cons_of_pos (by simpa using h), if_pos h, List.length_cons]; omega
  · rw [List.filter_cons_of_neg (by simpa using h), if_neg h]; omega

theorem occupied_count_le (entries : List SkyTableEntry) :
    occupied_count entries ≤ entries.length := List.length_filter_le _ _

theorem empty_slot (entries : List SkyTableEntry) (h : occupied_count entries < entries.length) :
    ∃ (i : Nat) (e : SkyTableEntry), entries[i]? = some e ∧ e.occupied = false := by
  induction entries with
  | nil => simp at h
  | cons e rest ih =>
      by_cases ho : e.occupied = true
      · rw [occupied_count_cons, if_pos ho, List.length_cons] at h
        obtain ⟨i, e1, h1, h2⟩ := ih (by omega)
        exact ⟨i + 1, e1, by rw [List.getElem?_cons_succ]; exact h1, h2⟩
      · exact ⟨0, e, List.getElem?_cons_zero, by simpa using ho⟩

theorem occupied_count_set (entries : List SkyTableEntry) (i : Nat) (e e1 : SkyTableEntry)
    (he : entries[i]? = some e) :
    occupied_count (entries.set i e1) + (if e.occupied = true then 1 else 0) =
      occupied_count entries + (if e1.occupied = true then 1 else 0) := by
  induction entries generalizing i with
  | nil => simp at he
  | cons x rest ih =>
      cases i with
      | zero =>
          have hx : x = e := by simpa using he
          subst hx
          rw [List.set_cons_zero, occupied_count_cons, occupied_count_cons]
          omega
      | succ i =>
          rw [List.getElem?_cons_succ] at he
          rw [List.set_cons_succ, occupied_count_cons, occupied_count_cons]
          have := ih i he
          omega

theorem skips_set (entries : List SkyTableEntry) (key : String) (i j : Nat)
    (e1 : SkyTableEntry) (h : Skips entries key j)
    (hi : j = i → e1.occupied = true ∧ e1.key ≠ some key) : Skips (entries.set i e1) key j := by
  obtain ⟨e, he, ho, hk⟩ := h
  by_cases hji : j = i
  · subst hji
    have hl : j < entries.length := (List.getElem?_eq_some_iff.1 he).1
    exact ⟨e1, List.getElem?_set_self hl, (hi rfl).1, (hi rfl).2⟩
  · exact ⟨e, by rw [List.getElem?_set_ne (fun h => hji h.symm)]; exact he, ho, hk⟩

theorem stops_set (entries : List SkyTableEntry) (key : String) (i j : Nat)
    (e1 : SkyTableEntry) (h : Stops entries key j)
    (hi : j = i → (e1.occupied = false ∧ e1.key = none) ∨
      (e1.occupied = true ∧ e1.key = some key)) : Stops (entries.set i e1) key j := by
  obtain ⟨e, he, hc⟩ := h
  by_cases hji : j = i
  · subst hji
    have hl : j < entries.length := (List.getElem?_eq_some_iff.1 he).1
    exact ⟨e1, List.getElem?_set_self hl, hi rfl⟩
  · exact ⟨e, by rw [List.getElem?_set_ne (fun h => hji h.symm)]; exact he, hc⟩

theorem probe_set (entries : List SkyTableEntry) (cap : Nat) (key : String) (i j : Nat)
    (e1 : SkyTableEntry) (h : Probe entries cap key j)
    (hskip : Skips entries key i → e1.occupied = true ∧ e1.key ≠ some key)
    (hstop : j = i → (e1.occupied = false ∧ e1.key = none) ∨
      (e1.occupied = true ∧ e1.key = some key)) : Probe (entries.set i e1) cap key j := by
  obtain ⟨d, hd, hs, ht, hj⟩ := h
  exact ⟨d, hd, fun j1 hj1 => skips_set _ _ _ _ _ (hs j1 hj1) (fun hh => hskip (hh ▸ hs j1 hj1)),
    stops_set _ _ _ _ _ ht hstop, hj⟩

theorem find_entry_spec (entries : List SkyTableEntry) (cap : Nat)
    (m : String → Option SkyValue) (H : Holds entries cap m)
    (hfree : occupied_count entries < cap) (key : String) :
    ∃ (i : Nat) (e : SkyTableEntry), Probe entries cap key i ∧ entries[i]? = some e ∧
      ((e.occupied = true ∧ e.key = some key ∧ m key = some e.value) ∨
        (e.occupied = false ∧ e.key = none ∧ m key = none)) := by
  obtain ⟨i0, e0, h0, h0o⟩ := empty_slot entries (by rw [H.len]; exact hfree)
  obtain ⟨i, hp⟩ := probe_exists entries cap key H.len H.no_tomb i0
    ⟨e0, h0, Or.inl ⟨h0o, H.no_tomb i0 e0 h0 h0o⟩⟩
  have hp1 := hp
  obtain ⟨d, _, _, ⟨e, he, hc⟩, _⟩ := hp1
  refine ⟨i, e, hp, he, ?_⟩
  rcases hc with ⟨ho, hk⟩ | ⟨ho, hk⟩
  · refine Or.inr ⟨ho, hk, ?_⟩
    cases hm : m key with
    | none => rfl
    | some v =>
        exfalso
        obtain ⟨i1, e1, h1, h1o, h1k⟩ := H.present key v hm
        obtain ⟨k1, hk1, _, hp1⟩ := H.stored i1 e1 h1 h1o
        rw [h1k] at hk1
        cases hk1
        have := probe_unique entries cap key i i1 hp hp1
        subst this
        rw [he] at h1
        cases h1
        rw [ho] at h1o
        cases h1o
  · obtain ⟨k1, hk1, hv, _⟩ := H.stored i e he ho
    rw [hk] at hk1
    cases hk1
    exact Or.inl ⟨ho, hk, hv⟩

theorem holds_insert (entries : List SkyTableEntry) (cap : Nat)
    (m : String → Option SkyValue) (H : Holds entries cap m) (k : String) (v : SkyValue)
    (i : Nat) (e : SkyTableEntry) (hp : Probe entries cap k i) (he : entries[i]? = some e)
    (ho : e.occupied = false) (hm : m k = none) :
    Holds (entries.set i ⟨some k, v, true⟩) cap (Function.update m k (some v)) := by
  have hl : i < entries.length := (List.getElem?_eq_some_iff.1 he).1
  have hnot : ∀ key, ¬ Skips entries key i := by
    intro key hs
    exact not_stops_and_skips entries key i ⟨e, he, Or.inl ⟨ho, H.no_tomb i e he ho⟩⟩ hs
  refine ⟨by rw [List.length_set]; exact H.len, ?_, ?_, ?_⟩
  · intro j e1 h1 h1o
    by_cases hji : j = i
    · subst hji
      rw [List.getElem?_set_self hl] at h1
      cases h1
      cases h1o
    · rw [List.getElem?_set_ne (fun h => hji h.symm)] at h1
      exact H.no_tomb j e1 h1 h1o
  · intro j e1 h1 h1o
    by_cases hji : j = i
    · subst hji
      rw [List.getElem?_set_self hl] at h1
      cases h1
      exact ⟨k, rfl, Function.update_same _ _ _,
        probe_set _ _ _ _ _ _ hp (fun hs => absurd hs (hnot k)) (fun _ => Or.inr ⟨rfl, rfl⟩)⟩
    · rw [List.getElem?_set_ne (fun h => hji h.symm)] at h1
      obtain ⟨k1, hk1, hv1, hp1⟩ := H.stored j e1 h1 h1o
      have hne : k1 ≠ k := by
        intro hh
        rw [hh, hm] at hv1
        cases hv1
      exact ⟨k1, hk1, by rw [Function.update_noteq hne]; exact hv1,
        probe_set _ _ _ _ _ _ hp1 (fun hs => absurd hs (hnot k1)) (fun hh => absurd hh hji)⟩
  · intro k1 v1 h1
    by_cases hk : k1 = k
    · subst hk
      exact ⟨i, _, List.getElem?_set_self hl, rfl, rfl⟩
    · rw [Function.update_noteq hk] at h1
      obtain ⟨j, e1, hj, hjo, hjk⟩ := H.present k1 v1 h1
      have hji : j ≠ i := by
        intro hh
        subst hh
        rw [he] at hj
        cases hj
        rw [ho] at hjo
        cases hjo
      exact ⟨j, e1, by rw [List.getElem?_set_ne (fun h => hji h.symm)]; exact hj, hjo, hjk⟩

theorem holds_update (entries : List SkyTableEntry) (cap : Nat)
    (m : String → Option SkyValue) (H : Holds entries cap m) (k : String) (v : SkyValue)
    (i : Nat) (e : SkyTableEntry) (he : entries[i]? = some e)
    (ho : e.occupied = true) (hk : e.key = some k) :
    Holds (entries.set i ⟨e.key, v, true⟩) cap (Function.update m k (some v)) := by
  have hl : i < entries.length := (List.getElem?_eq_some_iff.1 he).1
  have hsk : ∀ key, Skips entries key i →
      (⟨e.key, v, true⟩ : SkyTableEntry).occupied = true ∧
        (⟨e.key, v, true⟩ : SkyTableEntry).key ≠ some key := by
    intro key hs
    obtain ⟨e1, h1, _, h1k⟩ := hs
    rw [he] at h1
    cases h1
    exact ⟨rfl, h1k⟩
  obtain ⟨k0, hk0, _, hpi⟩ := H.stored i e he ho
  rw [hk] at hk0
  cases hk0
  refine ⟨by rw [List.length_set]; exact H.len, ?_, ?_, ?_⟩
  · intro j e1 h1 h1o
    by_cases hji : j = i
    · subst hji
      rw [List.getElem?_set_self hl] at h1
      cases h1
      cases h1o
    · rw [List.getElem?_set_ne (fun h => hji h.symm)] at h1
      exact H.no_tomb j e1 h1 h1o
  · intro j e1 h1 h1o
    by_cases hji : j = i
    · subst hji
      rw [List.getElem?_set_self hl] at h1
      cases h1
      exact ⟨k, hk, Function.update_same _ _ _,
        probe_set _ _ _ _ _ _ hpi (hsk k) (fun _ => Or.inr ⟨rfl, hk⟩)⟩
    · rw [List.getElem?_set_ne (fun h => hji h.symm)] at h1
      obtain ⟨k1, hk1, hv1, hp1⟩ := H.stored j e1 h1 h1o
      have hne : k1 ≠ k := by
        intro hh
        subst hh
        exact hji (probe_unique entries cap k1 j i hp1 hpi)
      exact ⟨k1, hk1, by rw [Function.update_noteq hne]; exact hv1,
        probe_set _ _ _ _ _ _ hp1 (hsk k1) (fun hh => absurd hh hji)⟩
  · intro k1 v1 h1
    by_cases hk1 : k1 = k
    · subst hk1
      exact ⟨i, _, List.getElem?_set_self hl, rfl, hk⟩
    · rw [Function.update_noteq hk1] at h1
      obtain ⟨j, e1, hj, hjo, hjk⟩ := H.present k1 v1 h1
      have hji : j ≠ i := by
        intro hh
        subst hh
        rw [he] at hj
        cases hj
        rw [hk] at hjk
        cases hjk
        exact hk1 rfl
      exact ⟨j, e1, by rw [List.getElem?_set_ne (fun h => hji h.symm)]; exact hj, hjo, hjk⟩

theorem mem_keys_of (entries : List SkyTableEntry) (k : String) :
    k ∈ keys_of entries ↔
      ∃ (i : Nat) (e : SkyTableEntry), entries[i]? = some e ∧ e.occupied = true ∧
        e.key = some k := by
  unfold keys_of
  rw [List.mem_filterMap]
  constructor
  · rintro ⟨e, he, h⟩
    obtain ⟨i, hi⟩ := List.mem_iff_getElem?.1 he
    by_cases ho : e.occupied = true
    · rw [if_pos ho] at h
      exact ⟨i, e, hi, ho, h⟩
    · rw [if_neg ho] at h
      cases h
  · rintro ⟨i, e, hi, ho, hk⟩
    exact ⟨e, List.mem_iff_getElem?.2 ⟨i, hi⟩, by rw [if_pos ho]; exact hk⟩

theorem keys_of_append (a b : List SkyTableEntry) : keys_of (a ++ b) = keys_of a ++ keys_of b :=
  List.filterMap_append _ _ _

theorem occupied_count_append (a b : List SkyTableEntry) :
    occupied_count (a ++ b) = occupied_count a + occupied_count b := by
  unfold occupied_count
  rw [List.filter_append, List.length_append]

theorem restrict_all (entries : List SkyTableEntry) (cap : Nat)
    (m : String → Option SkyValue) (H : Holds entries cap m) :
    restrict m (keys_of entries) = m := by
  funext k
  unfold restrict
  by_cases hk : k ∈ keys_of entries
  · rw [if_pos hk]
  · rw [if_neg hk]
    cases hm : m k with
    | none => rfl
    | some v =>
        exfalso
        exact hk ((mem_keys_of entries k).2 (H.present k v hm))

theorem holds_replicate (cap : Nat) (m : String → Option SkyValue) :
    Holds (List.replicate cap ⟨none, .nil, false⟩) cap (restrict m []) := by
  have hmem : ∀ (i : Nat) (e : SkyTableEntry),
      (List.replicate cap (⟨none, .nil, false⟩ : SkyTableEntry))[i]? = some e →
        e = ⟨none, .nil, false⟩ := by
    intro i e h
    exact List.eq_of_mem_replicate (List.mem_iff_getElem?.2 ⟨i, h⟩)
  refine ⟨List.length_replicate _ _, ?_, ?_, ?_⟩
  · intro i e h _
    rw [hmem i e h]
  · intro i e h ho
    rw [hmem i e h] at ho
    cases ho
  · intro k v h
    simp [restrict] at h

theorem occupied_count_replicate (cap : Nat) :
    occupied_count (List.replicate cap (⟨none, .nil, false⟩ : SkyTableEntry)) = 0 := by
  induction cap with
  | zero => rfl
  | succ n ih => rw [List.replicate_succ, occupied_count_cons, ih]; rfl

theorem adjust_loop_spec (old : List SkyTableEntry) (cap cap1 : Nat)
    (m : String → Option SkyValue) (H : Holds old cap m) (hfree : occupied_count old < cap1) :
    ∀ (rest done new : List SkyTableEntry) (count : Nat), old = done ++ rest →
      Holds new cap1 (restrict m (keys_of done)) → occupied_count new = count →
      count = occupied_count done →
      ∃ new1, adjust_loop cap1 rest new count = some (new1, occupied_count old) ∧
        Holds new1 cap1 m ∧ occupied_count new1 = occupied_count old := by
  intro rest
  induction rest with
  | nil =>
      intro done new count hold hn hc hd
      rw [List.append_nil] at hold
      subst hold
      rw [restrict_all old cap m H] at hn
      exact ⟨new, by rw [adjust_loop, hd], hn, by rw [hc, hd]⟩
  | cons e rest ih =>
      intro done new count hold hn hc hd
      have hold1 : old = (done ++ [e]) ++ rest := by rw [hold]; simp
      have hidx : old[done.length]? = some e := by
        rw [hold, List.getElem?_append_right (le_refl _)]; simp
      by_cases ho : e.occupied = true
      · obtain ⟨k, hk, hv, hp⟩ := H.stored _ e hidx ho
        have hnot : k ∉ keys_of done := by
          intro hmem
          obtain ⟨j, e1, hj, hjo, hjk⟩ := (mem_keys_of done k).1 hmem
          have hjl : j < done.length := (List.getElem?_eq_some_iff.1 hj).1
          have hj1 : old[j]? = some e1 := by
            rw [hold, List.getElem?_append_left hjl]; exact hj
          obtain ⟨k1, hk1, _, hp1⟩ := H.stored j e1 hj1 hjo
          rw [hjk] at hk1
          cases hk1
          have := probe_unique old cap k j done.length hp1 hp
          omega
        have hmk : restrict m (keys_of done) k = none := by
          unfold restrict
          rw [if_neg hnot]
        have hle : occupied_count done + 1 ≤ occupied_count old := by
          rw [hold1, occupied_count_append, occupied_count_append,
            occupied_count_cons e [], if_pos ho]
          omega
        obtain ⟨i, e0, hpi, hei, hcase⟩ := find_entry_spec new cap1 _ hn (by omega) k
        rcases hcase with ⟨_, _, h3⟩ | ⟨h1, _, _⟩
        · rw [hmk] at h3
          cases h3
        · have hins := holds_insert new cap1 _ hn k e.value i e0 hpi hei h1 hmk
          have hm1 : Function.update (restrict m (keys_of done)) k (some e.value) =
              restrict m (keys_of (done ++ [e])) := by
            funext k1
            have hks : keys_of (done ++ [e]) = keys_of done ++ [k] := by
              rw [keys_of_append]
              congr 1
              simp [keys_of, ho, hk]
            unfold restrict
            rw [hks]
            by_cases h : k1 = k
            · subst h
              rw [Function.update_same, if_pos (by simp), hv]
            · rw [Function.update_noteq h]
              by_cases h2 : k1 ∈ keys_of done
              · rw [if_pos h2, if_pos (by simp [h2])]
              · rw [if_neg h2, if_neg (by simp [h2, h])]
          rw [hm1] at hins
          have hcnt := occupied_count_set new i e0 ⟨some k, e.value, true⟩ hei
          rw [h1] at hcnt
          have hcnt1 : occupied_count (new.set i ⟨some k, e.value, true⟩) = count + 1 := by
            simp at hcnt
            omega
          obtain ⟨new1, hres, hH, hC⟩ := ih (done ++ [e]) _ (count + 1) hold1 hins hcnt1
            (by rw [occupied_count_append, occupied_count_cons e [], if_pos ho, hd]; rfl)
          refine ⟨new1, ?_, hH, hC⟩
          rw [adjust_loop, if_neg (by rw [ho]; decide), hk]
          show (match find_entry new cap1 k with
            | none => none
            | some dest => adjust_loop cap1 rest (new.set dest ⟨some k, e.value, true⟩)
                (count + 1)) = _
          rw [find_entry_of_probe new cap1 k i hpi]
          exact hres
      · have ho1 : e.occupied = false := by simpa using ho
        have hks : keys_of (done ++ [e]) = keys_of done := by
          rw [keys_of_append]
          simp [keys_of, ho1]
        obtain ⟨new1, hres, hH, hC⟩ := ih (done ++ [e]) new count hold1 (by rw [hks]; exact hn) hc
            (by rw [occupied_count_append, occupied_count_cons e [], if_neg ho, hd]; rfl)
        refine ⟨new1, ?_, hH, hC⟩
        rw [adjust_loop, if_pos ho1]
        exact hres

theorem adjust_capacity_spec (t : SkyTable) (cap1 : Nat) (m : String → Option SkyValue)
    (H : Holds t.entries t.capacity m) (hfree : occupied_count t.entries < cap1) :
    ∃ new1, adjust_capacity t cap1 = some ⟨new1, occupied_count t.entries, cap1⟩ ∧
      Holds new1 cap1 m ∧ occupied_count new1 = occupied_count t.entries := by
  obtain ⟨new1, h1, h2, h3⟩ := adjust_loop_spec t.entries t.capacity cap1 m H hfree t.entries []
    (List.replicate cap1 ⟨none, .nil, false⟩) 0 rfl (holds_replicate cap1 m)
    (occupied_count_replicate cap1) rfl
  exact ⟨new1, by unfold adjust_capacity; rw [h1]; rfl, h2, h3⟩

theorem occupied_count_pos (entries : List SkyTableEntry) (i : Nat) (e : SkyTableEntry)
    (he : entries[i]? = some e) (ho : e.occupied = true) : 0 < occupied_count entries := by
  have := occupied_count_set entries i e ⟨none, .nil, false⟩ he
  rw [if_pos ho] at this
  simp at this
  omega

theorem grow_spec (t : SkyTable) (m : String → Option SkyValue) (n : Nat) (I : Inv t m n)
    (hn : n < 2 ^ 28) :
    ∃ t1, (if t.count + 1 > t.capacity * 3 / 4 then
          if (if t.capacity < 8 then 8 else t.capacity * 2) < 2 ^ 31 then
            adjust_capacity t (if t.capacity < 8 then 8 else t.capacity * 2)
          else none
        else some t) = some t1 ∧
      Holds t1.entries t1.capacity m ∧ t1.count = occupied_count t1.entries ∧
      t1.count + 1 ≤ t1.capacity * 3 / 4 ∧ 8 ≤ t1.capacity ∧
      (t1.capacity ≤ 8 ∨ t1.capacity / 2 * 3 / 4 ≤ t1.count) ∧ t1.count = t.count := by
  have h1 := I.load
  have h2 := I.cap_form
  have h3 := I.grown
  have h4 := I.calls
  have h5 := I.count_eq
  by_cases hg : t.count + 1 > t.capacity * 3 / 4
  · rw [if_pos hg]
    have hcap : (if t.capacity < 8 then 8 else t.capacity * 2) < 2 ^ 31 := by
      split <;> omega
    rw [if_pos hcap]
    obtain ⟨new1, ha, hH, hC⟩ := adjust_capacity_spec t
      (if t.capacity < 8 then 8 else t.capacity * 2) m I.holds (by split <;> omega)
    refine ⟨_, ha, hH, hC.symm, ?_, ?_, ?_, h5.symm⟩
    · show occupied_count t.entries + 1 ≤ (if t.capacity < 8 then 8 else t.capacity * 2) * 3 / 4
      split <;> omega
    · show 8 ≤ (if t.capacity < 8 then 8 else t.capacity * 2)
      split <;> omega
    · show (if t.capacity < 8 then 8 else t.capacity * 2) ≤ 8 ∨
        (if t.capacity < 8 then 8 else t.capacity * 2) / 2 * 3 / 4 ≤ occupied_count t.entries
      split <;> omega
  · rw [if_neg hg]
    exact ⟨t, rfl, I.holds, h5, by omega, by omega, h3, rfl⟩

theorem sky_table_set_spec (t : SkyTable) (m : String → Option SkyValue) (n : Nat)
    (I : Inv t m n) (hn : n < 2 ^ 28) (k : String) (v : SkyValue) :
    ∃ t1, sky_table_set t k v = some ((m k).isNone, t1) ∧
      Inv t1 (Function.update m k (some v)) (n + 1) := by
  obtain ⟨t1, hg, hH, hC, hL, h8, hG, hE⟩ := grow_spec t m n I hn
  have hcalls := I.calls
  obtain ⟨i, e, hp, he, hcase⟩ := find_entry_spec t1.entries t1.capacity m hH (by omega) k
  have hf := find_entry_of_probe t1.entries t1.capacity k i hp
  unfold sky_table_set
  simp only []
  rw [hg]
  simp only []
  rw [hf]
  simp only []
  rw [he]
  simp only []
  rcases hcase with ⟨ho, hk, hv⟩ | ⟨ho, _, hv⟩
  · have hU := holds_update t1.entries t1.capacity m hH k v i e he ho hk
    have hcnt := occupied_count_set t1.entries i e ⟨e.key, v, true⟩ he
    rw [if_pos ho] at hcnt
    simp only [ho, hv, Bool.not_true, Option.isNone_some, Bool.false_eq_true, if_false]
    refine ⟨_, rfl, hU, ?_, ?_, Or.inr h8, hG, ?_⟩
    · show t1.count = occupied_count (t1.entries.set i ⟨e.key, v, true⟩)
      simp at hcnt
      omega
    · show t1.count ≤ t1.capacity * 3 / 4
      omega
    · show t1.count ≤ n + 1
      omega
  · have hU := holds_insert t1.entries t1.capacity m hH k v i e hp he ho hv
    have hcnt := occupied_count_set t1.entries i e ⟨some k, v, true⟩ he
    rw [ho] at hcnt
    simp only [ho, hv, Bool.not_false, Option.isNone_none, if_true]
    refine ⟨_, rfl, hU, ?_, ?_, Or.inr h8, ?_, ?_⟩
    · show t1.count + 1 = occupied_count (t1.entries.set i ⟨some k, v, true⟩)
      simp at hcnt
      omega
    · show t1.count + 1 ≤ t1.capacity * 3 / 4
      omega
    · show t1.capacity ≤ 8 ∨ t1.capacity / 2 * 3 / 4 ≤ t1.count + 1
      omega
    · show t1.count + 1 ≤ n + 1
      omega

theorem sky_table_get_spec (t : SkyTable) (m : String → Option SkyValue) (n : Nat)
    (I : Inv t m n) (k : String) : sky_table_get t k = some (m k) := by
  have h1 := I.load
  have h5 := I.count_eq
  unfold sky_table_get
  by_cases hc : t.count = 0
  · rw [if_pos hc]
    cases hm : m k with
    | none => rfl
    | some v =>
        exfalso
        obtain ⟨i, e, he, ho, _⟩ := I.holds.present k v hm
        have := occupied_count_pos t.entries i e he ho
        omega
  · rw [if_neg hc]
    obtain ⟨i, e, hp, he, hcase⟩ := find_entry_spec t.entries t.capacity m I.holds (by omega) k
    rw [find_entry_of_probe t.entries t.capacity k i hp]
    simp only []
    rw [he]
    simp only []
    rcases hcase with ⟨ho, _, hv⟩ | ⟨ho, _, hv⟩
    · rw [if_neg (by rw [ho]; decide), hv]
    · rw [if_pos ho, hv]

theorem inv_init : Inv sky_table_init (most_recent []) 0 := by
  refine ⟨⟨rfl, ?_, ?_, ?_⟩, rfl, le_refl _, Or.inl rfl, Or.inl (by decide), le_refl _⟩
  · intro i e h
    simp [sky_table_init] at h
  · intro i e h
    simp [sky_table_init] at h
  · intro k v h
    simp [most_recent] at h

theorem most_recent_snoc (pre : List (String × SkyValue)) (k : String) (v : SkyValue) :
    most_recent (pre ++ [(k, v)]) = Function.update (most_recent pre) k (some v) := by
  funext key
  unfold most_recent
  rw [List.reverse_append, List.reverse_singleton, List.singleton_append, List.find?_cons]
  by_cases h : key = k
  · subst h
    simp
  · rw [Function.update_noteq h]
    have : decide ((k, v).1 = key) = false := by simpa using fun hh => h hh.symm
    rw [this]

theorem most_recent_isNone (pre : List (String × SkyValue)) (k : String) :
    (most_recent pre k).isNone = decide (k ∉ pre.map (fun s => s.1)) := by
  unfold most_recent
  cases h : pre.reverse.find? (fun s => s.1 = k) with
  | none =>
      rw [List.find?_eq_none] at h
      have : k ∉ pre.map (fun s => s.1) := by
        intro hm
        obtain ⟨s, hs, hk⟩ := List.mem_map.1 hm
        exact absurd (h s (List.mem_reverse.2 hs)) (by simpa using hk)
      simp [this]
  | some s =>
      have hs := List.mem_of_find?_eq_some h
      have hk := List.find?_some h
      have : k ∈ pre.map (fun s => s.1) :=
        List.mem_map.2 ⟨s, List.mem_reverse.1 hs, by simpa using hk⟩
      simp [this]

theorem set_all_spec : ∀ (sets pre : List (String × SkyValue)) (t : SkyTable),
    Inv t (most_recent pre) pre.length → pre.length + sets.length ≤ 2 ^ 28 →
    ∃ t1, set_all t sets = some (first_time (pre.map (fun s => s.1)) sets, t1) ∧
      Inv t1 (most_recent (pre ++ sets)) (pre ++ sets).length := by
  intro sets
  induction sets with
  | nil =>
      intro pre t I _
      exact ⟨t, rfl, by rw [List.append_nil]; exact I⟩
  | cons s rest ih =>
      intro pre t I hlen
      obtain ⟨k, v⟩ := s
      rw [List.length_cons] at hlen
      obtain ⟨t1, h1, I1⟩ := sky_table_set_spec t _ _ I (by omega) k v
      rw [← most_recent_snoc] at I1
      have hl : (pre ++ [(k, v)]).length = pre.length + 1 := by simp
      rw [← hl] at I1
      obtain ⟨t2, h2, I2⟩ := ih (pre ++ [(k, v)]) t1 I1 (by rw [hl]; omega)
      have e1 : pre ++ [(k, v)] ++ rest = pre ++ (k, v) :: rest := by simp
      rw [e1] at I2
      refine ⟨t2, ?_, I2⟩
      rw [set_all, h1]
      simp only []
      rw [h2, most_recent_isNone]
      simp [first_time]

/-- C29.  The hash table is a finite map under insertion.  Starting from
the initialised table, every sequence of at most `2 ^ 28` calls of
`sky_table_set` (growth and rehashing included) returns: the flag of each
call is `true` exactly when its key was not set before, and afterwards
`sky_table_get` returns, for every key, `true` with the value of the most
recent `sky_table_set` for that key, and `false` when the key was never
set. -/
theorem table_is_finite_map_under_insertion (sets : List (String × SkyValue))
    (hlen : sets.length ≤ 2 ^ 28) :
    ∃ t, set_all sky_table_init sets = some (first_time [] sets, t) ∧
      (∀ key, sky_table_get t key = some (most_recent sets key)) ∧
      (∀ key, key ∉ sets.map (fun s => s.1) → sky_table_get t key = some none) := by
  obtain ⟨t, h1, I⟩ := set_all_spec sets [] sky_table_init inv_init (by simpa using hlen)
  rw [List.nil_append] at I
  refine ⟨t, h1, fun key => sky_table_get_spec t _ _ I key, fun key hk => ?_⟩
  rw [sky_table_get_spec t _ _ I key]
  have := most_recent_isNone sets key
  rw [decide_eq_true hk] at this
  rw [Option.isNone_iff_eq_none.1 this]

/-- C29 on `eight_sets`. -/
theorem table_is_finite_map_under_insertion_witness :
    eight_sets.length ≤ 2 ^ 28 ∧
    ∃ t, set_all sky_table_init eight_sets = some (first_time [] eight_sets, t) ∧
      (∀ key, sky_table_get t key = some (most_recent eight_sets key)) ∧
      (∀ key, key ∉ eight_sets.map (fun s => s.1) → sky_table_get t key = some none) :=
  ⟨by decide, table_is_finite_map_under_insertion eight_sets (by decide)⟩

/-- The calls of `eight_sets` evaluated: the flags, and the count and the
capacity afterwards. -/
theorem eight_sets_grow_the_table :
    (set_all sky_table_init eight_sets).map (fun r => (r.1, r.2.count, r.2.capacity)) =
      some ([true, true, true, true, true, true, false, true], 7, 16) ∧
    first_time [] eight_sets = [true, true, true, true, true, true, false, true] := by
  constructor <;> decide!

/-- C30.  The keys `a` and `i` have the same hash modulo 8, so in a table
holding both `i` lies in the entry after the one of `a`.  Before the delete
`sky_table_get` finds `i`; `sky_table_delete` of `a` returns `true` and
leaves an entry with NULL key and `occupied = false`, which `find_entry`
takes for an empty one: afterwards `sky_table_get` returns `false` for `i`,
and `sky_table_set` of `i` returns `true` as for a new key. -/
theorem delete_cuts_the_probe_sequence :
    hash_string "a" % 8 = 4 ∧ hash_string "i" % 8 = 4 ∧
    ∃ t t1, set_all sky_table_init [("a", .int 1), ("i", .int 2)] = some ([true, true], t) ∧
      sky_table_get t "i" = some (some (.int 2)) ∧
      sky_table_delete t "a" = some (true, t1) ∧
      sky_table_get t1 "a" = some none ∧
      sky_table_get t1 "i" = some none ∧
      (sky_table_set t1 "i" (.int 3)).map (fun r => r.1) = some true :=
  ⟨by decide!, by decide!, _, _, rfl, rfl, rfl, rfl, rfl, rfl⟩

theorem find_entry_loop_none (entries : List SkyTableEntry) (cap : Nat) (key : String)
    (hlen : entries.length = cap) :
    ∀ (fuel s : Nat) (tomb : Option Nat), s < cap →
      find_entry_loop entries cap key fuel s tomb = none →
      ∀ j, j < fuel → Continues entries key ((s + j) % cap) := by
  intro fuel
  induction fuel with
  | zero => intro s tomb _ _ j hj; omega
  | succ f ih =>
      intro s tomb hs h j hj
      have he : entries[s]? = some entries[s] := List.getElem?_eq_getElem (by omega)
      have e1 : ∀ j, ((s + 1) % cap + j) % cap = (s + (j + 1)) % cap := by
        intro j
        rw [Nat.mod_add_mod]
        congr 1
        omega
      have e0 : (s + 0) % cap = s := by rw [Nat.add_zero, Nat.mod_eq_of_lt hs]
      rw [find_entry_loop, he] at h
      simp only [] at h
      by_cases ho : entries[s].occupied = false
      · rw [if_pos ho] at h
        by_cases hk : entries[s].key = none
        · rw [if_pos hk] at h
          cases h
        · rw [if_neg hk] at h
          cases j with
          | zero => rw [e0]; exact ⟨_, he, Or.inl ⟨ho, hk⟩⟩
          | succ j =>
              rw [← e1]
              exact ih _ _ (Nat.mod_lt _ (by omega)) h j (by omega)
      · rw [if_neg ho] at h
        have ho1 : entries[s].occupied = true := by simpa using ho
        by_cases hk : entries[s].key = some key
        · rw [if_pos hk] at h
          cases h
        · rw [if_neg hk] at h
          cases j with
          | zero => rw [e0]; exact ⟨_, he, Or.inr ⟨ho1, hk⟩⟩
          | succ j =>
              rw [← e1]
              exact ih _ _ (Nat.mod_lt _ (by omega)) h j (by omega)

theorem find_entry_loop_continues (entries : List SkyTableEntry) (cap : Nat) (key : String)
    (hall : ∀ i, i < cap → Continues entries key i) (hcap : 0 < cap) :
    ∀ (fuel s : Nat) (tomb : Option Nat), s < cap →
      find_entry_loop entries cap key fuel s tomb = none := by
  intro fuel
  induction fuel with
  | zero => intro s tomb _; rfl
  | succ f ih =>
      intro s tomb hs
      obtain ⟨e, he, hc⟩ := hall s hs
      rw [find_entry_loop, he]
      simp only []
      rcases hc with ⟨ho, hk⟩ | ⟨ho, hk⟩
      · rw [if_pos ho, if_neg hk]
        exact ih _ _ (Nat.mod_lt _ hcap)
      · rw [if_neg (by rw [ho]; decide), if_neg hk]
        exact ih _ _ (Nat.mod_lt _ hcap)

/-- The probes `find_entry` is given suffice: when the loop has not
returned after `capacity` probes, it does not return after any number of
probes. -/
theorem find_entry_none_is_divergence (entries : List SkyTableEntry) (cap : Nat) (key : String)
    (hlen : entries.length = cap) (hcap : 0 < cap)
    (h : find_entry entries cap key = none) (fuel : Nat) :
    find_entry_loop entries cap key fuel (hash_string key % cap) none = none := by
  unfold find_entry at h
  rw [if_neg (by omega)] at h
  have hs : hash_string key % cap < cap := Nat.mod_lt _ hcap
  have hc := find_entry_loop_none entries cap key hlen cap _ none hs h
  refine find_entry_loop_continues entries cap key (fun i hi => ?_) hcap fuel _ none hs
  obtain ⟨d, hd, hr⟩ := reach_index (hash_string key % cap) cap i hi
  rw [← hr]
  exact hc d hd

/-- More probes do not change what the loop of `find_entry` returns. -/
theorem find_entry_loop_more_fuel (entries : List SkyTableEntry) (cap : Nat) (key : String) :
    ∀ (fuel extra s : Nat) (tomb : Option Nat) (r : Nat),
      find_entry_loop entries cap key fuel s tomb = some r →
      find_entry_loop entries cap key (fuel + extra) s tomb = some r := by
  intro fuel
  induction fuel with
  | zero => intro extra s tomb r h; cases h
  | succ f ih =>
      intro extra s tomb r h
      rw [show f + 1 + extra = (f + extra) + 1 by omega, find_entry_loop]
      rw [find_entry_loop] at h
      cases he : entries[s]? with
      | none => rw [he] at h; cases h
      | some e =>
          rw [he] at h
          simp only [] at h ⊢
          by_cases ho : e.occupied = false
          · rw [if_pos ho] at h ⊢
            by_cases hk : e.key = none
            · rw [if_pos hk] at h ⊢
              exact h
            · rw [if_neg hk] at h ⊢
              exact ih _ _ _ _ h
          · rw [if_neg ho] at h ⊢
            by_cases hk : e.key = some key
            · rw [if_pos hk] at h ⊢
              exact h
            · rw [if_neg hk] at h ⊢
              exact ih _ _ _ _ h

/-- The association list the machine keeps for its globals agrees with
`most_recent`: after the same assignments, `Sky.sky_table_get` returns the
value of the most recent one. -/
theorem association_list_is_most_recent (sets : List (String × SkyValue)) (key : String) :
    Sky.sky_table_get (sets.foldl (fun m s => Sky.sky_table_set m s.1 s.2) []) key =
      most_recent sets key := by
  induction sets using List.reverseRecOn with
  | nil => rfl
  | append_singleton pre s ih =>
      obtain ⟨k, v⟩ := s
      rw [List.foldl_append, most_recent_snoc]
      show Sky.sky_table_get (Sky.sky_table_set _ k v) key = _
      by_cases h : key = k
      · subst h
        rw [Sky.sky_table_get_set_same, Function.update_same]
      · rw [Sky.sky_table_get_set_other _ _ _ _ h, Function.update_noteq h]
        exact ih

/-- The hash table of `table.c` and the association list of the machine
return the same for every key, after the same assignments. -/
theorem hash_table_refines_association_list (sets : List (String × SkyValue))
    (hlen : sets.length ≤ 2 ^ 28) :
    ∃ flags t, set_all sky_table_init sets = some (flags, t) ∧
      ∀ key, sky_table_get t key =
        some (Sky.sky_table_get (sets.foldl (fun m s => Sky.sky_table_set m s.1 s.2) []) key) := by
  obtain ⟨t, h1, I⟩ := set_all_spec sets [] sky_table_init inv_init (by simpa using hlen)
  rw [List.nil_append] at I
  exact ⟨_, t, h1, fun key => by
    rw [sky_table_get_spec t _ _ I key, association_list_is_most_recent]⟩

end HashTable

/-! ## Separators, field access, long names, division and huge loops -/

/-- C31.  The two scenario sources of the specification that separate
statements with `;` are rejected: `parse_statement` has no case for the
token `;`, which reaches `parse_primary` and is reported as `Expected
expression`, and `sky_parser_parse` returns NULL with `had_error` set.  With
a newline in place of each `;` both sources parse. -/
theorem semicolon_is_not_a_separator :
    parse_outcome 60 (c_str "let x = \"Hello \"; print(x + \"Sky!\")") =
      some (none, true, false) ∧
    parse_outcome 60 (c_str "let i = 0; while i < 3 \x7b print(i); i = i + 1 \x7d") =
      some (none, true, false) ∧
    parse_outcome 60 (c_str "let x = \"Hello \"\nprint(x + \"Sky!\")") =
      some (some (.program 1
        [ .let_ 1 "x" none (some (.string_literal 1 "Hello ")),
          .print_stmt 2 (.binary 2 TOKEN_PLUS (.identifier 2 "x")
            (.string_literal 2 "Sky!")) ]), false, false) ∧
    (parse_outcome 60 (c_str "let i = 0\nwhile i < 3 \x7b print(i)\ni = i + 1 \x7d")).map
      (fun r => (r.1.isSome, r.2)) = some (true, false, false) ∧
    (lex_source (c_str "a; b")).map (fun ts => ts.map (fun t => t.type)) =
      some [TOKEN_IDENTIFIER, TOKEN_SEMICOLON, TOKEN_IDENTIFIER, TOKEN_EOF] :=
  ⟨same_outcome_sound _ _ (by decide!), same_outcome_sound _ _ (by decide!),
    same_outcome_sound _ _ (by decide!), by decide!, by decide!⟩

/-- C32.  An `if` without else pops twice on the truthy path.  The code of
`if true { }` is `TRUE`, `JUMP_IF_FALSE 1`, `POP`, `POP`: run on a machine
whose stack holds one value, the truthy path executes both `POP`s and ends
at depth 0, the value below the condition gone; the falsy path of
`if false { }` jumps to the second `POP` and ends at depth 1, as does
`if true { } else { }`, whose `JUMP` skips the second `POP`.  In the source
`if true { let a = 1` / `if true { }` / `let b = 2` / `print(b) } else { }`
the inner `if` pops the cell of `a`, and `print(b)` prints `true`; with
`if false { }` in its place it prints `2`. -/
theorem if_without_else_pops_twice :
    (source_chunk 40 (c_str "if true \x7b \x7d")).map (fun ch => ch.code) =
      some [OP_TRUE.toByte, OP_JUMP_IF_FALSE.toByte, 0, 1, OP_POP.toByte, OP_POP.toByte,
        OP_HALT.toByte] ∧
    (source_chunk 40 (c_str "if true \x7b \x7d")).bind (fun ch =>
      (steps ch 4 (sky_vm_push sky_vm_init (.int 7))).map (fun vm => (vm.ip, vm.stack_top))) =
      some (6, 0) ∧
    (source_chunk 40 (c_str "if false \x7b \x7d")).bind (fun ch =>
      (steps ch 3 (sky_vm_push sky_vm_init (.int 7))).map (fun vm => (vm.ip, vm.stack_top))) =
      some (6, 1) ∧
    (source_chunk 40 (c_str "if true \x7b \x7d else \x7b \x7d")).bind (fun ch =>
      (steps ch 4 (sky_vm_push sky_vm_init (.int 7))).map (fun vm => (vm.ip, vm.stack_top))) =
      some (9, 1) ∧
    (run_source 60 100 (c_str
      "if true \x7b let a = 1\nif true \x7b \x7d\nlet b = 2\nprint(b) \x7d else \x7b \x7d")).bind
      RunResult.stdout = some ["true", "\n"] ∧
    (run_source 60 100 (c_str
      "if true \x7b let a = 1\nif false \x7b \x7d\nlet b = 2\nprint(b) \x7d else \x7b \x7d")).bind
      RunResult.stdout = some ["2", "\n"] := by
  refine ⟨?_, ?_, ?_, ?_, ?_, ?_⟩ <;> decide!

/-- C35.  The machine does not consume the operand of `GET_FIELD`.  The
source `let x = 1` / `print(x.f)` compiles to `CONSTANT 0`, `SET_GLOBAL 1`,
`GET_GLOBAL 2`, `GET_FIELD 3`, `PRINT`, `HALT`, with instructions at the
offsets 0, 2, 4, 6, 8, 9.  After the fourth instruction, `GET_FIELD` at
offset 6, the instruction pointer is 7, the offset of the operand; the
machine fetches the operand 3 as an opcode, which is `TRUE`, and the
program prints `true` instead of the value of `x`. -/
theorem get_field_operand_is_fetched_as_opcode :
    (source_chunk 40 (c_str "let x = 1\nprint(x.f)")).map (fun ch => ch.code) =
      some [OP_CONSTANT.toByte, 0, OP_SET_GLOBAL.toByte, 1, OP_GET_GLOBAL.toByte, 2,
        OP_GET_FIELD.toByte, 3, OP_PRINT.toByte, OP_HALT.toByte] ∧
    (source_chunk 40 (c_str "let x = 1\nprint(x.f)")).map sky_disassemble_chunk =
      some [0, 2, 4, 6, 8, 9] ∧
    (source_chunk 40 (c_str "let x = 1\nprint(x.f)")).bind (fun ch =>
      (steps ch 3 sky_vm_init).map (fun vm => (vm.ip, vm.stack_top))) = some (6, 2) ∧
    (source_chunk 40 (c_str "let x = 1\nprint(x.f)")).bind (fun ch =>
      (steps ch 4 sky_vm_init).map (fun vm => (vm.ip, vm.stack_top))) = some (7, 2) ∧
    (source_chunk 40 (c_str "let x = 1\nprint(x.f)")).bind (fun ch =>
      (steps ch 5 sky_vm_init).map (fun vm => (vm.ip, vm.stack_top))) = some (8, 3) ∧
    SkyOpCode.ofByte 3 = some OP_TRUE ∧
    (run_source 40 100 (c_str "let x = 1\nprint(x.f)")).bind RunResult.stdout =
      some ["true", "\n"] ∧
    (∀ (chunk : SkyChunk) (vm : SkyVM), exec chunk vm OP_GET_FIELD = .continue_ vm ∧
      exec chunk vm OP_SET_FIELD = .continue_ vm) := by
  refine ⟨?_, ?_, ?_, ?_, ?_, ?_, ?_, fun chunk vm => ⟨rfl, rfl⟩⟩ <;> decide!

/-- C37.  A backslash as the last character before the end of input makes
`string_token` step over the terminator.  In the source `"\` the loop of
`string_token` stands at offset 1 on the backslash, which is neither `"`
nor the terminator; its body calls `advance_char` twice without a test in
between, the second call from offset 2, where the terminator lies, so the
scan stands at offset 3, behind a source of two bytes and its terminator,
and the call of `sky_lexer_next` is undefined.  The same holds for the
source `x = "abc\` at its second token. -/
theorem backslash_before_end_skips_the_terminator :
    peek (lexer_at [34, 92] 0 1) = 92 ∧ is_at_end (lexer_at [34, 92] 0 1) = false ∧
    is_at_end (advance_char (lexer_at [34, 92] 0 1)) = true ∧
    (advance_char (advance_char (lexer_at [34, 92] 0 1))).current = 3 ∧
    [34, 92].length = 2 ∧
    string_loop 3 (lexer_at [34, 92] 0 1) = none ∧
    sky_lexer_next (sky_lexer_init (c_str "\"\\")) = none ∧
    lex_source (c_str "x = \"abc\\") = none ∧
    (lex_source (c_str "x = \"abc\\\\")).map (fun ts => ts.map (fun t => t.type)) =
      some [TOKEN_IDENTIFIER, TOKEN_ASSIGN, TOKEN_ERROR, TOKEN_EOF] := by
  refine ⟨?_, ?_, ?_, ?_, ?_, ?_, ?_, ?_, ?_⟩ <;> decide!

theorem strncpy127_short (name : String) (h : name.length ≤ 127) : strncpy127 name = name := by
  unfold strncpy127
  have : name.data.take 127 = name.data := List.take_of_length_le h
  rw [this]

theorem resolve_local_after_add_local (c : SkyCompiler) (name : String)
    (h : name.length ≤ 127) (hc : c.local_count < SKY_MAX_LOCALS) :
    (add_local c name).1 = c.local_count ∧
      resolve_local (add_local c name).2 name = c.local_count := by
  have hn : ¬ c.local_count ≥ SKY_MAX_LOCALS := by omega
  unfold add_local
  rw [if_neg hn]
  refine ⟨rfl, ?_⟩
  unfold resolve_local SkyCompiler.local_count
  simp only [List.length_append, List.length_singleton]
  rw [resolve_local_loop]
  simp [strncpy127_short name h]

/-- C39.  A local whose name has 128 bytes is not found again.  `add_local`
keeps the first 127 bytes of the name; `resolve_local` compares the stored
name with the whole name and returns -1, and it returns the slot for the
distinct name made of the first 127 bytes.  In the source
`if true { let NAME = 5` / `print(NAME) } else { }` with such a name the
read compiles to `GET_GLOBAL` and the run ends in `VM_RUNTIME_ERROR`; with
the first 127 bytes as the name read, it prints 5. -/
theorem long_local_name_is_not_resolved :
    long_name.length = 128 ∧
    (add_local (sky_compiler_init sky_chunk_init) long_name).1 = 0 ∧
    resolve_local (add_local (sky_compiler_init sky_chunk_init) long_name).2 long_name = -1 ∧
    resolve_local (add_local (sky_compiler_init sky_chunk_init) long_name).2
      ⟨List.replicate 127 'a'⟩ = 0 ∧
    (source_chunk 60 (source_local_read (List.replicate 128 97) (List.replicate 128 97))).map
      (fun ch => ch.code) =
      some [OP_TRUE.toByte, OP_JUMP_IF_FALSE.toByte, 0, 10, OP_POP.toByte,
        OP_CONSTANT.toByte, 0, OP_GET_GLOBAL.toByte, 1, OP_PRINT.toByte, OP_POP.toByte,
        OP_JUMP.toByte, 0, 1, OP_POP.toByte, OP_HALT.toByte] ∧
    (run_source 60 100
      (source_local_read (List.replicate 128 97) (List.replicate 128 97))).bind
      RunResult.result = some VM_RUNTIME_ERROR ∧
    (run_source 60 100
      (source_local_read (List.replicate 128 97) (List.replicate 127 97))).bind
      RunResult.stdout = some ["5", "\n"] ∧
    (run_source 60 100
      (source_local_read (List.replicate 127 97) (List.replicate 127 97))).bind
      RunResult.stdout = some ["5", "\n"] := by
  refine ⟨?_, ?_, ?_, ?_, ?_, ?_, ?_, ?_⟩ <;> decide!

/-- C40.  `DIV` and `MOD` test the divisor for 0 only.  With the operands
`INT64_MIN` and -1 both reach the C operator, whose behaviour is undefined
because the quotient `2 ^ 63` is not an `int64_t`; the source
`print((0 - 9223372036854775807 - 1) / (0 - 1))` and the same with `%` run
into it.  For every other pair of Int operands with a divisor other than 0
the truncated quotient and the remainder are pushed. -/
theorem int64_min_by_minus_one_is_not_rejected :
    op_div (.int INT64_MIN) (.int (-1)) = .undefined ∧
    op_mod (.int INT64_MIN) (.int (-1)) = .undefined ∧
    (run_source 60 100 (c_str "print((0 - 9223372036854775807 - 1) / (0 - 1))")).map
      RunResult.is_undefined = some true ∧
    (run_source 60 100 (c_str "print((0 - 9223372036854775807 - 1) % (0 - 1))")).map
      RunResult.is_undefined = some true ∧
    (run_source 60 100 (c_str "print((0 - 9223372036854775807) / (0 - 1))")).bind
      RunResult.stdout = some ["9223372036854775807", "\n"] ∧
    (∀ a b : Int, b ≠ 0 → ¬ (a = INT64_MIN ∧ b = -1) →
      op_div (.int a) (.int b) = .value (.int (Int.tdiv a b)) ∧
      op_mod (.int a) (.int b) = .value (.int (Int.tmod a b))) := by
  refine ⟨rfl, rfl, by decide!, by decide!, by decide!, fun a b hb hab => ⟨?_, ?_⟩⟩
  · have : div_by_zero (.int b) = false := by simp [div_by_zero, hb]
    simp only [op_div, this, Bool.false_eq_true, if_false, if_neg hab]
  · simp only [op_mod, if_neg hb, if_neg hab]

theorem compile_nodes_nil_had_error (n : Nat) :
    ∀ c : SkyCompiler, (compile_nodes (nil_statements n) c).had_error = c.had_error := by
  induction n with
  | zero => intro c; rfl
  | succ n ih =>
      intro c
      show (compile_nodes (nil_statements n)
        (emit_byte (emit_byte c OP_NIL.toByte 1) OP_POP.toByte 1)).had_error = _
      rw [ih]
      rfl

/-- The compiled `while true { nil ... nil }` with `n` statements whose
exit jump fits: no compile error, `JUMP_BACK` at offset `2 n + 5` (the loop
starts at offset 0), followed by the two low bytes of `2 n + 8`. -/
theorem while_nils_compiled (n : Nat) (hn : 2 * n + 4 ≤ 0xffff) :
    (sky_compiler_compile (sky_compiler_init sky_chunk_init) (while_nils n)).had_error = false ∧
    (sky_compiler_compile (sky_compiler_init sky_chunk_init) (while_nils n)).code_count =
      2 * n + 9 ∧
    (sky_compiler_compile (sky_compiler_init sky_chunk_init) (while_nils n)).chunk.code[2 * n + 5]? =
      some OP_JUMP_BACK.toByte ∧
    (sky_compiler_compile (sky_compiler_init sky_chunk_init) (while_nils n)).chunk.code[2 * n + 6]? =
      some (((2 * n + 8) >>> 8) &&& 0xff) ∧
    (sky_compiler_compile (sky_compiler_init sky_chunk_init) (while_nils n)).chunk.code[2 * n + 7]? =
      some ((2 * n + 8) &&& 0xff) := by
  let c0 := sky_compiler_init sky_chunk_init
  let c2 := emit_byte (emit_jump (compile_node (.bool_literal 1 true) c0) OP_JUMP_IF_FALSE 1).2
    OP_POP.toByte 1
  let c3 := compile_nodes (nil_statements n) c2
  let c4 := emit_jump_back c3 c0.code_count 1
  have hr : sky_compiler_compile c0 (while_nils n) =
      emit_byte (patch_jump c4 (emit_jump (compile_node (.bool_literal 1 true) c0)
        OP_JUMP_IF_FALSE 1).1) OP_POP.toByte 1 := rfl
  have hoff : (emit_jump (compile_node (.bool_literal 1 true) c0) OP_JUMP_IF_FALSE 1).1 = 2 := rfl
  have h2 : c2.code_count = 5 := rfl
  have h3 : c3.code_count = 2 * n + 5 := by
    show (compile_nodes (nil_statements n) c2).code_count = _
    rw [compile_nodes_nil_statements, h2]; omega
  have h3e : c3.had_error = false := by
    show (compile_nodes (nil_statements n) c2).had_error = _
    rw [compile_nodes_nil_had_error]; rfl
  have h4c : c4.chunk.code = c3.chunk.code ++
      [33, ((2 * n + 8) >>> 8) &&& 0xff, (2 * n + 8) &&& 0xff] := by
    show (emit_jump_back c3 c0.code_count 1).chunk.code = _
    rw [emit_jump_back_code, h3]
    rfl
  have h3l : c3.chunk.code.length = 2 * n + 5 := h3
  have h4 : c4.code_count = 2 * n + 8 := by
    show c4.chunk.code.length = _
    rw [h4c, List.length_append, h3l]; rfl
  have hle : c4.code_count - 2 - 2 ≤ 0xffff := by rw [h4]; omega
  obtain ⟨_, hpe⟩ := patch_jump_of_le c4 2 hle
  have hget : ∀ k, k < 3 → (sky_compiler_compile c0 (while_nils n)).chunk.code[2 * n + 5 + k]? =
      [33, ((2 * n + 8) >>> 8) &&& 0xff, (2 * n + 8) &&& 0xff][k]? := by
    intro k hk
    have hlen : (patch_jump c4 2).chunk.code.length = 2 * n + 8 := by
      have := patch_jump_code_count c4 2
      rw [SkyCompiler.code_count, SkyCompiler.code_count] at this
      rw [this]; exact h4
    rw [hr, hoff, emit_byte_code, List.getElem?_append_left (by rw [hlen]; omega),
      patch_jump_getElem c4 2 _ (by omega) (by omega), h4c, ← h3l, getElem?_append_add]
  refine ⟨?_, ?_, hget 0 (by omega), hget 1 (by omega), hget 2 (by omega)⟩
  · rw [hr, hoff, emit_byte_had_error, hpe]
    exact h3e
  · rw [hr, hoff]
    show (emit_byte (patch_jump c4 2) OP_POP.toByte 1).chunk.code.length = _
    have := patch_jump_code_count c4 2
    rw [SkyCompiler.code_count, SkyCompiler.code_count] at this
    rw [emit_byte_code, List.length_append, this]
    show c4.code_count + 1 = _
    rw [h4]

/-- C33.  `while true { nil ... nil }` with 32764 statements `nil` compiles
without error: the exit jump spans 65532 bytes, which `patch_jump` accepts.
The loop starts at offset 0 and its `JUMP_BACK` stands at offset 65533, so
the operand should be 65536; the compiler writes the two low bytes of it,
0 and 0, without a test.  On the machine this `JUMP_BACK` goes back 0 bytes:
from offset 65533 the instruction pointer goes to 65536, the `POP` behind
the loop, and not to the start of the loop.  With one statement in the body
the operand is 10 and leads from offset 7 back to offset 0. -/
theorem huge_loop_jumps_back_by_zero :
    (sky_compiler_compile (sky_compiler_init sky_chunk_init) (while_nils 32764)).had_error =
      false ∧
    (sky_compiler_compile (sky_compiler_init sky_chunk_init) (while_nils 32764)).chunk.code[65533]? =
      some OP_JUMP_BACK.toByte ∧
    (sky_compiler_compile (sky_compiler_init sky_chunk_init) (while_nils 32764)).chunk.code[65534]? =
      some 0 ∧
    (sky_compiler_compile (sky_compiler_init sky_chunk_init) (while_nils 32764)).chunk.code[65535]? =
      some 0 ∧
    65533 - 0 + 3 = 65536 ∧
    (∀ vm : SkyVM, vm.ip = 65533 →
      step (sky_compiler_compile (sky_compiler_init sky_chunk_init) (while_nils 32764)).chunk vm =
        .continue_ { vm with ip := 65536 }) ∧
    (sky_compiler_compile (sky_compiler_init sky_chunk_init) (while_nils 1)).chunk.code =
      [OP_TRUE.toByte, OP_JUMP_IF_FALSE.toByte, 0, 6, OP_POP.toByte, OP_NIL.toByte,
        OP_POP.toByte, OP_JUMP_BACK.toByte, 0, 10, OP_POP.toByte] := by
  obtain ⟨h1, _, h3, h4, h5⟩ := while_nils_compiled 32764 (by norm_num)
  have e4 : ((2 * 32764 + 8) >>> 8) &&& 0xff = 0 := by decide
  have e5 : (2 * 32764 + 8) &&& 0xff = 0 := by decide
  rw [e4] at h4
  rw [e5] at h5
  refine ⟨h1, h3, h4, h5, rfl, fun vm hvm => ?_, by decide!⟩
  have := step_jump_back
    (sky_compiler_compile (sky_compiler_init sky_chunk_init) (while_nils 32764)).chunk vm 0 0
    (by rw [hvm]; exact h3) (by rw [hvm]; exact h4) (by rw [hvm]; exact h5) (by simp)
  rw [this, hvm]
  rfl

/-! ## Scope handling -/

theorem scoped_of_same (c c1 : SkyCompiler) (h : SameScope c c1) : Scoped c c1 := by
  intro _
  refine ⟨h.2, ⟨[], by rw [h.1, List.append_nil], fun l hl => by cases hl⟩, fun hc => ?_⟩
  show c1.locals.length ≤ _
  rw [h.1]; exact hc

theorem scoped_refl (c : SkyCompiler) : Scoped c c := scoped_of_same c c ⟨rfl, rfl⟩

theorem scoped_trans {a b c : SkyCompiler} (h1 : Scoped a b) (h2 : Scoped b c) : Scoped a c := by
  intro ha
  obtain ⟨d1, ⟨e1, l1, x1⟩, n1⟩ := h1 ha
  have hb : LocalsOk b := by
    intro l hl
    rw [l1, List.mem_append] at hl
    rw [d1]
    rcases hl with hl | hl
    · exact ha l hl
    · exact le_of_eq (x1 l hl)
  obtain ⟨d2, ⟨e2, l2, x2⟩, n2⟩ := h2 hb
  refine ⟨d2.trans d1, ⟨e1 ++ e2, by rw [l2, l1, List.append_assoc], fun l hl => ?_⟩,
    fun hc => n2 (n1 hc)⟩
  rcases List.mem_append.1 hl with hl | hl
  · exact x1 l hl
  · rw [← d1]; exact x2 l hl

theorem scoped_emit_byte (c : SkyCompiler) (b : Nat) (line : Int) :
    Scoped c (emit_byte c b line) := scoped_of_same _ _ (same_scope_emit_byte c b line)

theorem scoped_emit_bytes (c : SkyCompiler) (b1 b2 : Nat) (line : Int) :
    Scoped c (emit_bytes c b1 b2 line) := scoped_of_same _ _ (same_scope_emit_bytes c b1 b2 line)

theorem scoped_make_constant (c : SkyCompiler) (v : SkyValue) :
    Scoped c (make_constant c v).2 := scoped_of_same _ _ (same_scope_make_constant c v)

theorem scoped_emit_constant (c : SkyCompiler) (v : SkyValue) (line : Int) :
    Scoped c (emit_constant c v line) :=
  scoped_trans (scoped_make_constant c v) (scoped_emit_bytes _ _ _ line)

theorem scoped_emit_jump (c : SkyCompiler) (op : SkyOpCode) (line : Int) :
    Scoped c (emit_jump c op line).2 := scoped_of_same _ _ (same_scope_emit_jump c op line)

theorem scoped_emit_jump_back (c : SkyCompiler) (loop_start : Nat) (line : Int) :
    Scoped c (emit_jump_back c loop_start line) :=
  scoped_of_same _ _ (same_scope_emit_jump_back c loop_start line)

theorem scoped_patch_jump (c : SkyCompiler) (offset : Nat) : Scoped c (patch_jump c offset) :=
  scoped_of_same _ _ (same_scope_patch_jump c offset)

theorem scoped_set_error (c : SkyCompiler) : Scoped c { c with had_error := true } :=
  scoped_of_same _ _ ⟨rfl, rfl⟩

theorem scoped_add_local (c : SkyCompiler) (name : String) : Scoped c (add_local c name).2 := by
  intro _
  unfold add_local
  by_cases h : c.local_count ≥ SKY_MAX_LOCALS
  · rw [if_pos h]
    exact ⟨rfl, ⟨[], by simp, fun l hl => by cases hl⟩, fun hc => hc⟩
  · rw [if_neg h]
    refine ⟨rfl, ⟨[⟨strncpy127 name, c.scope_depth⟩], rfl, fun l hl => ?_⟩, fun _ => ?_⟩
    · rw [List.mem_singleton] at hl
      rw [hl]
    · show (c.locals ++ [_]).length ≤ _
      rw [List.length_append, List.length_singleton]
      have : c.locals.length < SKY_MAX_LOCALS := by
        have := h
        unfold SkyCompiler.local_count at this
        omega
      omega

/-- The loop of `end_scope` over the locals `base ++ extra`, of which those
of `extra` lie deeper than the scope and those of `base` do not: one `POP`
for each local of `extra`, and `base` is left. -/
theorem end_scope_loop_pops (line : Int) (base : List Local) :
    ∀ (r : List Local) (c : SkyCompiler), (∀ l ∈ r, l.depth > c.scope_depth) →
      (∀ l ∈ base, l.depth ≤ c.scope_depth) →
      (end_scope_loop c line (r ++ base.reverse)).locals = base ∧
      (end_scope_loop c line (r ++ base.reverse)).scope_depth = c.scope_depth ∧
      (end_scope_loop c line (r ++ base.reverse)).had_error = c.had_error ∧
      (end_scope_loop c line (r ++ base.reverse)).chunk.code =
        c.chunk.code ++ List.replicate r.length OP_POP.toByte := by
  intro r
  induction r with
  | nil =>
      intro c _ hb
      rw [List.nil_append, end_scope_loop_none c line base.reverse
        (fun l hl => hb l (List.mem_reverse.1 hl))]
      simp
  | cons l r ih =>
      intro c hr hb
      have hl : l.depth > c.scope_depth := hr l (List.mem_cons_self _ _)
      rw [List.cons_append, end_scope_loop, if_pos hl]
      obtain ⟨a1, a2, a3, a4⟩ := ih (emit_byte c OP_POP.toByte line)
        (fun x hx => hr x (List.mem_cons_of_mem _ hx)) hb
      refine ⟨a1, a2, a3, ?_⟩
      rw [a4, emit_byte_code, List.length_cons, List.replicate_succ, List.append_assoc]
      rfl

/-- Closing a scope: when the statements compiled since `begin_scope` only
added locals at the depth of the scope, `end_scope` emits one `POP` for
each and leaves the locals and the depth as they were before
`begin_scope`. -/
theorem end_scope_restores (c X : SkyCompiler) (line : Int) (hc : LocalsOk c)
    (h : Scoped (begin_scope c) X) :
    ∃ extra, X.locals = c.locals ++ extra ∧ (∀ l ∈ extra, l.depth = c.scope_depth + 1) ∧
      X.scope_depth = c.scope_depth + 1 ∧
      (end_scope X line).locals = c.locals ∧ (end_scope X line).scope_depth = c.scope_depth ∧
      (end_scope X line).had_error = X.had_error ∧
      (end_scope X line).chunk.code =
        X.chunk.code ++ List.replicate extra.length OP_POP.toByte := by
  obtain ⟨d1, ⟨extra, l1, x1⟩, _⟩ := h hc.begin_scope
  have d1' : X.scope_depth = c.scope_depth + 1 := d1
  have l1' : X.locals = c.locals ++ extra := l1
  have x1' : ∀ l ∈ extra, l.depth = c.scope_depth + 1 := x1
  have e : end_scope X line =
      end_scope_loop { X with scope_depth := X.scope_depth - 1 } line
        (extra.reverse ++ c.locals.reverse) := by
    unfold end_scope
    dsimp only
    rw [l1', List.reverse_append]
  have hd : X.scope_depth - 1 = c.scope_depth := by rw [d1']; omega
  obtain ⟨a1, a2, a3, a4⟩ := end_scope_loop_pops line c.locals extra.reverse
    { X with scope_depth := X.scope_depth - 1 }
    (fun l hl => by
      show l.depth > X.scope_depth - 1
      rw [hd, x1' l (List.mem_reverse.1 hl)]; omega)
    (fun l hl => by
      show l.depth ≤ X.scope_depth - 1
      rw [hd]; exact hc l hl)
  refine ⟨extra, l1', x1', d1', ?_, ?_, ?_, ?_⟩
  · rw [e]; exact a1
  · rw [e, a2]; exact hd
  · rw [e]; exact a3
  · rw [e, a4, List.length_reverse]

theorem scoped_end_scope (c X : SkyCompiler) (line : Int) (h : Scoped (begin_scope c) X) :
    Scoped c (end_scope X line) := by
  intro hc
  obtain ⟨extra, _, _, _, a1, a2, _, _⟩ := end_scope_restores c X line hc h
  refine ⟨a2, ⟨[], by rw [a1, List.append_nil], fun l hl => by cases hl⟩, fun hn => ?_⟩
  show (end_scope X line).locals.length ≤ _
  rw [a1]; exact hn

/-- The part of the `AST_FOR` case after the start value, from the
compiler `c1` that has compiled it. -/
theorem for_range_rest_scoped (c c1 : SkyCompiler) (line : Int) (var_name : String)
    (end_ body : SkyASTNode) (h1 : Scoped (begin_scope c) c1)
    (hend : ∀ c2, Scoped c2 (compile_ast false end_ c2))
    (hbody : ∀ c2, Scoped c2 (compile_ast true body c2)) :
    Scoped c
      (let p := add_local c1 var_name
       let c3 := emit_bytes p.2 OP_GET_LOCAL.toByte (u8 p.1) line
       let c5 := emit_byte (compile_ast false end_ c3) OP_LESS.toByte line
       let j := emit_jump c5 OP_JUMP_IF_FALSE line
       let c7 := emit_byte j.2 OP_POP.toByte line
       let c9 := emit_bytes (compile_ast true body c7) OP_GET_LOCAL.toByte (u8 p.1) line
       let c11 := emit_byte (emit_constant c9 (.int 1) line) OP_ADD.toByte line
       let c13 := emit_byte (emit_bytes c11 OP_SET_LOCAL.toByte (u8 p.1) line) OP_POP.toByte line
       let c14 := emit_jump_back c13 p.2.code_count line
       end_scope (emit_byte (patch_jump c14 j.1) OP_POP.toByte line) line) := by
  let p := add_local c1 var_name
  let c3 := emit_bytes p.2 OP_GET_LOCAL.toByte (u8 p.1) line
  let c5 := emit_byte (compile_ast false end_ c3) OP_LESS.toByte line
  let j := emit_jump c5 OP_JUMP_IF_FALSE line
  let c7 := emit_byte j.2 OP_POP.toByte line
  let c9 := emit_bytes (compile_ast true body c7) OP_GET_LOCAL.toByte (u8 p.1) line
  let c11 := emit_byte (emit_constant c9 (.int 1) line) OP_ADD.toByte line
  let c13 := emit_byte (emit_bytes c11 OP_SET_LOCAL.toByte (u8 p.1) line) OP_POP.toByte line
  let c14 := emit_jump_back c13 p.2.code_count line
  show Scoped c (end_scope (emit_byte (patch_jump c14 j.1) OP_POP.toByte line) line)
  have h3 : Scoped (begin_scope c) c3 :=
    scoped_trans (scoped_trans h1 (scoped_add_local c1 var_name)) (scoped_emit_bytes _ _ _ _)
  have h5 : Scoped (begin_scope c) c5 :=
    scoped_trans (scoped_trans h3 (hend c3)) (scoped_emit_byte _ _ _)
  have h7 : Scoped (begin_scope c) c7 :=
    scoped_trans (scoped_trans h5 (scoped_emit_jump c5 OP_JUMP_IF_FALSE line))
      (scoped_emit_byte _ _ _)
  have h9 : Scoped (begin_scope c) c9 :=
    scoped_trans (scoped_trans h7 (hbody c7)) (scoped_emit_bytes _ _ _ _)
  have h11 : Scoped (begin_scope c) c11 :=
    scoped_trans (scoped_trans h9 (scoped_emit_constant _ _ _)) (scoped_emit_byte _ _ _)
  have h13 : Scoped (begin_scope c) c13 :=
    scoped_trans (scoped_trans h11 (scoped_emit_bytes _ _ _ _)) (scoped_emit_byte _ _ _)
  have h14 : Scoped (begin_scope c) c14 := scoped_trans h13 (scoped_emit_jump_back _ _ _)
  have h15 : Scoped (begin_scope c) (emit_byte (patch_jump c14 j.1) OP_POP.toByte line) :=
    scoped_trans (scoped_trans h14 (scoped_patch_jump _ _)) (scoped_emit_byte _ _ _)
  exact scoped_end_scope c _ line h15

mutual
/-- `compile_node` and `compile_block` keep the scope depth and only add
locals, at the current depth. -/
theorem compile_ast_scoped :
    ∀ (b : Bool) (n : SkyASTNode) (c : SkyCompiler), Scoped c (compile_ast b n c)
  | _, .program _ statements, c => compile_nodes_scoped statements c
  | _, .int_literal line value, c => scoped_emit_constant c (.int value) line
  | _, .float_literal line value, c => scoped_emit_constant c (.float value) line
  | _, .string_literal line value, c => scoped_emit_constant c (.string (some value)) line
  | _, .bool_literal line value, c => scoped_emit_byte c _ line
  | _, .nil_literal line, c => scoped_emit_byte c _ line
  | _, .identifier line name, c => by
      show Scoped c (if resolve_local c name ≥ 0 then
          emit_bytes c OP_GET_LOCAL.toByte (u8 (resolve_local c name)) line
        else emit_bytes (make_constant c (.string (some name))).2 OP_GET_GLOBAL.toByte
          (make_constant c (.string (some name))).1 line)
      split
      · exact scoped_emit_bytes _ _ _ _
      · exact scoped_trans (scoped_make_constant _ _) (scoped_emit_bytes _ _ _ _)
  | _, .binary line op left right, c => by
      have h := scoped_trans (compile_ast_scoped false left c)
        (compile_ast_scoped false right (compile_ast false left c))
      show Scoped c (match binary_opcode op with
        | some o => emit_byte (compile_ast false right (compile_ast false left c)) o.toByte line
        | none => { compile_ast false right (compile_ast false left c) with had_error := true })
      cases binary_opcode op with
      | some o => exact scoped_trans h (scoped_emit_byte _ _ _)
      | none => exact scoped_trans h (scoped_set_error _)
  | _, .unary line op operand, c => by
      have h := compile_ast_scoped false operand c
      show Scoped c (match unary_opcode op with
        | some o => emit_byte (compile_ast false operand c) o.toByte line
        | none => { compile_ast false operand c with had_error := true })
      cases unary_opcode op with
      | some o => exact scoped_trans h (scoped_emit_byte _ _ _)
      | none => exact scoped_trans h (scoped_set_error _)
  | _, .call line callee args, c =>
      scoped_trans (scoped_trans (compile_ast_scoped false callee c) (compile_nodes_scoped args _))
        (scoped_emit_bytes _ _ _ line)
  | _, .dot line object field, c =>
      scoped_trans (scoped_trans (compile_ast_scoped false object c) (scoped_make_constant _ _))
        (scoped_emit_bytes _ _ _ line)
  | _, .index_access line object index, c =>
      scoped_trans (scoped_trans (compile_ast_scoped false object c)
        (compile_ast_scoped false index _)) (scoped_emit_byte _ _ line)
  | _, .array_literal line elements, c =>
      scoped_trans (compile_nodes_scoped elements c) (scoped_emit_bytes _ _ _ line)
  | _, .map_literal _ _ _, c => scoped_refl c
  | _, .assign line target value, c => by
      have h := compile_ast_scoped false value c
      cases target
      case identifier il name =>
        show Scoped c (if resolve_local (compile_ast false value c) name ≥ 0 then
            emit_bytes (compile_ast false value c) OP_SET_LOCAL.toByte
              (u8 (resolve_local (compile_ast false value c) name)) line
          else emit_bytes (make_constant (compile_ast false value c) (.string (some name))).2
            OP_SET_GLOBAL.toByte
            (make_constant (compile_ast false value c) (.string (some name))).1 line)
        split
        · exact scoped_trans h (scoped_emit_bytes _ _ _ _)
        · exact scoped_trans (scoped_trans h (scoped_make_constant _ _))
            (scoped_emit_bytes _ _ _ _)
      case dot dl object field =>
        exact scoped_trans (scoped_trans (scoped_trans h (compile_ast_scoped false object _))
          (scoped_make_constant _ _)) (scoped_emit_bytes _ _ _ line)
      case index_access il object index =>
        exact scoped_trans (scoped_trans (scoped_trans h (compile_ast_scoped false object _))
          (compile_ast_scoped false index _)) (scoped_emit_byte _ _ line)
      all_goals exact h
  | _, .let_ line name _ (some e), c => by
      have h := compile_ast_scoped false e c
      show Scoped c (if (compile_ast false e c).scope_depth > 0 then
          (add_local (compile_ast false e c) name).2
        else emit_bytes (make_constant (compile_ast false e c) (.string (some name))).2
          OP_SET_GLOBAL.toByte (make_constant (compile_ast false e c) (.string (some name))).1
          line)
      split
      · exact scoped_trans h (scoped_add_local _ _)
      · exact scoped_trans (scoped_trans h (scoped_make_constant _ _)) (scoped_emit_bytes _ _ _ _)
  | _, .let_ line name _ none, c => by
      have h := scoped_emit_byte c OP_NIL.toByte line
      show Scoped c (if (emit_byte c OP_NIL.toByte line).scope_depth > 0 then
          (add_local (emit_byte c OP_NIL.toByte line) name).2
        else emit_bytes (make_constant (emit_byte c OP_NIL.toByte line) (.string (some name))).2
          OP_SET_GLOBAL.toByte
          (make_constant (emit_byte c OP_NIL.toByte line) (.string (some name))).1 line)
      split
      · exact scoped_trans h (scoped_add_local _ _)
      · exact scoped_trans (scoped_trans h (scoped_make_constant _ _)) (scoped_emit_bytes _ _ _ _)
  | _, .if_stmt line condition then_branch (some e), c => by
      have h1 := compile_ast_scoped false condition c
      have h2 := scoped_trans h1
        (scoped_emit_jump (compile_ast false condition c) OP_JUMP_IF_FALSE line)
      have h3 := scoped_trans h2 (scoped_emit_byte _ OP_POP.toByte line)
      have h4 := scoped_trans h3 (compile_ast_scoped false then_branch _)
      have h5 := scoped_trans h4 (scoped_emit_jump _ OP_JUMP line)
      have h6 := scoped_trans h5 (scoped_patch_jump _
        (emit_jump (compile_ast false condition c) OP_JUMP_IF_FALSE line).1)
      have h7 := scoped_trans h6 (scoped_emit_byte _ OP_POP.toByte line)
      have h8 := scoped_trans h7 (compile_ast_scoped false e _)
      exact scoped_trans h8 (scoped_patch_jump _ _)
  | _, .if_stmt line condition then_branch none, c => by
      have h1 := compile_ast_scoped false condition c
      have h2 := scoped_trans h1
        (scoped_emit_jump (compile_ast false condition c) OP_JUMP_IF_FALSE line)
      have h3 := scoped_trans h2 (scoped_emit_byte _ OP_POP.toByte line)
      have h4 := scoped_trans h3 (compile_ast_scoped false then_branch _)
      have h6 := scoped_trans h4 (scoped_patch_jump _
        (emit_jump (compile_ast false condition c) OP_JUMP_IF_FALSE line).1)
      exact scoped_trans h6 (scoped_emit_byte _ OP_POP.toByte line)
  | _, .while_stmt line condition body, c => by
      have h1 := compile_ast_scoped false condition c
      have h2 := scoped_trans h1
        (scoped_emit_jump (compile_ast false condition c) OP_JUMP_IF_FALSE line)
      have h3 := scoped_trans h2 (scoped_emit_byte _ OP_POP.toByte line)
      have h4 := scoped_trans h3 (compile_ast_scoped true body _)
      have h5 := scoped_trans h4 (scoped_emit_jump_back _ c.code_count line)
      have h6 := scoped_trans h5 (scoped_patch_jump _
        (emit_jump (compile_ast false condition c) OP_JUMP_IF_FALSE line).1)
      exact scoped_trans h6 (scoped_emit_byte _ OP_POP.toByte line)
  | _, .for_range line var_name (some e) end_ body, c =>
      for_range_rest_scoped c _ line var_name end_ body
        (compile_ast_scoped false e _)
        (fun c1 => compile_ast_scoped false end_ c1) (fun c1 => compile_ast_scoped true body c1)
  | _, .for_range line var_name none end_ body, c =>
      for_range_rest_scoped c _ line var_name end_ body
        (scoped_emit_constant _ (.int 0) line)
        (fun c1 => compile_ast_scoped false end_ c1) (fun c1 => compile_ast_scoped true body c1)
  | _, .for_each _ _ _ _, c => scoped_refl c
  | as_block, .block line statements, c => by
      show Scoped c (if as_block then compile_nodes statements c
        else end_scope (compile_nodes statements (begin_scope c)) line)
      cases as_block with
      | true => exact compile_nodes_scoped statements c
      | false => exact scoped_end_scope c _ line (compile_nodes_scoped statements _)
  | _, .function line name _ _ _ _ _, c => by
      have h := scoped_emit_byte c OP_NIL.toByte line
      show Scoped c (if (emit_byte c OP_NIL.toByte line).scope_depth = 0 then
          emit_bytes (make_constant (emit_byte c OP_NIL.toByte line) (.string (some name))).2
            OP_SET_GLOBAL.toByte
            (make_constant (emit_byte c OP_NIL.toByte line) (.string (some name))).1 line
        else emit_byte c OP_NIL.toByte line)
      split
      · exact scoped_trans (scoped_trans h (scoped_make_constant _ _)) (scoped_emit_bytes _ _ _ _)
      · exact h
  | _, .return_stmt line (some e), c =>
      scoped_trans (compile_ast_scoped false e c) (scoped_emit_byte _ _ line)
  | _, .return_stmt line none, c =>
      scoped_trans (scoped_emit_byte c _ line) (scoped_emit_byte _ _ line)
  | _, .print_stmt line value, c =>
      scoped_trans (compile_ast_scoped false value c) (scoped_emit_byte _ _ line)
  | _, .expr_stmt line expr, c =>
      scoped_trans (compile_ast_scoped false expr c) (scoped_emit_byte _ _ line)
  | _, .import_stmt _ _, c => scoped_refl c
  | _, .server _ _ _ _, c => scoped_refl c
  | _, .route _ _ _ _ _, c => scoped_refl c
  | _, .respond _ _ _, c => scoped_refl c
  | _, .security _ _, c => scoped_refl c
  | _, .security_rule _ _ _, c => scoped_refl c
  | _, .class_def _ _ _, c => scoped_refl c
  | _, .break_ _, c => scoped_refl c
  | _, .continue_ _, c => scoped_refl c
/-- `compile_node` over a child array keeps the scope depth and only adds
locals, at the current depth. -/
theorem compile_nodes_scoped :
    ∀ (ns : List SkyASTNode) (c : SkyCompiler), Scoped c (compile_nodes ns c)
  | [], c => scoped_refl c
  | n :: rest, c => scoped_trans (compile_ast_scoped false n c) (compile_nodes_scoped rest _)
end

theorem scope_ok_of_scoped (c c1 : SkyCompiler) (h : ScopeOk c) (hs : Scoped c c1) :
    ScopeOk c1 := by
  obtain ⟨hn, hp, hl⟩ := h
  obtain ⟨d1, ⟨extra, l1, x1⟩, n1⟩ := hs hl
  refine ⟨n1 hn, ?_, ?_⟩
  · rw [l1, List.pairwise_append]
    refine ⟨hp, ?_, fun a ha b hb => ?_⟩
    · exact List.pairwise_of_forall_mem_list (fun a ha b hb => by rw [x1 a ha, x1 b hb])
    · rw [x1 b hb]; exact hl a ha
  · intro l hm
    rw [l1, List.mem_append] at hm
    rw [d1]
    rcases hm with hm | hm
    · exact hl l hm
    · exact le_of_eq (x1 l hm)

theorem split_by_depth (d : Int) :
    ∀ ls : List Local, List.Pairwise (fun a b : Local => a.depth ≤ b.depth) ls →
      ∃ base extra, ls = base ++ extra ∧ (∀ l ∈ base, l.depth ≤ d) ∧
        (∀ l ∈ extra, l.depth > d) := by
  intro ls
  induction ls with
  | nil => intro _; exact ⟨[], [], rfl, fun l hl => (by cases hl), fun l hl => (by cases hl)⟩
  | cons x xs ih =>
      intro hp
      rw [List.pairwise_cons] at hp
      by_cases hx : x.depth ≤ d
      · obtain ⟨base, extra, e, hb, he⟩ := ih hp.2
        refine ⟨x :: base, extra, by rw [e]; rfl, fun l hl => ?_, he⟩
        rcases List.mem_cons.1 hl with hl | hl
        · rw [hl]; exact hx
        · exact hb l hl
      · refine ⟨[], x :: xs, rfl, fun l hl => (by cases hl), fun l hl => ?_⟩
        rcases List.mem_cons.1 hl with hl | hl
        · rw [hl]; omega
        · have := hp.1 l hl
          omega

/-- `end_scope` on a stack of locals: the depth goes down by one, the
locals deeper than the new depth, which are the last ones, are dropped with
one `POP` each, and the others are left. -/
theorem end_scope_pops_deeper (c : SkyCompiler) (line : Int) (h : ScopeOk c) :
    ∃ base extra, c.locals = base ++ extra ∧ (∀ l ∈ base, l.depth ≤ c.scope_depth - 1) ∧
      (∀ l ∈ extra, l.depth > c.scope_depth - 1) ∧
      (end_scope c line).locals = base ∧ (end_scope c line).scope_depth = c.scope_depth - 1 ∧
      (end_scope c line).chunk.code =
        c.chunk.code ++ List.replicate extra.length OP_POP.toByte := by
  obtain ⟨base, extra, e, hb, he⟩ := split_by_depth (c.scope_depth - 1) c.locals h.2.1
  have e1 : end_scope c line =
      end_scope_loop { c with scope_depth := c.scope_depth - 1 } line
        (extra.reverse ++ base.reverse) := by
    unfold end_scope
    dsimp only
    rw [e, List.reverse_append]
  obtain ⟨a1, a2, _, a4⟩ := end_scope_loop_pops line base extra.reverse
    { c with scope_depth := c.scope_depth - 1 }
    (fun l hl => he l (List.mem_reverse.1 hl)) hb
  refine ⟨base, extra, e, hb, he, ?_, ?_, ?_⟩
  · rw [e1]; exact a1
  · rw [e1]; exact a2
  · rw [e1, a4, List.length_reverse]

theorem scope_ok_end_scope (c : SkyCompiler) (line : Int) (h : ScopeOk c) :
    ScopeOk (end_scope c line) := by
  obtain ⟨base, extra, e, hb, _, a1, a2, _⟩ := end_scope_pops_deeper c line h
  obtain ⟨hn, hp, _⟩ := h
  refine ⟨?_, ?_, ?_⟩
  · show (end_scope c line).locals.length ≤ _
    rw [a1]
    have : c.locals.length ≤ SKY_MAX_LOCALS := hn
    rw [e, List.length_append] at this
    omega
  · rw [a1]
    rw [e, List.pairwise_append] at hp
    exact hp.1
  · intro l hl
    rw [a1] at hl
    rw [a2]
    exact hb l hl

theorem scope_ok_init (chunk : SkyChunk) : ScopeOk (sky_compiler_init chunk) :=
  ⟨Nat.zero_le _, List.Pairwise.nil, fun l hl => by cases hl⟩

/-- C34.  Scope handling keeps the locals a stack.  From a compiler whose
locals are at most `SKY_MAX_LOCALS`, have non-decreasing depths and do not
lie deeper than the current scope (as after `sky_compiler_init`), the same
holds after `compile_node` and `compile_block` of every node and after
`add_local`, `begin_scope` and `end_scope`.  Compiling a block leaves the
locals and the scope depth as they were before the block: the statements
of the block only add locals at the depth of the block, and `end_scope`
emits exactly one `POP` for each of them at the end of the code of the
block. -/
theorem scopes_keep_the_locals_a_stack (c : SkyCompiler) (h : ScopeOk c) :
    (∀ (b : Bool) (node : SkyASTNode), ScopeOk (compile_ast b node c)) ∧
    (∀ name, ScopeOk (add_local c name).2) ∧ ScopeOk (begin_scope c) ∧
    (∀ line, ScopeOk (end_scope c line)) ∧
    (∀ (line : Int) (ss : List SkyASTNode), ∃ extra,
      (compile_nodes ss (begin_scope c)).locals = c.locals ++ extra ∧
      (∀ l ∈ extra, l.depth = c.scope_depth + 1) ∧
      (compile_node (.block line ss) c).locals = c.locals ∧
      (compile_node (.block line ss) c).local_count = c.local_count ∧
      (compile_node (.block line ss) c).scope_depth = c.scope_depth ∧
      (compile_node (.block line ss) c).chunk.code =
        (compile_nodes ss (begin_scope c)).chunk.code ++
          List.replicate extra.length OP_POP.toByte) := by
  refine ⟨fun b node => scope_ok_of_scoped c _ h (compile_ast_scoped b node c),
    fun name => scope_ok_of_scoped c _ h (scoped_add_local c name),
    ⟨h.1, h.2.1, h.2.2.begin_scope⟩, fun line => scope_ok_end_scope c line h,
    fun line ss => ?_⟩
  obtain ⟨extra, a1, a2, _, a4, a5, _, a7⟩ :=
    end_scope_restores c (compile_nodes ss (begin_scope c)) line h.2.2
      (compile_nodes_scoped ss (begin_scope c))
  refine ⟨extra, a1, a2, a4, ?_, a5, a7⟩
  show (end_scope (compile_nodes ss (begin_scope c)) line).locals.length = c.locals.length
  rw [a4]

/-- C34 at the fresh compiler, and the block `block_with_locals` compiled
by it: the inner block ends with one `POP`, the outer one with two, and no
local is left. -/
theorem scopes_keep_the_locals_a_stack_witness :
    ScopeOk (sky_compiler_init sky_chunk_init) ∧
    ((∀ (b : Bool) (node : SkyASTNode),
        ScopeOk (compile_ast b node (sky_compiler_init sky_chunk_init))) ∧
      (∀ name, ScopeOk (add_local (sky_compiler_init sky_chunk_init) name).2) ∧
      ScopeOk (begin_scope (sky_compiler_init sky_chunk_init)) ∧
      (∀ line, ScopeOk (end_scope (sky_compiler_init sky_chunk_init) line)) ∧
      (∀ (line : Int) (ss : List SkyASTNode), ∃ extra,
        (compile_nodes ss (begin_scope (sky_compiler_init sky_chunk_init))).locals =
          (sky_compiler_init sky_chunk_init).locals ++ extra ∧
        (∀ l ∈ extra, l.depth = (sky_compiler_init sky_chunk_init).scope_depth + 1) ∧
        (compile_node (.block line ss) (sky_compiler_init sky_chunk_init)).locals =
          (sky_compiler_init sky_chunk_init).locals ∧
        (compile_node (.block line ss) (sky_compiler_init sky_chunk_init)).local_count =
          (sky_compiler_init sky_chunk_init).local_count ∧
        (compile_node (.block line ss) (sky_compiler_init sky_chunk_init)).scope_depth =
          (sky_compiler_init sky_chunk_init).scope_depth ∧
        (compile_node (.block line ss) (sky_compiler_init sky_chunk_init)).chunk.code =
          (compile_nodes ss (begin_scope (sky_compiler_init sky_chunk_init))).chunk.code ++
            List.replicate extra.length OP_POP.toByte)) ∧
    (compile_node block_with_locals (sky_compiler_init sky_chunk_init)).chunk.code =
      [OP_CONSTANT.toByte, 0, OP_CONSTANT.toByte, 1, OP_CONSTANT.toByte, 2, OP_POP.toByte,
        OP_NIL.toByte, OP_POP.toByte, OP_POP.toByte, OP_POP.toByte] ∧
    (compile_node block_with_locals (sky_compiler_init sky_chunk_init)).local_count = 0 ∧
    (compile_node block_with_locals (sky_compiler_init sky_chunk_init)).scope_depth = 0 :=
  ⟨scope_ok_init _, scopes_keep_the_locals_a_stack _ (scope_ok_init _), by decide!, by decide!,
    by decide!⟩

/-! ## The load factor -/

namespace HashTable

theorem no_tomb_set (entries : List SkyTableEntry) (i : Nat) (e1 : SkyTableEntry)
    (h : NoTomb entries) (h1 : e1.occupied = false → e1.key = none) :
    NoTomb (entries.set i e1) := by
  intro j e hj ho
  rw [List.getElem?_set] at hj
  by_cases hij : i = j
  · rw [if_pos hij] at hj
    by_cases hl : i < entries.length
    · rw [if_pos hl] at hj
      cases hj
      exact h1 ho
    · rw [if_neg hl] at hj
      cases hj
  · rw [if_neg hij] at hj
    exact h j e hj ho

theorem keyed_set (entries : List SkyTableEntry) (i : Nat) (e1 : SkyTableEntry)
    (h : Keyed entries) (h1 : e1.occupied = true → e1.key ≠ none) :
    Keyed (entries.set i e1) := by
  intro j e hj ho
  rw [List.getElem?_set] at hj
  by_cases hij : i = j
  · rw [if_pos hij] at hj
    by_cases hl : i < entries.length
    · rw [if_pos hl] at hj
      cases hj
      exact h1 ho
    · rw [if_neg hl] at hj
      cases hj
  · rw [if_neg hij] at hj
    exact h j e hj ho

/-- In an array without tombstones that has an entry not occupied,
`find_entry` returns for every key: an empty entry or the entry of the
key. -/
theorem find_entry_defined (entries : List SkyTableEntry) (cap : Nat)
    (hlen : entries.length = cap) (hnt : NoTomb entries)
    (hfree : occupied_count entries < cap) (key : String) :
    ∃ (i : Nat) (e : SkyTableEntry), find_entry entries cap key = some i ∧
      entries[i]? = some e ∧
      ((e.occupied = false ∧ e.key = none) ∨ (e.occupied = true ∧ e.key = some key)) := by
  obtain ⟨i0, e0, h0, h0o⟩ := empty_slot entries (by rw [hlen]; exact hfree)
  obtain ⟨i, hp⟩ := probe_exists entries cap key hlen hnt i0
    ⟨e0, h0, Or.inl ⟨h0o, hnt i0 e0 h0 h0o⟩⟩
  have hp1 := hp
  obtain ⟨d, _, _, ⟨e, he, hc⟩, _⟩ := hp1
  exact ⟨i, e, find_entry_of_probe entries cap key i hp, he, hc⟩

theorem occupied_count_set_le (entries : List SkyTableEntry) (i : Nat) (e e1 : SkyTableEntry)
    (he : entries[i]? = some e) :
    occupied_count (entries.set i e1) ≤ occupied_count entries + 1 ∧
      (e.occupied = true → occupied_count (entries.set i e1) ≤ occupied_count entries) ∧
      (e1.occupied = false → occupied_count (entries.set i e1) ≤ occupied_count entries) := by
  have h := occupied_count_set entries i e e1 he
  refine ⟨?_, fun ho => ?_, fun ho => ?_⟩
  · split at h <;> split at h <;> omega
  · rw [if_pos ho] at h
    split at h <;> omega
  · have hn : ¬ e1.occupied = true := by rw [ho]; decide
    rw [if_neg hn] at h
    split at h <;> omega

theorem adjust_loop_sound (cap1 : Nat) :
    ∀ (rest new : List SkyTableEntry) (count : Nat), new.length = cap1 → NoTomb new →
      Keyed new → occupied_count new ≤ count → count + occupied_count rest < cap1 →
      (∀ e ∈ rest, e.occupied = true → e.key ≠ none) →
      ∃ new1, adjust_loop cap1 rest new count = some (new1, count + occupied_count rest) ∧
        new1.length = cap1 ∧ NoTomb new1 ∧ Keyed new1 ∧
        occupied_count new1 ≤ count + occupied_count rest := by
  intro rest
  induction rest with
  | nil =>
      intro new count hl hnt hk ho _ _
      exact ⟨new, rfl, hl, hnt, hk, ho⟩
  | cons e rest ih =>
      intro new count hl hnt hk ho hfree hkeys
      rw [occupied_count_cons] at hfree ⊢
      by_cases hocc : e.occupied = true
      · rw [if_pos hocc] at hfree ⊢
        obtain ⟨k, hkey⟩ : ∃ k, e.key = some k := by
          cases hk' : e.key with
          | none => exact absurd hk' (hkeys e (List.mem_cons_self _ _) hocc)
          | some k => exact ⟨k, rfl⟩
        obtain ⟨i, e0, hf, hi, _⟩ := find_entry_defined new cap1 hl hnt (by omega) k
        obtain ⟨new1, h1, h2, h3, h4, h5⟩ := ih (new.set i ⟨e.key, e.value, true⟩) (count + 1)
          (by rw [List.length_set]; exact hl)
          (no_tomb_set new i _ hnt (fun h => by cases h))
          (keyed_set new i _ hk (fun _ => by rw [hkey]; exact fun h => by cases h))
          (by have := (occupied_count_set_le new i e0 ⟨e.key, e.value, true⟩ hi).1; omega)
          (by omega) (fun x hx => hkeys x (List.mem_cons_of_mem _ hx))
        refine ⟨new1, ?_, h2, h3, h4, by omega⟩
        rw [adjust_loop, if_neg (by rw [hocc]; decide), hkey]
        simp only []
        rw [hf]
        simp only []
        rw [← hkey, h1]
        congr 2
        omega
      · have hocc1 : e.occupied = false := by simpa using hocc
        rw [if_neg hocc] at hfree ⊢
        obtain ⟨new1, h1, h2, h3, h4, h5⟩ := ih new count hl hnt hk ho (by omega)
          (fun x hx => hkeys x (List.mem_cons_of_mem _ hx))
        refine ⟨new1, ?_, h2, h3, h4, by omega⟩
        rw [adjust_loop, if_pos hocc1, h1]
        congr 2
        omega

theorem sound_mono (t : SkyTable) (n m : Nat) (h : Sound t n) (hnm : n ≤ m) : Sound t m :=
  ⟨h.len, h.no_tomb, h.keyed, h.occ_le, h.load, h.pow,
    by have := h.grown; omega, by have := h.calls; omega⟩

theorem sound_init : Sound sky_table_init 0 :=
  ⟨rfl, fun i e h => by simp [sky_table_init] at h, fun i e h => by simp [sky_table_init] at h,
    le_refl _, le_refl _, Or.inl rfl, Or.inl (by decide), le_refl _⟩

theorem grow_sound (t : SkyTable) (n : Nat) (S : Sound t n) (hn : n < 2 ^ 28) :
    ∃ t1, (if t.count + 1 > t.capacity * 3 / 4 then
          if (if t.capacity < 8 then 8 else t.capacity * 2) < 2 ^ 31 then
            adjust_capacity t (if t.capacity < 8 then 8 else t.capacity * 2)
          else none
        else some t) = some t1 ∧
      t1.entries.length = t1.capacity ∧ NoTomb t1.entries ∧ Keyed t1.entries ∧
      occupied_count t1.entries ≤ t1.count ∧ t1.count + 1 ≤ t1.capacity * 3 / 4 ∧
      (∃ j, 3 ≤ j ∧ t1.capacity = 2 ^ j) ∧
      (t1.capacity ≤ 8 ∨ t1.capacity / 2 * 3 / 4 ≤ n) ∧ t1.count ≤ n := by
  have h1 := S.load
  have h3 := S.grown
  have h4 := S.calls
  have h5 := S.occ_le
  have h6 := occupied_count_le t.entries
  rw [S.len] at h6
  by_cases hg : t.count + 1 > t.capacity * 3 / 4
  · rw [if_pos hg]
    have hcap : (if t.capacity < 8 then 8 else t.capacity * 2) < 2 ^ 31 := by
      split <;> omega
    rw [if_pos hcap]
    have hpow : ∃ j, 3 ≤ j ∧ (if t.capacity < 8 then 8 else t.capacity * 2) = 2 ^ j := by
      rcases S.pow with h0 | ⟨j, hj, hc⟩
      · exact ⟨3, le_refl _, by rw [h0]; rfl⟩
      · have : 8 ≤ t.capacity := by
          rw [hc]
          calc 8 = 2 ^ 3 := rfl
            _ ≤ 2 ^ j := Nat.pow_le_pow_right (by decide) hj
        refine ⟨j + 1, by omega, ?_⟩
        rw [if_neg (by omega), hc, Nat.pow_succ]
    obtain ⟨new1, a1, a2, a3, a4, a5⟩ := adjust_loop_sound
      (if t.capacity < 8 then 8 else t.capacity * 2) t.entries
      (List.replicate (if t.capacity < 8 then 8 else t.capacity * 2) ⟨none, .nil, false⟩) 0
      (List.length_replicate _ _)
      (fun i e h _ => by rw [List.eq_of_mem_replicate (List.mem_iff_getElem?.2 ⟨i, h⟩)])
      (fun i e h ho => by
        rw [List.eq_of_mem_replicate (List.mem_iff_getElem?.2 ⟨i, h⟩)] at ho; cases ho)
      (by rw [occupied_count_replicate])
      (by split <;> omega)
      (fun e he ho => by
        obtain ⟨i, hi⟩ := List.mem_iff_getElem?.1 he
        exact S.keyed i e hi ho)
    rw [Nat.zero_add] at a1 a5
    refine ⟨⟨new1, occupied_count t.entries,
      (if t.capacity < 8 then 8 else t.capacity * 2)⟩, ?_, a2, a3, a4, a5, ?_, hpow, ?_, ?_⟩
    · unfold adjust_capacity
      rw [a1]
      rfl
    · show occupied_count t.entries + 1 ≤ (if t.capacity < 8 then 8 else t.capacity * 2) * 3 / 4
      rcases S.pow with h0 | ⟨j, hj, hc⟩
      · rw [h0] at h6 ⊢
        simp
        omega
      · have : 8 ≤ t.capacity := by
          rw [hc]
          calc 8 = 2 ^ 3 := rfl
            _ ≤ 2 ^ j := Nat.pow_le_pow_right (by decide) hj
        rw [if_neg (by omega)]
        omega
    · show (if t.capacity < 8 then 8 else t.capacity * 2) ≤ 8 ∨
        (if t.capacity < 8 then 8 else t.capacity * 2) / 2 * 3 / 4 ≤ n
      split <;> omega
    · show occupied_count t.entries ≤ n
      omega
  · rw [if_neg hg]
    have hpow : ∃ j, 3 ≤ j ∧ t.capacity = 2 ^ j := by
      rcases S.pow with h0 | h
      · rw [h0] at hg; omega
      · exact h
    exact ⟨t, rfl, S.len, S.no_tomb, S.keyed, h5, by omega, hpow, h3, h4⟩

theorem sky_table_set_sound (t : SkyTable) (n : Nat) (S : Sound t n) (hn : n < 2 ^ 28)
    (k : String) (v : SkyValue) :
    ∃ flag t1, sky_table_set t k v = some (flag, t1) ∧ Sound t1 (n + 1) ∧
      ∃ j, 3 ≤ j ∧ t1.capacity = 2 ^ j := by
  obtain ⟨t1, hg, hl, hnt, hk, ho, hL, hpow, hG, hC⟩ := grow_sound t n S hn
  have hocc := occupied_count_le t1.entries
  obtain ⟨i, e, hf, he, hcase⟩ := find_entry_defined t1.entries t1.capacity hl hnt (by omega) k
  obtain ⟨c1, c2, c3⟩ := occupied_count_set_le t1.entries i e
    ⟨(if (!e.occupied) = true then ({ e with key := some k } : SkyTableEntry) else e).key, v, true⟩ he
  have hkey : (if (!e.occupied) = true then ({ e with key := some k } : SkyTableEntry)
      else e).key ≠ none := by
    rcases hcase with ⟨h1, _⟩ | ⟨h1, h2⟩
    · rw [h1]; exact fun h => by cases h
    · rw [h1]
      show e.key ≠ none
      rw [h2]; exact fun h => by cases h
  refine ⟨!e.occupied,
    ⟨t1.entries.set i
      ⟨(if (!e.occupied) = true then ({ e with key := some k } : SkyTableEntry) else e).key,
        v, true⟩,
      if (!e.occupied) = true then t1.count + 1 else t1.count, t1.capacity⟩,
    ?_, ⟨?_, ?_, ?_, ?_, ?_, ?_, ?_, ?_⟩, ?_⟩
  · unfold sky_table_set
    simp only []
    rw [hg]
    simp only []
    rw [hf]
    simp only []
    rw [he]
  · show (t1.entries.set i _).length = t1.capacity
    rw [List.length_set]; exact hl
  · exact no_tomb_set _ _ _ hnt (fun h => by cases h)
  · exact keyed_set _ _ _ hk (fun _ => hkey)
  · show occupied_count (t1.entries.set i _) ≤ (if (!e.occupied) = true then t1.count + 1
      else t1.count)
    by_cases hoc : e.occupied = true
    · have hc : (if (!e.occupied) = true then t1.count + 1 else t1.count) = t1.count := by
        rw [hoc]; rfl
      rw [hc]
      exact le_trans (c2 hoc) ho
    · have hoc1 : e.occupied = false := by simpa using hoc
      have hc : (if (!e.occupied) = true then t1.count + 1 else t1.count) = t1.count + 1 := by
        rw [hoc1]; rfl
      rw [hc]
      exact le_trans c1 (by omega)
  · show (if (!e.occupied) = true then t1.count + 1 else t1.count) ≤ t1.capacity * 3 / 4
    split <;> omega
  · exact Or.inr hpow
  · show t1.capacity ≤ 8 ∨ t1.capacity / 2 * 3 / 4 ≤ n + 1
    omega
  · show (if (!e.occupied) = true then t1.count + 1 else t1.count) ≤ n + 1
    split <;> omega
  · exact hpow

theorem sky_table_get_defined (t : SkyTable) (n : Nat) (S : Sound t n) (k : String) :
    ∃ r, sky_table_get t k = some r := by
  have h1 := S.load
  have h5 := S.occ_le
  unfold sky_table_get
  by_cases hc : t.count = 0
  · rw [if_pos hc]; exact ⟨_, rfl⟩
  · rw [if_neg hc]
    obtain ⟨i, e, hf, he, _⟩ := find_entry_defined t.entries t.capacity S.len S.no_tomb
      (by omega) k
    rw [hf]
    simp only []
    rw [he]
    simp only []
    split <;> exact ⟨_, rfl⟩

theorem sky_table_delete_sound (t : SkyTable) (n : Nat) (S : Sound t n) (k : String) :
    ∃ flag t1, sky_table_delete t k = some (flag, t1) ∧ Sound t1 n := by
  have h1 := S.load
  have h5 := S.occ_le
  unfold sky_table_delete
  by_cases hc : t.count = 0
  · rw [if_pos hc]; exact ⟨_, _, rfl, S⟩
  · rw [if_neg hc]
    obtain ⟨i, e, hf, he, _⟩ := find_entry_defined t.entries t.capacity S.len S.no_tomb
      (by omega) k
    rw [hf]
    simp only []
    rw [he]
    simp only []
    by_cases ho : e.occupied = false
    · rw [if_pos ho]; exact ⟨_, _, rfl, S⟩
    · rw [if_neg ho]
      refine ⟨_, _, rfl, ⟨?_, ?_, ?_, ?_, h1, S.pow, S.grown, S.calls⟩⟩
      · show (t.entries.set i _).length = t.capacity
        rw [List.length_set]; exact S.len
      · exact no_tomb_set _ _ _ S.no_tomb (fun _ => rfl)
      · exact keyed_set _ _ _ S.keyed (fun h => by cases h)
      · have := (occupied_count_set_le t.entries i e
          ({ e with key := none, occupied := false } : SkyTableEntry) he).2.2 rfl
        show occupied_count (t.entries.set i _) ≤ t.count
        omega

theorem apply_ops_sound : ∀ (ops : List TableOp) (t : SkyTable) (n : Nat), Sound t n →
    n + ops.length ≤ 2 ^ 28 →
    ∃ t1, apply_ops t ops = some t1 ∧ Sound t1 (n + ops.length) := by
  intro ops
  induction ops with
  | nil => intro t n S _; exact ⟨t, rfl, S⟩
  | cons op rest ih =>
      intro t n S hlen
      rw [List.length_cons] at hlen
      have step : ∃ t1, apply_op t op = some t1 ∧ Sound t1 (n + 1) := by
        cases op with
        | set k v =>
            obtain ⟨flag, t1, h1, S1, _⟩ := sky_table_set_sound t n S (by omega) k v
            exact ⟨t1, by rw [apply_op, h1]; rfl, S1⟩
        | get k =>
            obtain ⟨r, h1⟩ := sky_table_get_defined t n S k
            exact ⟨t, by rw [apply_op, h1]; rfl, sound_mono t n _ S (by omega)⟩
        | delete k =>
            obtain ⟨flag, t1, h1, S1⟩ := sky_table_delete_sound t n S k
            exact ⟨t1, by rw [apply_op, h1]; rfl, sound_mono t1 n _ S1 (by omega)⟩
      obtain ⟨t1, h1, S1⟩ := step
      obtain ⟨t2, h2, S2⟩ := ih t1 (n + 1) S1 (by omega)
      refine ⟨t2, ?_, ?_⟩
      · rw [apply_ops, h1]; exact h2
      · rw [List.length_cons, show n + (rest.length + 1) = n + 1 + rest.length by omega]
        exact S2

/-- C36.  The load factor is kept.  Start from the initialised table and
make fewer than `2 ^ 28` calls of `sky_table_set`, `sky_table_get` and
`sky_table_delete`, in any order: every call returns, and a further
`sky_table_set` returns a table with `count <= 0.75 * capacity`, whose
capacity is a power of two from 8 on and the length of the array; the array
holds an entry with NULL key that is not occupied, and `find_entry` returns
for every key. -/
theorem load_factor_is_kept (ops : List TableOp) (key : String) (value : SkyValue)
    (hlen : ops.length < 2 ^ 28) :
    ∃ t flag t1, apply_ops sky_table_init ops = some t ∧
      (t.capacity = 0 ∨ ∃ j, 3 ≤ j ∧ t.capacity = 2 ^ j) ∧
      sky_table_set t key value = some (flag, t1) ∧
      4 * t1.count ≤ 3 * t1.capacity ∧ (∃ j, 3 ≤ j ∧ t1.capacity = 2 ^ j) ∧
      t1.entries.length = t1.capacity ∧
      (∃ (i : Nat) (e : SkyTableEntry), t1.entries[i]? = some e ∧ e.occupied = false ∧
        e.key = none) ∧
      (∀ k, ∃ i, find_entry t1.entries t1.capacity k = some i) := by
  obtain ⟨t, h1, S⟩ := apply_ops_sound ops sky_table_init 0 sound_init (by omega)
  obtain ⟨flag, t1, h2, S1, hpow⟩ := sky_table_set_sound t _ S (by omega) key value
  have hl := S1.load
  have ho := S1.occ_le
  have h8 : 8 ≤ t1.capacity := by
    obtain ⟨j, hj, hc⟩ := hpow
    rw [hc]
    calc 8 = 2 ^ 3 := rfl
      _ ≤ 2 ^ j := Nat.pow_le_pow_right (by decide) hj
  have hfree : occupied_count t1.entries < t1.capacity := by omega
  obtain ⟨i0, e0, h0, h0o⟩ := empty_slot t1.entries (by rw [S1.len]; exact hfree)
  refine ⟨t, flag, t1, h1, S.pow, h2, by omega, hpow, S1.len,
    ⟨i0, e0, h0, h0o, S1.no_tomb i0 e0 h0 h0o⟩, fun k => ?_⟩
  obtain ⟨i, _, hf, _⟩ := find_entry_defined t1.entries t1.capacity S1.len S1.no_tomb hfree k
  exact ⟨i, hf⟩

/-- C36 on `eight_calls` followed by the assignment to `e`, which makes the
table of 8 entries grow to 16. -/
theorem load_factor_is_kept_witness :
    eight_calls.length < 2 ^ 28 ∧
    (∃ t flag t1, apply_ops sky_table_init eight_calls = some t ∧
      (t.capacity = 0 ∨ ∃ j, 3 ≤ j ∧ t.capacity = 2 ^ j) ∧
      sky_table_set t "e" (.int 7) = some (flag, t1) ∧
      4 * t1.count ≤ 3 * t1.capacity ∧ (∃ j, 3 ≤ j ∧ t1.capacity = 2 ^ j) ∧
      t1.entries.length = t1.capacity ∧
      (∃ (i : Nat) (e : SkyTableEntry), t1.entries[i]? = some e ∧ e.occupied = false ∧
        e.key = none) ∧
      (∀ k, ∃ i, find_entry t1.entries t1.capacity k = some i)) ∧
    (apply_ops sky_table_init eight_calls).map
      (fun t => (t.count, t.capacity, occupied_count t.entries)) = some (6, 8, 5) ∧
    ((apply_ops sky_table_init eight_calls).bind (fun t => sky_table_set t "e" (.int 7))).map
      (fun r => (r.1, r.2.count, r.2.capacity, occupied_count r.2.entries)) =
      some (true, 6, 16, 5) :=
  ⟨by decide, load_factor_is_kept eight_calls "e" (.int 7) (by decide), by decide!, by decide!⟩

end HashTable

/-! ## Termination of the parser -/

theorem within_refl (a : SkyLexer) : Within a a := ⟨rfl, Nat.le_refl _, id⟩

theorem within_trans {a b c : SkyLexer} (h1 : Within a b) (h2 : Within b c) : Within a c := by
  obtain ⟨a1, a2, a3⟩ := h1
  obtain ⟨b1, b2, b3⟩ := h2
  refine ⟨b1.trans a1, Nat.le_trans a2 b2, fun h => ?_⟩
  have := b3 (by rw [a1]; exact a3 h)
  rw [a1] at this
  exact this

theorem within_advance_char (lex : SkyLexer) (h : peek lex ≠ 0) :
    Within lex (advance_char lex) :=
  ⟨rfl, Nat.le_succ _, fun _ => peek_in_range lex h⟩

theorem within_advance_while (p : Nat → Bool) (hp : p 0 = false) :
    ∀ (fuel : Nat) (lex : SkyLexer), Within lex (advance_while p fuel lex) := by
  intro fuel
  induction fuel with
  | zero => intro lex; exact within_refl lex
  | succ fuel ih =>
      intro lex
      unfold advance_while
      by_cases h : p (peek lex) = true
      · rw [if_pos h]
        have h0 : peek lex ≠ 0 := by
          intro h0
          rw [h0, hp] at h
          cases h
        exact within_trans (within_advance_char lex h0) (ih _)
      · rw [if_neg h]
        exact within_refl lex

theorem peek_of_not_at_end (lex : SkyLexer) (h : ¬ is_at_end lex = true) : peek lex ≠ 0 := by
  intro h0
  apply h
  unfold is_at_end
  rw [h0]
  rfl

theorem within_match_char (lex : SkyLexer) (expected : Nat) :
    Within lex (match_char lex expected).2 := by
  unfold match_char
  by_cases h1 : is_at_end lex = true
  · rw [if_pos h1]; exact within_refl lex
  · rw [if_neg h1]
    by_cases h2 : peek lex ≠ expected
    · rw [if_pos h2]; exact within_refl lex
    · rw [if_neg h2]
      exact within_advance_char lex (peek_of_not_at_end lex h1)

theorem within_skip_whitespace_loop :
    ∀ (fuel : Nat) (lex : SkyLexer), Within lex (skip_whitespace_loop fuel lex) := by
  intro fuel
  induction fuel with
  | zero => intro lex; exact within_refl lex
  | succ fuel ih =>
      intro lex
      unfold skip_whitespace_loop
      dsimp only
      split
      · rename_i hc
        exact within_trans (within_advance_char lex (by omega)) (ih _)
      · split
        · rename_i _ h10
          have hw : Within lex (advance_char { lex with line := lex.line + 1 }) :=
            ⟨rfl, Nat.le_succ _, fun _ => peek_in_range lex (by omega)⟩
          exact within_trans hw (ih _)
        · split
          · split
            · exact within_trans
                (within_advance_while (fun ch => ch != 10 && ch != 0) (by decide) _ lex) (ih _)
            · exact within_refl lex
          · exact within_refl lex

theorem within_skip_whitespace (lex : SkyLexer) : Within lex (skip_whitespace lex) :=
  within_skip_whitespace_loop _ lex

theorem within_error_token (lex : SkyLexer) (message : String) :
    Within lex (error_token lex message).2 := ⟨rfl, Nat.le_refl _, id⟩

theorem within_number_token (lex : SkyLexer) : Within lex (number_token lex).2 := by
  unfold number_token
  dsimp only
  have h1 := within_advance_while isdigit (by decide) lex.remaining lex
  split
  · rename_i hc
    have h2 := within_advance_char (advance_while isdigit lex.remaining lex) (by rw [hc.1]; decide)
    exact within_trans h1 (within_trans h2 (within_advance_while isdigit (by decide) _ _))
  · exact h1

theorem within_identifier_token (lex : SkyLexer) : Within lex (identifier_token lex).2 :=
  within_advance_while (fun c => isalnum c || c == 95) (by decide) lex.remaining lex

theorem within_one_or_two (lex : SkyLexer) (second : Nat) (two : SkyTokenType)
    (one : Option SkyTokenType) (message : String) :
    Within lex (one_or_two lex second two one message).2 := by
  have h := within_match_char lex second
  unfold one_or_two
  generalize match_char lex second = r at h
  obtain ⟨matched, lex1⟩ := r
  dsimp only
  split
  · exact h
  · cases one with
    | some t => exact h
    | none => exact h

/-- The loop of `string_token` returns on a text without open escape. -/
theorem string_loop_within :
    ∀ (fuel : Nat) (lex : SkyLexer), NoOpenEscape lex.source →
      ∃ lex1, string_loop fuel lex = some lex1 ∧ Within lex lex1 := by
  intro fuel
  induction fuel with
  | zero => intro lex _; exact ⟨lex, rfl, within_refl lex⟩
  | succ fuel ih =>
      intro lex hne
      unfold string_loop
      by_cases hc : peek lex ≠ 34 ∧ ¬ is_at_end lex = true
      · rw [if_pos hc]
        have h0 := peek_of_not_at_end lex hc.2
        have hin := peek_in_range lex h0
        obtain ⟨lexL, hL, hs, hcur⟩ : ∃ lexL : SkyLexer,
            (if peek lex = 10 then { lex with line := lex.line + 1 } else lex) = lexL ∧
              lexL.source = lex.source ∧ lexL.current = lex.current := by
          by_cases h10 : peek lex = 10
          · exact ⟨_, rfl, by rw [if_pos h10], by rw [if_pos h10]⟩
          · exact ⟨_, rfl, by rw [if_neg h10], by rw [if_neg h10]⟩
        dsimp only
        rw [hL]
        have hpk : peek lexL = peek lex := by unfold peek; rw [hs, hcur]
        have hwL : Within lex (advance_char lexL) :=
          ⟨hs, by show lex.current ≤ lexL.current + 1; omega,
            fun _ => by show lexL.current + 1 ≤ lex.source.length; omega⟩
        by_cases h92 : peek lexL = 92
        · rw [if_pos h92]
          have hnext : peek (advance_char lexL) ≠ 0 := by
            have := hne lex.current hin (hpk.symm.trans h92)
            show lexL.source.getD (lexL.current + 1) 0 ≠ 0
            rw [hs, hcur]
            exact this
          have hnot : ¬ is_at_end (advance_char lexL) = true := by
            intro h
            apply hnext
            unfold is_at_end at h
            exact beq_iff_eq.1 h
          rw [if_neg hnot]
          obtain ⟨lex1, h1, w1⟩ := ih (advance_char (advance_char lexL)) (by
            show NoOpenEscape lexL.source
            rw [hs]; exact hne)
          exact ⟨lex1, h1, within_trans hwL
            (within_trans (within_advance_char _ hnext) w1)⟩
        · rw [if_neg h92]
          obtain ⟨lex1, h1, w1⟩ := ih (advance_char lexL) (by
            show NoOpenEscape lexL.source
            rw [hs]; exact hne)
          exact ⟨lex1, h1, within_trans hwL w1⟩
      · rw [if_neg hc]
        exact ⟨lex, rfl, within_refl lex⟩

theorem step_ok_string (lex : SkyLexer) (hne : NoOpenEscape lex.source) :
    StepOk lex (string_token lex) := by
  obtain ⟨lexB, hB, wB⟩ := string_loop_within (lex.remaining + 1) lex hne
  unfold string_token
  rw [hB]
  dsimp only
  by_cases he : is_at_end lexB = true
  · rw [if_pos he]
    exact ⟨_, _, rfl, wB⟩
  · rw [if_neg he]
    exact ⟨_, _, rfl, within_trans wB (within_advance_char lexB (peek_of_not_at_end lexB he))⟩

theorem step_ok_pair (lexA : SkyLexer) (r : SkyToken × SkyLexer) (h : Within lexA r.2) :
    StepOk lexA (some r) := ⟨r.1, r.2, rfl, h⟩

theorem step_ok_make (lex : SkyLexer) (type : SkyTokenType) :
    StepOk lex (some (make_token lex type, lex)) := ⟨_, _, rfl, within_refl lex⟩

theorem step_ok_ite (lexA : SkyLexer) (P : Prop) [Decidable P]
    (a b : Option (SkyToken × SkyLexer)) (ha : StepOk lexA a) (hb : StepOk lexA b) :
    StepOk lexA (if P then a else b) := by
  split
  · exact ha
  · exact hb

theorem step_ok_final (lex0 lexA : SkyLexer) (r : Option (SkyToken × SkyLexer))
    (hw : Within lex0 lexA) (hlt : lex0.current < lexA.current) (hs : StepOk lexA r) :
    ∃ tok lex1, r = some (tok, lex1) ∧ Within lex0 lex1 ∧
      (tok.type ≠ TOKEN_EOF → lex0.current < lex1.current) := by
  obtain ⟨tok, lex1, h, w⟩ := hs
  exact ⟨tok, lex1, h, within_trans hw w, fun _ => Nat.lt_of_lt_of_le hlt w.2.1⟩

/-- One call of `sky_lexer_next` on a text without open escape returns; the
lexer stays inside its source, and has moved forward when the token is not
`TOKEN_EOF`. -/
theorem sky_lexer_next_step (lex0 : SkyLexer) (hne : NoOpenEscape lex0.source) :
    ∀ r, sky_lexer_next lex0 = r →
      ∃ tok lex1, r = some (tok, lex1) ∧ Within lex0 lex1 ∧
        (tok.type ≠ TOKEN_EOF → lex0.current < lex1.current) := by
  intro r h
  have ws := within_skip_whitespace lex0
  unfold sky_lexer_next at h
  generalize skip_whitespace lex0 = lexS at h ws
  conv at h => lhs; zeta
  by_cases hE : is_at_end { lexS with start := lexS.current } = true
  · rw [if_pos hE] at h
    rw [← h]
    exact ⟨_, _, rfl, ws, fun hc => absurd rfl hc⟩
  · rw [if_neg hE] at h
    rw [← h]
    have hp := peek_of_not_at_end _ hE
    have wa : Within lex0 (advance_char { lexS with start := lexS.current }) :=
      within_trans ws ⟨rfl, Nat.le_succ _, fun _ => peek_in_range _ hp⟩
    have hlt : lex0.current < (advance_char { lexS with start := lexS.current }).current :=
      Nat.lt_of_le_of_lt ws.2.1 (Nat.lt_succ_self _)
    have hne1 : NoOpenEscape (advance_char { lexS with start := lexS.current }).source := by
      show NoOpenEscape lexS.source
      rw [ws.1]; exact hne
    refine step_ok_final _ _ _ wa hlt ?_
    refine step_ok_ite _ _ _ _ (step_ok_pair _ _ (within_number_token _)) ?_
    refine step_ok_ite _ _ _ _ (step_ok_pair _ _ (within_identifier_token _)) ?_
    iterate 11 refine step_ok_ite _ _ _ _ (step_ok_make _ _) ?_
    refine step_ok_ite _ _ _ _ (step_ok_pair _ _ (within_one_or_two _ _ _ _ _)) ?_
    iterate 2 refine step_ok_ite _ _ _ _ (step_ok_make _ _) ?_
    iterate 7 refine step_ok_ite _ _ _ _ (step_ok_pair _ _ (within_one_or_two _ _ _ _ _)) ?_
    exact step_ok_ite _ _ _ _ (step_ok_string _ hne1) (step_ok_pair _ _ (within_error_token _ _))

/-- On a text in which no backslash is directly followed by the end, the
calls of `sky_lexer_next` return, and one call more than the bytes left
reaches `TOKEN_EOF`. -/
theorem sky_lexer_tokens_defined :
    ∀ (fuel : Nat) (lex : SkyLexer), NoOpenEscape lex.source →
      lex.current ≤ lex.source.length → lex.remaining < fuel →
      ∃ tokens, sky_lexer_tokens fuel lex = some tokens := by
  intro fuel
  induction fuel with
  | zero => intro lex _ _ h; omega
  | succ fuel ih =>
      intro lex hne hb hf
      obtain ⟨tok, lex1, h, ⟨w1, w2, w3⟩, hp⟩ := sky_lexer_next_step lex hne _ rfl
      unfold sky_lexer_tokens
      rw [h]
      dsimp only
      by_cases he : tok.type = TOKEN_EOF
      · rw [if_pos he]
        exact ⟨_, rfl⟩
      · rw [if_neg he]
        have hlt := hp he
        have hb1 := w3 hb
        obtain ⟨rest, hr⟩ := ih lex1 (by rw [w1]; exact hne) (by rw [w1]; exact hb1) (by
          unfold SkyLexer.remaining at hf ⊢
          rw [w1]
          omega)
        rw [hr]
        exact ⟨_, rfl⟩

theorem returns_lt {α : Type} {source : List Nat} {p p1 : SkyParser} {s1 : Prop} (s : Prop)
    {r : Option (α × SkyParser)} (h : Returns source p1 s1 r)
    (hlt : tokens_left p1 < tokens_left p) : Returns source p s r := by
  obtain ⟨a, p2, h1, g, m, _⟩ := h
  exact ⟨a, p2, h1, g, by omega, fun _ => by omega⟩

theorem no_open_escape_init (source : List Nat) (h : NoOpenEscape source) :
    NoOpenEscape (sky_lexer_init source).source := by
  unfold sky_lexer_init
  dsimp only
  split
  · intro i hi h92
    rw [List.length_drop] at hi
    rw [getD_drop_add] at h92 ⊢
    exact h (3 + i) (by omega) h92
  · exact h

theorem sky_lexer_init_length (source : List Nat) :
    (sky_lexer_init source).source.length ≤ source.length ∧
      (sky_lexer_init source).current = 0 := by
  unfold sky_lexer_init
  dsimp only
  split
  · rw [List.length_drop]
    exact ⟨Nat.sub_le _ _, rfl⟩
  · exact ⟨Nat.le_refl _, rfl⟩

/-- The lexer alone returns on every text in which no backslash is directly
followed by the end of the text. -/
theorem lex_source_defined (source : List Nat) (h : NoOpenEscape source) :
    lex_source source ≠ none := by
  obtain ⟨hl, hc⟩ := sky_lexer_init_length source
  obtain ⟨tokens, ht⟩ := sky_lexer_tokens_defined (source.length + 1) (sky_lexer_init source)
    (no_open_escape_init source h) (by rw [hc]; exact Nat.zero_le _) (by
      unfold SkyLexer.remaining
      omega)
  unfold lex_source
  rw [ht]
  exact fun h => by cases h

/-- Where a call of the lexer is undefined, so is the parse.
In the source `"\` the backslash is directly followed by the end of the
text: the call of `sky_lexer_next` that `sky_parser_init` makes is undefined
(the scan of the string leaves the source, see C37), `lex_source` is
undefined, and so is `parse_source` whatever the number of calls. -/
theorem parse_source_undefined_with_the_lexer :
    ¬ NoOpenEscape (c_str "\"\\") ∧
    lex_source (c_str "\"\\") = none ∧
    (∀ fuel, parse_source fuel (c_str "\"\\") = none) := by
  have h : sky_lexer_next (sky_lexer_init (c_str "\"\\")) = none := by decide!
  refine ⟨by unfold NoOpenEscape; decide!, by decide!, fun fuel => ?_⟩
  unfold parse_source sky_parser_init advance
  dsimp only
  rw [h]

end Sky
